import Mathlib

/-!
# DataRecovery: the signature carver of `recoveryengine.cpp`

A shallow embedding of `RecoveryEngine::matchesSignature`,
`RecoveryEngine::extractFile` and `RecoveryEngine::run`.

* A byte (`unsigned char`) is a `Nat`; a buffer, a signature and the device
  image are `List Nat`.
* `buffer[i]` is `buffer.getD i 0`.  Both buffers the engine uses have 4096
  cells, and a read overwrites only the cells it fills: the cells beyond
  `gcount()` keep what the previous read left there.
* `File_Count` (a global `vector<int>`) and the `int &fileCount` of
  `extractFile` are passed in and returned.
* The output directory is the list of the files left in place.
-/

namespace DataRecovery

/-! ## Constants of `recoveryengine.cpp` -/

def PNG_SIGNATURE : List Nat := [0x89, 0x50, 0x4E, 0x47, 0x0D, 0x0A, 0x1A, 0x0A]
def PNG_IEND : List Nat :=
  [0x00, 0x00, 0x00, 0x00, 0x49, 0x45, 0x4E, 0x44, 0xAE, 0x42, 0x60, 0x82]
def JPEG_SIGNATURE : List Nat := [0xFF, 0xD8, 0xFF]
def JPEG_END : List Nat := [0xFF, 0xD9]
def PDF_SIGNATURE : List Nat := [0x25, 0x50, 0x44, 0x46, 0x2D]
def PDF_END : List Nat := [0x25, 0x25, 0x45, 0x4F, 0x46]
def ZIP_SIGNATURE : List Nat := [0x50, 0x4B, 0x03, 0x04]
def ZIP_END : List Nat := [0x50, 0x4B, 0x05, 0x06]
def MP3_SIG : List Nat := [0xFF, 0xE0]
def MP3_END : List Nat := [0x00]
def DOC_SIGNATURE : List Nat := [0xD0, 0xCF, 0x11, 0xE0, 0xA1, 0xB1, 0x1A, 0xE1]
def DOCX_SIGNATURE : List Nat := [0x50, 0x4B, 0x03, 0x04]
def MP4_SIGNATURE : List Nat := [0x00, 0x00, 0x00, 0x00, 0x66, 0x74, 0x79, 0x70]
def EXE_SIGNATURE : List Nat := [0x4D, 0x5A]
def ELF_SIGNATURE : List Nat := [0x7F, 0x45, 0x4C, 0x46]
def GENERIC_END : List Nat := [0x00]

def SIGNATURES : List (List Nat) :=
  [PNG_SIGNATURE, JPEG_SIGNATURE, PDF_SIGNATURE, ZIP_SIGNATURE, MP3_SIG,
   DOC_SIGNATURE, DOCX_SIGNATURE, MP4_SIGNATURE, EXE_SIGNATURE, ELF_SIGNATURE]

def END_MARKERS : List (List Nat) :=
  [PNG_IEND, JPEG_END, PDF_END, ZIP_END, MP3_END,
   GENERIC_END, GENERIC_END, GENERIC_END, GENERIC_END, GENERIC_END]

/-- The table `Size_limit`: the pair (minimum, maximum) of each format. -/
def Size_limit : List (Nat × Nat) :=
  [(512 * 2, 20 * 1024 * 1024), (512 * 2, 20 * 1024 * 1024),
   (1024, 50 * 1024 * 1024), (1024, 100 * 1024 * 1024),
   (1024, 20 * 1024 * 1024), (1024, 50 * 1024 * 1024),
   (1024, 50 * 1024 * 1024), (1024, 500 * 1024 * 1024),
   (1024, 50 * 1024 * 1024), (1024, 50 * 1024 * 1024)]

def SupportedFileCount : Nat := 5

/-- The local `PDF_XREF` of `extractFile`: the ASCII bytes of `xref`. -/
def PDF_XREF : List Nat := [0x78, 0x72, 0x65, 0x66]

/-- The local `PDF_TRAILER` of `extractFile`: the ASCII bytes of `trailer`. -/
def PDF_TRAILER : List Nat := [0x74, 0x72, 0x61, 0x69, 0x6C, 0x65, 0x72]

/-- The local `chunkSize` of `extractFile` and `CHUNK_SIZE` of `run`. -/
def chunkSize : Nat := 4 * 1024

/-- The signature of a format, `SIGNATURES[formatIndex]`. -/
def signatureOf (formatIndex : Nat) : List Nat := SIGNATURES.getD formatIndex []

/-- The end marker of a format, `END_MARKERS[formatIndex]`. -/
def endMarkerOf (formatIndex : Nat) : List Nat := END_MARKERS.getD formatIndex []

/-- The minimum size of a format, `Size_limit[formatIndex].first`. -/
def minSizeOf (formatIndex : Nat) : Nat := (Size_limit.getD formatIndex (0, 0)).1

/-- The maximum size of a format, `Size_limit[formatIndex].second`. -/
def maxSizeOf (formatIndex : Nat) : Nat := (Size_limit.getD formatIndex (0, 0)).2

/-! ## `matchesSignature` -/

/-- The `for` loop of `matchesSignature`, from index `i` on: `rest` holds
`signature[i..]`; false at the first `buffer[pos + i] != signature[i]`. -/
def signatureLoop (buffer : List Nat) (pos : Nat) : List Nat → Nat → Bool
  | [], _ => true
  | s :: rest, i =>
    if buffer.getD (pos + i) 0 != s then false
    else signatureLoop buffer pos rest (i + 1)

/-- The function `RecoveryEngine::matchesSignature`.  For `formatIndex == 1`
the extra test reads `buffer[3]`, whatever `pos` is. -/
def matchesSignature (buffer : List Nat) (pos : Nat) (signature : List Nat)
    (formatIndex : Nat) : Bool :=
  if pos + signature.length > buffer.length then false
  else if !(signatureLoop buffer pos signature 0) then false
  else if formatIndex == 1 then
    if !((buffer.getD 3 0 &&& 0xF0) == 0xE0) then false else true
  else true

/-! ## `extractFile` -/

/-- The locals of `extractFile` that its `while` loop updates, and the bytes
written to `outFile` so far. -/
structure ScanState where
  readBuffer : List Nat
  written : List Nat
  xrefFound : Bool
  trailerFound : Bool
  foundEnd : Bool
  totalBytesWritten : Nat
deriving DecidableEq

/-- What a pass over one chunk leaves: the two PDF flags and, when the scan
broke out on a hit, the value given to `writeBytes`. -/
structure ChunkScan where
  xrefFound : Bool
  trailerFound : Bool
  hit : Option Nat
deriving DecidableEq

/-- The `else` branch of the loop body (formats with an end marker of their
own): `for (j = 0; j + END_MARKERS[formatIndex].size() <= chunkBytes; j++)`,
run over the list of the values `j` takes. -/
def markerScan (readBuffer : List Nat) (formatIndex : Nat) :
    List Nat → Bool → Bool → ChunkScan
  | [], xrefFound, trailerFound => ⟨xrefFound, trailerFound, none⟩
  | j :: js, xrefFound, trailerFound =>
    let xrefFound :=
      if formatIndex == 2 then
        if matchesSignature readBuffer j PDF_XREF 2 then true else xrefFound
      else xrefFound
    let trailerFound :=
      if formatIndex == 2 then
        if matchesSignature readBuffer j PDF_TRAILER 2 then true else trailerFound
      else trailerFound
    if matchesSignature readBuffer j (endMarkerOf formatIndex) formatIndex then
      ⟨xrefFound, trailerFound, some (j + (endMarkerOf formatIndex).length)⟩
    else markerScan readBuffer formatIndex js xrefFound trailerFound

/-- The inner `for (k = 0; k + SIGNATURES[j].size() <= chunkBytes; k++)` of the
generic branch, over the list of the values `k` takes. -/
def genericInner (readBuffer : List Nat) (j : Nat) : List Nat → Option Nat
  | [] => none
  | k :: ks =>
    if matchesSignature readBuffer k (signatureOf j) j then
      some (k + (signatureOf j).length)
    else genericInner readBuffer j ks

/-- The outer `for (j = 0; j < SupportedFileCount; j++)` of the generic
branch, over the list of the values `j` takes. -/
def genericScan (readBuffer : List Nat) (chunkBytes : Nat) : List Nat → Option Nat
  | [] => none
  | j :: js =>
    match genericInner readBuffer j
        (List.range (chunkBytes + 1 - (signatureOf j).length)) with
    | some w => some w
    | none => genericScan readBuffer chunkBytes js

/-- The body of the `while` loop of `extractFile`, up to and including
`totalBytesWritten += writeBytes`, for the chunk just read. -/
def processChunk (formatIndex : Nat) (st : ScanState) (chunk : List Nat) : ScanState :=
  let readBuffer := chunk ++ st.readBuffer.drop chunk.length
  let chunkBytes := chunk.length
  let scan : ChunkScan :=
    if endMarkerOf formatIndex = GENERIC_END then
      ⟨st.xrefFound, st.trailerFound,
        genericScan readBuffer chunkBytes (List.range SupportedFileCount)⟩
    else
      markerScan readBuffer formatIndex
        (List.range (chunkBytes + 1 - (endMarkerOf formatIndex).length))
        st.xrefFound st.trailerFound
  let writeBytes := scan.hit.getD chunkBytes
  { readBuffer := readBuffer
    written := st.written ++ readBuffer.take writeBytes
    xrefFound := scan.xrefFound
    trailerFound := scan.trailerFound
    foundEnd := scan.hit.isSome
    totalBytesWritten := st.totalBytesWritten + writeBytes }

/-- How the `while` loop of `extractFile` is left: by `goto DELETE`, or by its
condition becoming false. -/
inductive LoopExit where
  | tooLarge (st : ScanState)
  | finished (st : ScanState)
deriving DecidableEq

/-- The `while` loop of `extractFile`; `rest` is what the input stream still
holds.  A read takes the next `chunkSize` bytes, or all that is left; the loop
ends when `foundEnd` is set or a read returns no byte. -/
def extractLoop (formatIndex : Nat) (rest : List Nat) (st : ScanState) : LoopExit :=
  if st.foundEnd then .finished st
  else
    if _h : (rest.take chunkSize).length = 0 then .finished st
    else
      let st := processChunk formatIndex st (rest.take chunkSize)
      if st.totalBytesWritten > maxSizeOf formatIndex then .tooLarge st
      else extractLoop formatIndex (rest.drop chunkSize) st
termination_by rest.length
decreasing_by
  simp only [List.length_take, List.length_drop, chunkSize] at _h ⊢
  omega

/-- The locals of `extractFile` on entry to the loop: a zeroed buffer of
`chunkSize` cells, nothing written, no flag set. -/
def initialScan : ScanState :=
  { readBuffer := List.replicate chunkSize 0
    written := []
    xrefFound := false
    trailerFound := false
    foundEnd := false
    totalBytesWritten := 0 }

/-- The loop of `extractFile` on the device image `device`, after
`file.seekg(fileStart)`. -/
def scanFrom (device : List Nat) (fileStart formatIndex : Nat) : LoopExit :=
  extractLoop formatIndex (device.drop fileStart) initialScan

/-- Whether the two streams of `extractFile` open: `reopenOk` for
`ifstream file(filename)`, `createOk` for `ofstream outFile(outFileName)`. -/
structure IoEnv where
  reopenOk : Bool
  createOk : Bool
deriving DecidableEq

/-- An output file left in place: the format whose directory and extension it
has, the number in `RecoveredFile_<number>`, and its bytes. -/
structure OutFile where
  formatIndex : Nat
  number : Int
  content : List Nat
deriving DecidableEq

/-- What a call of `extractFile` leaves: the global `File_Count`, the caller's
`fileCount` (passed by reference), and the output file unless it was removed
or never created. -/
structure ExtractResult where
  File_Count : List Int
  fileCount : Int
  outFile : Option OutFile
deriving DecidableEq

/-- The statement `++File_Count[formatIndex]`. -/
def bumpCount (File_Count : List Int) (formatIndex : Nat) : List Int :=
  File_Count.set formatIndex (File_Count.getD formatIndex 0 + 1)

/-- The function `RecoveryEngine::extractFile`. -/
def extractFile (io : IoEnv) (device : List Nat) (fileStart : Nat) (fileCount : Int)
    (formatIndex : Nat) (File_Count : List Int) : ExtractResult :=
  if !io.reopenOk then ⟨File_Count, fileCount, none⟩
  else
    let minSize := minSizeOf formatIndex
    let maxSize := maxSizeOf formatIndex
    let File_Count := bumpCount File_Count formatIndex
    let number := File_Count.getD formatIndex 0
    if !io.createOk then ⟨File_Count, fileCount, none⟩
    else
      match scanFrom device fileStart formatIndex with
      | .tooLarge _ => ⟨File_Count, fileCount - 1, none⟩
      | .finished st =>
        let synthesise :=
          !st.foundEnd && formatIndex == 2 && st.xrefFound && st.trailerFound
        let written :=
          if synthesise then st.written ++ endMarkerOf formatIndex else st.written
        let foundEnd := if synthesise then true else st.foundEnd
        if foundEnd &&
            (st.totalBytesWritten < minSize || st.totalBytesWritten > maxSize) then
          ⟨File_Count, fileCount - 1, none⟩
        else if !foundEnd ||
            (formatIndex == 2 && (!st.xrefFound || !st.trailerFound)) then
          ⟨File_Count, fileCount - 1, none⟩
        else ⟨File_Count, fileCount, some ⟨formatIndex, number, written⟩⟩

/-! ## `run` -/

/-- What `Mp3::extractMP3File` leaves: the offset it returns, the counter it
was given by reference, and its output file unless removed. -/
structure Mp3Result where
  offset : Nat
  fileCount : Int
  outFile : Option (List Nat)

/-- The members of `Mp3` and `MP4` that `run` calls.  `run` is embedded for
whatever these compute: `matchesMP3Header buffer pos`,
`extractMP3File device fileStart fileCount`,
`matchesMP4Header buffer signature pos` and
`extractMP4File device startOffset fileCount`. -/
structure Extractors where
  matchesMP3Header : List Nat → Nat → Bool
  extractMP3File : List Nat → Nat → Int → Mp3Result
  matchesMP4Header : List Nat → List Nat → Nat → Bool
  extractMP4File : List Nat → Nat → Int → Option (List Nat)

/-- The variables of `run` that the scan updates, the global `File_Count`, and
the output files left in place so far, oldest first. -/
structure RunState where
  File_Count : List Int
  fileCount : Int
  mp3_offset_done : Nat
  emitted : List OutFile

/-- The local `overlap` of `run`. -/
def overlap : Nat := 0

/-- The body of the innermost `for` of `run` at position `i`: the three-way
`if`.  Returns the state and the value of `i` before the loop's `i++`. -/
def scanStep (ex : Extractors) (io : IoEnv) (device buffer : List Nat)
    (offset formatIndex i : Nat) (st : RunState) : RunState × Nat :=
  let fileStart := offset + i
  if formatIndex == 4 && ex.matchesMP3Header buffer i &&
      decide (offset + i ≥ st.mp3_offset_done) then
    let File_Count := bumpCount st.File_Count formatIndex
    let number := File_Count.getD formatIndex 0
    let r := ex.extractMP3File device fileStart number
    ({ File_Count := File_Count.set formatIndex r.fileCount
       fileCount := st.fileCount
       mp3_offset_done := r.offset
       emitted := st.emitted ++
        (r.outFile.map fun content => OutFile.mk formatIndex number content).toList },
     i + 4)
  else if formatIndex == 7 && ex.matchesMP4Header buffer MP4_SIGNATURE i then
    let fileCount := st.fileCount + 1
    ({ st with
       fileCount := fileCount
       emitted := st.emitted ++
        ((ex.extractMP4File device fileStart fileCount).map fun content =>
          OutFile.mk formatIndex fileCount content).toList },
     i + 8)
  else if formatIndex != 4 && formatIndex != 7 &&
      matchesSignature buffer i (signatureOf formatIndex) formatIndex then
    let r := extractFile io device fileStart (st.fileCount + 1) formatIndex st.File_Count
    ({ st with
       File_Count := r.File_Count
       fileCount := r.fileCount
       emitted := st.emitted ++ r.outFile.toList },
     i + (signatureOf formatIndex).length)
  else (st, i)

/-- The innermost loop of `run`,
`for (i = 0; i + SIGNATURES[formatIndex].size() <= bytesRead + overlap; i++)`,
from the value `i` on. -/
def scanPositions (ex : Extractors) (io : IoEnv) (device buffer : List Nat)
    (offset bytesRead formatIndex : Nat) (i : Nat) (st : RunState) : RunState :=
  if _h : i + (signatureOf formatIndex).length ≤ bytesRead + overlap then
    scanPositions ex io device buffer offset bytesRead formatIndex
      ((scanStep ex io device buffer offset formatIndex i st).2 + 1)
      (scanStep ex io device buffer offset formatIndex i st).1
  else st
termination_by bytesRead + overlap + 1 - i
decreasing_by
  have hi : i ≤ (scanStep ex io device buffer offset formatIndex i st).2 := by
    unfold scanStep
    simp only
    split_ifs <;> simp
  omega

/-- The loop `for (formatIndex = 0; formatIndex < SupportedFileCount; ...)` of
`run` for one chunk, over the list of the values `formatIndex` takes. -/
def scanFormats (ex : Extractors) (io : IoEnv) (device buffer : List Nat)
    (File_Supported : List Bool) (offset bytesRead : Nat) :
    List Nat → RunState → RunState
  | [], st => st
  | formatIndex :: more, st =>
    if !(File_Supported.getD formatIndex false) then
      scanFormats ex io device buffer File_Supported offset bytesRead more st
    else
      scanFormats ex io device buffer File_Supported offset bytesRead more
        (scanPositions ex io device buffer offset bytesRead formatIndex 0 st)

/-- The `while` loop of `run`.  `rest` is what the device stream still holds,
`chunkNo` counts the passes, `cancelCheck chunkNo` is the answer of the
callback on that pass.  The loop's last statement (the carry of `overlap`
bytes) does nothing, `overlap` being 0.  Returns false when cancelled. -/
def runLoop (ex : Extractors) (io : IoEnv) (device : List Nat)
    (File_Supported : List Bool) (cancelCheck : Nat → Bool)
    (rest buffer : List Nat) (offset chunkNo : Nat) (st : RunState) : Bool × RunState :=
  if _h : (rest.take chunkSize).length = 0 then (true, st)
  else if cancelCheck chunkNo then (false, st)
  else
    let buffer := rest.take chunkSize ++ buffer.drop (rest.take chunkSize).length
    let bytesRead := (rest.take chunkSize).length
    let st := scanFormats ex io device buffer File_Supported offset bytesRead
      (List.range SupportedFileCount) st
    runLoop ex io device File_Supported cancelCheck (rest.drop chunkSize) buffer
      (offset + bytesRead) (chunkNo + 1) st
termination_by rest.length
decreasing_by
  simp only [List.length_take, List.length_drop, chunkSize] at _h ⊢
  omega

/-- The function `RecoveryEngine::run` on a device that opens (`some image`)
or does not (`none`), with `File_Count` as the call finds it. -/
def run (ex : Extractors) (io : IoEnv) (device : Option (List Nat))
    (File_Supported : List Bool) (cancelCheck : Nat → Bool)
    (File_Count : List Int) : Bool × RunState :=
  match device with
  | none => (false, ⟨File_Count, 0, 0, []⟩)
  | some image =>
    runLoop ex io image File_Supported cancelCheck image
      (List.replicate (chunkSize + overlap) 0) 0 0 ⟨File_Count, 0, 0, []⟩

/-! ## `Mp3.h`: the frame header parser and the ten-frame confirmation -/

/-- The member `MAX_GAP_Bytes` of `Mp3`, `0.75 * 1024` converted to `size_t`. -/
def MAX_GAP_Bytes : Nat := 768

/-- The table `MPEG_VERSIONS`, indexed by the raw `version_id`. -/
def MPEG_VERSIONS : List Int := [2, -1, 2, 1]

/-- The table `LAYERS`, indexed by the raw `layer_id`. -/
def LAYERS : List Int := [0, 3, 2, 1]

/-- The table `BITRATE_TABLE`, indexed `[version][layer][bitrate_index]`. -/
def BITRATE_TABLE : List (List (List Int)) :=
  [[[0, 32, 64, 96, 128, 160, 192, 224, 256, 288, 320, 352, 384, 416, 448, 0],
    [0, 32, 48, 56, 64, 80, 96, 112, 128, 160, 192, 224, 256, 320, 384, 0],
    [0, 32, 40, 48, 56, 64, 80, 96, 112, 128, 160, 192, 224, 256, 320, 0]],
   [[0, 32, 48, 56, 64, 80, 96, 112, 128, 144, 160, 176, 192, 224, 256, 0],
    [0, 8, 16, 24, 32, 40, 48, 56, 64, 80, 96, 112, 128, 144, 160, 0],
    [0, 8, 16, 24, 32, 40, 48, 56, 64, 80, 96, 112, 128, 144, 160, 0]]]

/-- The table `SAMPLING_RATE_TABLE`, indexed `[version][sampling_rate_index]`. -/
def SAMPLING_RATE_TABLE : List (List Int) :=
  [[11025, 12000, 8000, 0], [0, 0, 0, 0], [22050, 24000, 16000, 0],
   [44100, 48000, 32000, 0]]

/-- The conversion of an integer value to `unsigned int` (32 bits). -/
def toUnsignedInt (x : Int) : Int := x % 4294967296

/-- The conversion of an integer value to `int` (32 bits, two's complement). -/
def toSignedInt (x : Int) : Int :=
  if x % 4294967296 < 2147483648 then x % 4294967296 else x % 4294967296 - 4294967296

/-- The part of `parse_mp3_frame_header` that follows the extraction of the
five bit fields.  Arithmetic on `int` is that of the integers, with the
division truncating; arithmetic on `unsigned int` is modulo `2 ^ 32`. -/
def frameInfoOfFields (version_id layer_id bitrate_index sampling_rate_index
    padding_bit : Nat) : List Int :=
  let frame_info : List Int := List.replicate 5 0
  if version_id == 1 || layer_id == 0 || bitrate_index == 0 ||
      bitrate_index == 15 || sampling_rate_index == 3 then frame_info
  else
    let mpeg_version := MPEG_VERSIONS.getD version_id 0
    let layer := LAYERS.getD layer_id 0
    if mpeg_version == -1 || layer == 0 then frame_info
    else
      let bitrate :=
        ((BITRATE_TABLE.getD (if mpeg_version == 1 then 0 else 1) []).getD
          (layer - 1).toNat []).getD bitrate_index 0 * 1000
      let sampling_rate :=
        (SAMPLING_RATE_TABLE.getD version_id []).getD sampling_rate_index 0
      if bitrate == 0 || sampling_rate == 0 then frame_info
      else
        let frame_size : Int :=
          if layer == 1 then
            toSignedInt (toUnsignedInt
              (toUnsignedInt (Int.tdiv (12 * bitrate) sampling_rate + padding_bit) * 4))
          else
            toSignedInt (toUnsignedInt
              (toUnsignedInt (144 * toUnsignedInt bitrate) / toUnsignedInt sampling_rate +
                padding_bit))
        [frame_size, mpeg_version, layer, bitrate, sampling_rate]

/-- The function `Mp3::parse_mp3_frame_header`; `header` is the buffer from
the byte the pointer addresses on, `header[i]` is `header.getD i 0`. -/
def parse_mp3_frame_header (header : List Nat) : List Int :=
  let frame_info : List Int := List.replicate 5 0
  if header.getD 0 0 != 0xFF || (header.getD 1 0 &&& 0xE0) != 0xE0 then frame_info
  else
    let version_id := (header.getD 1 0 >>> 3) &&& 0x03
    let layer_id := (header.getD 1 0 >>> 1) &&& 0x03
    let bitrate_index := (header.getD 2 0 >>> 4) &&& 0x0F
    let sampling_rate_index := (header.getD 2 0 >>> 2) &&& 0x03
    let padding_bit := (header.getD 2 0 >>> 1) &&& 0x01
    frameInfoOfFields version_id layer_id bitrate_index sampling_rate_index padding_bit

/-- What the `while` loop of `matchesMP3Header` leaves: the locals
`frame_info`, `found` and `gap_count`. -/
structure ProbeResult where
  frame_info : List Int
  found : Bool
  gap_count : Nat
deriving DecidableEq

/-- The `while` loop of `matchesMP3Header` for one `i`.  The position it
parses is `pos + frame_info[0] * i + gap_count` with the `frame_info` of the
moment: the loop assigns to the variable it reads the frame size from. -/
def probeLoop (buffer : List Nat) (pos i : Nat) (frame_info : List Int)
    (gap_count : Nat) : ProbeResult :=
  if _h : gap_count < MAX_GAP_Bytes ∧
      pos + (frame_info.getD 0 0 * i).toNat + gap_count < buffer.length then
    let parsed := parse_mp3_frame_header
      (buffer.drop (pos + (frame_info.getD 0 0 * i).toNat + gap_count))
    if parsed.getD 0 0 > 0 then ⟨parsed, true, 0⟩
    else probeLoop buffer pos i parsed (gap_count + 1)
  else ⟨frame_info, false, gap_count⟩
termination_by MAX_GAP_Bytes - gap_count
decreasing_by omega

/-- The loop `for (int i = 1; i <= 10; ++i)` of `matchesMP3Header`, over the
list of the values `i` takes. -/
def probeFrames (buffer : List Nat) (pos : Nat) : List Nat → List Int → Bool
  | [], _ => true
  | i :: more, frame_info =>
    let r := probeLoop buffer pos i frame_info 0
    if !r.found && decide (r.gap_count ≥ MAX_GAP_Bytes) then false
    else probeFrames buffer pos more r.frame_info

/-- The function `Mp3::matchesMP3Header`. -/
def matchesMP3Header (buffer : List Nat) (pos : Nat) : Bool :=
  if pos + 1 ≥ buffer.length then false
  else
    let frame_info := parse_mp3_frame_header (buffer.drop pos)
    if frame_info.getD 0 0 ≤ 0 then false
    else probeFrames buffer pos (List.range' 1 10) frame_info

/-! ## `mp4.h`: the box header test -/

/-- The loop `for (i = 4; i < signature.size(); ++i)` of `matchesMP4Header`,
over the list of the values `i` takes. -/
def boxTypeLoop (buffer signature : List Nat) (offset : Nat) : List Nat → Bool
  | [] => true
  | i :: more =>
    if buffer.getD (offset + i) 0 != signature.getD i 0 then false
    else boxTypeLoop buffer signature offset more

/-- The function `MP4::matchesMP4Header`. -/
def matchesMP4Header (buffer signature : List Nat) (offset : Nat) : Bool :=
  if offset + signature.length > buffer.length then false
  else boxTypeLoop buffer signature offset (List.range' 4 (signature.length - 4))

/-! ## The progress reports of `run` -/

/-- Rounding to the nearest integer, ties to the even one. -/
def roundHalfEven (m : ℚ) : ℤ :=
  if m - ⌊m⌋ < 1 / 2 then ⌊m⌋
  else if 1 / 2 < m - ⌊m⌋ then ⌊m⌋ + 1
  else if ⌊m⌋ % 2 = 0 then ⌊m⌋ else ⌊m⌋ + 1

/-- The value of type `double` nearest to `x` (53 significant bits, ties to
even), for `x` in the range of the normal numbers; `run` computes on values
between `2 ^ (-64)` and `2 ^ 71`. -/
def toDouble (x : ℚ) : ℚ :=
  if x = 0 then 0
  else roundHalfEven (x / (2 : ℚ) ^ (Int.log 2 |x| - 52)) * (2 : ℚ) ^ (Int.log 2 |x| - 52)

/-- The value `run` reports:
`static_cast<int>((static_cast<double>(offset) / fileSize) * 100)`. -/
def progressOf (offset fileSize : Nat) : Int :=
  ⌊toDouble (toDouble (toDouble offset / toDouble fileSize) * 100)⌋

/-- The `while` loop of `run`, as far as `progressCallback` goes: the values
reported, oldest first.  A report follows the scan of each chunk that is read
and not cancelled, when `fileSize > 0`. -/
def progressLoop (cancelCheck : Nat → Bool) (fileSize : Nat) (rest : List Nat)
    (offset chunkNo : Nat) (reports : List Int) : List Int :=
  if _h : (rest.take chunkSize).length = 0 then reports
  else if cancelCheck chunkNo then reports
  else
    let bytesRead := (rest.take chunkSize).length
    let offset := offset + bytesRead
    let reports :=
      if fileSize > 0 then reports ++ [progressOf offset fileSize] else reports
    progressLoop cancelCheck fileSize (rest.drop chunkSize) offset (chunkNo + 1) reports
termination_by rest.length
decreasing_by
  simp only [List.length_take, List.length_drop, chunkSize] at _h ⊢
  omega

/-- The calls of `progressCallback` that `run` makes on a device that opens
(`some image`, where `fileSize` is the length of the image) or does not. -/
def runProgress (device : Option (List Nat)) (cancelCheck : Nat → Bool) : List Int :=
  match device with
  | none => []
  | some image => progressLoop cancelCheck image.length image 0 0 []

/-! ## `Mp3.h`: the frame walker `extractMP3File` -/

/-- The member `matchFrameSize` of `Mp3`, as initialised; nothing assigns to it. -/
def matchFrameSize : Bool := false

/-- The member `matchVersion` of `Mp3`, as initialised; nothing assigns to it. -/
def matchVersion : Bool := true

/-- The member `matchLayer` of `Mp3`, as initialised; nothing assigns to it. -/
def matchLayer : Bool := false

/-- The member `matchBitrate` of `Mp3`, as initialised; nothing assigns to it. -/
def matchBitrate : Bool := false

/-- The member `matchSamplingRate` of `Mp3`, as initialised; nothing assigns to it. -/
def matchSamplingRate : Bool := false

/-- The function `Mp3::matchesFrameInfo`. -/
def matchesFrameInfo (frame frame_info_original : List Int) : Bool :=
  if frame_info_original.isEmpty || frame.isEmpty then false
  else if decide (frame.getD 0 0 ≤ 0) || decide (frame_info_original.getD 0 0 ≤ 0) ||
      frame.length != 5 || frame_info_original.length != 5 then false
  else if matchFrameSize && frame.getD 0 0 != frame_info_original.getD 0 0 then false
  else if matchVersion && frame.getD 1 0 != frame_info_original.getD 1 0 then false
  else if matchLayer && frame.getD 2 0 != frame_info_original.getD 2 0 then false
  else if matchBitrate && frame.getD 3 0 != frame_info_original.getD 3 0 then false
  else if matchSamplingRate && frame.getD 4 0 != frame_info_original.getD 4 0 then false
  else true

/-- The local `BUFFER_SIZE` of `extractMP3File`. -/
def BUFFER_SIZE : Nat := 4096

/-- The local `overlap` of `extractMP3File`. -/
def Mp3.overlap : Nat := 3

/-- The locals of `extractMP3File` that its loops update, and the bytes
written to the output file so far. -/
structure WalkState where
  buffer : List Nat
  current_offset : Nat
  totalExtracted : Nat
  gapCount : Nat
  frame_info_original : List Int
  firstFrameFound : Bool
  totalBytesWritten : Nat
  outFile : List Nat
deriving DecidableEq

/-- The first `if` of the body of the loop `while (pos + 4 <= totalBytes)` of
`extractMP3File`: the first header that is accepted and that
`matchesMP3Header` confirms becomes `frame_info_original`. -/
def confirmFrame (pos : Nat) (st : WalkState) : WalkState :=
  let frame_info := parse_mp3_frame_header (st.buffer.drop pos)
  if !st.firstFrameFound && decide (frame_info.getD 0 0 > 0) &&
      matchesMP3Header st.buffer pos then
    { st with frame_info_original := frame_info, firstFrameFound := true }
  else st

/-- The body of the loop `while (pos + 4 <= totalBytes)` of `extractMP3File`
at position `pos`.  Returns the state and the next value of `pos`, or `none`
when the body leaves by `goto extraction_finished`. -/
def walkStep (totalBytes pos : Nat) (st : WalkState) : WalkState × Option Nat :=
  let frame_info := parse_mp3_frame_header (st.buffer.drop pos)
  let st : WalkState := confirmFrame pos st
  if matchesFrameInfo frame_info st.frame_info_original &&
      decide (frame_info.getD 0 0 > 0) &&
      decide (pos + (frame_info.getD 0 0).toNat ≤ totalBytes) then
    let st : WalkState :=
      { st with
        outFile := st.outFile ++ (st.buffer.drop pos).take (frame_info.getD 0 0).toNat
        current_offset := st.current_offset + (frame_info.getD 0 0).toNat
        totalExtracted := st.totalExtracted + (frame_info.getD 0 0).toNat
        gapCount := 0
        totalBytesWritten := st.totalBytesWritten + (frame_info.getD 0 0).toNat }
    if st.totalExtracted > 50 * 1024 * 1024 then (st, none)
    else (st, some (pos + (frame_info.getD 0 0).toNat))
  else
    let st : WalkState := { st with gapCount := st.gapCount + 1 }
    if st.gapCount > MAX_GAP_Bytes then (st, none)
    else
      let st : WalkState := { st with current_offset := st.current_offset + 1 }
      if st.totalExtracted > 50 * 1024 * 1024 then (st, none)
      else (st, some (pos + 1))

/-- The loop `while (pos + 4 <= totalBytes)` of `extractMP3File`, from the
value `pos` on.  The flag is true when the loop was left by
`goto extraction_finished`. -/
def walkFrames (totalBytes : Nat) (pos : Nat) (st : WalkState) : WalkState × Bool :=
  if _h : pos + 4 ≤ totalBytes then
    match _hs : (walkStep totalBytes pos st).2 with
    | none => ((walkStep totalBytes pos st).1, true)
    | some next => walkFrames totalBytes next (walkStep totalBytes pos st).1
  else (st, false)
termination_by totalBytes - pos
decreasing_by
  have hlt : pos < next := by
    unfold walkStep at _hs
    simp only at _hs
    split_ifs at _hs with h1 h2 h3 h4 <;>
      simp only [Option.some.injEq, reduceCtorEq] at _hs <;>
      first
      | omega
      | (simp only [Bool.and_eq_true, decide_eq_true_eq] at h1
         omega)
  have hle : next ≤ totalBytes := by
    unfold walkStep at _hs
    simp only at _hs
    split_ifs at _hs with h1 h2 h3 h4 <;>
      simp only [Option.some.injEq, reduceCtorEq] at _hs <;>
      first
      | omega
      | (simp only [Bool.and_eq_true, decide_eq_true_eq] at h1
         omega)
  omega

/-- The loop `for (i = 0; i < overlap; ++i) buffer[i] = buffer[BUFFER_SIZE + i - overlap]`
of `extractMP3File`, over the list of the values `i` takes. -/
def carryLoop (buffer : List Nat) : List Nat → List Nat
  | [] => buffer
  | i :: more =>
    carryLoop (buffer.set i (buffer.getD (BUFFER_SIZE + i - Mp3.overlap) 0)) more

/-- The loop `while (true)` of `extractMP3File`; `rest` is what the input
stream still holds.  It ends when a read gives no byte or when the inner loop
leaves by `goto extraction_finished`. -/
def walkChunks (rest : List Nat) (st : WalkState) : WalkState :=
  if _h : (rest.take BUFFER_SIZE).length = 0 then
    { st with buffer := carryLoop st.buffer (List.range Mp3.overlap) }
  else
    let carried := carryLoop st.buffer (List.range Mp3.overlap)
    let bytesRead := (rest.take BUFFER_SIZE).length
    let buffer := carried.take Mp3.overlap ++ rest.take BUFFER_SIZE ++
      carried.drop (Mp3.overlap + bytesRead)
    let totalBytes := bytesRead + Mp3.overlap
    let r := walkFrames totalBytes 0 { st with buffer := buffer }
    if r.2 then r.1 else walkChunks (rest.drop BUFFER_SIZE) r.1
termination_by rest.length
decreasing_by
  simp only [List.length_take, List.length_drop, BUFFER_SIZE] at _h ⊢
  omega

/-- The locals of `extractMP3File` as the loop `while (true)` finds them. -/
def initialWalk (fileStart : Nat) : WalkState :=
  { buffer := List.replicate (BUFFER_SIZE + Mp3.overlap + 4) 0
    current_offset := fileStart
    totalExtracted := 0
    gapCount := 0
    frame_info_original := []
    firstFrameFound := false
    totalBytesWritten := 0
    outFile := [] }

/-- The function `Mp3::extractMP3File`: the value returned, the caller's
`fileCount` (passed by reference), and the output file unless it was removed
or never created.  `io` says whether its two streams open. -/
def extractMP3File (io : IoEnv) (device : List Nat) (fileStart : Nat)
    (fileCount : Int) : Mp3Result :=
  if !io.reopenOk then ⟨fileStart, fileCount, none⟩
  else if !io.createOk then ⟨fileStart, fileCount, none⟩
  else
    let st := walkChunks (device.drop fileStart) (initialWalk fileStart)
    let minSize := 20 * 1024
    let maxSize := 20 * 1024 * 1024
    if st.totalBytesWritten < minSize || st.totalBytesWritten > maxSize then
      ⟨0, fileCount - 1, none⟩
    else ⟨st.current_offset, fileCount, some st.outFile⟩

/-! ## `mp4.h`: the box reassembler `extractMP4File` -/

/-- The member `FYTP_SIGNATURE` of `MP4`. -/
def FYTP_SIGNATURE : List Nat := [0x00, 0x00, 0x00, 0x00, 0x66, 0x79, 0x70, 0x74]

/-- The member `MOOV_SIGNATURE` of `MP4`. -/
def MOOV_SIGNATURE : List Nat := [0x00, 0x00, 0x00, 0x00, 0x6D, 0x6F, 0x6F, 0x76]

/-- The member `MDAT_SIGNATURE` of `MP4`. -/
def MDAT_SIGNATURE : List Nat := [0x00, 0x00, 0x00, 0x00, 0x6D, 0x64, 0x61, 0x74]

/-- The local `CHUNK_SIZE` of `extractMP4File`. -/
def CHUNK_SIZE : Nat := 1024 * 1024

/-- The local `OVERLAP_SIZE` of `extractMP4File`. -/
def OVERLAP_SIZE : Nat := 7

/-- What `extractMP4File` and `appendFile` meet outside the input bytes:
whether the input, the directory and the three output streams open, and
whether the streams of `appendFile` open and take the bytes. -/
structure Mp4Env where
  filesOk : Bool
  appendOk : Bool
deriving DecidableEq

/-- The function `MP4::appendFile` on the bytes of the two files: the
destination afterwards and the value returned.  `destFile << srcFile.rdbuf()`
sets the fail bit of the destination when it inserts no character. -/
def appendFile (env : Mp4Env) (dest src : List Nat) : List Nat × Bool :=
  if !env.appendOk then (dest, false)
  else if src.isEmpty then (dest, false)
  else (dest ++ src, true)

/-- The size that each of the three branches of `extractMP4File` computes at
position `i`: `buffer[i] << 24 | buffer[i + 1] << 16 | buffer[i + 2] << 8 | buffer[i + 3]`. -/
def boxSizeAt (buffer : List Nat) (i : Nat) : Nat :=
  (buffer.getD i 0 <<< 24) ||| (buffer.getD (i + 1) 0 <<< 16) |||
    (buffer.getD (i + 2) 0 <<< 8) ||| buffer.getD (i + 3) 0

/-- The loop `while (bytesRemainingInBox > 0)` of `writeBoxData` on the input
stream from its current position: the bytes written, the number of bytes
read, and false when a read gave no byte. -/
def readRemaining (stream : List Nat) (bytesRemainingInBox : Nat) :
    List Nat × Nat × Bool :=
  if _h : bytesRemainingInBox > 0 then
    let chunkToRead := min bytesRemainingInBox CHUNK_SIZE
    if _hg : (stream.take chunkToRead).length = 0 then ([], 0, false)
    else
      let r := readRemaining (stream.drop chunkToRead)
        (bytesRemainingInBox - (stream.take chunkToRead).length)
      (stream.take chunkToRead ++ r.1, (stream.take chunkToRead).length + r.2.1, r.2.2)
  else ([], 0, true)
termination_by bytesRemainingInBox
decreasing_by
  simp only [List.length_take, CHUNK_SIZE] at _hg ⊢
  omega

/-- What a call of `writeBoxData` leaves: the bytes written to `outStream`,
the number of bytes read from the input stream, the argument
`currentBufferIdx` (passed by reference), and the value returned. -/
structure BoxWrite where
  written : List Nat
  consumed : Nat
  currentBufferIdx : Nat
  ok : Bool
deriving DecidableEq

/-- The lambda `writeBoxData` of `extractMP4File`; `stream` is the input
stream from its current position. -/
def writeBoxData (buffer stream : List Nat)
    (boxSize currentBufferIdx currentBufferDataSize : Nat) : BoxWrite :=
  let bytesAvailableInCurrentBuffer := currentBufferDataSize - currentBufferIdx
  let bytesToReadFromBuffer := min boxSize bytesAvailableInCurrentBuffer
  let fromBuffer := (buffer.drop currentBufferIdx).take bytesToReadFromBuffer
  if boxSize ≤ bytesAvailableInCurrentBuffer then
    ⟨fromBuffer, 0, currentBufferIdx + (boxSize - 1), true⟩
  else
    let r := readRemaining stream (boxSize - bytesToReadFromBuffer)
    ⟨fromBuffer ++ r.1, r.2.1, currentBufferIdx, r.2.2⟩

/-- The locals of `extractMP4File` that its loops update, the bytes written
to the three output streams so far, and `consumed`, the number of bytes that
`writeBoxData` has read from the input stream since the buffer was filled. -/
structure BoxScan where
  buffer : List Nat
  consumed : Nat
  foundFytp : Bool
  foundMoov : Bool
  foundMdat : Bool
  outFile : List Nat
  outFileMOOV : List Nat
  outFileMDAT : List Nat
deriving DecidableEq

/-- The body of the inner `for` of `extractMP4File` at position `i`;
`stream` is the input stream as the read that filled the buffer left it.
Returns the state and the value of `i` before the loop's `++i`, or `none`
when the body leaves the loop by `break`. -/
def boxStep (stream : List Nat) (currentBufferDataSize i : Nat) (st : BoxScan) :
    BoxScan × Option Nat :=
  if i + 8 > currentBufferDataSize then (st, none)
  else if !st.foundFytp && matchesMP4Header st.buffer FYTP_SIGNATURE i then
    let fytpSize := boxSizeAt st.buffer i
    if fytpSize < 8 || fytpSize > 200 * 1024 * 1024 then (st, some i)
    else
      let w := writeBoxData st.buffer (stream.drop st.consumed) fytpSize i
        currentBufferDataSize
      let st : BoxScan :=
        { st with outFile := st.outFile ++ w.written, consumed := st.consumed + w.consumed }
      if w.ok then ({ st with foundFytp := true }, none)
      else (st, some w.currentBufferIdx)
  else if !st.foundMoov && matchesMP4Header st.buffer MOOV_SIGNATURE i then
    let moovSize := boxSizeAt st.buffer i
    if moovSize < 8 || moovSize > 200 * 1024 * 1024 then (st, some i)
    else
      let w := writeBoxData st.buffer (stream.drop st.consumed) moovSize i
        currentBufferDataSize
      let st : BoxScan :=
        { st with
          outFileMOOV := st.outFileMOOV ++ w.written, consumed := st.consumed + w.consumed }
      if w.ok then ({ st with foundMoov := true }, none)
      else (st, some w.currentBufferIdx)
  else if !st.foundMdat && matchesMP4Header st.buffer MDAT_SIGNATURE i then
    let mdatSize := boxSizeAt st.buffer i
    if mdatSize < 8 then (st, some i)
    else
      let w := writeBoxData st.buffer (stream.drop st.consumed) mdatSize i
        currentBufferDataSize
      let st : BoxScan :=
        { st with
          outFileMDAT := st.outFileMDAT ++ w.written, consumed := st.consumed + w.consumed }
      if w.ok then ({ st with foundMdat := true }, none)
      else (st, some w.currentBufferIdx)
  else (st, some i)

/-- The inner loop `for (i = 0; i < currentBufferDataSize; ++i)` of
`extractMP4File`, from the value `i` on. -/
def boxLoop (stream : List Nat) (currentBufferDataSize : Nat) (i : Nat)
    (st : BoxScan) : BoxScan :=
  if _h : i < currentBufferDataSize then
    match _hs : (boxStep stream currentBufferDataSize i st).2 with
    | none => (boxStep stream currentBufferDataSize i st).1
    | some j => boxLoop stream currentBufferDataSize (j + 1)
        (boxStep stream currentBufferDataSize i st).1
  else st
termination_by currentBufferDataSize - i
decreasing_by
  have hle : i ≤ j := by
    unfold boxStep writeBoxData at _hs
    simp only at _hs
    split_ifs at _hs <;> simp only [Option.some.injEq, reduceCtorEq] at _hs <;> omega
  omega

/-- The loop `for (i = 0; i < OVERLAP_SIZE; ++i)` of `extractMP4File` with its
guarded assignment `buffer[i] = buffer[buffer.size() - OVERLAP_SIZE + i]`,
over the list of the values `i` takes. -/
def boxCarryLoop (buffer : List Nat) : List Nat → List Nat
  | [] => buffer
  | i :: more =>
    if buffer.length - OVERLAP_SIZE + i < buffer.length then
      boxCarryLoop (buffer.set i (buffer.getD (buffer.length - OVERLAP_SIZE + i) 0)) more
    else boxCarryLoop buffer more

/-- The loop `while (true)` of `extractMP4File`; `rest` is what the input
stream still holds. -/
def boxChunks (rest : List Nat) (st : BoxScan) : BoxScan :=
  if _h : (rest.take CHUNK_SIZE).length = 0 then
    { st with buffer := boxCarryLoop st.buffer (List.range OVERLAP_SIZE) }
  else
    let carried := boxCarryLoop st.buffer (List.range OVERLAP_SIZE)
    let bytesRead := (rest.take CHUNK_SIZE).length
    let buffer := carried.take OVERLAP_SIZE ++ rest.take CHUNK_SIZE ++
      carried.drop (OVERLAP_SIZE + bytesRead)
    let currentBufferDataSize := bytesRead + OVERLAP_SIZE
    let st := boxLoop (rest.drop CHUNK_SIZE) currentBufferDataSize 0
      { st with buffer := buffer, consumed := 0 }
    if st.foundFytp && st.foundMoov && st.foundMdat then st
    else boxChunks ((rest.drop CHUNK_SIZE).drop st.consumed) st
termination_by rest.length
decreasing_by
  simp only [List.length_take, List.length_drop, CHUNK_SIZE] at _h ⊢
  omega

/-- The locals of `extractMP4File` as the loop `while (true)` finds them. -/
def initialBoxScan : BoxScan :=
  { buffer := List.replicate (CHUNK_SIZE + OVERLAP_SIZE) 0
    consumed := 0
    foundFytp := false
    foundMoov := false
    foundMdat := false
    outFile := []
    outFileMOOV := []
    outFileMDAT := [] }

/-- What `extractMP4File` makes of the three streams once its loop has ended:
the bytes of the output file, or `none` when the file is removed. -/
def assembleBoxes (env : Mp4Env) (st : BoxScan) : Option (List Nat) :=
  if st.foundFytp then
    let moov :=
      if st.foundMoov then appendFile env st.outFile st.outFileMOOV else (st.outFile, true)
    let mdat :=
      if st.foundMdat then appendFile env moov.1 st.outFileMDAT else (moov.1, true)
    if moov.2 && mdat.2 then some mdat.1 else none
  else none

/-- The function `MP4::extractMP4File`: the output file, unless it was
removed or never created. -/
def extractMP4File (env : Mp4Env) (device : List Nat) (startOffset : Nat)
    (_fileCount : Int) : Option (List Nat) :=
  if !env.filesOk then none
  else assembleBoxes env (boxChunks (device.drop startOffset) initialBoxScan)

/-- The members `mp3` and `mp4` of `RecoveryEngine`, as `run` calls them. -/
def engineExtractors (io : IoEnv) (env : Mp4Env) : Extractors :=
  { matchesMP3Header := matchesMP3Header
    extractMP3File := extractMP3File io
    matchesMP4Header := matchesMP4Header
    extractMP4File := extractMP4File env }

/-! ## Definitions used to state and to witness the claims -/

/-- The flag a token has after a pass over the positions `js` in which the end
marker matched nowhere. -/
def tokenFlag (readBuffer : List Nat) (formatIndex : Nat) (token : List Nat)
    (js : List Nat) (flag : Bool) : Bool :=
  flag || (formatIndex == 2 && js.any fun j => matchesSignature readBuffer j token 2)

/-- The state a loop exit carries. -/
def LoopExit.state : LoopExit → ScanState
  | .tooLarge st => st
  | .finished st => st

/-- The bytes the read number `k` (counted from 0) returns on a stream that
holds `rest`. -/
def chunkAt (rest : List Nat) (k : Nat) : List Nat :=
  (rest.drop (chunkSize * k)).take chunkSize

/-- The content of `readBuffer` after the read number `k` (counted from 0), on a
stream that holds `rest`, the buffer holding `init` before the first read. -/
def readBufferAt (init rest : List Nat) : Nat → List Nat
  | 0 => rest.take chunkSize ++ init.drop (rest.take chunkSize).length
  | k + 1 =>
    readBufferAt (rest.take chunkSize ++ init.drop (rest.take chunkSize).length)
      (rest.drop chunkSize) k

/-- Position `j` of chunk `k` is one the scan for `formatIndex` tests
(`j + END_MARKERS[formatIndex].size() <= chunkBytes`), and
`matchesSignature(readBuffer, j, token, tokenFormat)` holds there. -/
def scannedMatch (formatIndex : Nat) (init rest token : List Nat)
    (tokenFormat k j : Nat) : Bool :=
  decide (j + (endMarkerOf formatIndex).length ≤ (chunkAt rest k).length) &&
    matchesSignature (readBufferAt init rest k) j token tokenFormat

/-- A PDF token was matched at a tested position whose end-marker window lies
within the first `limit` bytes after `base`. -/
def tokenSeen (formatIndex : Nat) (init rest token : List Nat) (base limit : Nat) : Prop :=
  formatIndex = 2 ∧ ∃ k j, scannedMatch formatIndex init rest token 2 k j = true ∧
    base + (chunkSize * k + j + (endMarkerOf formatIndex).length) ≤ limit

/-- What the loop of `extractFile`, started in state `st` on a stream holding
`rest`, has done when it is left through `exit`. -/
structure LoopFacts (formatIndex : Nat) (rest : List Nat) (st : ScanState)
    (exit : LoopExit) : Prop where
  total_le : st.totalBytesWritten ≤ exit.state.totalBytesWritten
  bytes_le : exit.state.totalBytesWritten ≤ st.totalBytesWritten + rest.length
  written : exit.state.written =
    st.written ++ rest.take (exit.state.totalBytesWritten - st.totalBytesWritten)
  found : exit.state.foundEnd = true →
    ∃ k j, scannedMatch formatIndex st.readBuffer rest (endMarkerOf formatIndex)
        formatIndex k j = true ∧
      exit.state.totalBytesWritten =
        st.totalBytesWritten + (chunkSize * k + j + (endMarkerOf formatIndex).length)
  visited : ∀ k j, scannedMatch formatIndex st.readBuffer rest (endMarkerOf formatIndex)
        formatIndex k j = true →
      st.totalBytesWritten + (chunkSize * k + j + (endMarkerOf formatIndex).length) ≤
        exit.state.totalBytesWritten →
      exit.state.foundEnd = true ∧
        exit.state.totalBytesWritten =
          st.totalBytesWritten + (chunkSize * k + j + (endMarkerOf formatIndex).length)
  xref : exit.state.xrefFound = true ↔
    (st.xrefFound = true ∨ tokenSeen formatIndex st.readBuffer rest PDF_XREF
      st.totalBytesWritten exit.state.totalBytesWritten)
  trailer : exit.state.trailerFound = true ↔
    (st.trailerFound = true ∨ tokenSeen formatIndex st.readBuffer rest PDF_TRAILER
      st.totalBytesWritten exit.state.totalBytesWritten)
  too_large : ∀ s, exit = .tooLarge s → maxSizeOf formatIndex < s.totalBytesWritten
  finished_le : ∀ s, exit = .finished s → s = st ∨ s.totalBytesWritten ≤ maxSizeOf formatIndex
  at_eof : ∀ s, exit = .finished s → s.foundEnd = false →
    s.totalBytesWritten = st.totalBytesWritten + rest.length

/-- The global `File_Count` as `recoveryengine.cpp` declares it: ten zeros. -/
def initialFileCount : List Int := [0, 0, 0, 0, 0, 0, 0, 0, 0, 0]

/-- Both streams of `extractFile` open. -/
def ioOk : IoEnv := ⟨true, true⟩

/-- A PNG candidate: the signature, `n` bytes of value 1, the end marker. -/
def pngFile (n : Nat) : List Nat := PNG_SIGNATURE ++ List.replicate n 1 ++ PNG_IEND

/-- A PDF candidate with no `%%EOF`: the signature, `xref`, `trailer`, then
`n` zero bytes. -/
def pdfOpen (n : Nat) : List Nat :=
  PDF_SIGNATURE ++ (PDF_XREF ++ (PDF_TRAILER ++ List.replicate n 0))

/-- A PDF candidate with `xref` as its last four bytes: the signature,
`trailer`, `n` zero bytes, `xref` (no `%%EOF`). -/
def pdfXrefLast (n : Nat) : List Nat :=
  PDF_SIGNATURE ++ (PDF_TRAILER ++ (List.replicate n 0 ++ PDF_XREF))

/-- A PDF candidate without `trailer`: the signature, the bytes `e r`, `xref`,
`n` zero bytes, and `trail` as the last five bytes. -/
def pdfStaleTrailer (n : Nat) : List Nat :=
  PDF_SIGNATURE ++ ([0x65, 0x72] ++ (PDF_XREF ++
    (List.replicate n 0 ++ [0x74, 0x72, 0x61, 0x69, 0x6C])))

/-- The output file `file` of format `formatIndex` is among `emitted`. -/
def Emits (formatIndex : Nat) (content : List Nat) (emitted : List OutFile) : Prop :=
  ∃ file ∈ emitted, file.formatIndex = formatIndex ∧ file.content = content

/-- An `Mp3` and an `MP4` whose header tests never succeed. -/
def noExtractors : Extractors :=
  { matchesMP3Header := fun _ _ => false
    extractMP3File := fun _ fileStart fileCount => ⟨fileStart, fileCount, none⟩
    matchesMP4Header := fun _ _ _ => false
    extractMP4File := fun _ _ _ => none }

/-- The mask that enables PNG alone. -/
def pngOnly : List Bool := [true, false, false, false, false]

/-- The mask that enables the five formats of the scan. -/
def allFive : List Bool := [true, true, true, true, true]

/-- A JPEG candidate whose fourth byte is 0: `FF D8 FF 00`, `n` zero bytes,
then `00 00 00 E0 FF D9`. -/
def jpegBody (n : Nat) : List Nat :=
  [0xFF, 0xD8, 0xFF, 0x00] ++ (List.replicate n 0 ++ [0x00, 0x00, 0x00, 0xE0, 0xFF, 0xD9])

/-- A device image: `00 00 00 E0`, then the candidate `jpegBody n`. -/
def jpegStray (n : Nat) : List Nat := [0x00, 0x00, 0x00, 0xE0] ++ jpegBody n

/-- The frame size as the format defines it, with the division of the natural
numbers: `(12 * bitrate / sample_rate + padding) * 4` for Layer I,
`144 * bitrate / sample_rate + padding` for Layers II and III. -/
def frameSizeFormula (layer bitrate sample_rate padding : Nat) : Nat :=
  if layer = 1 then (12 * bitrate / sample_rate + padding) * 4
  else 144 * bitrate / sample_rate + padding

/-- The fields of a header are valid: none has a reserved value. -/
@[reducible] def fieldsValid (version_id layer_id bitrate_index sampling_rate_index : Nat) : Prop :=
  version_id ≠ 1 ∧ layer_id ≠ 0 ∧ bitrate_index ≠ 0 ∧ bitrate_index ≠ 15 ∧
    sampling_rate_index ≠ 3

/-- Two headers `FF FB 90 00` (MPEG 1, Layer III, 128 kbit/s, 44.1 kHz: 417
bytes a frame) one after the other, then `n` zero bytes. -/
def mp3TwoHeaders (n : Nat) : List Nat :=
  [0xFF, 0xFB, 0x90, 0x00, 0xFF, 0xFB, 0x90, 0x00] ++ List.replicate n 0

/-- The header tests of `Mp3.h` and `mp4.h`, with extractors that leave no
file. -/
def headerTests : Extractors :=
  { matchesMP3Header := matchesMP3Header
    extractMP3File := fun _ fileStart fileCount => ⟨fileStart, fileCount, none⟩
    matchesMP4Header := matchesMP4Header
    extractMP4File := fun _ _ _ => none }

/-- The bytes `FF D8 FF E0`, then `n` zero bytes, then `FF D9`. -/
def jpegScenario (n : Nat) : List Nat :=
  [0xFF, 0xD8, 0xFF, 0xE0] ++ List.replicate n 0 ++ [0xFF, 0xD9]

/-- The mask that enables JPEG alone. -/
def jpegOnly : List Bool := [false, true, false, false, false]

/-- From `st` to `st'` the counter of format `f` has stayed and no file of
format `f` was added. -/
def KeepsFormat (f : Nat) (st st' : RunState) : Prop :=
  st'.File_Count.length = st.File_Count.length ∧
    st'.File_Count.getD f 0 = st.File_Count.getD f 0 ∧
    ∃ more, st'.emitted = st.emitted ++ more ∧ ∀ out ∈ more, out.formatIndex ≠ f

/-- From `st` to `st'` the counter of format `f` has not gone down, and the
files of format `f` added bear numbers above the counter of `st`. -/
def NumbersAbove (f : Nat) (st st' : RunState) : Prop :=
  st'.File_Count.length = st.File_Count.length ∧
    st.File_Count.getD f 0 ≤ st'.File_Count.getD f 0 ∧
    ∃ more, st'.emitted = st.emitted ++ more ∧
      ∀ out ∈ more, out.formatIndex = f → st.File_Count.getD f 0 < out.number

/-- From `st` to `st'` a file of format `f` with the next number and the bytes
`content` was added, no file of format `f` before it, and after it files of
format `f` with higher numbers only. -/
def FirstFile (f : Nat) (content : List Nat) (st st' : RunState) : Prop :=
  st'.File_Count.length = st.File_Count.length ∧
    st.File_Count.getD f 0 + 1 ≤ st'.File_Count.getD f 0 ∧
    ∃ e1 e2, st'.emitted =
        st.emitted ++ e1 ++ [⟨f, st.File_Count.getD f 0 + 1, content⟩] ++ e2 ∧
      (∀ out ∈ e1, out.formatIndex ≠ f) ∧
      (∀ out ∈ e2, out.formatIndex = f → st.File_Count.getD f 0 + 1 < out.number)

/-- The buffer that a pass of the loop `while (true)` of `extractMP3File`
scans: `buffer` as the previous pass left it, after the carry loop and the
read of `chunk` to position `overlap`. -/
def filledBuffer (buffer chunk : List Nat) : List Nat :=
  (carryLoop buffer (List.range Mp3.overlap)).take Mp3.overlap ++ chunk ++
    (carryLoop buffer (List.range Mp3.overlap)).drop (Mp3.overlap + chunk.length)

/-- The bytes `frame` are a frame of MPEG version `version`: they begin with
a header that `parse_mp3_frame_header` accepts, their number is the frame
size of that header, and the version of that header is `version`. -/
def IsFrame (version : Int) (frame : List Nat) : Prop :=
  0 < (parse_mp3_frame_header frame).getD 0 0 ∧
    frame.length = ((parse_mp3_frame_header frame).getD 0 0).toNat ∧
    (parse_mp3_frame_header frame).getD 1 0 = version

/-- What holds of the locals of `extractMP3File` at every point of the walk:
the buffer keeps its size, `totalBytesWritten` counts the bytes of the output
file, nothing is written while no first frame is confirmed, and the output
file is a sequence of frames of the version of `frame_info_original`. -/
@[reducible] def WalkInv (st : WalkState) : Prop :=
  st.buffer.length = 4103 ∧ st.outFile.length = st.totalBytesWritten ∧
    (st.firstFrameFound = false → st.frame_info_original = [] ∧ st.outFile = []) ∧
    ∃ frames : List (List Nat), st.outFile = frames.flatten ∧
      ∀ fr ∈ frames, IsFrame (st.frame_info_original.getD 1 0) fr

/-- A frame of 512 bytes: the header `FF E7 84 00` (MPEG 2.5, Layer I,
128 kbit/s, 12 kHz, no padding) and 508 zero bytes. -/
def frame512 : List Nat := [0xFF, 0xE7, 0x84, 0x00] ++ List.replicate 508 0

/-- The stream of `n` copies of `frame`. -/
def frameStream (frame : List Nat) (n : Nat) : List Nat := (List.replicate n frame).flatten

/-- The buffer of `extractMP3File` while it walks a stream of frames of 512
bytes: three carried cells, eight frames, and the four cells that no read
reaches. -/
def buffer512 : List Nat := [0, 0, 0] ++ frameStream frame512 8 ++ [0, 0, 0, 0]

/-- What `parse_mp3_frame_header` returns for the header `FF E7 84` of
`frame512`. -/
def frameInfo512 : List Int := [512, 2, 1, 128000, 12000]

/-- A buffer of `extractMP3File` whose cells 4093 to 4095 and 4099 to 4102
hold zeros: the next pass carries zeros to the cells 0 to 2. -/
def QuietBuffer (buffer : List Nat) : Prop :=
  buffer.length = 4103 ∧ buffer.getD 4093 0 = 0 ∧ buffer.getD 4094 0 = 0 ∧
    buffer.getD 4095 0 = 0 ∧ buffer.drop 4099 = [0, 0, 0, 0]

/-- A frame of 2880 bytes: the header `FF E3 E8 00` (MPEG 2.5, Layer III,
160 kbit/s, 8 kHz, no padding) and 2876 zero bytes. -/
def frame2880 : List Nat := [0xFF, 0xE3, 0xE8, 0x00] ++ List.replicate 2876 0

/-- What `parse_mp3_frame_header` returns for the header `FF E3 E8` of
`frame2880`. -/
def frameInfo2880 : List Int := [2880, 2, 3, 160000, 8000]

/-- The buffer of the first pass of `extractMP3File` over a stream of eight
frames of 2880 bytes. -/
def buffer2880 : List Nat :=
  filledBuffer (List.replicate (BUFFER_SIZE + Mp3.overlap + 4) 0)
    ((frameStream frame2880 8).take BUFFER_SIZE)

/-- The buffer that a pass of the loop `while (true)` of `extractMP4File`
scans: `buffer` as the previous pass left it, after the carry loop and the
read of `chunk` to position `OVERLAP_SIZE`. -/
def filledBoxBuffer (buffer chunk : List Nat) : List Nat :=
  (boxCarryLoop buffer (List.range OVERLAP_SIZE)).take OVERLAP_SIZE ++ chunk ++
    (boxCarryLoop buffer (List.range OVERLAP_SIZE)).drop (OVERLAP_SIZE + chunk.length)

/-- What holds of the output stream of `extractMP4File` at every point: it is
empty, or it begins with eight bytes of which the last four are the type
bytes of `FYTP_SIGNATURE`; and it is not empty once `foundFytp` is set. -/
@[reducible] def BoxInv (st : BoxScan) : Prop :=
  (st.outFile = [] ∨
    (8 ≤ st.outFile.length ∧ st.outFile.getD 4 0 = 0x66 ∧ st.outFile.getD 5 0 = 0x79 ∧
      st.outFile.getD 6 0 = 0x70 ∧ st.outFile.getD 7 0 = 0x74)) ∧
  (st.foundFytp = true → st.outFile ≠ [])

/-- A buffer of `extractMP4File` whose last seven cells hold zeros: the next
pass carries zeros to the cells 0 to 6. -/
def QuietBoxBuffer (buffer : List Nat) : Prop :=
  buffer.length = CHUNK_SIZE + OVERLAP_SIZE ∧ ∀ j, CHUNK_SIZE ≤ j → buffer.getD j 0 = 0

/-- The input, the directory and every stream of `extractMP4File` and of
`appendFile` open. -/
def envOk : Mp4Env := ⟨true, true⟩

/-- A box of 8 bytes with the type bytes of `FYTP_SIGNATURE`, `66 79 70 74`. -/
def fyptBox : List Nat := [0x00, 0x00, 0x00, 0x08, 0x66, 0x79, 0x70, 0x74]

/-- An `ftyp` box of 32 bytes: the size, the type bytes `66 74 79 70`, and 24
zero bytes. -/
def ftypBox : List Nat :=
  [0x00, 0x00, 0x00, 0x20, 0x66, 0x74, 0x79, 0x70] ++ List.replicate 24 0

/-- A `moov` box of 24 bytes. -/
def moovBox : List Nat :=
  [0x00, 0x00, 0x00, 0x18, 0x6D, 0x6F, 0x6F, 0x76] ++ List.replicate 16 0

/-- An `mdat` box of 16 bytes. -/
def mdatBox : List Nat :=
  [0x00, 0x00, 0x00, 0x10, 0x6D, 0x64, 0x61, 0x74] ++ List.replicate 8 0

/-- An `mdat` box whose declared size is 500 MiB + 8: the size `1F 40 00 08`,
the type bytes, and 500 MiB of zero bytes. -/
def mdatBig : List Nat :=
  [0x1F, 0x40, 0x00, 0x08, 0x6D, 0x64, 0x61, 0x74] ++ List.replicate (500 * 1024 * 1024) 0

/-- A box followed by zero bytes up to the 1 MiB that one read of
`extractMP4File` takes. -/
def padded (box : List Nat) : List Nat := box ++ List.replicate (CHUNK_SIZE - box.length) 0

/-- The header of `frame512` alone. -/
def header512 : List Nat := [0xFF, 0xE7, 0x84, 0x00]

/-- A device of 24484 bytes: 40 frames of 512 bytes, 4000 zero bytes, and
the header of such a frame alone at offset 24480. -/
def floorDevice : List Nat := frameStream frame512 40 ++ (List.replicate 4000 0 ++ header512)

/-- The buffer of the first pass of `extractMP3File` over the four bytes of
`header512`. -/
def headerBuffer : List Nat := [0, 0, 0] ++ header512 ++ List.replicate 4096 0

/-- The mask that enables the MP3 format only. -/
def mp3Only : List Bool := [false, false, false, false, true]

/-- The buffer of `run` on its sixth pass over `floorDevice`: the 4004
bytes read, and behind them what the pass before left. -/
def floorBuffer : List Nat :=
  (List.replicate 4000 0 ++ header512) ++ (frameStream frame512 8).drop 4004

/-- The state of `run` on `floorDevice` once the first candidate is kept. -/
def floorKept : RunState :=
  ⟨[0, 0, 0, 0, 1, 0, 0, 0, 0, 0], 0, 21263, [⟨4, 1, frameStream frame512 40⟩]⟩

/-- The state of `run` on `floorDevice` once the second candidate is
discarded. -/
def floorDiscarded : RunState :=
  ⟨[0, 0, 0, 0, 1, 0, 0, 0, 0, 0], 0, 0, [⟨4, 1, frameStream frame512 40⟩]⟩

/-- From `st` to `st'` only formats that satisfy `P` were dispatched: the
counter of every other format has stayed and every file added has a format
that satisfies `P`. -/
def OnlyFormats (P : Nat → Prop) (st st' : RunState) : Prop :=
  (∀ f, ¬ P f → st'.File_Count.getD f 0 = st.File_Count.getD f 0) ∧
    ∃ more, st'.emitted = st.emitted ++ more ∧ ∀ out ∈ more, P out.formatIndex

/-- The locals of `extractMP4File` with, in the buffer, a header of the type
of `FYTP_SIGNATURE` whose size field is 4. -/
def smallBoxScan : BoxScan :=
  { initialBoxScan with buffer := [0x00, 0x00, 0x00, 0x04, 0x66, 0x79, 0x70, 0x74] }

/-- A device of 48 bytes: the box `fyptBox`, then a `moov` box and, right
after it, an `mdat` box. -/
def boxesInOneRead : List Nat := fyptBox ++ (moovBox ++ mdatBox)

/-- The function `Mp3::parse_mp3_frame_header` on `&buffer[pos]`, with every
read of a cell checked against the size of the buffer: `header[0]` is read
first, `header[1]` when `header[0]` is `FF`, `header[2]` when the sync bits are
there.  The value is `none` when a read falls at or beyond the end of the
buffer. -/
def parse_mp3_frame_header_checked (buffer : List Nat) (pos : Nat) : Option (List Int) :=
  match buffer[pos]? with
  | none => none
  | some h0 =>
    if h0 != 0xFF then some (List.replicate 5 0)
    else
      match buffer[pos + 1]? with
      | none => none
      | some h1 =>
        if (h1 &&& 0xE0) != 0xE0 then some (List.replicate 5 0)
        else
          match buffer[pos + 2]? with
          | none => none
          | some h2 =>
            some (frameInfoOfFields ((h1 >>> 3) &&& 0x03) ((h1 >>> 1) &&& 0x03)
              ((h2 >>> 4) &&& 0x0F) ((h2 >>> 2) &&& 0x03) ((h2 >>> 1) &&& 0x01))

/-- The `while` loop of `matchesMP3Header` for one `i`, with checked reads. -/
def probeLoopChecked (buffer : List Nat) (pos i : Nat) (frame_info : List Int)
    (gap_count : Nat) : Option ProbeResult :=
  if _h : gap_count < MAX_GAP_Bytes ∧
      pos + (frame_info.getD 0 0 * i).toNat + gap_count < buffer.length then
    match parse_mp3_frame_header_checked buffer
        (pos + (frame_info.getD 0 0 * i).toNat + gap_count) with
    | none => none
    | some parsed =>
      if parsed.getD 0 0 > 0 then some ⟨parsed, true, 0⟩
      else probeLoopChecked buffer pos i parsed (gap_count + 1)
  else some ⟨frame_info, false, gap_count⟩
termination_by MAX_GAP_Bytes - gap_count
decreasing_by omega

/-- The loop `for (int i = 1; i <= 10; ++i)` of `matchesMP3Header`, with
checked reads. -/
def probeFramesChecked (buffer : List Nat) (pos : Nat) :
    List Nat → List Int → Option Bool
  | [], _ => some true
  | i :: more, frame_info =>
    match probeLoopChecked buffer pos i frame_info 0 with
    | none => none
    | some r =>
      if !r.found && decide (r.gap_count ≥ MAX_GAP_Bytes) then some false
      else probeFramesChecked buffer pos more r.frame_info

/-- The function `Mp3::matchesMP3Header` with checked reads: its value, or
`none` when it reads a cell at or beyond the end of the buffer. -/
def matchesMP3HeaderChecked (buffer : List Nat) (pos : Nat) : Option Bool :=
  if pos + 1 ≥ buffer.length then some false
  else
    match parse_mp3_frame_header_checked buffer pos with
    | none => none
    | some frame_info =>
      if frame_info.getD 0 0 ≤ 0 then some false
      else probeFramesChecked buffer pos (List.range' 1 10) frame_info

/-- A buffer of 33 cells: the header `FF FF 14` of a frame of 32 bytes, 29
zero bytes, and `FF` in the last cell. -/
def probeSample : List Nat := [0xFF, 0xFF, 0x14] ++ List.replicate 29 0 ++ [0xFF]

/-- A buffer of the size of the buffer of `run` (4096 cells) with the sync bits
in its last two cells. -/
def lastCellsSample : List Nat := List.replicate 4094 0 ++ [0xFF, 0xFB]

/-- The test of the second `if` of the body of the loop
`while (pos + 4 <= totalBytes)` of `extractMP3File`, on the state the first
`if` has left: the frame at `pos` matches, its size is above 0, and it ends
inside the bytes of the pass. -/
def frameWritten (totalBytes pos : Nat) (st : WalkState) : Bool :=
  matchesFrameInfo (parse_mp3_frame_header (st.buffer.drop pos))
      (confirmFrame pos st).frame_info_original &&
    decide ((parse_mp3_frame_header (st.buffer.drop pos)).getD 0 0 > 0) &&
    decide (pos + ((parse_mp3_frame_header (st.buffer.drop pos)).getD 0 0).toNat ≤ totalBytes)

/-- A frame of the output file with the place the walk took it from: the
pass of the loop `while (true)` (counted from 0) and the position in the
buffer of that pass.  The cell `pos` of pass `pass`, for `pos` from 3 on,
holds the byte at the device offset `fileStart + 4096 * pass + pos - 3`. -/
structure WrittenFrame where
  pass : Nat
  pos : Nat
  bytes : List Nat

/-- The output file `outFile` is the frames `placed`, in this order: each is
a frame by its own header, each holds, behind the `3 - pos` carried cells it
may begin with, the bytes of the device at the offset of its place, and each
begins at most `MAX_GAP_Bytes` positions behind the end of the one before. -/
def Placed (device : List Nat) (fileStart : Nat) (outFile : List Nat)
    (placed : List WrittenFrame) : Prop :=
  outFile = (placed.map WrittenFrame.bytes).flatten ∧
    (∀ p ∈ placed,
      0 < (parse_mp3_frame_header p.bytes).getD 0 0 ∧
      p.bytes.length = ((parse_mp3_frame_header p.bytes).getD 0 0).toNat ∧
      p.bytes.drop (3 - p.pos) =
        (device.drop (fileStart + 4096 * p.pass + (p.pos - 3))).take
          (p.bytes.length - (3 - p.pos))) ∧
    List.Chain' (fun p q : WrittenFrame =>
      4096 * q.pass + q.pos ≤ 4096 * p.pass + p.pos + p.bytes.length + MAX_GAP_Bytes) placed

/-- What holds at the head of the inner loop of `extractMP3File` at the
buffer coordinate `c` (4096 times the pass, plus the position): the gap
counter is within `MAX_GAP_Bytes`, and the walk is at most `gapCount`
positions behind the end of the last frame written. -/
def GapInv (device : List Nat) (fileStart c : Nat) (st : WalkState) : Prop :=
  st.gapCount ≤ MAX_GAP_Bytes ∧
    ∃ placed : List WrittenFrame, Placed device fileStart st.outFile placed ∧
      ∀ last, placed.getLast? = some last →
        c ≤ 4096 * last.pass + last.pos + last.bytes.length + st.gapCount

/-- A ZIP candidate: the signature, `n` bytes of value 1 and the end marker. -/
def zipFile (n : Nat) : List Nat := ZIP_SIGNATURE ++ List.replicate n 1 ++ ZIP_END

/-- A PDF candidate: `pdfOpen n`, which holds `xref` and `trailer`, and the
end marker. -/
def pdfFile (n : Nat) : List Nat := pdfOpen n ++ PDF_END

/-- A JPEG candidate: `FF D8 FF`, `n` bytes `E0` and the end marker. -/
def jpegFile (n : Nat) : List Nat := [0xFF, 0xD8, 0xFF] ++ List.replicate n 0xE0 ++ JPEG_END

/-! # Theorems -/

/-! ## Facts about `matchesSignature` -/

theorem signatureLoop_iff (buffer : List Nat) (pos : Nat) :
    ∀ (rest : List Nat) (i : Nat), pos + i + rest.length ≤ buffer.length →
      (signatureLoop buffer pos rest i = true ↔ rest <+: buffer.drop (pos + i))
  | [], i, _ => by simp [signatureLoop]
  | s :: rest, i, h => by
    have hlt : pos + i < buffer.length := by simp only [List.length_cons] at h; omega
    have hrec := signatureLoop_iff buffer pos rest (i + 1)
      (by simp only [List.length_cons] at h; omega)
    rw [signatureLoop, List.drop_eq_getElem_cons hlt, List.cons_prefix_cons,
      List.getD_eq_getElem _ _ hlt]
    by_cases hs : buffer[pos + i] = s
    · simp [hs, hrec, Nat.add_assoc]
    · simp [hs, Ne.symm hs]

/-- The value of `matchesSignature`: the signature fits in the buffer at `pos`,
the bytes there are the signature, and for format 1 the high nibble of
`buffer[3]` is `0xE`. -/
theorem matchesSignature_iff (buffer : List Nat) (pos : Nat) (signature : List Nat)
    (formatIndex : Nat) :
    matchesSignature buffer pos signature formatIndex = true ↔
      pos + signature.length ≤ buffer.length ∧ signature <+: buffer.drop pos ∧
        (formatIndex = 1 → buffer.getD 3 0 &&& 0xF0 = 0xE0) := by
  unfold matchesSignature
  by_cases hlen : pos + signature.length > buffer.length
  · simp only [hlen, if_true]
    constructor
    · intro h; cases h
    · rintro ⟨h, -⟩; omega
  · have hloop := signatureLoop_iff buffer pos signature 0 (by simpa using hlen)
    simp only [Nat.add_zero] at hloop
    simp only [hlen, if_false]
    have hle : pos + signature.length ≤ buffer.length := by omega
    generalize buffer.getD 3 0 = b3
    by_cases hl : signatureLoop buffer pos signature 0 = true
    · have hp := hloop.mp hl
      by_cases hf : formatIndex = 1
      · by_cases hn : b3 &&& 0xF0 = 0xE0
        · simp [hl, hf, hn, hp, hle]
        · simp [hl, hf, hn]
      · simp [hl, hf, hp, hle]
    · have hp : ¬ signature <+: buffer.drop pos := fun h => hl (hloop.mpr h)
      simp [hl, hp]

theorem matchesSignature_occurrence {buffer : List Nat} {pos : Nat} {signature : List Nat}
    {formatIndex : Nat} (h : matchesSignature buffer pos signature formatIndex = true) :
    signature <+: buffer.drop pos :=
  ((matchesSignature_iff _ _ _ _).mp h).2.1

theorem matchesSignature_of_occurrence {buffer : List Nat} {pos : Nat} {signature : List Nat}
    {formatIndex : Nat} (hne : formatIndex ≠ 1) (hlen : pos + signature.length ≤ buffer.length)
    (h : signature <+: buffer.drop pos) :
    matchesSignature buffer pos signature formatIndex = true :=
  (matchesSignature_iff _ _ _ _).mpr ⟨hlen, h, fun h1 => absurd h1 hne⟩

/-! ## Facts about `markerScan` -/

theorem markerScan_hit (readBuffer : List Nat) (formatIndex : Nat) :
    ∀ (js : List Nat) (x t : Bool) (w : Nat),
      (markerScan readBuffer formatIndex js x t).hit = some w →
      ∃ j ∈ js, w = j + (endMarkerOf formatIndex).length ∧
        matchesSignature readBuffer j (endMarkerOf formatIndex) formatIndex = true
  | [], x, t, w, h => by simp [markerScan] at h
  | j :: js, x, t, w, h => by
    rw [markerScan] at h
    by_cases hm : matchesSignature readBuffer j (endMarkerOf formatIndex) formatIndex = true
    · simp only [hm, if_true] at h
      refine ⟨j, List.mem_cons_self _ _, ?_, hm⟩
      simpa using h.symm
    · simp only [hm] at h
      obtain ⟨j', hj', hw, hm'⟩ := markerScan_hit readBuffer formatIndex js _ _ w h
      exact ⟨j', List.mem_cons_of_mem _ hj', hw, hm'⟩

theorem markerScan_no_match (readBuffer : List Nat) (formatIndex : Nat) :
    ∀ (js : List Nat) (x t : Bool),
      (∀ j ∈ js, matchesSignature readBuffer j (endMarkerOf formatIndex) formatIndex = false) →
      markerScan readBuffer formatIndex js x t =
        ⟨tokenFlag readBuffer formatIndex PDF_XREF js x,
         tokenFlag readBuffer formatIndex PDF_TRAILER js t, none⟩
  | [], x, t, _ => by simp [markerScan, tokenFlag]
  | j :: js, x, t, h => by
    have hj := h j (List.mem_cons_self _ _)
    have hrec := fun x t => markerScan_no_match readBuffer formatIndex js x t
      (fun j' hj' => h j' (List.mem_cons_of_mem _ hj'))
    rw [markerScan]
    simp only [hj, hrec, tokenFlag, List.any_cons]
    by_cases hf : formatIndex = 2
    · subst hf
      cases matchesSignature readBuffer j PDF_XREF 2 <;>
        cases matchesSignature readBuffer j PDF_TRAILER 2 <;> simp
    · have : (formatIndex == 2) = false := by simpa using hf
      simp [this]

theorem markerScan_first (readBuffer : List Nat) (formatIndex : Nat) (j0 : Nat)
    (js2 : List Nat)
    (hm : matchesSignature readBuffer j0 (endMarkerOf formatIndex) formatIndex = true) :
    ∀ (js1 : List Nat) (x t : Bool),
      (∀ j ∈ js1, matchesSignature readBuffer j (endMarkerOf formatIndex) formatIndex = false) →
      markerScan readBuffer formatIndex (js1 ++ j0 :: js2) x t =
        ⟨tokenFlag readBuffer formatIndex PDF_XREF (js1 ++ [j0]) x,
         tokenFlag readBuffer formatIndex PDF_TRAILER (js1 ++ [j0]) t,
         some (j0 + (endMarkerOf formatIndex).length)⟩
  | [], x, t, _ => by
    rw [List.nil_append, markerScan]
    simp only [hm, tokenFlag, List.nil_append, List.any_cons, List.any_nil, Bool.or_false]
    by_cases hf : formatIndex = 2
    · subst hf
      cases matchesSignature readBuffer j0 PDF_XREF 2 <;>
        cases matchesSignature readBuffer j0 PDF_TRAILER 2 <;> simp
    · have : (formatIndex == 2) = false := by simpa using hf
      simp [this]
  | j :: js1, x, t, h => by
    have hj := h j (List.mem_cons_self _ _)
    have hrec := fun x t => markerScan_first readBuffer formatIndex j0 js2 hm js1 x t
      (fun j' hj' => h j' (List.mem_cons_of_mem _ hj'))
    rw [List.cons_append, markerScan]
    simp only [hj, hrec, tokenFlag, List.cons_append, List.any_cons]
    by_cases hf : formatIndex = 2
    · subst hf
      cases matchesSignature readBuffer j PDF_XREF 2 <;>
        cases matchesSignature readBuffer j PDF_TRAILER 2 <;> simp
    · have : (formatIndex == 2) = false := by simpa using hf
      simp [this]

theorem marker_formats {formatIndex : Nat} (hf : formatIndex < 4) :
    endMarkerOf formatIndex ≠ GENERIC_END ∧ 1 ≤ (endMarkerOf formatIndex).length := by
  interval_cases formatIndex <;> exact ⟨by decide, by decide⟩

theorem first_match (p : Nat → Bool) :
    ∀ n : Nat, (∀ j, j < n → p j = false) ∨
      ∃ j0, j0 < n ∧ p j0 = true ∧ ∀ j, j < j0 → p j = false
  | 0 => Or.inl (fun j hj => absurd hj (Nat.not_lt_zero j))
  | n + 1 => by
    rcases first_match p n with h | ⟨j0, hj0, hp, hbefore⟩
    · by_cases hn : p n = true
      · exact Or.inr ⟨n, Nat.lt_succ_self n, hn, h⟩
      · refine Or.inl (fun j hj => ?_)
        rcases Nat.lt_succ_iff_lt_or_eq.mp hj with hlt | heq
        · exact h j hlt
        · subst heq; simpa using hn
    · exact Or.inr ⟨j0, Nat.lt_succ_of_lt hj0, hp, hbefore⟩

theorem range_split {j0 n : Nat} (h : j0 < n) :
    List.range n = List.range j0 ++ j0 :: List.range' (j0 + 1) (n - (j0 + 1)) := by
  have h1 : List.range' 0 j0 ++ List.range' (0 + 1 * j0) (n - j0) = List.range' 0 n := by
    rw [List.range'_append]; congr 1; omega
  have h2 : List.range' j0 (n - j0) = j0 :: List.range' (j0 + 1) (n - (j0 + 1)) := by
    have : n - j0 = (n - (j0 + 1)) + 1 := by omega
    rw [this, List.range'_succ]
  rw [List.range_eq_range', List.range_eq_range', ← h1]
  simp only [Nat.zero_add, Nat.one_mul, h2]

theorem processChunk_no_hit {formatIndex : Nat} (hf : formatIndex < 4) (st : ScanState)
    (chunk : List Nat)
    (hno : ∀ j, j + (endMarkerOf formatIndex).length ≤ chunk.length →
      matchesSignature (chunk ++ st.readBuffer.drop chunk.length) j
        (endMarkerOf formatIndex) formatIndex = false) :
    processChunk formatIndex st chunk =
      { readBuffer := chunk ++ st.readBuffer.drop chunk.length
        written := st.written ++ chunk
        xrefFound := tokenFlag (chunk ++ st.readBuffer.drop chunk.length) formatIndex PDF_XREF
          (List.range (chunk.length + 1 - (endMarkerOf formatIndex).length)) st.xrefFound
        trailerFound := tokenFlag (chunk ++ st.readBuffer.drop chunk.length) formatIndex
          PDF_TRAILER (List.range (chunk.length + 1 - (endMarkerOf formatIndex).length))
          st.trailerFound
        foundEnd := false
        totalBytesWritten := st.totalBytesWritten + chunk.length } := by
  have hm := marker_formats hf
  unfold processChunk
  simp only [hm.1, if_false]
  rw [markerScan_no_match _ _ _ _ _ (fun j hj => hno j (by
    have := List.mem_range.mp hj; omega))]
  simp

theorem processChunk_hit {formatIndex : Nat} (hf : formatIndex < 4) (st : ScanState)
    (chunk : List Nat) (j0 : Nat)
    (hj0 : j0 + (endMarkerOf formatIndex).length ≤ chunk.length)
    (hm0 : matchesSignature (chunk ++ st.readBuffer.drop chunk.length) j0
        (endMarkerOf formatIndex) formatIndex = true)
    (hno : ∀ j, j < j0 →
      matchesSignature (chunk ++ st.readBuffer.drop chunk.length) j
        (endMarkerOf formatIndex) formatIndex = false) :
    processChunk formatIndex st chunk =
      { readBuffer := chunk ++ st.readBuffer.drop chunk.length
        written := st.written ++ chunk.take (j0 + (endMarkerOf formatIndex).length)
        xrefFound := tokenFlag (chunk ++ st.readBuffer.drop chunk.length) formatIndex PDF_XREF
          (List.range (j0 + 1)) st.xrefFound
        trailerFound := tokenFlag (chunk ++ st.readBuffer.drop chunk.length) formatIndex
          PDF_TRAILER (List.range (j0 + 1)) st.trailerFound
        foundEnd := true
        totalBytesWritten := st.totalBytesWritten + (j0 + (endMarkerOf formatIndex).length) } := by
  have hm := marker_formats hf
  unfold processChunk
  simp only [hm.1, if_false]
  have hlt : j0 < chunk.length + 1 - (endMarkerOf formatIndex).length := by omega
  rw [range_split hlt, markerScan_first _ _ _ _ hm0 _ _ _ (fun j hj => hno j (List.mem_range.mp hj))]
  simp only [Option.getD_some, Option.isSome_some, ← List.range_succ]
  rw [List.take_append_of_le_length hj0]

/-- The two shapes a pass of the loop body takes for a format with an end
marker of its own: no position matched, or a first position `j0` did. -/
theorem processChunk_cases {formatIndex : Nat} (hf : formatIndex < 4) (st : ScanState)
    (chunk : List Nat) :
    ((∀ j, j + (endMarkerOf formatIndex).length ≤ chunk.length →
        matchesSignature (chunk ++ st.readBuffer.drop chunk.length) j
          (endMarkerOf formatIndex) formatIndex = false) ∧
      processChunk formatIndex st chunk =
        { readBuffer := chunk ++ st.readBuffer.drop chunk.length
          written := st.written ++ chunk
          xrefFound := tokenFlag (chunk ++ st.readBuffer.drop chunk.length) formatIndex
            PDF_XREF (List.range (chunk.length + 1 - (endMarkerOf formatIndex).length))
            st.xrefFound
          trailerFound := tokenFlag (chunk ++ st.readBuffer.drop chunk.length) formatIndex
            PDF_TRAILER (List.range (chunk.length + 1 - (endMarkerOf formatIndex).length))
            st.trailerFound
          foundEnd := false
          totalBytesWritten := st.totalBytesWritten + chunk.length }) ∨
    ∃ j0, j0 + (endMarkerOf formatIndex).length ≤ chunk.length ∧
      matchesSignature (chunk ++ st.readBuffer.drop chunk.length) j0
        (endMarkerOf formatIndex) formatIndex = true ∧
      (∀ j, j < j0 →
        matchesSignature (chunk ++ st.readBuffer.drop chunk.length) j
          (endMarkerOf formatIndex) formatIndex = false) ∧
      processChunk formatIndex st chunk =
        { readBuffer := chunk ++ st.readBuffer.drop chunk.length
          written := st.written ++ chunk.take (j0 + (endMarkerOf formatIndex).length)
          xrefFound := tokenFlag (chunk ++ st.readBuffer.drop chunk.length) formatIndex
            PDF_XREF (List.range (j0 + 1)) st.xrefFound
          trailerFound := tokenFlag (chunk ++ st.readBuffer.drop chunk.length) formatIndex
            PDF_TRAILER (List.range (j0 + 1)) st.trailerFound
          foundEnd := true
          totalBytesWritten :=
            st.totalBytesWritten + (j0 + (endMarkerOf formatIndex).length) } := by
  rcases first_match
      (fun j => matchesSignature (chunk ++ st.readBuffer.drop chunk.length) j
        (endMarkerOf formatIndex) formatIndex)
      (chunk.length + 1 - (endMarkerOf formatIndex).length) with h | ⟨j0, hj0, hm0, hbefore⟩
  · have hno : ∀ j, j + (endMarkerOf formatIndex).length ≤ chunk.length →
        matchesSignature (chunk ++ st.readBuffer.drop chunk.length) j
          (endMarkerOf formatIndex) formatIndex = false := fun j hj => h j (by omega)
    exact Or.inl ⟨hno, processChunk_no_hit hf st chunk hno⟩
  · have hm := marker_formats hf
    have hle : j0 + (endMarkerOf formatIndex).length ≤ chunk.length := by omega
    exact Or.inr ⟨j0, hle, hm0, hbefore, processChunk_hit hf st chunk j0 hle hm0 hbefore⟩

/-! ## Unfolding the loop of `extractFile` -/

theorem extractLoop_found (formatIndex : Nat) (rest : List Nat) (st : ScanState)
    (h : st.foundEnd = true) : extractLoop formatIndex rest st = .finished st := by
  rw [extractLoop]; simp [h]

theorem extractLoop_nil (formatIndex : Nat) (st : ScanState) :
    extractLoop formatIndex [] st = .finished st := by
  rw [extractLoop]; simp

theorem extractLoop_step (formatIndex : Nat) (rest : List Nat) (st : ScanState)
    (h : st.foundEnd = false) (hne : rest ≠ []) :
    extractLoop formatIndex rest st =
      if (processChunk formatIndex st (rest.take chunkSize)).totalBytesWritten >
          maxSizeOf formatIndex then
        .tooLarge (processChunk formatIndex st (rest.take chunkSize))
      else
        extractLoop formatIndex (rest.drop chunkSize)
          (processChunk formatIndex st (rest.take chunkSize)) := by
  have hlen : ¬ (List.take chunkSize rest).length = 0 := by
    have : 0 < rest.length := List.length_pos.mpr hne
    simp only [List.length_take, chunkSize]; omega
  rw [extractLoop, if_neg (by simp [h]), dif_neg hlen]

theorem chunkSize_eq : chunkSize = 4096 := rfl

theorem chunkAt_zero (rest : List Nat) : chunkAt rest 0 = rest.take chunkSize := by
  simp [chunkAt]

theorem chunkAt_succ (rest : List Nat) (k : Nat) :
    chunkAt rest (k + 1) = chunkAt (rest.drop chunkSize) k := by
  simp only [chunkAt, List.drop_drop]
  congr 2
  ring

theorem chunkAt_length_le (rest : List Nat) (k : Nat) : (chunkAt rest k).length ≤ chunkSize := by
  simp only [chunkAt, List.length_take]; omega

theorem chunkAt_nil (k : Nat) : chunkAt [] k = [] := by simp [chunkAt]

theorem scannedMatch_zero (formatIndex : Nat) (init rest token : List Nat)
    (tokenFormat j : Nat) :
    scannedMatch formatIndex init rest token tokenFormat 0 j =
      (decide (j + (endMarkerOf formatIndex).length ≤ (rest.take chunkSize).length) &&
        matchesSignature (rest.take chunkSize ++ init.drop (rest.take chunkSize).length)
          j token tokenFormat) := by
  simp [scannedMatch, chunkAt_zero, readBufferAt]

theorem scannedMatch_succ (formatIndex : Nat) (init rest token : List Nat)
    (tokenFormat k j : Nat) :
    scannedMatch formatIndex init rest token tokenFormat (k + 1) j =
      scannedMatch formatIndex
        (rest.take chunkSize ++ init.drop (rest.take chunkSize).length)
        (rest.drop chunkSize) token tokenFormat k j := by
  simp [scannedMatch, chunkAt_succ, readBufferAt]

theorem scannedMatch_rest_ne_nil {formatIndex : Nat} (hf : formatIndex < 4)
    {init rest token : List Nat} {tokenFormat k j : Nat}
    (h : scannedMatch formatIndex init rest token tokenFormat k j = true) : rest ≠ [] := by
  intro hnil
  subst hnil
  have hm := (marker_formats hf).2
  simp only [scannedMatch, chunkAt_nil, List.length_nil, Bool.and_eq_true,
    decide_eq_true_eq] at h
  omega

theorem take_length_take (rest : List Nat) (n : Nat) :
    rest.take (rest.take n).length = rest.take n := by
  rw [List.length_take]
  rcases Nat.le_total n rest.length with h | h
  · rw [Nat.min_eq_left h]
  · rw [Nat.min_eq_right h, List.take_of_length_le h, List.take_of_length_le (le_refl _)]

theorem drop_length_take (rest : List Nat) (n : Nat) :
    rest.drop (rest.take n).length = rest.drop n := by
  rw [List.length_take]
  rcases Nat.le_total n rest.length with h | h
  · rw [Nat.min_eq_left h]
  · rw [Nat.min_eq_right h, List.drop_eq_nil_of_le h, List.drop_eq_nil_of_le (le_refl _)]

theorem tokenFlag_iff (readBuffer : List Nat) (formatIndex : Nat) (token : List Nat)
    (n : Nat) (flag : Bool) :
    tokenFlag readBuffer formatIndex token (List.range n) flag = true ↔
      (flag = true ∨ (formatIndex = 2 ∧ ∃ j, j < n ∧
        matchesSignature readBuffer j token 2 = true)) := by
  simp [tokenFlag, List.any_eq_true, List.mem_range]

theorem take_chunk_length_le (rest : List Nat) :
    (rest.take chunkSize).length ≤ chunkSize ∧ (rest.take chunkSize).length ≤ rest.length := by
  simp only [List.length_take]; omega

theorem take_chunk_full {rest : List Nat} (h : rest.drop chunkSize ≠ []) :
    (rest.take chunkSize).length = chunkSize := by
  have : chunkSize < rest.length := by
    by_contra hle
    exact h (List.drop_eq_nil_of_le (by omega))
  simp only [List.length_take]; omega

/-- A token seen within the bytes written from the first chunk alone. -/
theorem tokenSeen_first_chunk {formatIndex : Nat} (hf : formatIndex < 4)
    (init rest token : List Nat) (base w : Nat) (hw : w ≤ (rest.take chunkSize).length) :
    tokenSeen formatIndex init rest token base (base + w) ↔
      (formatIndex = 2 ∧ ∃ j, j + (endMarkerOf formatIndex).length ≤ w ∧
        matchesSignature (rest.take chunkSize ++ init.drop (rest.take chunkSize).length)
          j token 2 = true) := by
  have hlen1 := (marker_formats hf).2
  have hc := take_chunk_length_le rest
  constructor
  · rintro ⟨h2, k, j, hm, hb⟩
    refine ⟨h2, ?_⟩
    cases k with
    | zero =>
      rw [scannedMatch_zero] at hm
      simp only [Bool.and_eq_true, decide_eq_true_eq] at hm
      exact ⟨j, by omega, hm.2⟩
    | succ k =>
      exfalso
      have : chunkSize * (k + 1) = chunkSize * k + chunkSize := by ring
      omega
  · rintro ⟨h2, j, hj, hm⟩
    refine ⟨h2, 0, j, ?_, by omega⟩
    rw [scannedMatch_zero]
    simp only [Bool.and_eq_true, decide_eq_true_eq]
    exact ⟨by omega, hm⟩

/-- A token seen within `limit` is seen in the first chunk or in the chunks
after it. -/
theorem tokenSeen_step {formatIndex : Nat} (hf : formatIndex < 4)
    (init rest token : List Nat) (base limit : Nat) :
    tokenSeen formatIndex init rest token base limit ↔
      ((formatIndex = 2 ∧ ∃ j, j + (endMarkerOf formatIndex).length ≤
            (rest.take chunkSize).length ∧
          base + (j + (endMarkerOf formatIndex).length) ≤ limit ∧
          matchesSignature (rest.take chunkSize ++ init.drop (rest.take chunkSize).length)
            j token 2 = true) ∨
        tokenSeen formatIndex
          (rest.take chunkSize ++ init.drop (rest.take chunkSize).length)
          (rest.drop chunkSize) token (base + (rest.take chunkSize).length) limit) := by
  constructor
  · rintro ⟨h2, k, j, hm, hb⟩
    cases k with
    | zero =>
      left
      rw [scannedMatch_zero] at hm
      simp only [Bool.and_eq_true, decide_eq_true_eq] at hm
      exact ⟨h2, j, hm.1, by omega, hm.2⟩
    | succ k =>
      right
      rw [scannedMatch_succ] at hm
      have hfull := take_chunk_full (scannedMatch_rest_ne_nil hf hm)
      have : chunkSize * (k + 1) = chunkSize * k + chunkSize := by ring
      exact ⟨h2, k, j, hm, by omega⟩
  · rintro (⟨h2, j, hj, hb, hm⟩ | ⟨h2, k, j, hm, hb⟩)
    · refine ⟨h2, 0, j, ?_, by omega⟩
      rw [scannedMatch_zero]
      simp only [Bool.and_eq_true, decide_eq_true_eq]
      exact ⟨hj, hm⟩
    · have hfull := take_chunk_full (scannedMatch_rest_ne_nil hf hm)
      have : chunkSize * (k + 1) = chunkSize * k + chunkSize := by ring
      refine ⟨h2, k + 1, j, ?_, by omega⟩
      rw [scannedMatch_succ]
      exact hm

theorem facts_nil {formatIndex : Nat} (hf : formatIndex < 4) (st : ScanState)
    (hfe : st.foundEnd = false) : LoopFacts formatIndex [] st (.finished st) := by
  have hnone : ∀ (token : List Nat) (tf k j : Nat),
      scannedMatch formatIndex st.readBuffer [] token tf k j = true → False :=
    fun token tf k j h => scannedMatch_rest_ne_nil hf h rfl
  refine
    { total_le := le_refl _
      bytes_le := by simp [LoopExit.state]
      written := by simp [LoopExit.state]
      found := by simp [LoopExit.state, hfe]
      visited := fun k j h _ => (hnone _ _ k j h).elim
      xref := ?_
      trailer := ?_
      too_large := by intro s h; cases h
      finished_le := by intro s h; cases h; exact Or.inl rfl
      at_eof := by intro s h _; cases h; simp }
  · constructor
    · intro h; exact Or.inl h
    · rintro (h | ⟨-, k, j, h, -⟩)
      · exact h
      · exact (hnone _ _ k j h).elim
  · constructor
    · intro h; exact Or.inl h
    · rintro (h | ⟨-, k, j, h, -⟩)
      · exact h
      · exact (hnone _ _ k j h).elim

/-- The loop facts when the first chunk holds the first match of the end
marker, at `j0`: the loop is left with that chunk. -/
theorem facts_hit {formatIndex : Nat} (hf : formatIndex < 4) (rest : List Nat)
    (st : ScanState) (j0 : Nat) (exit : LoopExit)
    (hj0 : j0 + (endMarkerOf formatIndex).length ≤ (rest.take chunkSize).length)
    (hm0 : matchesSignature
        (rest.take chunkSize ++ st.readBuffer.drop (rest.take chunkSize).length) j0
        (endMarkerOf formatIndex) formatIndex = true)
    (hbefore : ∀ j, j < j0 → matchesSignature
        (rest.take chunkSize ++ st.readBuffer.drop (rest.take chunkSize).length) j
        (endMarkerOf formatIndex) formatIndex = false)
    (hpc : processChunk formatIndex st (rest.take chunkSize) =
      { readBuffer := rest.take chunkSize ++ st.readBuffer.drop (rest.take chunkSize).length
        written := st.written ++
          (rest.take chunkSize).take (j0 + (endMarkerOf formatIndex).length)
        xrefFound := tokenFlag
          (rest.take chunkSize ++ st.readBuffer.drop (rest.take chunkSize).length)
          formatIndex PDF_XREF (List.range (j0 + 1)) st.xrefFound
        trailerFound := tokenFlag
          (rest.take chunkSize ++ st.readBuffer.drop (rest.take chunkSize).length)
          formatIndex PDF_TRAILER (List.range (j0 + 1)) st.trailerFound
        foundEnd := true
        totalBytesWritten :=
          st.totalBytesWritten + (j0 + (endMarkerOf formatIndex).length) })
    (hexit :
      (exit = .tooLarge (processChunk formatIndex st (rest.take chunkSize)) ∧
        maxSizeOf formatIndex <
          (processChunk formatIndex st (rest.take chunkSize)).totalBytesWritten) ∨
      (exit = .finished (processChunk formatIndex st (rest.take chunkSize)) ∧
        (processChunk formatIndex st (rest.take chunkSize)).totalBytesWritten ≤
          maxSizeOf formatIndex)) :
    LoopFacts formatIndex rest st exit := by
  have hlen1 := (marker_formats hf).2
  have hc := take_chunk_length_le rest
  have hstate : exit.state = processChunk formatIndex st (rest.take chunkSize) := by
    rcases hexit with ⟨h, -⟩ | ⟨h, -⟩ <;> rw [h] <;> rfl
  have htok : ∀ (token : List Nat) (flag : Bool),
      tokenFlag (rest.take chunkSize ++ st.readBuffer.drop (rest.take chunkSize).length)
        formatIndex token (List.range (j0 + 1)) flag = true ↔
      (flag = true ∨ tokenSeen formatIndex st.readBuffer rest token st.totalBytesWritten
        (st.totalBytesWritten + (j0 + (endMarkerOf formatIndex).length))) := by
    intro token flag
    rw [tokenFlag_iff, tokenSeen_first_chunk hf _ _ _ _ _ hj0]
    constructor
    · rintro (h | ⟨h2, j, hj, hm⟩)
      · exact Or.inl h
      · exact Or.inr ⟨h2, j, by omega, hm⟩
    · rintro (h | ⟨h2, j, hj, hm⟩)
      · exact Or.inl h
      · exact Or.inr ⟨h2, j, by omega, hm⟩
  refine
    { total_le := by rw [hstate, hpc]; simp
      bytes_le := by rw [hstate, hpc]; simp only; omega
      written := ?_
      found := ?_
      visited := ?_
      xref := by rw [hstate, hpc]; exact htok _ _
      trailer := by rw [hstate, hpc]; exact htok _ _
      too_large := ?_
      finished_le := ?_
      at_eof := ?_ }
  · rw [hstate, hpc]
    simp only [Nat.add_sub_cancel_left, List.take_take]
    rw [Nat.min_eq_left (by omega)]
  · intro _
    refine ⟨0, j0, ?_, ?_⟩
    · rw [scannedMatch_zero]
      simp only [Bool.and_eq_true, decide_eq_true_eq]
      exact ⟨hj0, hm0⟩
    · rw [hstate, hpc]; simp
  · intro k j hm hb
    rw [hstate, hpc] at hb ⊢
    simp only at hb ⊢
    cases k with
    | zero =>
      rw [scannedMatch_zero] at hm
      simp only [Bool.and_eq_true, decide_eq_true_eq] at hm
      have hjle : j ≤ j0 := by omega
      rcases Nat.lt_or_eq_of_le hjle with hlt | heq
      · rw [hbefore j hlt] at hm
        exact absurd hm.2 (by simp)
      · subst heq
        exact ⟨trivial, by simp⟩
    | succ k =>
      exfalso
      have : chunkSize * (k + 1) = chunkSize * k + chunkSize := by ring
      omega
  · intro s hs
    rcases hexit with ⟨h, hlt⟩ | ⟨h, -⟩
    · rw [h] at hs; cases hs; exact hlt
    · rw [h] at hs; cases hs
  · intro s hs
    rcases hexit with ⟨h, -⟩ | ⟨h, hle⟩
    · rw [h] at hs; cases hs
    · rw [h] at hs; cases hs; exact Or.inr hle
  · intro s hs hfalse
    rcases hexit with ⟨h, -⟩ | ⟨h, -⟩
    · rw [h] at hs; cases hs
    · rw [h] at hs; cases hs
      rw [hpc] at hfalse
      simp at hfalse

/-- The loop facts when the first chunk holds no match and takes the total
over the maximum: the loop is left by `goto DELETE`. -/
theorem facts_no_hit_too_large {formatIndex : Nat} (hf : formatIndex < 4) (rest : List Nat)
    (st : ScanState)
    (hno : ∀ j, j + (endMarkerOf formatIndex).length ≤ (rest.take chunkSize).length →
      matchesSignature
        (rest.take chunkSize ++ st.readBuffer.drop (rest.take chunkSize).length) j
        (endMarkerOf formatIndex) formatIndex = false)
    (hpc : processChunk formatIndex st (rest.take chunkSize) =
      { readBuffer := rest.take chunkSize ++ st.readBuffer.drop (rest.take chunkSize).length
        written := st.written ++ rest.take chunkSize
        xrefFound := tokenFlag
          (rest.take chunkSize ++ st.readBuffer.drop (rest.take chunkSize).length)
          formatIndex PDF_XREF
          (List.range ((rest.take chunkSize).length + 1 - (endMarkerOf formatIndex).length))
          st.xrefFound
        trailerFound := tokenFlag
          (rest.take chunkSize ++ st.readBuffer.drop (rest.take chunkSize).length)
          formatIndex PDF_TRAILER
          (List.range ((rest.take chunkSize).length + 1 - (endMarkerOf formatIndex).length))
          st.trailerFound
        foundEnd := false
        totalBytesWritten := st.totalBytesWritten + (rest.take chunkSize).length })
    (hlarge : maxSizeOf formatIndex <
      (processChunk formatIndex st (rest.take chunkSize)).totalBytesWritten) :
    LoopFacts formatIndex rest st
      (.tooLarge (processChunk formatIndex st (rest.take chunkSize))) := by
  have hlen1 := (marker_formats hf).2
  have hc := take_chunk_length_le rest
  have htok : ∀ (token : List Nat) (flag : Bool),
      tokenFlag (rest.take chunkSize ++ st.readBuffer.drop (rest.take chunkSize).length)
        formatIndex token
        (List.range ((rest.take chunkSize).length + 1 - (endMarkerOf formatIndex).length))
        flag = true ↔
      (flag = true ∨ tokenSeen formatIndex st.readBuffer rest token st.totalBytesWritten
        (st.totalBytesWritten + (rest.take chunkSize).length)) := by
    intro token flag
    rw [tokenFlag_iff, tokenSeen_first_chunk hf _ _ _ _ _ (le_refl _)]
    constructor
    · rintro (h | ⟨h2, j, hj, hm⟩)
      · exact Or.inl h
      · exact Or.inr ⟨h2, j, by omega, hm⟩
    · rintro (h | ⟨h2, j, hj, hm⟩)
      · exact Or.inl h
      · exact Or.inr ⟨h2, j, by omega, hm⟩
  refine
    { total_le := by simp only [LoopExit.state]; rw [hpc]; simp
      bytes_le := by simp only [LoopExit.state]; rw [hpc]; simp only; omega
      written := ?_
      found := by simp only [LoopExit.state]; rw [hpc]; simp
      visited := ?_
      xref := by simp only [LoopExit.state]; rw [hpc]; exact htok _ _
      trailer := by simp only [LoopExit.state]; rw [hpc]; exact htok _ _
      too_large := by intro s hs; cases hs; exact hlarge
      finished_le := by intro s hs; cases hs
      at_eof := by intro s hs; cases hs }
  · simp only [LoopExit.state]
    rw [hpc]
    simp only [Nat.add_sub_cancel_left, take_length_take]
  · intro k j hm hb
    simp only [LoopExit.state] at hb ⊢
    rw [hpc] at hb ⊢
    simp only at hb ⊢
    exfalso
    cases k with
    | zero =>
      rw [scannedMatch_zero] at hm
      simp only [Bool.and_eq_true, decide_eq_true_eq] at hm
      rw [hno j hm.1] at hm
      exact absurd hm.2 (by simp)
    | succ k =>
      have : chunkSize * (k + 1) = chunkSize * k + chunkSize := by ring
      omega

theorem take_drop_chunk_length (rest : List Nat) :
    (rest.take chunkSize).length + (rest.drop chunkSize).length = rest.length := by
  simp only [List.length_take, List.length_drop]; omega

/-- A PDF flag at the exit, from its value after the first chunk and the
chunks after it. -/
theorem flag_continue {formatIndex : Nat} (hf : formatIndex < 4) (init rest token : List Nat)
    (base limit : Nat) (flag flagExit : Bool)
    (hlimit : base + (rest.take chunkSize).length ≤ limit)
    (h : flagExit = true ↔
      (tokenFlag (rest.take chunkSize ++ init.drop (rest.take chunkSize).length) formatIndex
          token (List.range ((rest.take chunkSize).length + 1 -
            (endMarkerOf formatIndex).length)) flag = true ∨
        tokenSeen formatIndex (rest.take chunkSize ++ init.drop (rest.take chunkSize).length)
          (rest.drop chunkSize) token (base + (rest.take chunkSize).length) limit)) :
    flagExit = true ↔ (flag = true ∨ tokenSeen formatIndex init rest token base limit) := by
  have hlen1 := (marker_formats hf).2
  rw [h, tokenFlag_iff, tokenSeen_step hf init rest token base limit]
  constructor
  · rintro ((h1 | ⟨h2, j, hj, hm⟩) | h3)
    · exact Or.inl h1
    · exact Or.inr (Or.inl ⟨h2, j, by omega, by omega, hm⟩)
    · exact Or.inr (Or.inr h3)
  · rintro (h1 | ⟨h2, j, hj, -, hm⟩ | h3)
    · exact Or.inl (Or.inl h1)
    · exact Or.inl (Or.inr ⟨h2, j, by omega, hm⟩)
    · exact Or.inr h3

/-- The loop facts when the first chunk holds no match and the loop goes on
with the next read. -/
theorem facts_continue {formatIndex : Nat} (hf : formatIndex < 4) (rest : List Nat)
    (st st' : ScanState) (exit : LoopExit)
    (hno : ∀ j, j + (endMarkerOf formatIndex).length ≤ (rest.take chunkSize).length →
      matchesSignature
        (rest.take chunkSize ++ st.readBuffer.drop (rest.take chunkSize).length) j
        (endMarkerOf formatIndex) formatIndex = false)
    (hrb : st'.readBuffer =
      rest.take chunkSize ++ st.readBuffer.drop (rest.take chunkSize).length)
    (hwr : st'.written = st.written ++ rest.take chunkSize)
    (hx : st'.xrefFound = tokenFlag
      (rest.take chunkSize ++ st.readBuffer.drop (rest.take chunkSize).length)
      formatIndex PDF_XREF
      (List.range ((rest.take chunkSize).length + 1 - (endMarkerOf formatIndex).length))
      st.xrefFound)
    (ht : st'.trailerFound = tokenFlag
      (rest.take chunkSize ++ st.readBuffer.drop (rest.take chunkSize).length)
      formatIndex PDF_TRAILER
      (List.range ((rest.take chunkSize).length + 1 - (endMarkerOf formatIndex).length))
      st.trailerFound)
    (htot : st'.totalBytesWritten = st.totalBytesWritten + (rest.take chunkSize).length)
    (hle : st'.totalBytesWritten ≤ maxSizeOf formatIndex)
    (ih : LoopFacts formatIndex (rest.drop chunkSize) st' exit) :
    LoopFacts formatIndex rest st exit := by
  have hlen1 := (marker_formats hf).2
  have hc := take_chunk_length_le rest
  have hsum := take_drop_chunk_length rest
  have h1 := ih.total_le
  have h2 := ih.bytes_le
  refine
    { total_le := by omega
      bytes_le := by omega
      written := ?_
      found := ?_
      visited := ?_
      xref := ?_
      trailer := ?_
      too_large := ih.too_large
      finished_le := ?_
      at_eof := ?_ }
  · rw [ih.written, hwr]
    have hsplit : exit.state.totalBytesWritten - st.totalBytesWritten =
        (rest.take chunkSize).length +
          (exit.state.totalBytesWritten - st'.totalBytesWritten) := by omega
    rw [hsplit, List.take_add, take_length_take, drop_length_take, List.append_assoc]
  · intro hfound
    obtain ⟨k, j, hm, htotal⟩ := ih.found hfound
    have hfull := take_chunk_full (scannedMatch_rest_ne_nil hf hm)
    refine ⟨k + 1, j, ?_, ?_⟩
    · rw [scannedMatch_succ, ← hrb]; exact hm
    · have : chunkSize * (k + 1) = chunkSize * k + chunkSize := by ring
      omega
  · intro k j hm hb
    cases k with
    | zero =>
      exfalso
      rw [scannedMatch_zero] at hm
      simp only [Bool.and_eq_true, decide_eq_true_eq] at hm
      rw [hno j hm.1] at hm
      exact absurd hm.2 (by simp)
    | succ k =>
      rw [scannedMatch_succ, ← hrb] at hm
      have hfull := take_chunk_full (scannedMatch_rest_ne_nil hf hm)
      have hmul : chunkSize * (k + 1) = chunkSize * k + chunkSize := by ring
      obtain ⟨hfe, htotal⟩ := ih.visited k j hm (by omega)
      exact ⟨hfe, by omega⟩
  · apply flag_continue hf st.readBuffer rest PDF_XREF st.totalBytesWritten
      exit.state.totalBytesWritten st.xrefFound exit.state.xrefFound (by omega)
    rw [← hx, ← hrb, ← htot]
    exact ih.xref
  · apply flag_continue hf st.readBuffer rest PDF_TRAILER st.totalBytesWritten
      exit.state.totalBytesWritten st.trailerFound exit.state.trailerFound (by omega)
    rw [← ht, ← hrb, ← htot]
    exact ih.trailer
  · intro s hs
    rcases ih.finished_le s hs with h | h
    · right; rw [h]; exact hle
    · exact Or.inr h
  · intro s hs hfe
    have := ih.at_eof s hs hfe
    omega

/-- The facts of the loop of `extractFile`, for the four formats that have an
end marker of their own and a state in which `foundEnd` is not set. -/
theorem extractLoop_facts {formatIndex : Nat} (hf : formatIndex < 4) :
    ∀ (n : Nat) (rest : List Nat) (st : ScanState), rest.length = n →
      st.foundEnd = false →
      LoopFacts formatIndex rest st (extractLoop formatIndex rest st) := by
  intro n
  induction n using Nat.strong_induction_on with
  | _ n ih =>
    intro rest st hn hfe
    by_cases hnil : rest = []
    · subst hnil
      rw [extractLoop_nil]
      exact facts_nil hf st hfe
    · rw [extractLoop_step formatIndex rest st hfe hnil]
      have hpos : 0 < rest.length := List.length_pos.mpr hnil
      have hshort : (rest.drop chunkSize).length < n := by
        simp only [List.length_drop, chunkSize]; omega
      rcases processChunk_cases hf st (rest.take chunkSize) with
        ⟨hno, hpc⟩ | ⟨j0, hj0, hm0, hbefore, hpc⟩
      · by_cases hlarge : (processChunk formatIndex st (rest.take chunkSize)).totalBytesWritten >
            maxSizeOf formatIndex
        · rw [if_pos hlarge]
          exact facts_no_hit_too_large hf rest st hno hpc hlarge
        · rw [if_neg hlarge]
          have hfe' : (processChunk formatIndex st (rest.take chunkSize)).foundEnd = false := by
            rw [hpc]
          exact facts_continue hf rest st _ _ hno (by rw [hpc]) (by rw [hpc])
            (by rw [hpc]) (by rw [hpc]) (by rw [hpc]) (by omega)
            (ih _ hshort _ _ rfl hfe')
      · by_cases hlarge : (processChunk formatIndex st (rest.take chunkSize)).totalBytesWritten >
            maxSizeOf formatIndex
        · rw [if_pos hlarge]
          exact facts_hit hf rest st j0 _ hj0 hm0 hbefore hpc (Or.inl ⟨rfl, hlarge⟩)
        · rw [if_neg hlarge]
          have hfe' : (processChunk formatIndex st (rest.take chunkSize)).foundEnd = true := by
            rw [hpc]
          rw [extractLoop_found _ _ _ hfe']
          exact facts_hit hf rest st j0 _ hj0 hm0 hbefore hpc (Or.inr ⟨rfl, by omega⟩)

/-! ## The read buffer and the stream -/

theorem readBufferAt_eq (k : Nat) : ∀ (init rest : List Nat),
    ∃ tail, readBufferAt init rest k = chunkAt rest k ++ tail := by
  induction k with
  | zero => intro init rest; exact ⟨_, by rw [readBufferAt, chunkAt_zero]⟩
  | succ k ih =>
    intro init rest
    obtain ⟨tail, h⟩ := ih (rest.take chunkSize ++ init.drop (rest.take chunkSize).length)
      (rest.drop chunkSize)
    exact ⟨tail, by rw [readBufferAt, h, chunkAt_succ]⟩

theorem readBufferAt_length (k : Nat) : ∀ (init rest : List Nat), init.length = chunkSize →
    (readBufferAt init rest k).length = chunkSize := by
  induction k with
  | zero =>
    intro init rest h
    have hc := take_chunk_length_le rest
    rw [readBufferAt, List.length_append, List.length_drop]; omega
  | succ k ih =>
    intro init rest h
    have hc := take_chunk_length_le rest
    rw [readBufferAt]
    apply ih
    rw [List.length_append, List.length_drop]; omega

theorem chunkAt_drop_take (rest : List Nat) (k j n : Nat) (h : j + n ≤ (chunkAt rest k).length) :
    ((chunkAt rest k).drop j).take n = (rest.drop (chunkSize * k + j)).take n := by
  have hle := chunkAt_length_le rest k
  rw [chunkAt, List.drop_take, List.take_take, List.drop_drop, Nat.min_eq_left (by omega)]

/-- A token no longer than the end marker that is matched at a tested position
stands at that place in the stream. -/
theorem scannedMatch_data {formatIndex : Nat} {init rest token : List Nat}
    {tokenFormat k j : Nat}
    (h : scannedMatch formatIndex init rest token tokenFormat k j = true)
    (hlen : token.length ≤ (endMarkerOf formatIndex).length) :
    token <+: rest.drop (chunkSize * k + j) := by
  simp only [scannedMatch, Bool.and_eq_true, decide_eq_true_eq] at h
  obtain ⟨hj, hm⟩ := h
  obtain ⟨tail, hbuf⟩ := readBufferAt_eq k init rest
  have hp := matchesSignature_occurrence hm
  rw [hbuf, List.drop_append_of_le_length (by omega), List.prefix_iff_eq_take,
    List.take_append_of_le_length (by rw [List.length_drop]; omega),
    chunkAt_drop_take rest k j _ (by omega)] at hp
  rw [List.prefix_iff_eq_take]
  exact hp

/-- A token that stands in the stream wholly inside chunk `k`, at a tested
position `j`, is matched there (for a format other than 1). -/
theorem scannedMatch_of_data {formatIndex : Nat} {init rest token : List Nat}
    {tokenFormat k j : Nat} (htf : tokenFormat ≠ 1) (hinit : init.length = chunkSize)
    (hj : j + (endMarkerOf formatIndex).length ≤ (chunkAt rest k).length)
    (hjt : j + token.length ≤ (chunkAt rest k).length)
    (h : token <+: rest.drop (chunkSize * k + j)) :
    scannedMatch formatIndex init rest token tokenFormat k j = true := by
  simp only [scannedMatch, Bool.and_eq_true, decide_eq_true_eq]
  refine ⟨hj, ?_⟩
  obtain ⟨tail, hbuf⟩ := readBufferAt_eq k init rest
  have hlenb := readBufferAt_length k init rest hinit
  have hle := chunkAt_length_le rest k
  apply matchesSignature_of_occurrence htf (by omega)
  rw [hbuf, List.drop_append_of_le_length (by omega), List.prefix_iff_eq_take,
    List.take_append_of_le_length (by rw [List.length_drop]; omega),
    chunkAt_drop_take rest k j _ hjt]
  exact List.prefix_iff_eq_take.mp h

theorem chunkAt_length (rest : List Nat) (k : Nat) :
    (chunkAt rest k).length = min chunkSize (rest.length - chunkSize * k) := by
  simp [chunkAt]

/-! ## The loop of `extractFile` from its initial state -/

theorem scanFrom_facts (formatIndex : Nat) (hf : formatIndex < 4) (device : List Nat)
    (fileStart : Nat) :
    LoopFacts formatIndex (device.drop fileStart) initialScan
      (scanFrom device fileStart formatIndex) :=
  extractLoop_facts hf _ _ _ rfl rfl

theorem scanFrom_written_length {formatIndex : Nat} (hf : formatIndex < 4) (device : List Nat)
    (fileStart : Nat) :
    (scanFrom device fileStart formatIndex).state.written.length =
      (scanFrom device fileStart formatIndex).state.totalBytesWritten := by
  have h := scanFrom_facts _ hf device fileStart
  have h1 := h.bytes_le
  simp only [initialScan, Nat.zero_add] at h1
  rw [h.written]
  simp only [initialScan, List.nil_append, Nat.sub_zero, List.length_take]
  omega

theorem scanFrom_written {formatIndex : Nat} (hf : formatIndex < 4) (device : List Nat)
    (fileStart : Nat) :
    (scanFrom device fileStart formatIndex).state.written =
      (device.drop fileStart).take
        (scanFrom device fileStart formatIndex).state.totalBytesWritten := by
  have h := scanFrom_facts _ hf device fileStart
  rw [h.written]
  simp [initialScan]

/-- When the loop is left with `foundEnd` set, what was written ends with the
end marker of the format. -/
theorem scanFrom_found_suffix {formatIndex : Nat} (hf : formatIndex < 4) (device : List Nat)
    (fileStart : Nat)
    (hfound : (scanFrom device fileStart formatIndex).state.foundEnd = true) :
    endMarkerOf formatIndex <:+ (scanFrom device fileStart formatIndex).state.written := by
  have h := scanFrom_facts _ hf device fileStart
  obtain ⟨k, j, hm, htotal⟩ := h.found hfound
  have hp := scannedMatch_data hm (le_refl _)
  rw [scanFrom_written hf, htotal]
  simp only [initialScan, Nat.zero_add]
  rw [List.take_add]
  rw [List.prefix_iff_eq_take] at hp
  rw [← hp]
  exact List.suffix_append _ _

/-! ## The end of `extractFile` -/

theorem extractFile_outFile_some {io : IoEnv} {device : List Nat} {fileStart : Nat}
    {fileCount : Int} {formatIndex : Nat} {File_Count : List Int} {file : OutFile}
    (h : (extractFile io device fileStart fileCount formatIndex File_Count).outFile =
      some file) :
    io.reopenOk = true ∧ io.createOk = true ∧
    ∃ st, scanFrom device fileStart formatIndex = .finished st ∧
      minSizeOf formatIndex ≤ st.totalBytesWritten ∧
      st.totalBytesWritten ≤ maxSizeOf formatIndex ∧
      (formatIndex = 2 → st.xrefFound = true ∧ st.trailerFound = true) ∧
      file.formatIndex = formatIndex ∧
      file.number = (bumpCount File_Count formatIndex).getD formatIndex 0 ∧
      ((st.foundEnd = true ∧ file.content = st.written) ∨
        (st.foundEnd = false ∧ formatIndex = 2 ∧
          file.content = st.written ++ endMarkerOf formatIndex)) := by
  unfold extractFile at h
  by_cases hr : io.reopenOk = true
  · by_cases hc : io.createOk = true
    · simp only [hr, hc, Bool.not_true, if_false] at h
      refine ⟨hr, hc, ?_⟩
      cases hs : scanFrom device fileStart formatIndex with
      | tooLarge st => rw [hs] at h; simp at h
      | finished st =>
        rw [hs] at h
        simp only at h
        refine ⟨st, rfl, ?_⟩
        have hcases : (st.totalBytesWritten < minSizeOf formatIndex ∨
            maxSizeOf formatIndex < st.totalBytesWritten) ∨
            (minSizeOf formatIndex ≤ st.totalBytesWritten ∧
              st.totalBytesWritten ≤ maxSizeOf formatIndex) := by omega
        rcases hcases with hbad | ⟨hmin, hmax⟩
        · exfalso
          by_cases h2 : formatIndex = 2
          · subst h2
            rcases Bool.eq_false_or_eq_true st.foundEnd with hfe | hfe <;>
              rcases Bool.eq_false_or_eq_true st.xrefFound with hx | hx <;>
              rcases Bool.eq_false_or_eq_true st.trailerFound with ht | ht <;>
              simp [hfe, hx, ht, hbad] at h
          · rcases Bool.eq_false_or_eq_true st.foundEnd with hfe | hfe <;>
              simp [hfe, h2, hbad] at h
        · have hgood : ¬ (st.totalBytesWritten < minSizeOf formatIndex ∨
              maxSizeOf formatIndex < st.totalBytesWritten) := by omega
          refine ⟨hmin, hmax, ?_⟩
          by_cases h2 : formatIndex = 2
          · subst h2
            rcases Bool.eq_false_or_eq_true st.foundEnd with hfe | hfe <;>
              rcases Bool.eq_false_or_eq_true st.xrefFound with hx | hx <;>
              rcases Bool.eq_false_or_eq_true st.trailerFound with ht | ht <;>
              simp [hfe, hx, ht, hgood] at h <;>
              subst h <;> simp [hfe, hx, ht]
          · rcases Bool.eq_false_or_eq_true st.foundEnd with hfe | hfe
            · simp [hfe, h2, hgood] at h
              subst h
              simp [hfe, h2]
            · simp [hfe, h2, hgood] at h
    · simp [hr, hc] at h
  · simp [hr] at h

theorem extractFile_kept (io : IoEnv) {device : List Nat} {fileStart : Nat}
    (fileCount : Int) {formatIndex : Nat} (File_Count : List Int) {st : ScanState}
    (hr : io.reopenOk = true) (hc : io.createOk = true)
    (hs : scanFrom device fileStart formatIndex = .finished st)
    (hfe : st.foundEnd = true)
    (hmin : minSizeOf formatIndex ≤ st.totalBytesWritten)
    (hmax : st.totalBytesWritten ≤ maxSizeOf formatIndex)
    (hpdf : formatIndex = 2 → st.xrefFound = true ∧ st.trailerFound = true) :
    extractFile io device fileStart fileCount formatIndex File_Count =
      ⟨bumpCount File_Count formatIndex, fileCount,
        some ⟨formatIndex, (bumpCount File_Count formatIndex).getD formatIndex 0,
          st.written⟩⟩ := by
  have hgood : ¬ (st.totalBytesWritten < minSizeOf formatIndex ∨
      maxSizeOf formatIndex < st.totalBytesWritten) := by omega
  by_cases h2 : formatIndex = 2
  · obtain ⟨hx, ht⟩ := hpdf h2
    subst h2
    simp [extractFile, hr, hc, hs, hfe, hx, ht, hgood]
  · simp [extractFile, hr, hc, hs, hfe, h2, hgood]

theorem extractFile_synthesised (io : IoEnv) {device : List Nat} {fileStart : Nat}
    (fileCount : Int) (File_Count : List Int) {st : ScanState}
    (hr : io.reopenOk = true) (hc : io.createOk = true)
    (hs : scanFrom device fileStart 2 = .finished st)
    (hfe : st.foundEnd = false) (hx : st.xrefFound = true) (ht : st.trailerFound = true)
    (hmin : minSizeOf 2 ≤ st.totalBytesWritten)
    (hmax : st.totalBytesWritten ≤ maxSizeOf 2) :
    extractFile io device fileStart fileCount 2 File_Count =
      ⟨bumpCount File_Count 2, fileCount,
        some ⟨2, (bumpCount File_Count 2).getD 2 0, st.written ++ PDF_END⟩⟩ := by
  have hgood : ¬ (st.totalBytesWritten < minSizeOf 2 ∨
      maxSizeOf 2 < st.totalBytesWritten) := by omega
  simp [extractFile, hr, hc, hs, hfe, hx, ht, hgood, endMarkerOf, END_MARKERS]

/-- Whatever the loop did, a call of `extractFile` that opened both streams
leaves `File_Count` with the entry of the format one higher. -/
theorem extractFile_File_Count (io : IoEnv) (device : List Nat) (fileStart : Nat)
    (fileCount : Int) (formatIndex : Nat) (File_Count : List Int)
    (hr : io.reopenOk = true) :
    (extractFile io device fileStart fileCount formatIndex File_Count).File_Count =
      bumpCount File_Count formatIndex := by
  unfold extractFile
  simp only [hr, Bool.not_true, Bool.false_eq_true, if_false]
  by_cases hc : io.createOk = true
  · simp only [hc, Bool.not_true, Bool.false_eq_true, if_false]
    cases scanFrom device fileStart formatIndex with
    | tooLarge st => rfl
    | finished st => simp only; split_ifs <;> rfl
  · simp [hc]

/-- A call of `extractFile` that leaves no file and opened both streams takes
one off the caller's `fileCount`. -/
theorem extractFile_none_fileCount (io : IoEnv) (device : List Nat) (fileStart : Nat)
    (fileCount : Int) (formatIndex : Nat) (File_Count : List Int)
    (hr : io.reopenOk = true) (hc : io.createOk = true)
    (hnone : (extractFile io device fileStart fileCount formatIndex File_Count).outFile = none) :
    (extractFile io device fileStart fileCount formatIndex File_Count).fileCount =
      fileCount - 1 := by
  unfold extractFile at hnone ⊢
  simp only [hr, hc, Bool.not_true, Bool.false_eq_true, if_false] at hnone ⊢
  cases hs : scanFrom device fileStart formatIndex with
  | tooLarge st => rfl
  | finished st =>
    rw [hs] at hnone
    simp only at hnone ⊢
    split_ifs at hnone ⊢ <;> rfl

/-! ## Occurrences of a token in a list -/

/-- The bytes of a token that stands at offset `p` all lie in the first
`p + token.length` bytes. -/
theorem mem_take_of_prefix_drop {token l : List Nat} {p n : Nat}
    (h : token <+: l.drop p) (hn : p + token.length ≤ n) {x : Nat} (hx : x ∈ token) :
    x ∈ l.take n := by
  have h1 : token = (l.drop p).take token.length := List.prefix_iff_eq_take.mp h
  rw [List.take_drop] at h1
  have h2 : x ∈ l.take (p + token.length) := by
    have : x ∈ List.drop p (List.take (p + token.length) l) := by rw [← h1]; exact hx
    exact List.mem_of_mem_drop this
  exact (List.take_subset_take_left l hn) h2

/-- The first byte of a token that stands at offset `p` lies in the first
`p + 1` bytes. -/
theorem head_mem_take_of_prefix_drop {x : Nat} {token l : List Nat} {p n : Nat}
    (h : (x :: token) <+: l.drop p) (hn : p < n) : x ∈ l.take n := by
  have h1 : [x] <+: l.drop p := by
    obtain ⟨t, ht⟩ := h
    exact ⟨token ++ t, by simpa using ht⟩
  exact mem_take_of_prefix_drop h1 (by simpa using hn) (List.mem_singleton_self x)

/-- A token with a byte that does not occur before the last byte of its
occurrence after `body` stands at no offset inside `body`. -/
theorem no_earlier_occurrence (body token suffix : List Nat) (x : Nat) (hx : x ∈ token)
    (hnot : x ∉ body ++ token.dropLast) :
    ∀ p, p < body.length → ¬ token <+: (body ++ token ++ suffix).drop p := by
  intro p hp h
  have hne : token ≠ [] := List.ne_nil_of_mem hx
  have hpos : 0 < token.length := List.length_pos.mpr hne
  have hmem := mem_take_of_prefix_drop (n := body.length + (token.length - 1)) h (by omega) hx
  apply hnot
  have htake : (body ++ token ++ suffix).take (body.length + (token.length - 1)) =
      body ++ token.dropLast := by
    rw [List.append_assoc, List.take_append, List.take_append_of_le_length (by omega),
      List.dropLast_eq_take]
  rw [← htake]
  exact hmem

theorem not_infix_of_not_mem {token l : List Nat} {x : Nat} (hx : x ∈ token) (hnot : x ∉ l) :
    ¬ token <:+: l := fun h => hnot (h.subset hx)

theorem no_occurrence_of_not_mem {token l : List Nat} {x : Nat} (hx : x ∈ token)
    (hnot : x ∉ l) (p : Nat) : ¬ token <+: l.drop p := fun h =>
  hnot ((List.drop_subset p l) (h.subset hx))

theorem no_occurrence_at {token l : List Nat} (h : ¬ token <:+: l) (p : Nat) :
    ¬ token <+: l.drop p := fun hp =>
  h (hp.isInfix.trans (List.drop_suffix p l).isInfix)

/-! ## Evaluating the loop of `extractFile` -/

/-- No tested position matches the end marker and the stream fits in the
maximum: the loop reads the stream to its end. -/
theorem scanFrom_no_marker (formatIndex : Nat) (hf : formatIndex < 4) (device : List Nat)
    (fileStart : Nat)
    (hno : ∀ k j, scannedMatch formatIndex initialScan.readBuffer (device.drop fileStart)
      (endMarkerOf formatIndex) formatIndex k j = false)
    (hsize : (device.drop fileStart).length ≤ maxSizeOf formatIndex) :
    ∃ st, scanFrom device fileStart formatIndex = .finished st ∧ st.foundEnd = false ∧
      st.written = device.drop fileStart ∧
      st.totalBytesWritten = (device.drop fileStart).length ∧
      (st.xrefFound = true ↔ tokenSeen formatIndex initialScan.readBuffer
        (device.drop fileStart) PDF_XREF 0 (device.drop fileStart).length) ∧
      (st.trailerFound = true ↔ tokenSeen formatIndex initialScan.readBuffer
        (device.drop fileStart) PDF_TRAILER 0 (device.drop fileStart).length) := by
  have h := scanFrom_facts _ hf device fileStart
  have hwr := scanFrom_written hf device fileStart
  cases hs : scanFrom device fileStart formatIndex with
  | tooLarge st =>
    exfalso
    rw [hs] at h
    have h1 := h.too_large st rfl
    have h2 := h.bytes_le
    simp only [LoopExit.state, initialScan, Nat.zero_add] at h2
    omega
  | finished st =>
    rw [hs] at h hwr
    simp only [LoopExit.state] at hwr
    have hfe : st.foundEnd = false := by
      rcases Bool.eq_false_or_eq_true st.foundEnd with hfe | hfe
      · obtain ⟨k, j, hm, -⟩ := h.found hfe
        rw [hno k j] at hm
        exact absurd hm (by simp)
      · exact hfe
    have htot := h.at_eof st rfl hfe
    simp only [initialScan, Nat.zero_add] at htot
    refine ⟨st, rfl, hfe, ?_, htot, ?_, ?_⟩
    · rw [hwr, htot, List.take_length]
    · have := h.xref
      simpa [LoopExit.state, initialScan, htot] using this
    · have := h.trailer
      simpa [LoopExit.state, initialScan, htot] using this

/-- The first tested position that matches the end marker is `j0` of chunk
`k0`, and the bytes up to the end of the marker fit in the maximum: the loop
stops there. -/
theorem scanFrom_first_marker (formatIndex : Nat) (hf : formatIndex < 4) (device : List Nat)
    (fileStart k0 j0 : Nat)
    (hm0 : scannedMatch formatIndex initialScan.readBuffer (device.drop fileStart)
      (endMarkerOf formatIndex) formatIndex k0 j0 = true)
    (hno : ∀ k j, chunkSize * k + j < chunkSize * k0 + j0 →
      scannedMatch formatIndex initialScan.readBuffer (device.drop fileStart)
        (endMarkerOf formatIndex) formatIndex k j = false)
    (hsize : chunkSize * k0 + j0 + (endMarkerOf formatIndex).length ≤ maxSizeOf formatIndex) :
    ∃ st, scanFrom device fileStart formatIndex = .finished st ∧ st.foundEnd = true ∧
      st.written = (device.drop fileStart).take
        (chunkSize * k0 + j0 + (endMarkerOf formatIndex).length) ∧
      st.totalBytesWritten = chunkSize * k0 + j0 + (endMarkerOf formatIndex).length ∧
      (st.xrefFound = true ↔ tokenSeen formatIndex initialScan.readBuffer
        (device.drop fileStart) PDF_XREF 0
        (chunkSize * k0 + j0 + (endMarkerOf formatIndex).length)) ∧
      (st.trailerFound = true ↔ tokenSeen formatIndex initialScan.readBuffer
        (device.drop fileStart) PDF_TRAILER 0
        (chunkSize * k0 + j0 + (endMarkerOf formatIndex).length)) := by
  have h := scanFrom_facts _ hf device fileStart
  have hwr := scanFrom_written hf device fileStart
  have hlen1 := (marker_formats hf).2
  have hin : chunkSize * k0 + j0 + (endMarkerOf formatIndex).length ≤
      (device.drop fileStart).length := by
    have h0 := hm0
    simp only [scannedMatch, Bool.and_eq_true, decide_eq_true_eq] at h0
    have := chunkAt_length (device.drop fileStart) k0
    omega
  have key : ∀ st, (scanFrom device fileStart formatIndex).state = st →
      (st.foundEnd = false → scanFrom device fileStart formatIndex = .finished st →
        st.totalBytesWritten = (device.drop fileStart).length) →
      (chunkSize * k0 + j0 + (endMarkerOf formatIndex).length ≤ st.totalBytesWritten ∨
        maxSizeOf formatIndex < st.totalBytesWritten ∨
        scanFrom device fileStart formatIndex = .finished st) →
      st.foundEnd = true ∧
        st.totalBytesWritten = chunkSize * k0 + j0 + (endMarkerOf formatIndex).length := by
    intro st hst heof hexit
    have hvis := h.visited k0 j0 hm0
    rw [hst] at hvis
    simp only [initialScan, Nat.zero_add] at hvis
    by_cases hge : chunkSize * k0 + j0 + (endMarkerOf formatIndex).length ≤
        st.totalBytesWritten
    · exact hvis hge
    · exfalso
      rcases hexit with h1 | h1 | h1
      · exact hge h1
      · omega
      · rcases Bool.eq_false_or_eq_true st.foundEnd with hfe | hfe
        · have hfound := h.found
          rw [hst] at hfound
          obtain ⟨k, j, hm, htotal⟩ := hfound hfe
          simp only [initialScan, Nat.zero_add] at htotal hm
          have := hno k j (by omega)
          simp only [initialScan] at this
          rw [this] at hm
          exact absurd hm (by simp)
        · have := heof hfe h1
          omega
  cases hs : scanFrom device fileStart formatIndex with
  | tooLarge st =>
    exfalso
    rw [hs] at h key
    have h1 := h.too_large st rfl
    obtain ⟨-, h2⟩ := key st rfl (fun _ hfin => by cases hfin) (Or.inr (Or.inl h1))
    omega
  | finished st =>
    rw [hs] at h key hwr
    simp only [LoopExit.state] at hwr
    obtain ⟨hfe, htot⟩ := key st rfl
      (fun hfe _ => by simpa [initialScan] using h.at_eof st rfl hfe) (Or.inr (Or.inr rfl))
    refine ⟨st, rfl, hfe, ?_, htot, ?_, ?_⟩
    · rw [hwr, htot]
    · have := h.xref
      simpa [LoopExit.state, initialScan, htot] using this
    · have := h.trailer
      simpa [LoopExit.state, initialScan, htot] using this

theorem initialScan_readBuffer_length : initialScan.readBuffer.length = chunkSize := by
  simp [initialScan]

/-- The data form of `scanFrom_first_marker`, for a format other than 1: the
stream is `body ++ marker ++ suffix`, the marker stands at no earlier offset
and does not straddle a multiple of `chunkSize`. -/
theorem scanFrom_body_marker (formatIndex : Nat) (hf : formatIndex < 4) (h1 : formatIndex ≠ 1)
    (device : List Nat) (fileStart : Nat) (body suffix : List Nat)
    (hdev : device.drop fileStart = body ++ endMarkerOf formatIndex ++ suffix)
    (halign : body.length % chunkSize + (endMarkerOf formatIndex).length ≤ chunkSize)
    (hfirst : ∀ p, p < body.length →
      ¬ endMarkerOf formatIndex <+: (body ++ endMarkerOf formatIndex ++ suffix).drop p)
    (hsize : body.length + (endMarkerOf formatIndex).length ≤ maxSizeOf formatIndex) :
    ∃ st, scanFrom device fileStart formatIndex = .finished st ∧ st.foundEnd = true ∧
      st.written = body ++ endMarkerOf formatIndex ∧
      st.totalBytesWritten = body.length + (endMarkerOf formatIndex).length ∧
      (st.xrefFound = true ↔ tokenSeen formatIndex initialScan.readBuffer
        (device.drop fileStart) PDF_XREF 0
        (body.length + (endMarkerOf formatIndex).length)) ∧
      (st.trailerFound = true ↔ tokenSeen formatIndex initialScan.readBuffer
        (device.drop fileStart) PDF_TRAILER 0
        (body.length + (endMarkerOf formatIndex).length)) := by
  have hcs := chunkSize_eq
  have hpos : chunkSize * (body.length / chunkSize) + body.length % chunkSize = body.length :=
    Nat.div_add_mod body.length chunkSize
  have hclen := chunkAt_length (body ++ endMarkerOf formatIndex ++ suffix)
    (body.length / chunkSize)
  have hl : (body ++ endMarkerOf formatIndex ++ suffix).length =
      body.length + (endMarkerOf formatIndex).length + suffix.length := by
    simp only [List.length_append]
  have hm0 : scannedMatch formatIndex initialScan.readBuffer (device.drop fileStart)
      (endMarkerOf formatIndex) formatIndex (body.length / chunkSize)
      (body.length % chunkSize) = true := by
    rw [hdev]
    apply scannedMatch_of_data h1 initialScan_readBuffer_length
    · omega
    · omega
    · rw [hpos, List.append_assoc, List.drop_left]
      exact List.prefix_append _ _
  obtain ⟨st, hs, hfe, hwr, htot, hx, ht⟩ := scanFrom_first_marker _ hf device fileStart
    (body.length / chunkSize) (body.length % chunkSize) hm0
    (by
      intro k j hlt
      rcases Bool.eq_false_or_eq_true (scannedMatch formatIndex initialScan.readBuffer
        (device.drop fileStart) (endMarkerOf formatIndex) formatIndex k j) with hm | hm
      · exfalso
        have := scannedMatch_data hm (le_refl _)
        rw [hdev] at this
        exact hfirst _ (by omega) this
      · exact hm)
    (by omega)
  rw [hpos] at hwr htot hx ht
  refine ⟨st, hs, hfe, ?_, htot, hx, ht⟩
  have hbl : (body ++ endMarkerOf formatIndex).length =
      body.length + (endMarkerOf formatIndex).length := List.length_append _ _
  rw [hwr, hdev, ← hbl]
  exact List.take_left _ _

/-- The data form of `scanFrom_no_marker`: the end marker does not occur in the
stream. -/
theorem scanFrom_without_marker (formatIndex : Nat) (hf : formatIndex < 4)
    (device : List Nat) (fileStart : Nat)
    (hno : ¬ endMarkerOf formatIndex <:+: device.drop fileStart)
    (hsize : (device.drop fileStart).length ≤ maxSizeOf formatIndex) :
    ∃ st, scanFrom device fileStart formatIndex = .finished st ∧ st.foundEnd = false ∧
      st.written = device.drop fileStart ∧
      st.totalBytesWritten = (device.drop fileStart).length ∧
      (st.xrefFound = true ↔ tokenSeen formatIndex initialScan.readBuffer
        (device.drop fileStart) PDF_XREF 0 (device.drop fileStart).length) ∧
      (st.trailerFound = true ↔ tokenSeen formatIndex initialScan.readBuffer
        (device.drop fileStart) PDF_TRAILER 0 (device.drop fileStart).length) := by
  apply scanFrom_no_marker _ hf device fileStart _ hsize
  intro k j
  rcases Bool.eq_false_or_eq_true (scannedMatch formatIndex initialScan.readBuffer
    (device.drop fileStart) (endMarkerOf formatIndex) formatIndex k j) with hm | hm
  · exact absurd (scannedMatch_data hm (le_refl _)) (no_occurrence_at hno _)
  · exact hm

theorem endMarkerOf_zero : endMarkerOf 0 = PNG_IEND := rfl

theorem endMarkerOf_one : endMarkerOf 1 = JPEG_END := rfl

theorem endMarkerOf_two : endMarkerOf 2 = PDF_END := rfl

theorem endMarkerOf_three : endMarkerOf 3 = ZIP_END := rfl

theorem pngFile_length (n : Nat) : (pngFile n).length = n + 20 := by
  simp [pngFile, PNG_SIGNATURE, PNG_IEND]

/-- The loop of `extractFile` on a PNG candidate `pngFile n` followed by
`suffix`, when the end marker does not straddle a multiple of `chunkSize`. -/
theorem scanFrom_pngFile (n : Nat) (suffix : List Nat)
    (halign : (n + 8) % chunkSize + 12 ≤ chunkSize) (hsize : n + 20 ≤ maxSizeOf 0) :
    ∃ st, scanFrom (pngFile n ++ suffix) 0 0 = .finished st ∧ st.foundEnd = true ∧
      st.written = pngFile n ∧ st.totalBytesWritten = n + 20 := by
  have hbody : (PNG_SIGNATURE ++ List.replicate n 1).length = n + 8 := by
    simp [PNG_SIGNATURE]
  obtain ⟨st, hs, hfe, hwr, htot, -, -⟩ := scanFrom_body_marker 0
    (by decide) (by decide) (pngFile n ++ suffix) 0 (PNG_SIGNATURE ++ List.replicate n 1) suffix
    (by simp [pngFile, endMarkerOf_zero])
    (by rw [hbody, endMarkerOf_zero]; exact halign)
    (no_earlier_occurrence _ _ _ 0x82 (by simp [endMarkerOf_zero, PNG_IEND])
      (by simp [endMarkerOf_zero, PNG_IEND, PNG_SIGNATURE, List.mem_replicate]))
    (by rw [hbody, endMarkerOf_zero]; simp only [PNG_IEND, List.length_cons, List.length_nil]; omega)
  refine ⟨st, hs, hfe, ?_, ?_⟩
  · rw [hwr, endMarkerOf_zero, pngFile]
  · rw [htot, hbody, endMarkerOf_zero]; simp [PNG_IEND]

theorem minSizeOf_zero : minSizeOf 0 = 1024 := rfl

theorem maxSizeOf_zero : maxSizeOf 0 = 20971520 := rfl

theorem minSizeOf_two : minSizeOf 2 = 1024 := rfl

theorem maxSizeOf_two : maxSizeOf 2 = 52428800 := rfl

/-- The call of `extractFile` on a PNG candidate of a length within the
bounds: the candidate is the output file. -/
theorem extractFile_pngFile (n : Nat) (suffix : List Nat) (fileCount : Int)
    (File_Count : List Int)
    (halign : (n + 8) % chunkSize + 12 ≤ chunkSize) (hmin : 1024 ≤ n + 20)
    (hmax : n + 20 ≤ 20971520) :
    extractFile ioOk (pngFile n ++ suffix) 0 fileCount 0 File_Count =
      ⟨bumpCount File_Count 0, fileCount,
        some ⟨0, (bumpCount File_Count 0).getD 0 0, pngFile n⟩⟩ := by
  obtain ⟨st, hs, hfe, hwr, htot⟩ := scanFrom_pngFile n suffix halign
    (by rw [maxSizeOf_zero]; exact hmax)
  have h := extractFile_kept ioOk fileCount File_Count rfl rfl hs hfe (by rw [htot, minSizeOf_zero]; exact hmin)
    (by rw [htot, maxSizeOf_zero]; exact hmax) (by intro h; cases h)
  rw [hwr] at h
  exact h

/-- The two PDF tokens of a stream that begins like `pdfOpen` are seen. -/
theorem tokenSeen_pdf_header (tail : List Nat) (limit : Nat) (hlimit : 14 ≤ limit) :
    tokenSeen 2 initialScan.readBuffer
        (PDF_SIGNATURE ++ (PDF_XREF ++ (PDF_TRAILER ++ tail))) PDF_XREF 0 limit ∧
      tokenSeen 2 initialScan.readBuffer
        (PDF_SIGNATURE ++ (PDF_XREF ++ (PDF_TRAILER ++ tail))) PDF_TRAILER 0 limit := by
  have hcs := chunkSize_eq
  have hlen : (PDF_SIGNATURE ++ (PDF_XREF ++ (PDF_TRAILER ++ tail))).length =
      16 + tail.length := by
    simp [PDF_SIGNATURE, PDF_XREF, PDF_TRAILER]; omega
  have hclen := chunkAt_length (PDF_SIGNATURE ++ (PDF_XREF ++ (PDF_TRAILER ++ tail))) 0
  rw [hlen] at hclen
  constructor
  · refine ⟨rfl, 0, 5, ?_, by rw [endMarkerOf_two]; simp [PDF_END]; omega⟩
    apply scannedMatch_of_data (by decide) initialScan_readBuffer_length
    · rw [endMarkerOf_two, hclen]; simp [PDF_END]; omega
    · rw [hclen]; simp [PDF_XREF]; omega
    · rw [show chunkSize * 0 + 5 = PDF_SIGNATURE.length from rfl, List.drop_left]
      exact List.prefix_append _ _
  · refine ⟨rfl, 0, 9, ?_, by rw [endMarkerOf_two]; simp [PDF_END]; omega⟩
    apply scannedMatch_of_data (by decide) initialScan_readBuffer_length
    · rw [endMarkerOf_two, hclen]; simp [PDF_END]; omega
    · rw [hclen]; simp [PDF_TRAILER]; omega
    · rw [show chunkSize * 0 + 9 = (PDF_SIGNATURE ++ PDF_XREF).length from rfl,
        ← List.append_assoc, List.drop_left]
      exact List.prefix_append _ _

theorem pdfOpen_length (n : Nat) : (pdfOpen n).length = n + 16 := by
  simp [pdfOpen, PDF_SIGNATURE, PDF_XREF, PDF_TRAILER]

theorem pdfOpen_no_marker (n : Nat) : ¬ PDF_END <:+: pdfOpen n :=
  not_infix_of_not_mem (x := 0x45) (by simp [PDF_END])
    (by simp [pdfOpen, PDF_SIGNATURE, PDF_XREF, PDF_TRAILER, List.mem_replicate])

/-- The call of `extractFile` on `pdfOpen n`: the end marker is appended, and
the bytes written, not the bytes of the file, are held against the bounds. -/
theorem extractFile_pdfOpen (n : Nat) (fileCount : Int) (File_Count : List Int)
    (hmin : 1024 ≤ n + 16) (hmax : n + 16 ≤ 52428800) :
    extractFile ioOk (pdfOpen n) 0 fileCount 2 File_Count =
      ⟨bumpCount File_Count 2, fileCount,
        some ⟨2, (bumpCount File_Count 2).getD 2 0, pdfOpen n ++ PDF_END⟩⟩ := by
  have hlen := pdfOpen_length n
  obtain ⟨st, hs, hfe, hwr, htot, hx, ht⟩ := scanFrom_without_marker 2
    (by decide) (pdfOpen n) 0 (by rw [endMarkerOf_two]; exact pdfOpen_no_marker n)
    (by rw [List.drop_zero, hlen, maxSizeOf_two]; exact hmax)
  rw [List.drop_zero] at hwr htot hx ht
  have hseen := tokenSeen_pdf_header (List.replicate n 0) (pdfOpen n).length (by omega)
  have h := extractFile_synthesised ioOk fileCount File_Count rfl rfl hs hfe (hx.mpr hseen.1) (ht.mpr hseen.2)
    (by rw [htot, hlen, minSizeOf_two]; exact hmin)
    (by rw [htot, hlen, maxSizeOf_two]; exact hmax)
  rw [hwr] at h
  exact h

/-! ## Claims about `extractFile` -/

/-- C1 (the code departs from the claim): on the 50 MiB candidate
`pdfOpen (50 * 1024 * 1024 - 16)`, which has `xref` and `trailer` and no `%%EOF`,
`extractFile` leaves a file of `50 MiB + 5` bytes in place, longer than the
maximum of the PDF format: the five bytes it appends are not counted in
`totalBytesWritten`. -/
theorem extractFile_synthesised_pdf_exceeds_max :
    ∃ file, (extractFile ioOk (pdfOpen (50 * 1024 * 1024 - 16)) 0 1 2
        initialFileCount).outFile = some file ∧
      file.content = pdfOpen (50 * 1024 * 1024 - 16) ++ PDF_END ∧
      file.content.length = maxSizeOf 2 + 5 := by
  refine ⟨⟨2, (bumpCount initialFileCount 2).getD 2 0,
    pdfOpen (50 * 1024 * 1024 - 16) ++ PDF_END⟩, ?_, rfl, ?_⟩
  · rw [extractFile_pdfOpen _ _ _ (by norm_num) (by norm_num)]
  · show (pdfOpen (50 * 1024 * 1024 - 16) ++ PDF_END).length = maxSizeOf 2 + 5
    rw [List.length_append, pdfOpen_length, maxSizeOf_two]
    simp [PDF_END]

/-- C3: a file that `extractFile` leaves in place for PNG, JPEG, PDF or ZIP
ends with the end marker of its format (so contains it), the synthesised PDF
included. -/
theorem extractFile_ends_with_marker (io : IoEnv) (device : List Nat) (fileStart : Nat)
    (fileCount : Int) (formatIndex : Nat) (File_Count : List Int) (file : OutFile)
    (hf : formatIndex < 4)
    (hsome : (extractFile io device fileStart fileCount formatIndex File_Count).outFile =
      some file) :
    endMarkerOf formatIndex <:+ file.content ∧
      endMarkerOf formatIndex <:+: file.content ∧
      file.content.drop (file.content.length - (endMarkerOf formatIndex).length) =
        endMarkerOf formatIndex := by
  have hsuffix : endMarkerOf formatIndex <:+ file.content := by
    obtain ⟨-, -, st, hs, -, -, -, -, -, hcontent⟩ := extractFile_outFile_some hsome
    rcases hcontent with ⟨hfe, hc⟩ | ⟨-, -, hc⟩
    · have := scanFrom_found_suffix hf device fileStart (by rw [hs]; exact hfe)
      rw [hs] at this
      rw [hc]; exact this
    · rw [hc]; exact List.suffix_append _ _
  refine ⟨hsuffix, hsuffix.isInfix, ?_⟩
  obtain ⟨t, ht⟩ := hsuffix
  rw [← ht, List.length_append, Nat.add_sub_cancel, List.drop_left]

/-- Witness of C3: the 1 KiB PNG candidate `pngFile 1004`. -/
theorem extractFile_ends_with_marker_witness :
    endMarkerOf 0 <:+ pngFile 1004 ∧ endMarkerOf 0 <:+: pngFile 1004 ∧
      (pngFile 1004).drop ((pngFile 1004).length - (endMarkerOf 0).length) =
        endMarkerOf 0 := by
  have h := extractFile_ends_with_marker ioOk (pngFile 1004 ++ []) 0 1 0 initialFileCount
    ⟨0, (bumpCount initialFileCount 0).getD 0 0, pngFile 1004⟩ (by decide)
    (by rw [extractFile_pngFile 1004 [] 1 initialFileCount (by norm_num [chunkSize])
      (by norm_num) (by norm_num)])
  dsimp only at h
  exact h

theorem extractFile_not_found {io : IoEnv} {device : List Nat} {fileStart : Nat}
    {fileCount : Int} {formatIndex : Nat} {File_Count : List Int} {st : ScanState}
    (hs : scanFrom device fileStart formatIndex = .finished st)
    (hfe : st.foundEnd = false)
    (hpdf : ¬ (formatIndex = 2 ∧ st.xrefFound = true ∧ st.trailerFound = true)) :
    (extractFile io device fileStart fileCount formatIndex File_Count).outFile = none := by
  rw [Option.eq_none_iff_forall_not_mem]
  intro file hfile
  obtain ⟨-, -, st', hs', -, -, hp, -, -, hcontent⟩ := extractFile_outFile_some hfile
  rw [hs] at hs'
  cases hs'
  rcases hcontent with ⟨h, -⟩ | ⟨-, h2, -⟩
  · rw [hfe] at h; cases h
  · exact hpdf ⟨h2, hp h2⟩

/-- A token that stands at offset `p` of the stream, wholly inside one chunk
and at a position the scan for `%%EOF` tests, is seen. -/
theorem tokenSeen_of_occurrence {rest token : List Nat} {p limit : Nat}
    (h : token <+: rest.drop p) (hvisit : p % chunkSize + 5 ≤ chunkSize)
    (hinside : p % chunkSize + token.length ≤ chunkSize) (hlen : p + 5 ≤ rest.length)
    (hlimit : p + 5 ≤ limit) :
    tokenSeen 2 initialScan.readBuffer rest token 0 limit := by
  have hcs := chunkSize_eq
  have hpos : chunkSize * (p / chunkSize) + p % chunkSize = p := Nat.div_add_mod p chunkSize
  have hclen := chunkAt_length rest (p / chunkSize)
  have htl : token.length ≤ (rest.drop p).length := h.length_le
  rw [List.length_drop] at htl
  have h5 : (endMarkerOf 2).length = 5 := rfl
  refine ⟨rfl, p / chunkSize, p % chunkSize, ?_, by omega⟩
  apply scannedMatch_of_data (by decide) initialScan_readBuffer_length
  · omega
  · omega
  · rw [hpos]; exact h

/-! ## Claims about `extractFile`, continued -/

/-- A PDF left in place had both tokens seen within the bytes written. -/
theorem outFile_pdf_tokens (io : IoEnv) (device : List Nat) (fileStart : Nat)
    (fileCount : Int) (File_Count : List Int) (file : OutFile)
    (hsome : (extractFile io device fileStart fileCount 2 File_Count).outFile = some file) :
    tokenSeen 2 initialScan.readBuffer (device.drop fileStart) PDF_XREF 0
        (scanFrom device fileStart 2).state.totalBytesWritten ∧
      tokenSeen 2 initialScan.readBuffer (device.drop fileStart) PDF_TRAILER 0
        (scanFrom device fileStart 2).state.totalBytesWritten := by
  obtain ⟨-, -, st, hs, -, -, hp, -, -, -⟩ := extractFile_outFile_some hsome
  obtain ⟨hx, ht⟩ := hp rfl
  have h := scanFrom_facts 2 (by decide) device fileStart
  have h1 := h.xref
  have h2 := h.trailer
  rw [hs] at h1 h2 ⊢
  simp only [LoopExit.state, initialScan, Bool.false_eq_true, false_or] at h1 h2 ⊢
  exact ⟨h1.mp hx, h2.mp ht⟩

/-- C5: `extractFile` leaves a PDF in place only if `xref` and `trailer` were
each matched at a tested position within the bytes written when scanning
stopped; so a candidate in which one of them was not is removed, `%%EOF` found
or not. -/
theorem extractFile_pdf_requires_tokens (io : IoEnv) (device : List Nat) (fileStart : Nat)
    (fileCount : Int) (File_Count : List Int) (file : OutFile)
    (hsome : (extractFile io device fileStart fileCount 2 File_Count).outFile = some file) :
    tokenSeen 2 initialScan.readBuffer (device.drop fileStart) PDF_XREF 0
        (scanFrom device fileStart 2).state.totalBytesWritten ∧
      tokenSeen 2 initialScan.readBuffer (device.drop fileStart) PDF_TRAILER 0
        (scanFrom device fileStart 2).state.totalBytesWritten :=
  outFile_pdf_tokens io device fileStart fileCount File_Count file hsome

/-- Witness of C5: the 1 KiB candidate `pdfOpen 1008`, completed by `%%EOF`. -/
theorem extractFile_pdf_requires_tokens_witness :
    (extractFile ioOk (pdfOpen 1008) 0 1 2 initialFileCount).outFile =
        some ⟨2, 1, pdfOpen 1008 ++ PDF_END⟩ ∧
      tokenSeen 2 initialScan.readBuffer ((pdfOpen 1008).drop 0) PDF_XREF 0
        (scanFrom (pdfOpen 1008) 0 2).state.totalBytesWritten ∧
      tokenSeen 2 initialScan.readBuffer ((pdfOpen 1008).drop 0) PDF_TRAILER 0
        (scanFrom (pdfOpen 1008) 0 2).state.totalBytesWritten := by
  have hkept : (extractFile ioOk (pdfOpen 1008) 0 1 2 initialFileCount).outFile =
      some ⟨2, 1, pdfOpen 1008 ++ PDF_END⟩ := by
    rw [extractFile_pdfOpen 1008 1 initialFileCount (by norm_num) (by norm_num)]
    rfl
  exact ⟨hkept, extractFile_pdf_requires_tokens ioOk (pdfOpen 1008) 0 1 initialFileCount _ hkept⟩

/-- C8: for PNG, JPEG, PDF and ZIP, when no tested position matched the end
marker, `extractFile` leaves no file, unless the format is PDF and both `xref`
and `trailer` were seen. -/
theorem extractFile_without_marker_removed (io : IoEnv) (device : List Nat) (fileStart : Nat)
    (fileCount : Int) (formatIndex : Nat) (File_Count : List Int) (hf : formatIndex < 4)
    (hno : ∀ k j, scannedMatch formatIndex initialScan.readBuffer (device.drop fileStart)
      (endMarkerOf formatIndex) formatIndex k j = false)
    (hpdf : formatIndex = 2 →
      ¬ (tokenSeen 2 initialScan.readBuffer (device.drop fileStart) PDF_XREF 0
            (scanFrom device fileStart 2).state.totalBytesWritten ∧
          tokenSeen 2 initialScan.readBuffer (device.drop fileStart) PDF_TRAILER 0
            (scanFrom device fileStart 2).state.totalBytesWritten)) :
    (extractFile io device fileStart fileCount formatIndex File_Count).outFile = none := by
  rw [Option.eq_none_iff_forall_not_mem]
  intro file hfile
  have hfile' : (extractFile io device fileStart fileCount formatIndex File_Count).outFile =
      some file := hfile
  obtain ⟨-, -, st, hs, -, -, -, -, -, hcontent⟩ := extractFile_outFile_some hfile'
  have h := scanFrom_facts _ hf device fileStart
  rcases hcontent with ⟨hfe, -⟩ | ⟨-, h2, -⟩
  · obtain ⟨k, j, hm, -⟩ := h.found (by rw [hs]; exact hfe)
    rw [hno k j] at hm
    exact absurd hm (by simp)
  · subst h2
    exact hpdf rfl (outFile_pdf_tokens io device fileStart fileCount File_Count file hfile')

/-- Witness of C8: the eight bytes of the PNG signature alone. -/
theorem extractFile_without_marker_removed_witness :
    (extractFile ioOk PNG_SIGNATURE 0 1 0 initialFileCount).outFile = none :=
  extractFile_without_marker_removed ioOk PNG_SIGNATURE 0 1 0 initialFileCount (by decide)
    (by
      intro k j
      have hlen := chunkAt_length (PNG_SIGNATURE.drop 0) k
      have hcs := chunkSize_eq
      have h8 : (PNG_SIGNATURE.drop 0).length = 8 := rfl
      have h12 : (endMarkerOf 0).length = 12 := rfl
      simp only [scannedMatch, Bool.and_eq_false_imp, decide_eq_true_eq]
      intro hj
      omega)
    (by intro h; cases h)

theorem minSize_le_maxSize {formatIndex : Nat} (hf : formatIndex < 4) :
    minSizeOf formatIndex ≤ maxSizeOf formatIndex := by
  interval_cases formatIndex <;> norm_num [minSizeOf, maxSizeOf, Size_limit]

/-- C9: for PNG, JPEG, PDF and ZIP, when the loop of `extractFile` is left
with `foundEnd` set and `totalBytesWritten` equal to the maximum of the format
(for PDF, with both tokens seen), it was left by its condition and not by
`goto DELETE` (the test `totalBytesWritten > maxSize` inside the loop does not
fire at the maximum), and the file is kept with exactly the maximum of bytes;
when the loop is left with `totalBytesWritten` equal to the maximum plus one
the file is removed. -/
theorem extractFile_upper_boundary (io : IoEnv) (device : List Nat) (fileStart : Nat)
    (fileCount : Int) (formatIndex : Nat) (File_Count : List Int) (hf : formatIndex < 4)
    (hr : io.reopenOk = true) (hc : io.createOk = true) :
    ((scanFrom device fileStart formatIndex).state.foundEnd = true →
        (scanFrom device fileStart formatIndex).state.totalBytesWritten =
          maxSizeOf formatIndex →
        (formatIndex = 2 →
          (scanFrom device fileStart formatIndex).state.xrefFound = true ∧
            (scanFrom device fileStart formatIndex).state.trailerFound = true) →
        scanFrom device fileStart formatIndex =
            .finished (scanFrom device fileStart formatIndex).state ∧
          (extractFile io device fileStart fileCount formatIndex File_Count).outFile =
            some ⟨formatIndex, (bumpCount File_Count formatIndex).getD formatIndex 0,
              (scanFrom device fileStart formatIndex).state.written⟩ ∧
          (scanFrom device fileStart formatIndex).state.written.length =
            maxSizeOf formatIndex) ∧
      ((scanFrom device fileStart formatIndex).state.totalBytesWritten =
          maxSizeOf formatIndex + 1 →
        (extractFile io device fileStart fileCount formatIndex File_Count).outFile = none) := by
  constructor
  · intro hfe htot hpdf
    have hmm := minSize_le_maxSize hf
    have hlen := scanFrom_written_length hf device fileStart
    have hfacts := scanFrom_facts formatIndex hf device fileStart
    cases hs : scanFrom device fileStart formatIndex with
    | tooLarge st =>
      exfalso
      have hlarge := hfacts.too_large st hs
      rw [hs] at htot
      simp only [LoopExit.state] at htot
      omega
    | finished st =>
      rw [hs] at hfe htot hpdf hlen
      simp only [LoopExit.state] at hfe htot hpdf hlen ⊢
      rw [extractFile_kept io fileCount File_Count hr hc hs hfe (by omega) (by omega) hpdf]
      exact ⟨trivial, rfl, by omega⟩
  · intro htot
    rw [Option.eq_none_iff_forall_not_mem]
    intro file hfile
    obtain ⟨-, -, st, hs, -, hmax, -⟩ := extractFile_outFile_some hfile
    rw [hs] at htot
    simp only [LoopExit.state] at htot
    omega

theorem pdfXrefLast_length (n : Nat) : (pdfXrefLast n).length = n + 16 := by
  simp [pdfXrefLast, PDF_SIGNATURE, PDF_XREF, PDF_TRAILER]

theorem pdfXrefLast_no_marker (n : Nat) : ¬ PDF_END <:+: pdfXrefLast n :=
  not_infix_of_not_mem (x := 0x45) (by simp [PDF_END])
    (by simp [pdfXrefLast, PDF_SIGNATURE, PDF_XREF, PDF_TRAILER, List.mem_replicate])

/-- On `pdfXrefLast n` of at most one chunk, `xref` is not seen and the
candidate is removed. -/
theorem extractFile_pdfXrefLast (n : Nat) (hn : n + 16 ≤ 4096) (fileCount : Int)
    (File_Count : List Int) :
    (extractFile ioOk (pdfXrefLast n) 0 fileCount 2 File_Count).outFile = none := by
  have hlen := pdfXrefLast_length n
  obtain ⟨st, hs, hfe, -, -, hx, -⟩ := scanFrom_without_marker 2
    (by decide) (pdfXrefLast n) 0 (pdfXrefLast_no_marker n)
    (by rw [List.drop_zero, hlen, maxSizeOf_two]; omega)
  apply extractFile_not_found hs hfe
  rintro ⟨-, hxt, -⟩
  obtain ⟨-, k, j, hm, hb⟩ := hx.mp hxt
  rw [List.drop_zero, hlen] at hb
  have h5 : (endMarkerOf 2).length = 5 := rfl
  have hp := scannedMatch_data hm (by decide)
  rw [List.drop_zero] at hp
  have hmem := mem_take_of_prefix_drop (n := n + 15) (x := 0x66) hp
    (by simp only [PDF_XREF, List.length_cons, List.length_nil]; omega) (by simp [PDF_XREF])
  have hsplit : pdfXrefLast n =
      (PDF_SIGNATURE ++ (PDF_TRAILER ++ List.replicate n 0)) ++ PDF_XREF := by
    simp [pdfXrefLast]
  have hpre : (PDF_SIGNATURE ++ (PDF_TRAILER ++ List.replicate n 0)).length = n + 12 := by
    simp [PDF_SIGNATURE, PDF_TRAILER]
  rw [hsplit, List.take_append_eq_append_take, List.mem_append, hpre] at hmem
  rcases hmem with h | h
  · have := List.mem_of_mem_take h
    simp [PDF_SIGNATURE, PDF_TRAILER, List.mem_replicate] at this
  · have h3 : n + 15 - (n + 12) = 3 := by omega
    rw [h3] at h
    simp [PDF_XREF] at h

/-- C6 (as stated, false): `pdfXrefLast 1008` begins with `%PDF-`, contains
`xref` and `trailer`, contains no `%%EOF` and is 1 KiB long, yet `extractFile`
leaves no file: `xref` stands in the last four bytes of the chunk, which the
scan does not test. -/
theorem extractFile_pdf_xref_at_end_removed :
    PDF_SIGNATURE <+: (pdfXrefLast 1008).drop 0 ∧ PDF_XREF <:+: (pdfXrefLast 1008).drop 0 ∧
      PDF_TRAILER <:+: (pdfXrefLast 1008).drop 0 ∧
      ¬ PDF_END <:+: (pdfXrefLast 1008).drop 0 ∧
      ((pdfXrefLast 1008).drop 0).length = 1024 ∧
      (extractFile ioOk (pdfXrefLast 1008) 0 1 2 initialFileCount).outFile = none := by
  refine ⟨List.prefix_append _ _, ?_, ?_, pdfXrefLast_no_marker _, ?_, ?_⟩
  · exact ⟨PDF_SIGNATURE ++ (PDF_TRAILER ++ List.replicate 1008 0), [], by
      rw [List.drop_zero, pdfXrefLast, List.append_nil, List.append_assoc, List.append_assoc]⟩
  · exact ⟨PDF_SIGNATURE, List.replicate 1008 0 ++ PDF_XREF, by
      rw [List.drop_zero, pdfXrefLast, List.append_assoc]⟩
  · rw [List.drop_zero, pdfXrefLast_length]
  · exact extractFile_pdfXrefLast 1008 (by norm_num) 1 initialFileCount

/-- C6 (amended): the candidate from `fileStart` to the end of the device
begins with `%PDF-`, holds `xref` at an offset `p` and `trailer` at an offset
`q` that the scan tests (`p mod 4096 + 5 <= 4096`, `p + 5` within the
candidate, `q mod 4096 + 7 <= 4096`), holds no `%%EOF` and has a length between
1 KiB and 50 MiB: `extractFile` leaves one PDF, the candidate followed by
`%%EOF`. -/
theorem extractFile_pdf_synthesis (io : IoEnv) (device : List Nat) (fileStart : Nat)
    (fileCount : Int) (File_Count : List Int) (p q : Nat)
    (hr : io.reopenOk = true) (hc : io.createOk = true)
    (_hsig : PDF_SIGNATURE <+: device.drop fileStart)
    (hxref : PDF_XREF <+: (device.drop fileStart).drop p)
    (hxa : p % chunkSize + 5 ≤ chunkSize) (hxl : p + 5 ≤ (device.drop fileStart).length)
    (htrailer : PDF_TRAILER <+: (device.drop fileStart).drop q)
    (hta : q % chunkSize + 7 ≤ chunkSize)
    (hno : ¬ PDF_END <:+: device.drop fileStart)
    (hmin : 1024 ≤ (device.drop fileStart).length)
    (hmax : (device.drop fileStart).length ≤ 50 * 1024 * 1024) :
    extractFile io device fileStart fileCount 2 File_Count =
      ⟨bumpCount File_Count 2, fileCount,
        some ⟨2, (bumpCount File_Count 2).getD 2 0, device.drop fileStart ++ PDF_END⟩⟩ := by
  obtain ⟨st, hs, hfe, hwr, htot, hx, ht⟩ := scanFrom_without_marker 2
    (by decide) device fileStart (by rw [endMarkerOf_two]; exact hno)
    (by rw [maxSizeOf_two]; omega)
  have hseenx : tokenSeen 2 initialScan.readBuffer (device.drop fileStart) PDF_XREF 0
      (device.drop fileStart).length :=
    tokenSeen_of_occurrence hxref hxa
      (by simp only [PDF_XREF, List.length_cons, List.length_nil]; omega) hxl hxl
  have htl : PDF_TRAILER.length ≤ ((device.drop fileStart).drop q).length :=
    htrailer.length_le
  rw [List.length_drop] at htl
  have h7 : PDF_TRAILER.length = 7 := rfl
  have hseent : tokenSeen 2 initialScan.readBuffer (device.drop fileStart) PDF_TRAILER 0
      (device.drop fileStart).length :=
    tokenSeen_of_occurrence htrailer (by omega) (by omega) (by omega) (by omega)
  have h := extractFile_synthesised io fileCount File_Count hr hc hs hfe (hx.mpr hseenx) (ht.mpr hseent)
    (by rw [htot, minSizeOf_two]; exact hmin) (by rw [htot, maxSizeOf_two]; omega)
  rw [hwr] at h
  exact h

/-- Witness of C6 (amended): the 60 KiB candidate `pdfOpen (60 * 1024 - 16)`. -/
theorem extractFile_pdf_synthesis_witness :
    extractFile ioOk (pdfOpen (60 * 1024 - 16)) 0 1 2 initialFileCount =
      ⟨bumpCount initialFileCount 2, 1,
        some ⟨2, (bumpCount initialFileCount 2).getD 2 0,
          (pdfOpen (60 * 1024 - 16)).drop 0 ++ PDF_END⟩⟩ := by
  have hlen : ((pdfOpen (60 * 1024 - 16)).drop 0).length = 61440 := by
    rw [List.drop_zero, pdfOpen_length]
  exact extractFile_pdf_synthesis ioOk (pdfOpen (60 * 1024 - 16)) 0 1 initialFileCount 5 9
    rfl rfl (List.prefix_append _ _)
    (by
      rw [List.drop_zero, pdfOpen, show 5 = PDF_SIGNATURE.length from rfl, List.drop_left]
      exact List.prefix_append _ _)
    (by norm_num [chunkSize]) (by rw [hlen]; norm_num)
    (by
      rw [List.drop_zero, pdfOpen, show 9 = (PDF_SIGNATURE ++ PDF_XREF).length from rfl,
        ← List.append_assoc, List.drop_left]
      exact List.prefix_append _ _)
    (by norm_num [chunkSize])
    (by rw [List.drop_zero]; exact pdfOpen_no_marker _)
    (by rw [hlen]; norm_num) (by rw [hlen]; norm_num)

theorem pdfStaleTrailer_length (n : Nat) : (pdfStaleTrailer n).length = n + 16 := by
  simp [pdfStaleTrailer, PDF_SIGNATURE, PDF_XREF]

theorem pdfStaleTrailer_split (n : Nat) :
    pdfStaleTrailer n =
      (PDF_SIGNATURE ++ ([0x65, 0x72] ++ (PDF_XREF ++ List.replicate n 0))) ++
        [0x74, 0x72, 0x61, 0x69, 0x6C] := by
  simp [pdfStaleTrailer]

theorem pdfStaleTrailer_no_marker (n : Nat) : ¬ PDF_END <:+: pdfStaleTrailer n :=
  not_infix_of_not_mem (x := 0x45) (by simp [PDF_END])
    (by simp [pdfStaleTrailer, PDF_SIGNATURE, PDF_XREF, List.mem_replicate])

/-- On `pdfStaleTrailer n` with a first chunk of exactly `chunkSize` bytes, the
test for `trailer` at position 0 of the second chunk reads `trail` from the
chunk and `e r` from what the first read left at cells 5 and 6. -/
theorem pdfStaleTrailer_trailer_seen (n : Nat) (hn : n + 11 = 4096) :
    scannedMatch 2 initialScan.readBuffer (pdfStaleTrailer n) PDF_TRAILER 2 1 0 = true := by
  have hcs := chunkSize_eq
  have hlen := pdfStaleTrailer_length n
  have hA : (PDF_SIGNATURE ++ ([0x65, 0x72] ++ (PDF_XREF ++ List.replicate n 0))).length =
      chunkSize := by
    simp [PDF_SIGNATURE, PDF_XREF]; omega
  have htake : (pdfStaleTrailer n).take chunkSize =
      PDF_SIGNATURE ++ ([0x65, 0x72] ++ (PDF_XREF ++ List.replicate n 0)) := by
    rw [pdfStaleTrailer_split]; exact List.take_left' hA
  have hdrop : (pdfStaleTrailer n).drop chunkSize = [0x74, 0x72, 0x61, 0x69, 0x6C] := by
    rw [pdfStaleTrailer_split]; exact List.drop_left' hA
  have hc1 : (chunkAt (pdfStaleTrailer n) 1).length = 5 := by
    rw [chunkAt_length, hlen]; omega
  simp only [scannedMatch, Bool.and_eq_true, decide_eq_true_eq]
  refine ⟨by rw [hc1]; decide, ?_⟩
  have hbuf : readBufferAt initialScan.readBuffer (pdfStaleTrailer n) 1 =
      PDF_TRAILER ++ (PDF_XREF ++ List.replicate n 0 ++
        initialScan.readBuffer.drop chunkSize) := by
    rw [readBufferAt, readBufferAt, htake, hdrop, hA]
    have h5 : (List.take chunkSize [0x74, 0x72, 0x61, 0x69, 0x6C]) =
        [0x74, 0x72, 0x61, 0x69, 0x6C] := List.take_of_length_le (by rw [hcs]; decide)
    rw [h5]
    have h5' : ([0x74, 0x72, 0x61, 0x69, 0x6C] : List Nat).length = PDF_SIGNATURE.length := rfl
    rw [h5', List.append_assoc PDF_SIGNATURE, List.drop_left]
    simp [PDF_TRAILER]
  rw [hbuf]
  apply matchesSignature_of_occurrence (by decide)
  · simp [PDF_TRAILER]
  · exact List.prefix_append _ _

/-- The call of `extractFile` on `pdfStaleTrailer n`: both tokens count as
found and `%%EOF` is appended. -/
theorem extractFile_pdfStaleTrailer (n : Nat) (hn : n + 11 = 4096) (fileCount : Int)
    (File_Count : List Int) :
    extractFile ioOk (pdfStaleTrailer n) 0 fileCount 2 File_Count =
      ⟨bumpCount File_Count 2, fileCount,
        some ⟨2, (bumpCount File_Count 2).getD 2 0, pdfStaleTrailer n ++ PDF_END⟩⟩ := by
  have hcs := chunkSize_eq
  have hlen := pdfStaleTrailer_length n
  obtain ⟨st, hs, hfe, hwr, htot, hx, ht⟩ := scanFrom_without_marker 2
    (by decide) (pdfStaleTrailer n) 0 (pdfStaleTrailer_no_marker n)
    (by rw [List.drop_zero, hlen, maxSizeOf_two]; omega)
  rw [List.drop_zero] at hwr htot hx ht
  have hseenx : tokenSeen 2 initialScan.readBuffer (pdfStaleTrailer n) PDF_XREF 0
      (pdfStaleTrailer n).length := by
    apply tokenSeen_of_occurrence (p := 7)
    · rw [pdfStaleTrailer, show 7 = (PDF_SIGNATURE ++ [0x65, 0x72]).length from rfl,
        ← List.append_assoc, List.drop_left]
      exact List.prefix_append _ _
    · norm_num [chunkSize]
    · norm_num [chunkSize, PDF_XREF]
    · omega
    · omega
  have hseent : tokenSeen 2 initialScan.readBuffer (pdfStaleTrailer n) PDF_TRAILER 0
      (pdfStaleTrailer n).length :=
    ⟨rfl, 1, 0, pdfStaleTrailer_trailer_seen n hn, by
      have h5 : (endMarkerOf 2).length = 5 := rfl
      omega⟩
  have h := extractFile_synthesised ioOk fileCount File_Count rfl rfl hs hfe (hx.mpr hseenx) (ht.mpr hseent)
    (by rw [htot, hlen, minSizeOf_two]; omega) (by rw [htot, hlen, maxSizeOf_two]; omega)
  rw [hwr] at h
  exact h

theorem pdfStaleTrailer_lacks_trailer (n : Nat) :
    ¬ PDF_TRAILER <:+: pdfStaleTrailer n ++ PDF_END := by
  rintro ⟨s, t, h⟩
  have hL : pdfStaleTrailer n ++ PDF_END =
      (PDF_SIGNATURE ++ ([0x65, 0x72] ++ (PDF_XREF ++
        (List.replicate n 0 ++ [0x74, 0x72, 0x61, 0x69])))) ++ 0x6C :: PDF_END := by
    simp [pdfStaleTrailer]
  have hT : s ++ PDF_TRAILER ++ t = (s ++ [0x74, 0x72, 0x61, 0x69]) ++ 0x6C :: ([0x65, 0x72] ++ t) := by
    simp [PDF_TRAILER]
  rw [hL, hT] at h
  have := (@List.append_cons_inj_of_not_mem Nat
    (PDF_SIGNATURE ++ ([0x65, 0x72] ++ (PDF_XREF ++
        (List.replicate n 0 ++ [0x74, 0x72, 0x61, 0x69]))))
    _ PDF_END _ 0x6C 0x6C
    (by simp [PDF_SIGNATURE, PDF_XREF, List.mem_replicate])
    (by simp [PDF_END])).mp h.symm
  have h3 := this.2.2
  simp [PDF_END] at h3

/-- C7 (the code departs from the claim): on the candidate
`pdfStaleTrailer 4085` (4096 + 5 bytes, no `trailer` in it, no `%%EOF`)
`extractFile` leaves a PDF in place, the candidate followed by `%%EOF`, and
that file does not contain `trailer`. -/
theorem extractFile_pdf_without_trailer :
    ∃ file, (extractFile ioOk (pdfStaleTrailer 4085) 0 1 2 initialFileCount).outFile =
        some file ∧
      file.content = pdfStaleTrailer 4085 ++ PDF_END ∧
      ¬ PDF_TRAILER <:+: file.content := by
  refine ⟨⟨2, (bumpCount initialFileCount 2).getD 2 0, pdfStaleTrailer 4085 ++ PDF_END⟩,
    ?_, rfl, pdfStaleTrailer_lacks_trailer 4085⟩
  rw [extractFile_pdfStaleTrailer 4085 (by norm_num) 1 initialFileCount]

/-- The loop of `extractFile` for PNG on a stream of one byte more than the
maximum, all bytes of value 1: the total reaches the maximum plus one. -/
theorem scanFrom_ones_total (m : Nat) (hm : m = maxSizeOf 0 + 1) :
    (scanFrom (List.replicate m 1) 0 0).state.totalBytesWritten = maxSizeOf 0 + 1 := by
  have h := scanFrom_facts 0 (by decide) (List.replicate m 1) 0
  have hno : ∀ k j, scannedMatch 0 initialScan.readBuffer ((List.replicate m 1).drop 0)
      (endMarkerOf 0) 0 k j = false := by
    intro k j
    rcases Bool.eq_false_or_eq_true (scannedMatch 0 initialScan.readBuffer
      ((List.replicate m 1).drop 0) (endMarkerOf 0) 0 k j) with hmt | hmt
    · exfalso
      have hp := scannedMatch_data hmt (le_refl _)
      exact no_occurrence_of_not_mem (x := 0x82) (by simp [endMarkerOf_zero, PNG_IEND])
        (by simp [List.mem_replicate]) _ hp
    · exact hmt
  have hb := h.bytes_le
  simp only [initialScan, Nat.zero_add, List.drop_zero, List.length_replicate] at hb
  cases hs : scanFrom (List.replicate m 1) 0 0 with
  | tooLarge st =>
    rw [hs] at h hb
    have := h.too_large st rfl
    simp only [LoopExit.state] at hb ⊢
    omega
  | finished st =>
    exfalso
    rw [hs] at h
    have hfe : st.foundEnd = false := by
      rcases Bool.eq_false_or_eq_true st.foundEnd with hfe | hfe
      · obtain ⟨k, j, hmt, -⟩ := h.found hfe
        rw [hno k j] at hmt
        exact absurd hmt (by simp)
      · exact hfe
    have htot := h.at_eof st rfl hfe
    simp only [initialScan, Nat.zero_add, List.drop_zero, List.length_replicate] at htot
    rcases h.finished_le st rfl with h0 | h0
    · rw [h0] at htot
      simp only [initialScan] at htot
      omega
    · omega

/-! ## Unfolding `run` -/

theorem scanStep_no_match (ex : Extractors) (io : IoEnv) (device buffer : List Nat)
    (offset formatIndex i : Nat) (st : RunState) (hf : formatIndex < 4)
    (hm : matchesSignature buffer i (signatureOf formatIndex) formatIndex = false) :
    scanStep ex io device buffer offset formatIndex i st = (st, i) := by
  have h4 : (formatIndex == 4) = false := by simp; omega
  have h7 : (formatIndex == 7) = false := by simp; omega
  simp [scanStep, h4, h7, hm]

theorem scanStep_match (ex : Extractors) (io : IoEnv) (device buffer : List Nat)
    (offset formatIndex i : Nat) (st : RunState) (hf : formatIndex < 4)
    (hm : matchesSignature buffer i (signatureOf formatIndex) formatIndex = true) :
    scanStep ex io device buffer offset formatIndex i st =
      ({ st with
         File_Count := (extractFile io device (offset + i) (st.fileCount + 1) formatIndex
           st.File_Count).File_Count
         fileCount := (extractFile io device (offset + i) (st.fileCount + 1) formatIndex
           st.File_Count).fileCount
         emitted := st.emitted ++ (extractFile io device (offset + i) (st.fileCount + 1)
           formatIndex st.File_Count).outFile.toList },
       i + (signatureOf formatIndex).length) := by
  have h4 : (formatIndex == 4) = false := by simp; omega
  have h7 : (formatIndex == 7) = false := by simp; omega
  have h4' : (formatIndex != 4) = true := by simp; omega
  have h7' : (formatIndex != 7) = true := by simp; omega
  unfold scanStep
  simp only [h4, h7, h4', h7', hm, Bool.false_and, Bool.and_self, Bool.false_eq_true,
    if_false, if_true]

theorem scanStep_index_le (ex : Extractors) (io : IoEnv) (device buffer : List Nat)
    (offset formatIndex i : Nat) (st : RunState) :
    i ≤ (scanStep ex io device buffer offset formatIndex i st).2 := by
  unfold scanStep
  simp only
  split_ifs <;> simp

theorem scanStep_emitted (ex : Extractors) (io : IoEnv) (device buffer : List Nat)
    (offset formatIndex i : Nat) (st : RunState) :
    st.emitted <+: (scanStep ex io device buffer offset formatIndex i st).1.emitted := by
  unfold scanStep
  simp only
  split_ifs
  · exact List.prefix_append _ _
  · exact List.prefix_append _ _
  · exact List.prefix_append _ _
  · exact List.prefix_refl _

theorem scanPositions_done (ex : Extractors) (io : IoEnv) (device buffer : List Nat)
    (offset bytesRead formatIndex i : Nat) (st : RunState)
    (h : ¬ i + (signatureOf formatIndex).length ≤ bytesRead + overlap) :
    scanPositions ex io device buffer offset bytesRead formatIndex i st = st := by
  rw [scanPositions, dif_neg h]

theorem scanPositions_step (ex : Extractors) (io : IoEnv) (device buffer : List Nat)
    (offset bytesRead formatIndex i : Nat) (st : RunState)
    (h : i + (signatureOf formatIndex).length ≤ bytesRead + overlap) :
    scanPositions ex io device buffer offset bytesRead formatIndex i st =
      scanPositions ex io device buffer offset bytesRead formatIndex
        ((scanStep ex io device buffer offset formatIndex i st).2 + 1)
        (scanStep ex io device buffer offset formatIndex i st).1 := by
  rw [scanPositions, dif_pos h]

/-- Positions at which the signature does not match leave the state as it is:
the scan from `i` is the scan from any later `i2` with no match in between. -/
theorem scanPositions_skip (ex : Extractors) (io : IoEnv) (device buffer : List Nat)
    (offset bytesRead formatIndex : Nat) (st : RunState) (hf : formatIndex < 4) :
    ∀ (d i : Nat),
      (∀ i', i ≤ i' → i' < i + d →
        i' + (signatureOf formatIndex).length ≤ bytesRead + overlap →
        matchesSignature buffer i' (signatureOf formatIndex) formatIndex = false) →
      scanPositions ex io device buffer offset bytesRead formatIndex i st =
        scanPositions ex io device buffer offset bytesRead formatIndex (i + d) st := by
  intro d
  induction d with
  | zero => intro i _; rfl
  | succ d ih =>
    intro i hno
    by_cases h : i + (signatureOf formatIndex).length ≤ bytesRead + overlap
    · rw [scanPositions_step _ _ _ _ _ _ _ _ _ h,
        scanStep_no_match _ _ _ _ _ _ _ _ hf (hno i (le_refl _) (by omega) h)]
      simp only
      rw [ih (i + 1) (fun i' h1 h2 h3 => hno i' (by omega) (by omega) h3)]
      congr 1
      omega
    · rw [scanPositions_done _ _ _ _ _ _ _ _ _ h,
        scanPositions_done _ _ _ _ _ _ _ _ _ (by omega)]

/-- No position from `i` on matches the signature: the scan changes nothing. -/
theorem scanPositions_no_match (ex : Extractors) (io : IoEnv) (device buffer : List Nat)
    (offset bytesRead formatIndex i : Nat) (st : RunState) (hf : formatIndex < 4)
    (hno : ∀ i', i ≤ i' → i' + (signatureOf formatIndex).length ≤ bytesRead + overlap →
      matchesSignature buffer i' (signatureOf formatIndex) formatIndex = false) :
    scanPositions ex io device buffer offset bytesRead formatIndex i st = st := by
  rw [scanPositions_skip ex io device buffer offset bytesRead formatIndex st hf
    (bytesRead + overlap + 1) i (fun i' h1 _ h3 => hno i' h1 h3)]
  exact scanPositions_done _ _ _ _ _ _ _ _ _ (by omega)

theorem scanPositions_emitted (ex : Extractors) (io : IoEnv) (device buffer : List Nat)
    (offset bytesRead formatIndex : Nat) :
    ∀ (n i : Nat) (st : RunState), bytesRead + overlap + 1 - i = n →
      st.emitted <+: (scanPositions ex io device buffer offset bytesRead formatIndex i
        st).emitted := by
  intro n
  induction n using Nat.strong_induction_on with
  | _ n ih =>
    intro i st hn
    by_cases h : i + (signatureOf formatIndex).length ≤ bytesRead + overlap
    · rw [scanPositions_step _ _ _ _ _ _ _ _ _ h]
      have hi := scanStep_index_le ex io device buffer offset formatIndex i st
      exact (scanStep_emitted ex io device buffer offset formatIndex i st).trans
        (ih _ (by omega) _ _ rfl)
    · rw [scanPositions_done _ _ _ _ _ _ _ _ _ h]

theorem scanFormats_emitted (ex : Extractors) (io : IoEnv) (device buffer : List Nat)
    (File_Supported : List Bool) (offset bytesRead : Nat) :
    ∀ (formats : List Nat) (st : RunState),
      st.emitted <+: (scanFormats ex io device buffer File_Supported offset bytesRead
        formats st).emitted
  | [], st => List.prefix_refl _
  | f :: more, st => by
    rw [scanFormats]
    split_ifs
    · exact scanFormats_emitted ex io device buffer File_Supported offset bytesRead more st
    · exact (scanPositions_emitted ex io device buffer offset bytesRead f _ 0 st rfl).trans
        (scanFormats_emitted ex io device buffer File_Supported offset bytesRead more _)

theorem runLoop_nil (ex : Extractors) (io : IoEnv) (device : List Nat)
    (File_Supported : List Bool) (cancelCheck : Nat → Bool) (buffer : List Nat)
    (offset chunkNo : Nat) (st : RunState) :
    runLoop ex io device File_Supported cancelCheck [] buffer offset chunkNo st =
      (true, st) := by
  rw [runLoop]; simp

theorem runLoop_step (ex : Extractors) (io : IoEnv) (device : List Nat)
    (File_Supported : List Bool) (cancelCheck : Nat → Bool) (rest buffer : List Nat)
    (offset chunkNo : Nat) (st : RunState) (hne : rest ≠ [])
    (hcancel : cancelCheck chunkNo = false) :
    runLoop ex io device File_Supported cancelCheck rest buffer offset chunkNo st =
      runLoop ex io device File_Supported cancelCheck (rest.drop chunkSize)
        (rest.take chunkSize ++ buffer.drop (rest.take chunkSize).length)
        (offset + (rest.take chunkSize).length) (chunkNo + 1)
        (scanFormats ex io device
          (rest.take chunkSize ++ buffer.drop (rest.take chunkSize).length)
          File_Supported offset (rest.take chunkSize).length
          (List.range SupportedFileCount) st) := by
  have hlen : ¬ (List.take chunkSize rest).length = 0 := by
    have : 0 < rest.length := List.length_pos.mpr hne
    simp only [List.length_take, chunkSize]; omega
  rw [runLoop, dif_neg hlen, if_neg (by simp [hcancel])]

/-- With a callback that never asks to cancel, the loop of `run` ends with
`true` and keeps every file emitted before. -/
theorem runLoop_emitted (ex : Extractors) (io : IoEnv) (device : List Nat)
    (File_Supported : List Bool) :
    ∀ (n : Nat) (rest buffer : List Nat) (offset chunkNo : Nat) (st : RunState),
      rest.length = n →
      (runLoop ex io device File_Supported (fun _ => false) rest buffer offset chunkNo
          st).1 = true ∧
        st.emitted <+: (runLoop ex io device File_Supported (fun _ => false) rest buffer
          offset chunkNo st).2.emitted := by
  intro n
  induction n using Nat.strong_induction_on with
  | _ n ih =>
    intro rest buffer offset chunkNo st hn
    by_cases hnil : rest = []
    · subst hnil
      rw [runLoop_nil]
      exact ⟨rfl, List.prefix_refl _⟩
    · rw [runLoop_step _ _ _ _ _ _ _ _ _ _ hnil rfl]
      have hshort : (rest.drop chunkSize).length < n := by
        have : 0 < rest.length := List.length_pos.mpr hnil
        simp only [List.length_drop, chunkSize]; omega
      obtain ⟨h1, h2⟩ := ih _ hshort (rest.drop chunkSize)
        (rest.take chunkSize ++ buffer.drop (rest.take chunkSize).length)
        (offset + (rest.take chunkSize).length) (chunkNo + 1)
        (scanFormats ex io device
          (rest.take chunkSize ++ buffer.drop (rest.take chunkSize).length)
          File_Supported offset (rest.take chunkSize).length
          (List.range SupportedFileCount) st) rfl
      exact ⟨h1, (scanFormats_emitted _ _ _ _ _ _ _ _ _).trans h2⟩

/-! ## The buffer of `run` and the device -/

/-- A token matched at position `j` of the buffer after read `k`, inside the
bytes that read returned, stands at that place in the stream. -/
theorem data_of_matches_readBufferAt {init rest token : List Nat} {tokenFormat k j : Nat}
    (hm : matchesSignature (readBufferAt init rest k) j token tokenFormat = true)
    (hj : j + token.length ≤ (chunkAt rest k).length) :
    token <+: rest.drop (chunkSize * k + j) := by
  obtain ⟨tail, hbuf⟩ := readBufferAt_eq k init rest
  have hp := matchesSignature_occurrence hm
  rw [hbuf, List.drop_append_of_le_length (by omega), List.prefix_iff_eq_take,
    List.take_append_of_le_length (by rw [List.length_drop]; omega),
    chunkAt_drop_take rest k j _ hj] at hp
  rw [List.prefix_iff_eq_take]
  exact hp

/-- A token that stands in the stream wholly inside the bytes of read `k` is
matched at its position of the buffer (for a format other than 1). -/
theorem matches_readBufferAt_of_data {init rest token : List Nat} {tokenFormat k j : Nat}
    (htf : tokenFormat ≠ 1) (hinit : init.length = chunkSize)
    (hj : j + token.length ≤ (chunkAt rest k).length)
    (h : token <+: rest.drop (chunkSize * k + j)) :
    matchesSignature (readBufferAt init rest k) j token tokenFormat = true := by
  obtain ⟨tail, hbuf⟩ := readBufferAt_eq k init rest
  have hlenb := readBufferAt_length k init rest hinit
  have hle := chunkAt_length_le rest k
  apply matchesSignature_of_occurrence htf (by omega)
  rw [hbuf, List.drop_append_of_le_length (by omega), List.prefix_iff_eq_take,
    List.take_append_of_le_length (by rw [List.length_drop]; omega),
    chunkAt_drop_take rest k j _ hj]
  exact List.prefix_iff_eq_take.mp h

theorem getD_of_prefix_drop {token l : List Nat} {a : Nat} (h : token <+: l.drop a)
    {d : Nat} (hd : d < token.length) : l.getD (a + d) 0 = token.getD d 0 := by
  obtain ⟨t, ht⟩ := h
  rw [List.getD_eq_getElem?_getD, List.getD_eq_getElem?_getD, ← List.getElem?_drop, ← ht,
    List.getElem?_append_left hd]

/-- The PNG and the ZIP signature have no border: no later byte of the
signature equals its first byte. -/
theorem signature_no_border {formatIndex : Nat} (hfmt : formatIndex = 0 ∨ formatIndex = 3)
    {d : Nat} (h0 : 0 < d) (hd : d < (signatureOf formatIndex).length) :
    (signatureOf formatIndex).getD d 0 ≠ (signatureOf formatIndex).getD 0 0 := by
  rcases hfmt with h | h
  · subst h
    have h8 : (signatureOf 0).length = 8 := rfl
    rw [h8] at hd
    interval_cases d <;> decide
  · subst h
    have h4 : (signatureOf 3).length = 4 := rfl
    rw [h4] at hd
    interval_cases d <;> decide

/-- In `before ++ file ++ suffix`, where `file` begins with the PNG or the ZIP
signature and `before` does not contain it, the signature stands at no offset
inside `before`. -/
theorem no_signature_before {formatIndex : Nat} (hfmt : formatIndex = 0 ∨ formatIndex = 3)
    (before file suffix : List Nat) (hsig : signatureOf formatIndex <+: file)
    (hpre : ¬ signatureOf formatIndex <:+: before) :
    ∀ a, a < before.length →
      ¬ signatureOf formatIndex <+: (before ++ file ++ suffix).drop a := by
  intro a ha h
  have hpos : 0 < (signatureOf formatIndex).length := by
    rcases hfmt with h | h <;> subst h <;> decide
  by_cases hin : a + (signatureOf formatIndex).length ≤ before.length
  · apply hpre
    have h1 : (before ++ file ++ suffix).drop a = before.drop a ++ (file ++ suffix) := by
      rw [List.append_assoc, List.drop_append_of_le_length (by omega)]
    rw [h1] at h
    have h2 := List.prefix_of_prefix_length_le h (List.prefix_append _ _)
      (by rw [List.length_drop]; omega)
    exact h2.isInfix.trans (List.drop_suffix a before).isInfix
  · have hd : before.length - a < (signatureOf formatIndex).length := by omega
    have e1 := getD_of_prefix_drop h hd
    have hP : signatureOf formatIndex <+: (before ++ file ++ suffix).drop before.length := by
      rw [List.append_assoc, List.drop_left]
      exact hsig.trans (List.prefix_append _ _)
    have e2 := getD_of_prefix_drop hP hpos
    have hidx : a + (before.length - a) = before.length + 0 := by omega
    rw [hidx, e2] at e1
    exact signature_no_border hfmt (by omega) hd e1.symm

/-! ## A candidate found by `run` -/

theorem Emits.mono {formatIndex : Nat} {content : List Nat} {e1 e2 : List OutFile}
    (h : Emits formatIndex content e1) (hp : e1 <+: e2) : Emits formatIndex content e2 := by
  obtain ⟨file, hmem, hf, hc⟩ := h
  exact ⟨file, hp.subset hmem, hf, hc⟩

/-- The scan of one chunk for one format reaches a first matching position
`i0`, and the extraction from there yields `content`: the scan emits it. -/
theorem scanPositions_emits (ex : Extractors) (io : IoEnv) (device buffer : List Nat)
    (offset bytesRead formatIndex i0 : Nat) (content : List Nat) (hf : formatIndex < 4)
    (hfit : i0 + (signatureOf formatIndex).length ≤ bytesRead + overlap)
    (hbefore : ∀ i, i < i0 → i + (signatureOf formatIndex).length ≤ bytesRead + overlap →
      matchesSignature buffer i (signatureOf formatIndex) formatIndex = false)
    (hmatch : matchesSignature buffer i0 (signatureOf formatIndex) formatIndex = true)
    (hext : ∀ fileCount File_Count, ∃ file,
      (extractFile io device (offset + i0) fileCount formatIndex File_Count).outFile =
        some file ∧ file.formatIndex = formatIndex ∧ file.content = content)
    (st : RunState) :
    Emits formatIndex content
      (scanPositions ex io device buffer offset bytesRead formatIndex 0 st).emitted := by
  have hskip := scanPositions_skip ex io device buffer offset bytesRead formatIndex st hf i0 0
    (fun i _ h2 h3 => hbefore i (by omega) h3)
  rw [Nat.zero_add] at hskip
  rw [hskip, scanPositions_step _ _ _ _ _ _ _ _ _ hfit,
    scanStep_match _ _ _ _ _ _ _ _ hf hmatch]
  obtain ⟨file, hfile, hfmt, hcontent⟩ := hext (st.fileCount + 1) st.File_Count
  simp only
  refine Emits.mono ?_ (scanPositions_emitted ex io device buffer offset bytesRead formatIndex
    _ _ _ rfl)
  exact ⟨file, by rw [hfile]; simp, hfmt, hcontent⟩

theorem scanFormats_emits (ex : Extractors) (io : IoEnv) (device buffer : List Nat)
    (File_Supported : List Bool) (offset bytesRead formatIndex : Nat) (content : List Nat)
    (hmask : File_Supported.getD formatIndex false = true)
    (hscan : ∀ st, Emits formatIndex content
      (scanPositions ex io device buffer offset bytesRead formatIndex 0 st).emitted) :
    ∀ (formats : List Nat) (st : RunState), formatIndex ∈ formats →
      Emits formatIndex content
        (scanFormats ex io device buffer File_Supported offset bytesRead formats st).emitted
  | [], st, h => by cases h
  | f :: more, st, h => by
    rw [scanFormats]
    by_cases hf : f = formatIndex
    · subst hf
      rw [if_neg (by rw [hmask]; decide)]
      exact (hscan st).mono (scanFormats_emitted _ _ _ _ _ _ _ _ _)
    · have hmem : formatIndex ∈ more := by
        rcases List.mem_cons.mp h with h1 | h1
        · exact absurd h1.symm hf
        · exact h1
      split_ifs
      · exact scanFormats_emits ex io device buffer File_Supported offset bytesRead
          formatIndex content hmask hscan more st hmem
      · exact scanFormats_emits ex io device buffer File_Supported offset bytesRead
          formatIndex content hmask hscan more _ hmem

/-- When the scan of chunk `k` emits `content` whatever the state it starts
in, the loop of `run` (never cancelled) emits it. -/
theorem runLoop_emits (ex : Extractors) (io : IoEnv) (device : List Nat)
    (File_Supported : List Bool) (formatIndex : Nat) (content : List Nat) :
    ∀ (k : Nat) (rest buffer : List Nat) (offset chunkNo : Nat) (st : RunState),
      chunkAt rest k ≠ [] →
      (∀ st', Emits formatIndex content
        (scanFormats ex io device (readBufferAt buffer rest k) File_Supported
          (offset + chunkSize * k) (chunkAt rest k).length
          (List.range SupportedFileCount) st').emitted) →
      Emits formatIndex content
        (runLoop ex io device File_Supported (fun _ => false) rest buffer offset chunkNo
          st).2.emitted := by
  intro k
  induction k with
  | zero =>
    intro rest buffer offset chunkNo st hne hscan
    have hnil : rest ≠ [] := by
      intro h; rw [h, chunkAt_nil] at hne; exact hne rfl
    rw [runLoop_step _ _ _ _ _ _ _ _ _ _ hnil rfl]
    have h0 := hscan st
    rw [chunkAt_zero, readBufferAt, Nat.mul_zero, Nat.add_zero] at h0
    exact h0.mono (runLoop_emitted ex io device File_Supported _ _ _ _ _ _ rfl).2
  | succ k ih =>
    intro rest buffer offset chunkNo st hne hscan
    rw [chunkAt_succ] at hne
    have hnil' : rest.drop chunkSize ≠ [] := by
      intro h; rw [h, chunkAt_nil] at hne; exact hne rfl
    have hnil : rest ≠ [] := by
      intro h; rw [h] at hnil'; exact hnil' rfl
    have hfull := take_chunk_full hnil'
    rw [runLoop_step _ _ _ _ _ _ _ _ _ _ hnil rfl]
    apply ih _ _ _ _ _ hne
    intro st'
    have h1 := hscan st'
    rw [chunkAt_succ, readBufferAt] at h1
    have hoff : offset + chunkSize * (k + 1) =
        offset + (rest.take chunkSize).length + chunkSize * k := by
      rw [hfull]; ring
    rw [hoff] at h1
    exact h1

theorem signatureOf_zero : signatureOf 0 = PNG_SIGNATURE := rfl

theorem signatureOf_one : signatureOf 1 = JPEG_SIGNATURE := rfl

theorem signatureOf_three : signatureOf 3 = ZIP_SIGNATURE := rfl

theorem initial_buffer_length : (List.replicate (chunkSize + overlap) 0).length = chunkSize := by
  rw [List.length_replicate]; rfl

theorem run_some (ex : Extractors) (io : IoEnv) (device : List Nat)
    (File_Supported : List Bool) (cancelCheck : Nat → Bool) (File_Count : List Int) :
    run ex io (some device) File_Supported cancelCheck File_Count =
      runLoop ex io device File_Supported cancelCheck device
        (List.replicate (chunkSize + overlap) 0) 0 0 ⟨File_Count, 0, 0, []⟩ := rfl

/-- C2 (amended): in `before ++ file ++ suffix`, `file` is a PNG or a ZIP
candidate (it begins with the signature, ends with the end marker, holds the
end marker nowhere else, has a length within the bounds), `before` does not
contain the signature, the signature does not straddle a multiple of 4096
counted from the start of the device, and the end marker does not straddle a
multiple of 4096 counted from the start of `file`.  Then `run`, with the
format enabled, both streams opening and no cancellation, returns true and
emits a file of that format whose content is `file`. -/
theorem run_round_trip (ex : Extractors) (io : IoEnv) (File_Supported : List Bool)
    (File_Count : List Int) (formatIndex : Nat) (before file suffix : List Nat)
    (hfmt : formatIndex = 0 ∨ formatIndex = 3)
    (hr : io.reopenOk = true) (hc : io.createOk = true)
    (hmask : File_Supported.getD formatIndex false = true)
    (hsig : signatureOf formatIndex <+: file)
    (hend : endMarkerOf formatIndex <:+ file)
    (honce : ∀ p, p + (endMarkerOf formatIndex).length < file.length →
      ¬ endMarkerOf formatIndex <+: file.drop p)
    (hmin : minSizeOf formatIndex ≤ file.length)
    (hmax : file.length ≤ maxSizeOf formatIndex)
    (hpre : ¬ signatureOf formatIndex <:+: before)
    (halignS : before.length % chunkSize + (signatureOf formatIndex).length ≤ chunkSize)
    (halignE : (file.length - (endMarkerOf formatIndex).length) % chunkSize +
      (endMarkerOf formatIndex).length ≤ chunkSize) :
    (run ex io (some (before ++ file ++ suffix)) File_Supported (fun _ => false)
        File_Count).1 = true ∧
      ∃ out ∈ (run ex io (some (before ++ file ++ suffix)) File_Supported (fun _ => false)
          File_Count).2.emitted,
        out.formatIndex = formatIndex ∧ out.content = file := by
  have hcs := chunkSize_eq
  have hov : overlap = 0 := rfl
  have hf : formatIndex < 4 := by rcases hfmt with h | h <;> omega
  have h1 : formatIndex ≠ 1 := by rcases hfmt with h | h <;> omega
  have h2 : formatIndex ≠ 2 := by rcases hfmt with h | h <;> omega
  have hsigpos : 0 < (signatureOf formatIndex).length := by
    rcases hfmt with h | h <;> subst h <;> decide
  have hsiglen : (signatureOf formatIndex).length ≤ file.length := hsig.length_le
  have hendlen : (endMarkerOf formatIndex).length ≤ file.length := hend.length_le
  have hdevlen : (before ++ file ++ suffix).length =
      before.length + file.length + suffix.length := by
    simp only [List.length_append]
  have hpos : chunkSize * (before.length / chunkSize) + before.length % chunkSize =
      before.length := Nat.div_add_mod before.length chunkSize
  have hdrop : (before ++ file ++ suffix).drop before.length = file ++ suffix := by
    rw [List.append_assoc, List.drop_left]
  -- the extraction from the start of `file`
  have hext : ∀ (fileCount : Int) (fc : List Int), ∃ out,
      (extractFile io (before ++ file ++ suffix)
        (0 + chunkSize * (before.length / chunkSize) + before.length % chunkSize)
        fileCount formatIndex fc).outFile = some out ∧
      out.formatIndex = formatIndex ∧ out.content = file := by
    intro fileCount fc
    obtain ⟨body, hbody⟩ := hend
    have hblen : body.length + (endMarkerOf formatIndex).length = file.length := by
      rw [← hbody, List.length_append]
    obtain ⟨st, hs, hfe, hwr, htot, -, -⟩ := scanFrom_body_marker _ hf h1
      (before ++ file ++ suffix) before.length body suffix
      (by rw [hdrop, hbody])
      (by
        have : body.length = file.length - (endMarkerOf formatIndex).length := by omega
        rw [this]; exact halignE)
      (by
        intro p hp hpre'
        rw [hbody] at hpre'
        apply honce p (by omega)
        rw [List.drop_append_of_le_length (by omega)] at hpre'
        exact List.prefix_of_prefix_length_le hpre' (List.prefix_append _ _)
          (by rw [List.length_drop]; omega))
      (by omega)
    rw [Nat.zero_add, hpos]
    rw [extractFile_kept io fileCount fc hr hc hs hfe (by omega) (by omega)
      (fun h => absurd h h2)]
    exact ⟨_, rfl, rfl, by rw [hwr, hbody]⟩
  -- the chunk that holds the start of `file`
  have hclen := chunkAt_length (before ++ file ++ suffix) (before.length / chunkSize)
  have hfit : before.length % chunkSize + (signatureOf formatIndex).length ≤
      (chunkAt (before ++ file ++ suffix) (before.length / chunkSize)).length := by
    rw [hclen, hdevlen]; omega
  have hmatch : matchesSignature
      (readBufferAt (List.replicate (chunkSize + overlap) 0) (before ++ file ++ suffix)
        (before.length / chunkSize))
      (before.length % chunkSize) (signatureOf formatIndex) formatIndex = true := by
    apply matches_readBufferAt_of_data h1 initial_buffer_length hfit
    rw [hpos, hdrop]
    exact hsig.trans (List.prefix_append _ _)
  have hbefore : ∀ i, i < before.length % chunkSize →
      i + (signatureOf formatIndex).length ≤
        (chunkAt (before ++ file ++ suffix) (before.length / chunkSize)).length + overlap →
      matchesSignature
        (readBufferAt (List.replicate (chunkSize + overlap) 0) (before ++ file ++ suffix)
          (before.length / chunkSize))
        i (signatureOf formatIndex) formatIndex = false := by
    intro i hi hscan
    rcases Bool.eq_false_or_eq_true (matchesSignature
      (readBufferAt (List.replicate (chunkSize + overlap) 0) (before ++ file ++ suffix)
        (before.length / chunkSize)) i (signatureOf formatIndex) formatIndex) with hm | hm
    · exfalso
      have hp := data_of_matches_readBufferAt hm (by omega)
      exact no_signature_before hfmt before file suffix hsig hpre _ (by omega) hp
    · exact hm
  have hemit := runLoop_emits ex io (before ++ file ++ suffix) File_Supported formatIndex file
    (before.length / chunkSize) (before ++ file ++ suffix)
    (List.replicate (chunkSize + overlap) 0) 0 0 ⟨File_Count, 0, 0, []⟩
    (by
      intro h
      rw [h] at hfit
      simp only [List.length_nil] at hfit
      omega)
    (fun st' => scanFormats_emits ex io _ _ File_Supported _ _ formatIndex file hmask
      (fun st => scanPositions_emits ex io _ _ _ _ formatIndex (before.length % chunkSize)
        file hf (by omega) hbefore hmatch hext st)
      (List.range SupportedFileCount) st'
      (by rw [SupportedFileCount, List.mem_range]; omega))
  rw [run_some]
  exact ⟨(runLoop_emitted ex io _ File_Supported _ _ _ _ _ _ rfl).1, hemit⟩

theorem pngFile_marker_once (n : Nat) :
    ∀ p, p + (endMarkerOf 0).length < (pngFile n).length →
      ¬ endMarkerOf 0 <+: (pngFile n).drop p := by
  intro p hp
  have h12 : (endMarkerOf 0).length = 12 := rfl
  rw [pngFile_length, h12] at hp
  have hbody : (PNG_SIGNATURE ++ List.replicate n 1).length = n + 8 := by
    simp [PNG_SIGNATURE]
  have := no_earlier_occurrence (PNG_SIGNATURE ++ List.replicate n 1)
    (endMarkerOf 0) [] 0x82 (by simp [endMarkerOf_zero, PNG_IEND])
    (by simp [endMarkerOf_zero, PNG_IEND, PNG_SIGNATURE, List.mem_replicate]) p
    (by rw [hbody]; omega)
  rw [List.append_nil] at this
  exact this

/-- Witness of C2 (amended): the 1 KiB PNG candidate `pngFile 1004` after three
zero bytes and before one, all five formats enabled. -/
theorem run_round_trip_witness :
    (run noExtractors ioOk (some ([0, 0, 0] ++ pngFile 1004 ++ [0])) allFive
        (fun _ => false) initialFileCount).1 = true ∧
      ∃ out ∈ (run noExtractors ioOk (some ([0, 0, 0] ++ pngFile 1004 ++ [0])) allFive
          (fun _ => false) initialFileCount).2.emitted,
        out.formatIndex = 0 ∧ out.content = pngFile 1004 :=
  run_round_trip noExtractors ioOk allFive initialFileCount 0 [0, 0, 0] (pngFile 1004) [0]
    (Or.inl rfl) rfl rfl rfl
    (by rw [signatureOf_zero, pngFile, List.append_assoc]; exact List.prefix_append _ _)
    (by rw [endMarkerOf_zero, pngFile]; exact List.suffix_append _ _)
    (pngFile_marker_once 1004)
    (by rw [minSizeOf_zero, pngFile_length])
    (by rw [maxSizeOf_zero, pngFile_length]; norm_num)
    (by rw [signatureOf_zero]; decide)
    (by rw [signatureOf_zero]; norm_num [chunkSize, PNG_SIGNATURE])
    (by rw [pngFile_length, endMarkerOf_zero]; norm_num [chunkSize, PNG_IEND])

/-! ## Scans that find no candidate -/

theorem scanPositions_idle (ex : Extractors) (io : IoEnv) (device buffer : List Nat)
    (offset bytesRead formatIndex : Nat) :
    ∀ (n i : Nat) (st : RunState), bytesRead + overlap + 1 - i = n →
      (∀ i', i ≤ i' → i' + (signatureOf formatIndex).length ≤ bytesRead + overlap →
        ∀ st', scanStep ex io device buffer offset formatIndex i' st' = (st', i')) →
      scanPositions ex io device buffer offset bytesRead formatIndex i st = st := by
  intro n
  induction n using Nat.strong_induction_on with
  | _ n ih =>
    intro i st hn hidle
    by_cases h : i + (signatureOf formatIndex).length ≤ bytesRead + overlap
    · rw [scanPositions_step _ _ _ _ _ _ _ _ _ h, hidle i (le_refl _) h st]
      exact ih _ (by omega) _ _ rfl (fun i' h1 h2 st' => hidle i' (by omega) h2 st')
    · exact scanPositions_done _ _ _ _ _ _ _ _ _ h

theorem scanStep_mp3_idle (ex : Extractors) (io : IoEnv) (device buffer : List Nat)
    (offset i : Nat) (st : RunState) (h : ex.matchesMP3Header buffer i = false) :
    scanStep ex io device buffer offset 4 i st = (st, i) := by
  simp [scanStep, h]

theorem scanFormats_idle (ex : Extractors) (io : IoEnv) (device buffer : List Nat)
    (File_Supported : List Bool) (offset bytesRead : Nat) :
    ∀ (formats : List Nat) (st : RunState),
      (∀ f ∈ formats, File_Supported.getD f false = true →
        ∀ st', scanPositions ex io device buffer offset bytesRead f 0 st' = st') →
      scanFormats ex io device buffer File_Supported offset bytesRead formats st = st
  | [], st, _ => rfl
  | f :: more, st, h => by
    rw [scanFormats]
    have hrec := scanFormats_idle ex io device buffer File_Supported offset bytesRead more
    by_cases hm : File_Supported.getD f false = true
    · rw [if_neg (by rw [hm]; decide), h f (List.mem_cons_self _ _) hm st]
      exact hrec st (fun f' hf' => h f' (List.mem_cons_of_mem _ hf'))
    · rw [if_pos (by simpa using hm)]
      exact hrec st (fun f' hf' => h f' (List.mem_cons_of_mem _ hf'))

/-- From offset `lo` on no enabled signature stands wholly inside a chunk of the
device, and the MP3 header test, when enabled, never succeeds: started at or
after `lo`, the loop of `run` finds no candidate and leaves the state as it
is. -/
theorem runLoop_no_candidates (ex : Extractors) (io : IoEnv) (device : List Nat)
    (File_Supported : List Bool)
    (hmp3 : File_Supported.getD 4 false = true → ∀ b i, ex.matchesMP3Header b i = false)
    (lo : Nat)
    (hnone : ∀ f, f < 4 → File_Supported.getD f false = true →
      ∀ a, lo ≤ a → a % chunkSize + (signatureOf f).length ≤ chunkSize →
        ¬ signatureOf f <+: device.drop a) :
    ∀ (n : Nat) (rest buffer : List Nat) (offset chunkNo : Nat) (st : RunState),
      rest.length = n → rest = device.drop offset → offset % chunkSize = 0 →
      lo ≤ offset → buffer.length = chunkSize →
      runLoop ex io device File_Supported (fun _ => false) rest buffer offset chunkNo st =
        (true, st) := by
  have hcs := chunkSize_eq
  have hov : overlap = 0 := rfl
  intro n
  induction n using Nat.strong_induction_on with
  | _ n ih =>
    intro rest buffer offset chunkNo st hn hrest hoff hlo hbuf
    by_cases hnil : rest = []
    · rw [hnil, runLoop_nil]
    · rw [runLoop_step _ _ _ _ _ _ _ _ _ _ hnil rfl]
      have hc := take_chunk_length_le rest
      have hidle : scanFormats ex io device
          (rest.take chunkSize ++ buffer.drop (rest.take chunkSize).length)
          File_Supported offset (rest.take chunkSize).length
          (List.range SupportedFileCount) st = st := by
        apply scanFormats_idle
        intro f hf hmask st'
        rw [SupportedFileCount, List.mem_range] at hf
        by_cases hf4 : f < 4
        · apply scanPositions_no_match _ _ _ _ _ _ _ _ _ hf4
          intro i _ hscan
          rcases Bool.eq_false_or_eq_true (matchesSignature
            (rest.take chunkSize ++ buffer.drop (rest.take chunkSize).length) i
            (signatureOf f) f) with hm | hm
          · exfalso
            have hsl : 0 < (signatureOf f).length := by
              interval_cases f <;> decide
            have hp := @data_of_matches_readBufferAt buffer rest _ _ 0 _
              (by rw [readBufferAt]; exact hm) (by rw [chunkAt_zero]; omega)
            rw [Nat.mul_zero, Nat.zero_add, hrest, List.drop_drop] at hp
            refine hnone f hf4 hmask (offset + i) (by omega) ?_ hp
            have : (offset + i) % chunkSize = i := by
              rw [Nat.add_mod, hoff, Nat.zero_add, Nat.mod_mod, Nat.mod_eq_of_lt (by omega)]
            omega
          · exact hm
        · have h4 : f = 4 := by omega
          subst h4
          exact scanPositions_idle _ _ _ _ _ _ _ _ _ _ rfl
            (fun i' _ _ st'' => scanStep_mp3_idle _ _ _ _ _ _ _ (hmp3 hmask _ _))
      rw [hidle]
      by_cases hlast : rest.drop chunkSize = []
      · rw [hlast, runLoop_nil]
      · have hfull := take_chunk_full hlast
        have hshort : (rest.drop chunkSize).length < n := by
          have : 0 < rest.length := List.length_pos.mpr hnil
          simp only [List.length_drop, chunkSize]; omega
        apply ih _ hshort _ _ _ _ _ rfl
        · rw [hfull, hrest, List.drop_drop]
        · rw [hfull, Nat.add_mod, hoff, Nat.mod_self]; rfl
        · omega
        · rw [List.length_append, List.length_drop]; omega

theorem no_signature_in_zeros (n : Nat) : ∀ S ∈ SIGNATURES, ¬ S <:+: List.replicate n 0 := by
  intro S hS
  simp only [SIGNATURES, List.mem_cons, List.mem_singleton, List.not_mem_nil, or_false] at hS
  rcases hS with h | h | h | h | h | h | h | h | h | h <;> subst h
  · exact not_infix_of_not_mem (x := 0x89) (by simp [PNG_SIGNATURE]) (by simp [List.mem_replicate])
  · exact not_infix_of_not_mem (x := 0xFF) (by simp [JPEG_SIGNATURE]) (by simp [List.mem_replicate])
  · exact not_infix_of_not_mem (x := 0x25) (by simp [PDF_SIGNATURE]) (by simp [List.mem_replicate])
  · exact not_infix_of_not_mem (x := 0x50) (by simp [ZIP_SIGNATURE]) (by simp [List.mem_replicate])
  · exact not_infix_of_not_mem (x := 0xFF) (by simp [MP3_SIG]) (by simp [List.mem_replicate])
  · exact not_infix_of_not_mem (x := 0xD0) (by simp [DOC_SIGNATURE]) (by simp [List.mem_replicate])
  · exact not_infix_of_not_mem (x := 0x50) (by simp [DOCX_SIGNATURE]) (by simp [List.mem_replicate])
  · exact not_infix_of_not_mem (x := 0x66) (by simp [MP4_SIGNATURE]) (by simp [List.mem_replicate])
  · exact not_infix_of_not_mem (x := 0x4D) (by simp [EXE_SIGNATURE]) (by simp [List.mem_replicate])
  · exact not_infix_of_not_mem (x := 0x7F) (by simp [ELF_SIGNATURE]) (by simp [List.mem_replicate])

/-- In `a` zero bytes followed by a PNG candidate, the PNG signature stands at
offset `a` alone. -/
theorem png_signature_offset (a n pos : Nat)
    (h : PNG_SIGNATURE <+: (List.replicate a 0 ++ pngFile n ++ []).drop pos) : pos = a := by
  obtain ⟨t, ht⟩ := h
  have hsplit : List.replicate a 0 ++ pngFile n ++ [] =
      List.replicate a 0 ++ 0x89 ::
        ([0x50, 0x4E, 0x47, 0x0D, 0x0A, 0x1A, 0x0A] ++ List.replicate n 1 ++ PNG_IEND) := by
    simp [pngFile, PNG_SIGNATURE]
  have hocc : List.replicate a 0 ++ pngFile n ++ [] =
      (List.replicate a 0 ++ pngFile n ++ []).take pos ++ 0x89 ::
        ([0x50, 0x4E, 0x47, 0x0D, 0x0A, 0x1A, 0x0A] ++ t) := by
    conv_lhs => rw [← List.take_append_drop pos (List.replicate a 0 ++ pngFile n ++ []), ← ht]
    simp [PNG_SIGNATURE]
  have hlen : (List.replicate a 0 ++ pngFile n ++ []).length = a + (n + 20) := by
    rw [List.append_nil, List.length_append, List.length_replicate, pngFile_length]
  rw [hsplit] at hocc
  have := (@List.append_cons_inj_of_not_mem Nat _ _ _ _ 0x89 0x89
    (by simp [List.mem_replicate]) (by simp [PNG_IEND, List.mem_replicate])).mp hocc
  have h1 := congrArg List.length this.1
  rw [List.length_replicate, List.length_take, ← hsplit, hlen] at h1
  omega

/-- After 4095 zero bytes the 1 KiB PNG candidate `pngFile 1004` is well formed,
no signature occurs in the bytes before or after it, and `run` with PNG
enabled emits nothing: the signature straddles offset 4096, and no window of
the scan holds it whole. -/
theorem run_misses_png_across_chunks :
    signatureOf 0 <+: pngFile 1004 ∧ endMarkerOf 0 <:+ pngFile 1004 ∧
      (∀ p, p + (endMarkerOf 0).length < (pngFile 1004).length →
        ¬ endMarkerOf 0 <+: (pngFile 1004).drop p) ∧
      minSizeOf 0 ≤ (pngFile 1004).length ∧ (pngFile 1004).length ≤ maxSizeOf 0 ∧
      (∀ S ∈ SIGNATURES, ¬ S <:+: List.replicate 4095 0) ∧
      (∀ S ∈ SIGNATURES, ¬ S <:+: ([] : List Nat)) ∧
      run noExtractors ioOk (some (List.replicate 4095 0 ++ pngFile 1004 ++ [])) pngOnly
        (fun _ => false) initialFileCount = (true, ⟨initialFileCount, 0, 0, []⟩) := by
  refine ⟨?_, ?_, pngFile_marker_once 1004, ?_, ?_, no_signature_in_zeros 4095,
    no_signature_in_zeros 0, ?_⟩
  · rw [signatureOf_zero, pngFile, List.append_assoc]; exact List.prefix_append _ _
  · rw [endMarkerOf_zero, pngFile]; exact List.suffix_append _ _
  · rw [minSizeOf_zero, pngFile_length]
  · rw [maxSizeOf_zero, pngFile_length]; norm_num
  · rw [run_some]
    apply runLoop_no_candidates noExtractors ioOk _ pngOnly (fun _ _ _ => rfl) 0 _ _ _ _ 0 0 _
      rfl rfl rfl (le_refl _) initial_buffer_length
    intro f hf hmask a _ ha hp
    have hf0 : f = 0 := by
      interval_cases f <;> first | rfl | (exfalso; revert hmask; decide)
    subst hf0
    rw [signatureOf_zero] at hp ha
    have := png_signature_offset 4095 1004 a hp
    subst this
    norm_num [chunkSize, PNG_SIGNATURE] at ha

theorem prefix_readBufferAt_of_data {init rest token : List Nat} {k j : Nat}
    (hinit : init.length = chunkSize)
    (hj : j + token.length ≤ (chunkAt rest k).length)
    (h : token <+: rest.drop (chunkSize * k + j)) :
    j + token.length ≤ (readBufferAt init rest k).length ∧
      token <+: (readBufferAt init rest k).drop j := by
  obtain ⟨tail, hbuf⟩ := readBufferAt_eq k init rest
  have hlenb := readBufferAt_length k init rest hinit
  have hle := chunkAt_length_le rest k
  refine ⟨by omega, ?_⟩
  rw [hbuf, List.drop_append_of_le_length (by omega), List.prefix_iff_eq_take,
    List.take_append_of_le_length (by rw [List.length_drop]; omega),
    chunkAt_drop_take rest k j _ hj]
  exact List.prefix_iff_eq_take.mp h

theorem jpegBody_length (n : Nat) : (jpegBody n).length = n + 10 := by
  simp [jpegBody]

theorem jpegBody_fourth (n : Nat) : (jpegBody n).getD 3 0 = 0 := by
  simp [jpegBody]

theorem jpegBody_signature (n : Nat) : JPEG_SIGNATURE <+: jpegBody n :=
  ⟨0x00 :: (List.replicate n 0 ++ [0x00, 0x00, 0x00, 0xE0, 0xFF, 0xD9]), by
    simp [jpegBody, JPEG_SIGNATURE]⟩

theorem jpegBody_split (n : Nat) :
    jpegBody n = ([0xFF, 0xD8, 0xFF, 0x00] ++ List.replicate n 0) ++
      [0x00, 0x00, 0x00, 0xE0, 0xFF, 0xD9] := by
  simp [jpegBody]

/-- The loop of `extractFile` for JPEG on `jpegBody n` with a first chunk of
exactly `chunkSize` bytes: the end marker is found in the second chunk, whose
cell 3 holds `E0`. -/
theorem scanFrom_jpegStray (n : Nat) (hn : n + 4 = 4096) :
    ∃ st, scanFrom (jpegStray n) 4 1 = .finished st ∧ st.foundEnd = true ∧
      st.written = jpegBody n ∧ st.totalBytesWritten = n + 10 := by
  have hcs := chunkSize_eq
  have hdrop4 : (jpegStray n).drop 4 = jpegBody n := List.drop_left' rfl
  have hlen := jpegBody_length n
  have hA : ([0xFF, 0xD8, 0xFF, 0x00] ++ List.replicate n 0).length = chunkSize := by
    simp; omega
  have htake : (jpegBody n).take chunkSize = [0xFF, 0xD8, 0xFF, 0x00] ++ List.replicate n 0 := by
    rw [jpegBody_split]; exact List.take_left' hA
  have hdrop : (jpegBody n).drop chunkSize = [0x00, 0x00, 0x00, 0xE0, 0xFF, 0xD9] := by
    rw [jpegBody_split]; exact List.drop_left' hA
  have h2 : (endMarkerOf 1).length = 2 := rfl
  have hm0 : scannedMatch 1 initialScan.readBuffer ((jpegStray n).drop 4) (endMarkerOf 1) 1
      1 4 = true := by
    rw [hdrop4]
    simp only [scannedMatch, Bool.and_eq_true, decide_eq_true_eq]
    constructor
    · rw [chunkAt_length, hlen, h2]; omega
    · have hbuf : readBufferAt initialScan.readBuffer (jpegBody n) 1 =
          [0x00, 0x00, 0x00, 0xE0, 0xFF, 0xD9] ++
            (([0xFF, 0xD8, 0xFF, 0x00] ++ List.replicate n 0) ++
              initialScan.readBuffer.drop chunkSize).drop 6 := by
        rw [readBufferAt, readBufferAt, htake, hdrop, hA]
        have h6 : (List.take chunkSize [0x00, 0x00, 0x00, 0xE0, 0xFF, 0xD9]) =
            [0x00, 0x00, 0x00, 0xE0, 0xFF, 0xD9] :=
          List.take_of_length_le (by rw [hcs]; decide)
        rw [h6]
        rfl
      rw [hbuf, matchesSignature_iff]
      refine ⟨?_, ?_, ?_⟩
      · simp [endMarkerOf_one, JPEG_END]
      · simp [endMarkerOf_one, JPEG_END]
      · intro _
        have h224 : (224 : Nat) &&& 240 = 224 := by decide
        simpa using h224
  obtain ⟨st, hs, hfe, hwr, htot, -, -⟩ := scanFrom_first_marker 1 (by decide)
    (jpegStray n) 4 1 4 hm0
    (by
      intro k j hlt
      rcases Bool.eq_false_or_eq_true (scannedMatch 1 initialScan.readBuffer
        ((jpegStray n).drop 4) (endMarkerOf 1) 1 k j) with hm | hm
      · exfalso
        have hp := scannedMatch_data hm (le_refl _)
        rw [hdrop4] at hp
        have hmem := mem_take_of_prefix_drop (n := chunkSize + 5) (x := 0xD9) hp
          (by rw [h2]; omega) (by simp [endMarkerOf_one, JPEG_END])
        rw [jpegBody_split, ← hA, List.take_append, List.mem_append] at hmem
        rcases hmem with h | h
        · simp [List.mem_replicate] at h
        · simp at h
      · exact hm)
    (by rw [h2]; norm_num [chunkSize, maxSizeOf, Size_limit])
  refine ⟨st, hs, hfe, ?_, ?_⟩
  · rw [hwr, hdrop4]
    exact List.take_of_length_le (by rw [hlen, h2]; omega)
  · rw [htot, h2]; omega

theorem extractFile_jpegStray (n : Nat) (hn : n + 4 = 4096) (fileCount : Int)
    (File_Count : List Int) :
    extractFile ioOk (jpegStray n) 4 fileCount 1 File_Count =
      ⟨bumpCount File_Count 1, fileCount,
        some ⟨1, (bumpCount File_Count 1).getD 1 0, jpegBody n⟩⟩ := by
  obtain ⟨st, hs, hfe, hwr, htot⟩ := scanFrom_jpegStray n hn
  have h := extractFile_kept ioOk fileCount File_Count rfl rfl hs hfe
    (by rw [htot]; norm_num [minSizeOf, Size_limit]; omega)
    (by rw [htot]; norm_num [maxSizeOf, Size_limit]; omega) (by intro h; cases h)
  rw [hwr] at h
  exact h

/-- On the device `jpegStray n`, `run` finds the JPEG signature at offset 4
(cell 3 of its buffer holds `E0`) and emits `jpegBody n`. -/
theorem run_jpegStray (n : Nat) (hn : n + 4 = 4096) (ex : Extractors)
    (File_Supported : List Bool) (hmask : File_Supported.getD 1 false = true)
    (File_Count : List Int) :
    Emits 1 (jpegBody n)
      (run ex ioOk (some (jpegStray n)) File_Supported (fun _ => false) File_Count).2.emitted := by
  have hcs := chunkSize_eq
  have hov : overlap = 0 := rfl
  have hslen : (jpegStray n).length = n + 14 := by
    simp [jpegStray, jpegBody_length]
  have hclen := chunkAt_length (jpegStray n) 0
  rw [hslen] at hclen
  have h3 : (signatureOf 1).length = 3 := rfl
  have hdata : signatureOf 1 <+: (jpegStray n).drop (chunkSize * 0 + 4) := by
    rw [Nat.mul_zero, Nat.zero_add, show (jpegStray n).drop 4 = jpegBody n from
      List.drop_left' rfl]
    exact jpegBody_signature n
  have hpre := @prefix_readBufferAt_of_data (List.replicate (chunkSize + overlap) 0) _ _
    0 4 initial_buffer_length (by rw [hclen, h3]; omega) hdata
  have hcell : (readBufferAt (List.replicate (chunkSize + overlap) 0) (jpegStray n) 0).getD 3 0
      = 0xE0 := by
    rw [readBufferAt, jpegStray, List.take_append_eq_append_take,
      List.take_of_length_le (show ([0x00, 0x00, 0x00, 0xE0] : List Nat).length ≤ chunkSize by
        rw [hcs]; decide)]
    simp
  have hmatch : matchesSignature
      (readBufferAt (List.replicate (chunkSize + overlap) 0) (jpegStray n) 0) 4
      (signatureOf 1) 1 = true :=
    (matchesSignature_iff _ _ _ _).mpr ⟨hpre.1, hpre.2, fun _ => by rw [hcell]; decide⟩
  rw [run_some]
  apply runLoop_emits ex ioOk (jpegStray n) File_Supported 1 (jpegBody n) 0
  · intro h
    rw [h] at hclen
    simp only [List.length_nil] at hclen
    omega
  · intro st'
    apply scanFormats_emits ex ioOk _ _ File_Supported _ _ 1 (jpegBody n) hmask _ _ _
      (by decide)
    intro st
    apply scanPositions_emits ex ioOk _ _ _ _ 1 4 (jpegBody n) (by decide)
      (by rw [hclen, h3]; omega) _ hmatch
    · intro fileCount fc
      rw [show 0 + chunkSize * 0 + 4 = 4 by norm_num, extractFile_jpegStray n hn]
      exact ⟨_, rfl, rfl, rfl⟩
    · intro i hi hscan
      rcases Bool.eq_false_or_eq_true (matchesSignature
        (readBufferAt (List.replicate (chunkSize + overlap) 0) (jpegStray n) 0) i
        (signatureOf 1) 1) with hm | hm
      · exfalso
        have hp := data_of_matches_readBufferAt hm (by omega)
        have hmem := @head_mem_take_of_prefix_drop 0xFF [0xD8, 0xFF] _ _ 4 hp (by omega)
        rw [jpegStray, List.take_left'
          (show ([0x00, 0x00, 0x00, 0xE0] : List Nat).length = 4 from rfl)] at hmem
        simp at hmem
      · exact hm

/-- C4 (the code departs from the claim): on the device `jpegStray 4092`, `run`
with the five formats enabled emits a JPEG file that begins with `FF D8 FF`
and whose fourth byte is `00`: its high nibble is not `0xE`. -/
theorem run_emits_jpeg_without_nibble :
    ∃ out ∈ (run noExtractors ioOk (some (jpegStray 4092)) allFive (fun _ => false)
        initialFileCount).2.emitted,
      out.formatIndex = 1 ∧ JPEG_SIGNATURE <+: out.content ∧
        out.content.getD 3 0 &&& 0xF0 ≠ 0xE0 := by
  obtain ⟨out, hmem, hfmt, hcontent⟩ := run_jpegStray 4092 (by norm_num) noExtractors allFive
    rfl initialFileCount
  refine ⟨out, hmem, hfmt, ?_, ?_⟩
  · rw [hcontent]; exact jpegBody_signature 4092
  · rw [hcontent, jpegBody_fourth]; decide

theorem scanFormats_pngOnly (ex : Extractors) (io : IoEnv) (device buffer : List Nat)
    (offset bytesRead : Nat) (st : RunState) :
    scanFormats ex io device buffer pngOnly offset bytesRead (List.range SupportedFileCount)
        st =
      scanPositions ex io device buffer offset bytesRead 0 0 st := rfl

/-- A call of `extractFile` that opened both streams and leaves no file: the
caller's `fileCount` goes down by one and `File_Count[formatIndex]` stays one
higher. -/
theorem extractFile_removed_result (device : List Nat) (fileStart : Nat) (fileCount : Int)
    (formatIndex : Nat) (File_Count : List Int)
    (hnone : (extractFile ioOk device fileStart fileCount formatIndex File_Count).outFile =
      none) :
    extractFile ioOk device fileStart fileCount formatIndex File_Count =
      ⟨bumpCount File_Count formatIndex, fileCount - 1, none⟩ := by
  have h1 := extractFile_File_Count ioOk device fileStart fileCount formatIndex File_Count rfl
  have h2 := extractFile_none_fileCount ioOk device fileStart fileCount formatIndex File_Count
    rfl rfl hnone
  cases hr : extractFile ioOk device fileStart fileCount formatIndex File_Count with
  | mk a b c =>
    rw [hr] at h1 h2 hnone
    simp only at h1 h2 hnone
    rw [h1, h2, hnone]

/-- The call of `extractFile` for PNG on a device that holds the PNG signature
and nothing else. -/
theorem extractFile_pngSignature (fileCount : Int) (File_Count : List Int) :
    extractFile ioOk PNG_SIGNATURE 0 fileCount 0 File_Count =
      ⟨bumpCount File_Count 0, fileCount - 1, none⟩ := by
  apply extractFile_removed_result
  show (extractFile ioOk PNG_SIGNATURE 0 fileCount 0 File_Count).outFile = none
  have hnone : (extractFile ioOk PNG_SIGNATURE 0 fileCount 0 File_Count).outFile = none := by
    obtain ⟨st, hs, hfe, -⟩ := scanFrom_no_marker 0 (by decide)
      PNG_SIGNATURE 0
      (by
        intro k j
        have hlen := chunkAt_length (PNG_SIGNATURE.drop 0) k
        have hcs := chunkSize_eq
        have h8 : (PNG_SIGNATURE.drop 0).length = 8 := rfl
        have h12 : (endMarkerOf 0).length = 12 := rfl
        simp only [scannedMatch, Bool.and_eq_false_imp, decide_eq_true_eq]
        intro hj
        omega)
      (by rw [maxSizeOf_zero]; decide)
    exact extractFile_not_found hs hfe (by rintro ⟨h, -⟩; cases h)
  exact hnone

/-- C10 (the code departs from the claim): on a device that holds the eight
bytes of the PNG signature, `run` with PNG enabled emits no file and ends with
`File_Count[0] = 1`: `extractFile` takes the discarded candidate off the
caller's `fileCount` and leaves `File_Count[0]` as `++File_Count[0]` made it. -/
theorem run_counts_discarded_candidate :
    run noExtractors ioOk (some PNG_SIGNATURE) pngOnly (fun _ => false) initialFileCount =
      (true, ⟨[1, 0, 0, 0, 0, 0, 0, 0, 0, 0], 0, 0, []⟩) := by
  have hcs := chunkSize_eq
  have hov : overlap = 0 := rfl
  have hnil : PNG_SIGNATURE ≠ [] := by decide
  have htake : PNG_SIGNATURE.take chunkSize = PNG_SIGNATURE :=
    List.take_of_length_le (by rw [hcs]; decide)
  have hdrop : PNG_SIGNATURE.drop chunkSize = [] :=
    List.drop_eq_nil_of_le (by rw [hcs]; decide)
  have h8 : PNG_SIGNATURE.length = 8 := rfl
  have hsig : (signatureOf 0).length = 8 := rfl
  rw [run_some, runLoop_step _ _ _ _ _ _ _ _ _ _ hnil rfl, hdrop, runLoop_nil, htake,
    scanFormats_pngOnly,
    scanPositions_step _ _ _ _ _ _ _ _ _ (by rw [hsig, h8, hov]),
    scanStep_match _ _ _ _ _ _ _ _ (by decide)
      (matchesSignature_of_occurrence (by decide)
        (by
          rw [Nat.zero_add, signatureOf_zero, List.length_append]
          exact Nat.le_add_right _ _)
        (List.prefix_append _ _)),
    scanPositions_done _ _ _ _ _ _ _ _ _ (by rw [hsig, h8, hov]; decide),
    extractFile_pngSignature]
  rfl

/-- On the PNG candidate `pngFile n` of 4096 + 6 bytes the end marker lies
across offset 4096: no tested position matches it and the candidate is
removed. -/
theorem extractFile_pngStraddle (n : Nat) (hn : n + 20 = 4102) (fileCount : Int)
    (File_Count : List Int) :
    extractFile ioOk (pngFile n) 0 fileCount 0 File_Count =
      ⟨bumpCount File_Count 0, fileCount - 1, none⟩ := by
  apply extractFile_removed_result
  have hcs := chunkSize_eq
  have hlen := pngFile_length n
  have h12 : (endMarkerOf 0).length = 12 := rfl
  obtain ⟨st, hs, hfe, -⟩ := scanFrom_no_marker 0 (by decide) (pngFile n) 0
    (by
      intro k j
      rcases Bool.eq_false_or_eq_true (scannedMatch 0 initialScan.readBuffer
        ((pngFile n).drop 0) (endMarkerOf 0) 0 k j) with hm | hm
      · exfalso
        have hp := scannedMatch_data hm (le_refl _)
        simp only [scannedMatch, Bool.and_eq_true, decide_eq_true_eq] at hm
        have hvisit := hm.1
        have hcl := chunkAt_length_le ((pngFile n).drop 0) k
        rw [List.drop_zero] at hp
        have hple := hp.length_le
        rw [List.length_drop, hlen, h12] at hple
        by_cases hlast : chunkSize * k + j + (endMarkerOf 0).length < (pngFile n).length
        · exact pngFile_marker_once n _ hlast hp
        · rw [hlen, h12] at hlast
          have hk : k = 0 := by
            by_contra hk0
            have : 1 ≤ k := Nat.one_le_iff_ne_zero.mpr hk0
            have : chunkSize * 1 ≤ chunkSize * k := Nat.mul_le_mul_left _ this
            omega
          subst hk
          omega
      · exact hm)
    (by rw [List.drop_zero, hlen, maxSizeOf_zero]; omega)
  exact extractFile_not_found hs hfe (by rintro ⟨h, -⟩; cases h)

/-- On the device `pngFile n` of 4096 + 6 bytes, `run` with PNG enabled finds
the signature at offset 0, removes the candidate and finds nothing else. -/
theorem run_pngStraddle (n : Nat) (hn : n + 20 = 4102) (File_Count : List Int) :
    run noExtractors ioOk (some (pngFile n)) pngOnly (fun _ => false) File_Count =
      (true, ⟨bumpCount File_Count 0, 0, 0, []⟩) := by
  have hcs := chunkSize_eq
  have hov : overlap = 0 := rfl
  have hlen := pngFile_length n
  have hsig : (signatureOf 0).length = 8 := rfl
  have hnil : pngFile n ≠ [] := by
    intro h
    rw [h] at hlen
    simp only [List.length_nil] at hlen
    omega
  have hfull : ((pngFile n).take chunkSize).length = chunkSize := by
    rw [List.length_take, hlen]; omega
  have hocc : ∀ a, signatureOf 0 <+: (pngFile n).drop a → a = 0 := by
    intro a ha
    apply png_signature_offset 0 n a
    rw [signatureOf_zero] at ha
    simpa using ha
  have hm0 : matchesSignature
      ((pngFile n).take chunkSize ++
        (List.replicate (chunkSize + overlap) 0).drop ((pngFile n).take chunkSize).length)
      0 (signatureOf 0) 0 = true := by
    have := @matches_readBufferAt_of_data (List.replicate (chunkSize + overlap) 0)
      (pngFile n) (signatureOf 0) 0 0 0 (by decide) initial_buffer_length
      (by rw [chunkAt_zero, hfull, hsig]; omega)
      (by
        rw [Nat.mul_zero, Nat.add_zero, List.drop_zero, signatureOf_zero, pngFile,
          List.append_assoc]
        exact List.prefix_append _ _)
    rw [readBufferAt] at this
    exact this
  rw [run_some, runLoop_step _ _ _ _ _ _ _ _ _ _ hnil rfl, scanFormats_pngOnly,
    scanPositions_step _ _ _ _ _ _ _ _ _ (by rw [hsig, hfull, hov]; omega),
    scanStep_match _ _ _ _ _ _ _ _ (by decide) hm0]
  simp only
  rw [extractFile_pngStraddle n hn,
    scanPositions_no_match _ _ _ _ _ _ _ _ _ (by decide)
      (by
        intro i hi hscan
        rcases Bool.eq_false_or_eq_true (matchesSignature
          ((pngFile n).take chunkSize ++
            (List.replicate (chunkSize + overlap) 0).drop
              ((pngFile n).take chunkSize).length) i (signatureOf 0) 0) with hm | hm
        · exfalso
          have hp := @data_of_matches_readBufferAt (List.replicate (chunkSize + overlap) 0)
            (pngFile n) _ _ 0 _ (by rw [readBufferAt]; exact hm)
            (by rw [chunkAt_zero]; omega)
          have := hocc _ hp
          omega
        · exact hm)]
  rw [runLoop_no_candidates noExtractors ioOk (pngFile n) pngOnly (fun _ _ _ => rfl) 1
    (by
      intro f hf hmask a ha _ hp
      have hf0 : f = 0 := by
        interval_cases f <;> first | rfl | (exfalso; revert hmask; decide)
      subst hf0
      have := hocc a hp
      omega)
    _ _ _ _ _ _ rfl (by rw [hfull, Nat.zero_add]) (by rw [hfull, Nat.zero_add, Nat.mod_self])
    (by rw [hfull]; omega)
    (by rw [List.length_append, List.length_drop, hfull, List.length_replicate]; omega)]
  rfl

/-- C2 (as stated, false): the PNG candidate `pngFile 4082` of 4096 + 6 bytes,
alone on the device, meets every condition of the claim (it begins with the
signature, ends with the end marker, holds the end marker nowhere else, its
length is within the bounds, nothing stands before or after it), and `run`
with PNG enabled emits no file: the end marker lies across offset 4096 of the
candidate, and `extractFile` tests each chunk on its own. -/
theorem run_misses_marker_across_chunks :
    signatureOf 0 <+: pngFile 4082 ∧ endMarkerOf 0 <:+ pngFile 4082 ∧
      (∀ p, p + (endMarkerOf 0).length < (pngFile 4082).length →
        ¬ endMarkerOf 0 <+: (pngFile 4082).drop p) ∧
      minSizeOf 0 ≤ (pngFile 4082).length ∧ (pngFile 4082).length ≤ maxSizeOf 0 ∧
      (∀ S ∈ SIGNATURES, ¬ S <:+: ([] : List Nat)) ∧
      run noExtractors ioOk (some ([] ++ pngFile 4082 ++ [])) pngOnly (fun _ => false)
        initialFileCount = (true, ⟨[1, 0, 0, 0, 0, 0, 0, 0, 0, 0], 0, 0, []⟩) := by
  refine ⟨?_, ?_, pngFile_marker_once 4082, ?_, ?_, no_signature_in_zeros 0, ?_⟩
  · rw [signatureOf_zero, pngFile, List.append_assoc]; exact List.prefix_append _ _
  · rw [endMarkerOf_zero, pngFile]; exact List.suffix_append _ _
  · rw [minSizeOf_zero, pngFile_length]; norm_num
  · rw [maxSizeOf_zero, pngFile_length]; norm_num
  · rw [List.nil_append, List.append_nil, run_pngStraddle 4082 (by norm_num)]
    rfl

/-! ## `matchesSignature` and `matchesMP4Header`, byte by byte -/

/-- A list is a prefix of `buffer` from `pos` on when it fits there and agrees
with the buffer cell by cell. -/
theorem occurrence_iff_getD (buffer token : List Nat) (pos : Nat)
    (hlen : pos + token.length ≤ buffer.length) :
    token <+: buffer.drop pos ↔
      ∀ k, k < token.length → buffer.getD (pos + k) 0 = token.getD k 0 := by
  constructor
  · rintro ⟨t, ht⟩ k hk
    have h1 : buffer.getD (pos + k) 0 = (buffer.drop pos).getD k 0 := by
      rw [List.getD_eq_getElem?_getD, List.getD_eq_getElem?_getD, List.getElem?_drop]
    rw [h1, ← ht, List.getD_append _ _ _ _ hk]
  · intro h
    rw [List.prefix_iff_eq_take]
    apply List.ext_getElem
    · rw [List.length_take, List.length_drop]; omega
    · intro k h1 h2
      have hk := h k h1
      rw [List.getD_eq_getElem _ _ (by omega), List.getD_eq_getElem _ _ h1] at hk
      rw [List.getElem_take, List.getElem_drop]
      exact hk.symm

/-- C15: for a format index other than 1, `matchesSignature` is true exactly
when the signature fits in the buffer at `pos` and every byte of it equals the
buffer byte at the same distance from `pos`; for every format index it is
false when the signature does not fit. -/
theorem matchesSignature_bytewise (buffer : List Nat) (pos : Nat) (signature : List Nat)
    (formatIndex : Nat) :
    (formatIndex ≠ 1 →
      (matchesSignature buffer pos signature formatIndex = true ↔
        pos + signature.length ≤ buffer.length ∧
          ∀ k, k < signature.length → buffer.getD (pos + k) 0 = signature.getD k 0)) ∧
      (pos + signature.length > buffer.length →
        matchesSignature buffer pos signature formatIndex = false) := by
  constructor
  · intro hne
    rw [matchesSignature_iff]
    constructor
    · rintro ⟨hlen, hp, -⟩
      exact ⟨hlen, (occurrence_iff_getD buffer signature pos hlen).mp hp⟩
    · rintro ⟨hlen, hk⟩
      exact ⟨hlen, (occurrence_iff_getD buffer signature pos hlen).mpr hk,
        fun h => absurd h hne⟩
  · intro hlen
    rcases Bool.eq_false_or_eq_true (matchesSignature buffer pos signature formatIndex)
      with h | h
    · have := ((matchesSignature_iff _ _ _ _).mp h).1
      omega
    · exact h

/-- Witness of C15: the PNG signature at offset 2 of a 10-byte buffer matches,
and at offset 3 it does not fit. -/
theorem matchesSignature_bytewise_witness :
    (matchesSignature ([7, 7] ++ PNG_SIGNATURE) 2 PNG_SIGNATURE 0 = true ↔
        2 + PNG_SIGNATURE.length ≤ ([7, 7] ++ PNG_SIGNATURE).length ∧
          ∀ k, k < PNG_SIGNATURE.length →
            ([7, 7] ++ PNG_SIGNATURE).getD (2 + k) 0 = PNG_SIGNATURE.getD k 0) ∧
      matchesSignature ([7, 7] ++ PNG_SIGNATURE) 2 PNG_SIGNATURE 0 = true ∧
      matchesSignature ([7, 7] ++ PNG_SIGNATURE) 3 PNG_SIGNATURE 0 = false :=
  ⟨(matchesSignature_bytewise ([7, 7] ++ PNG_SIGNATURE) 2 PNG_SIGNATURE 0).1 (by decide),
    by decide,
    (matchesSignature_bytewise ([7, 7] ++ PNG_SIGNATURE) 3 PNG_SIGNATURE 0).2 (by decide)⟩

/-- C16 (the code departs from the claim): for format 1 `matchesSignature`
tests the high nibble of `buffer[3]`, whatever `pos` is.  In the buffer
`00 00 00 E0 FF D8 FF 00` it accepts position 4, where the byte after
`FF D8 FF` is `00`; in `00 00 00 00 FF D8 FF E0` it rejects position 4, where
that byte is `E0`. -/
theorem matchesSignature_jpeg_tests_cell_three :
    (∀ (buffer : List Nat) (pos : Nat),
      matchesSignature buffer pos JPEG_SIGNATURE 1 = true ↔
        pos + 3 ≤ buffer.length ∧
          (buffer.getD pos 0 = 0xFF ∧ buffer.getD (pos + 1) 0 = 0xD8 ∧
            buffer.getD (pos + 2) 0 = 0xFF) ∧
          buffer.getD 3 0 &&& 0xF0 = 0xE0) ∧
      (matchesSignature [0x00, 0x00, 0x00, 0xE0, 0xFF, 0xD8, 0xFF, 0x00] 4
          JPEG_SIGNATURE 1 = true ∧
        ([0x00, 0x00, 0x00, 0xE0, 0xFF, 0xD8, 0xFF, 0x00] : List Nat).getD (4 + 3) 0
          &&& 0xF0 ≠ 0xE0) ∧
      (matchesSignature [0x00, 0x00, 0x00, 0x00, 0xFF, 0xD8, 0xFF, 0xE0] 4
          JPEG_SIGNATURE 1 = false ∧
        ([0x00, 0x00, 0x00, 0x00, 0xFF, 0xD8, 0xFF, 0xE0] : List Nat).getD (4 + 3) 0
          &&& 0xF0 = 0xE0) := by
  refine ⟨?_, ⟨by decide, by decide⟩, ⟨by decide, by decide⟩⟩
  intro buffer pos
  rw [matchesSignature_iff]
  have h3 : JPEG_SIGNATURE.length = 3 := rfl
  constructor
  · rintro ⟨hlen, hp, hn⟩
    have hk := (occurrence_iff_getD buffer JPEG_SIGNATURE pos hlen).mp hp
    refine ⟨by omega, ⟨?_, ?_, ?_⟩, hn rfl⟩
    · exact hk 0 (by decide)
    · exact hk 1 (by decide)
    · exact hk 2 (by decide)
  · rintro ⟨hlen, ⟨h0, h1, h2⟩, hn⟩
    refine ⟨by omega, ?_, fun _ => hn⟩
    apply (occurrence_iff_getD buffer JPEG_SIGNATURE pos (by omega)).mpr
    intro k hk
    rw [h3] at hk
    interval_cases k
    · exact h0
    · exact h1
    · exact h2

theorem boxTypeLoop_iff (buffer signature : List Nat) (offset : Nat) :
    ∀ (is : List Nat), boxTypeLoop buffer signature offset is = true ↔
      ∀ i ∈ is, buffer.getD (offset + i) 0 = signature.getD i 0
  | [] => by simp [boxTypeLoop]
  | i :: more => by
    rw [boxTypeLoop]
    by_cases h : buffer.getD (offset + i) 0 = signature.getD i 0
    · rw [if_neg (by rw [bne_iff_ne]; exact not_not.mpr h),
        boxTypeLoop_iff buffer signature offset more, List.forall_mem_cons]
      exact ⟨fun hm => ⟨h, hm⟩, fun hm => hm.2⟩
    · rw [if_pos (by rw [bne_iff_ne]; exact h)]
      constructor
      · intro hf; cases hf
      · intro hall; exact absurd (hall i (List.mem_cons_self _ _)) h

/-- C17: `matchesMP4Header(buffer, MP4_SIGNATURE, offset)` is true exactly when
eight bytes fit in the buffer at `offset` and the bytes at `offset + 4` to
`offset + 7` are `66 74 79 70`; so two buffers of one length that agree on
these four cells give the same answer, whatever the four bytes before them. -/
theorem matchesMP4Header_wildcard (buffer : List Nat) (offset : Nat) :
    (matchesMP4Header buffer MP4_SIGNATURE offset = true ↔
      offset + 8 ≤ buffer.length ∧ buffer.getD (offset + 4) 0 = 0x66 ∧
        buffer.getD (offset + 5) 0 = 0x74 ∧ buffer.getD (offset + 6) 0 = 0x79 ∧
        buffer.getD (offset + 7) 0 = 0x70) ∧
      ∀ other : List Nat, other.length = buffer.length →
        (∀ k, 4 ≤ k → k < 8 → other.getD (offset + k) 0 = buffer.getD (offset + k) 0) →
        matchesMP4Header other MP4_SIGNATURE offset =
          matchesMP4Header buffer MP4_SIGNATURE offset := by
  have key : ∀ b : List Nat, matchesMP4Header b MP4_SIGNATURE offset = true ↔
      offset + 8 ≤ b.length ∧ b.getD (offset + 4) 0 = 0x66 ∧
        b.getD (offset + 5) 0 = 0x74 ∧ b.getD (offset + 6) 0 = 0x79 ∧
        b.getD (offset + 7) 0 = 0x70 := by
    intro b
    have h8 : MP4_SIGNATURE.length = 8 := rfl
    have hr : List.range' 4 (MP4_SIGNATURE.length - 4) = [4, 5, 6, 7] := rfl
    unfold matchesMP4Header
    rw [hr, h8]
    by_cases hlen : offset + 8 > b.length
    · simp only [hlen, if_true]
      constructor
      · intro h; cases h
      · rintro ⟨h, -⟩; omega
    · rw [if_neg hlen, boxTypeLoop_iff]
      have hle : offset + 8 ≤ b.length := by omega
      simp [MP4_SIGNATURE, hle]
  refine ⟨key buffer, ?_⟩
  intro other hlen hsame
  rw [Bool.eq_iff_iff, key other, key buffer, hlen,
    hsame 4 (by omega) (by omega), hsame 5 (by omega) (by omega),
    hsame 6 (by omega) (by omega), hsame 7 (by omega) (by omega)]

/-! ## `parse_mp3_frame_header` -/

theorem forall_fields (P : Nat → Nat → Nat → Nat → Nat → Prop)
    [∀ v l b s p, Decidable (P v l b s p)]
    (h : ((List.range 4).all fun v => (List.range 4).all fun l =>
      (List.range 16).all fun b => (List.range 4).all fun s =>
        (List.range 2).all fun p => decide (P v l b s p)) = true) :
    ∀ v l b s p, v < 4 → l < 4 → b < 16 → s < 4 → p < 2 → P v l b s p := by
  simp only [List.all_eq_true, List.mem_range, decide_eq_true_eq] at h
  intro v l b s p hv hl hb hs hp
  exact h v hv l hl b hb s hs p hp

set_option maxRecDepth 1000000 in
/-- The parser accepts exactly the field values of which none is reserved. -/
theorem frameInfoOfFields_valid :
    ∀ v l b s p, v < 4 → l < 4 → b < 16 → s < 4 → p < 2 →
      (0 < (frameInfoOfFields v l b s p).getD 0 0 ↔ fieldsValid v l b s) :=
  forall_fields _ (by decide)

set_option maxRecDepth 1000000 in
theorem frameInfoOfFields_invalid :
    ∀ v l b s p, v < 4 → l < 4 → b < 16 → s < 4 → p < 2 →
      (¬ fieldsValid v l b s → frameInfoOfFields v l b s p = [0, 0, 0, 0, 0]) :=
  forall_fields _ (by decide)

set_option maxRecDepth 1000000 in
/-- The five fields the parser returns for valid field values. -/
theorem frameInfoOfFields_formula :
    ∀ v l b s p, v < 4 → l < 4 → b < 16 → s < 4 → p < 2 →
      (fieldsValid v l b s →
        frameInfoOfFields v l b s p =
          [((frameSizeFormula (LAYERS.getD l 0).toNat
              (1000 * (((BITRATE_TABLE.getD (if v = 3 then 0 else 1) []).getD
                ((LAYERS.getD l 0).toNat - 1) []).getD b 0).toNat)
              ((SAMPLING_RATE_TABLE.getD v []).getD s 0).toNat p : Nat) : Int),
            if v = 3 then 1 else 2, 4 - (l : Int),
            1000 * ((BITRATE_TABLE.getD (if v = 3 then 0 else 1) []).getD
              ((LAYERS.getD l 0).toNat - 1) []).getD b 0,
            (SAMPLING_RATE_TABLE.getD v []).getD s 0]) :=
  forall_fields _ (by decide)

theorem field_lt_four (x : Nat) : x &&& 0x03 < 4 :=
  Nat.and_lt_two_pow x (show 3 < 2 ^ 2 by decide)

theorem field_lt_sixteen (x : Nat) : x &&& 0x0F < 16 :=
  Nat.and_lt_two_pow x (show 15 < 2 ^ 4 by decide)

theorem field_lt_two (x : Nat) : x &&& 0x01 < 2 :=
  Nat.and_lt_two_pow x (show 1 < 2 ^ 1 by decide)

/-- For a byte, the mask of `bitrate_index` changes nothing. -/
theorem bitrate_index_of_byte (x : Nat) (hx : x < 256) : (x >>> 4) &&& 0x0F = x >>> 4 := by
  have h := Nat.and_pow_two_sub_one_eq_mod (x >>> 4) 4
  have h15 : (2 : Nat) ^ 4 - 1 = 0x0F := by decide
  rw [h15] at h
  rw [h, Nat.shiftRight_eq_div_pow]
  apply Nat.mod_eq_of_lt
  have : (2 : Nat) ^ 4 = 16 := by decide
  omega

/-- The value of the parser: zeros without the sync bits, else what the five
fields give. -/
theorem parse_mp3_frame_header_eq (header : List Nat) :
    parse_mp3_frame_header header =
      if header.getD 0 0 = 0xFF ∧ header.getD 1 0 &&& 0xE0 = 0xE0 then
        frameInfoOfFields ((header.getD 1 0 >>> 3) &&& 0x03) ((header.getD 1 0 >>> 1) &&& 0x03)
          ((header.getD 2 0 >>> 4) &&& 0x0F) ((header.getD 2 0 >>> 2) &&& 0x03)
          ((header.getD 2 0 >>> 1) &&& 0x01)
      else [0, 0, 0, 0, 0] := by
  unfold parse_mp3_frame_header
  generalize header.getD 0 0 = h0
  generalize header.getD 1 0 = h1
  generalize header.getD 2 0 = h2
  by_cases hs : h0 = 0xFF ∧ h1 &&& 0xE0 = 0xE0
  · rw [if_pos hs, if_neg]
    simp only [Bool.or_eq_true, bne_iff_ne, ne_eq, not_or, not_not]
    exact hs
  · rw [if_neg hs, if_pos]
    · rfl
    · simp only [Bool.or_eq_true, bne_iff_ne, ne_eq]
      by_cases h0' : h0 = 0xFF
      · exact Or.inr (fun h => hs ⟨h0', h⟩)
      · exact Or.inl h0'

/-- The parser accepts a header exactly when it has the sync bits and valid
fields; what it does not accept it answers with five zeros. -/
theorem parse_mp3_frame_header_cases (header : List Nat) :
    (0 < (parse_mp3_frame_header header).getD 0 0 ↔
      (header.getD 0 0 = 0xFF ∧ header.getD 1 0 &&& 0xE0 = 0xE0) ∧
        fieldsValid ((header.getD 1 0 >>> 3) &&& 0x03) ((header.getD 1 0 >>> 1) &&& 0x03)
          ((header.getD 2 0 >>> 4) &&& 0x0F) ((header.getD 2 0 >>> 2) &&& 0x03)) ∧
      (¬ 0 < (parse_mp3_frame_header header).getD 0 0 →
        parse_mp3_frame_header header = [0, 0, 0, 0, 0]) := by
  rw [parse_mp3_frame_header_eq]
  generalize header.getD 0 0 = h0 at *
  generalize header.getD 1 0 = h1 at *
  generalize header.getD 2 0 = h2 at *
  by_cases hs : h0 = 0xFF ∧ h1 &&& 0xE0 = 0xE0
  · rw [if_pos hs]
    have hv := frameInfoOfFields_valid _ _ _ _ _ (field_lt_four (h1 >>> 3))
      (field_lt_four (h1 >>> 1)) (field_lt_sixteen (h2 >>> 4)) (field_lt_four (h2 >>> 2))
      (field_lt_two (h2 >>> 1))
    have hi := frameInfoOfFields_invalid _ _ _ _ _ (field_lt_four (h1 >>> 3))
      (field_lt_four (h1 >>> 1)) (field_lt_sixteen (h2 >>> 4)) (field_lt_four (h2 >>> 2))
      (field_lt_two (h2 >>> 1))
    constructor
    · rw [hv]
      exact ⟨fun h => ⟨hs, h⟩, fun h => h.2⟩
    · intro hn
      exact hi (fun h => hn (hv.mpr h))
  · rw [if_neg hs]
    constructor
    · constructor
      · intro h; exact absurd h (by decide)
      · intro h; exact absurd h.1 hs
    · intro _; rfl

theorem parse_mp3_frame_header_zero {header : List Nat}
    (h : ¬ 0 < (parse_mp3_frame_header header).getD 0 0) :
    parse_mp3_frame_header header = [0, 0, 0, 0, 0] :=
  (parse_mp3_frame_header_cases header).2 h

/-- A header that does not begin with `FF` is not accepted. -/
theorem parse_mp3_frame_header_no_sync {header : List Nat} (h : header.getD 0 0 ≠ 0xFF) :
    parse_mp3_frame_header header = [0, 0, 0, 0, 0] := by
  apply parse_mp3_frame_header_zero
  intro hpos
  exact h ((parse_mp3_frame_header_cases header).1.mp hpos).1.1

/-- C18: for a header whose third byte is a byte, `parse_mp3_frame_header`
returns a frame size above 0 exactly when the first byte is `FF`, the top
three bits of the second are set, and none of `version_id`, `layer_id`,
`bitrate_index`, `sampling_rate_index` has a reserved value; in every other
case the five fields it returns are 0. -/
theorem parse_mp3_frame_header_accepts_iff (header : List Nat)
    (hbyte : header.getD 2 0 < 256) :
    (0 < (parse_mp3_frame_header header).getD 0 0 ↔
      header.getD 0 0 = 0xFF ∧ header.getD 1 0 &&& 0xE0 = 0xE0 ∧
        (header.getD 1 0 >>> 3) &&& 3 ≠ 1 ∧ (header.getD 1 0 >>> 1) &&& 3 ≠ 0 ∧
        header.getD 2 0 >>> 4 ≠ 0 ∧ header.getD 2 0 >>> 4 ≠ 15 ∧
        (header.getD 2 0 >>> 2) &&& 3 ≠ 3) ∧
      (¬ 0 < (parse_mp3_frame_header header).getD 0 0 →
        parse_mp3_frame_header header = [0, 0, 0, 0, 0]) := by
  have h := parse_mp3_frame_header_cases header
  rw [bitrate_index_of_byte _ hbyte] at h
  refine ⟨?_, h.2⟩
  rw [h.1]
  exact ⟨fun hh => ⟨hh.1.1, hh.1.2, hh.2⟩, fun hh => ⟨⟨hh.1, hh.2.1⟩, hh.2.2⟩⟩

/-- Witness of C18: `FF FB 90 00` is accepted, with frame size 417. -/
theorem parse_mp3_frame_header_accepts_iff_witness :
    ([0xFF, 0xFB, 0x90, 0x00] : List Nat).getD 2 0 < 256 ∧
      (0 < (parse_mp3_frame_header [0xFF, 0xFB, 0x90, 0x00]).getD 0 0 ↔
        ([0xFF, 0xFB, 0x90, 0x00] : List Nat).getD 0 0 = 0xFF ∧
          ([0xFF, 0xFB, 0x90, 0x00] : List Nat).getD 1 0 &&& 0xE0 = 0xE0 ∧
          (([0xFF, 0xFB, 0x90, 0x00] : List Nat).getD 1 0 >>> 3) &&& 3 ≠ 1 ∧
          (([0xFF, 0xFB, 0x90, 0x00] : List Nat).getD 1 0 >>> 1) &&& 3 ≠ 0 ∧
          ([0xFF, 0xFB, 0x90, 0x00] : List Nat).getD 2 0 >>> 4 ≠ 0 ∧
          ([0xFF, 0xFB, 0x90, 0x00] : List Nat).getD 2 0 >>> 4 ≠ 15 ∧
          (([0xFF, 0xFB, 0x90, 0x00] : List Nat).getD 2 0 >>> 2) &&& 3 ≠ 3) ∧
      (parse_mp3_frame_header [0xFF, 0xFB, 0x90, 0x00]).getD 0 0 = 417 :=
  ⟨by decide, (parse_mp3_frame_header_accepts_iff [0xFF, 0xFB, 0x90, 0x00] (by decide)).1,
    by decide⟩

/-- C19: for a header that `parse_mp3_frame_header` accepts, the frame size is
`(12 * bitrate / sample_rate + padding) * 4` for Layer I and
`144 * bitrate / sample_rate + padding` for Layers II and III, the division
being that of the natural numbers; `bitrate` is 1000 times the entry of
`BITRATE_TABLE` for MPEG 1 (`version_id = 3`) or MPEG 2/2.5, the layer and
`bitrate_index`, `sample_rate` the entry of `SAMPLING_RATE_TABLE` for
`version_id` and `sampling_rate_index`, `padding` bit 1 of the third byte.
`FF FB 90 00` gives 417 and `FF FB 92 00` gives 418, both with MPEG version 1,
layer 3, bit rate 128000 and sample rate 44100. -/
theorem parse_mp3_frame_header_frame_size :
    (∀ header : List Nat, 0 < (parse_mp3_frame_header header).getD 0 0 →
      ∃ layer bitrate sample_rate padding : Nat,
        (layer : Int) = LAYERS.getD ((header.getD 1 0 >>> 1) &&& 3) 0 ∧
        (bitrate : Int) = 1000 *
          ((BITRATE_TABLE.getD (if (header.getD 1 0 >>> 3) &&& 3 = 3 then 0 else 1) []).getD
            (layer - 1) []).getD ((header.getD 2 0 >>> 4) &&& 15) 0 ∧
        (sample_rate : Int) = (SAMPLING_RATE_TABLE.getD ((header.getD 1 0 >>> 3) &&& 3)
          []).getD ((header.getD 2 0 >>> 2) &&& 3) 0 ∧
        padding = (header.getD 2 0 >>> 1) &&& 1 ∧
        0 < sample_rate ∧
        parse_mp3_frame_header header =
          [((frameSizeFormula layer bitrate sample_rate padding : Nat) : Int),
            MPEG_VERSIONS.getD ((header.getD 1 0 >>> 3) &&& 3) 0, layer, bitrate,
            sample_rate]) ∧
      parse_mp3_frame_header [0xFF, 0xFB, 0x90, 0x00] = [417, 1, 3, 128000, 44100] ∧
      parse_mp3_frame_header [0xFF, 0xFB, 0x92, 0x00] = [418, 1, 3, 128000, 44100] := by
  refine ⟨?_, by decide, by decide⟩
  intro header hvalid
  rw [parse_mp3_frame_header_eq] at hvalid ⊢
  generalize header.getD 0 0 = h0 at *
  generalize header.getD 1 0 = h1 at *
  generalize header.getD 2 0 = h2 at *
  by_cases hs : h0 = 0xFF ∧ h1 &&& 0xE0 = 0xE0
  · rw [if_pos hs] at hvalid ⊢
    have hfv := (frameInfoOfFields_valid _ _ _ _ _ (field_lt_four (h1 >>> 3))
      (field_lt_four (h1 >>> 1)) (field_lt_sixteen (h2 >>> 4)) (field_lt_four (h2 >>> 2))
      (field_lt_two (h2 >>> 1))).mp hvalid
    have hf := frameInfoOfFields_formula _ _ _ _ _ (field_lt_four (h1 >>> 3))
      (field_lt_four (h1 >>> 1)) (field_lt_sixteen (h2 >>> 4)) (field_lt_four (h2 >>> 2))
      (field_lt_two (h2 >>> 1)) hfv
    have hv4 := field_lt_four (h1 >>> 3)
    have hl4 := field_lt_four (h1 >>> 1)
    have hb16 := field_lt_sixteen (h2 >>> 4)
    have hs4 := field_lt_four (h2 >>> 2)
    generalize (h1 >>> 3) &&& 3 = v at *
    generalize (h1 >>> 1) &&& 3 = l at *
    generalize (h2 >>> 4) &&& 15 = b at *
    generalize (h2 >>> 2) &&& 3 = s at *
    generalize (h2 >>> 1) &&& 1 = p at *
    obtain ⟨hv1, hl0, hb0, hb15, hs3⟩ := hfv
    refine ⟨(LAYERS.getD l 0).toNat,
      1000 * (((BITRATE_TABLE.getD (if v = 3 then 0 else 1) []).getD
        ((LAYERS.getD l 0).toNat - 1) []).getD b 0).toNat,
      ((SAMPLING_RATE_TABLE.getD v []).getD s 0).toNat, p, ?_, ?_, ?_, rfl, ?_, ?_⟩
    · interval_cases l <;> first | exact absurd rfl hl0 | rfl
    · interval_cases v <;> interval_cases l <;> interval_cases b <;>
        first | exact absurd rfl hl0 | exact absurd rfl hv1 | exact absurd rfl hb0 |
          exact absurd rfl hb15 | rfl
    · interval_cases v <;> interval_cases s <;>
        first | exact absurd rfl hv1 | exact absurd rfl hs3 | rfl
    · interval_cases v <;> interval_cases s <;>
        first | exact absurd rfl hv1 | exact absurd rfl hs3 | decide
    · rw [hf]
      refine List.cons_eq_cons.mpr ⟨rfl, ?_⟩
      clear hf hvalid
      interval_cases v <;> interval_cases l <;> interval_cases b <;> interval_cases s <;>
        first | exact absurd rfl hl0 | exact absurd rfl hv1 | exact absurd rfl hb0 |
          exact absurd rfl hb15 | exact absurd rfl hs3 | decide
  · rw [if_neg hs] at hvalid
    exact absurd hvalid (by decide)

/-- Witness of C19: the header `FF FB 90 00`. -/
theorem parse_mp3_frame_header_frame_size_witness :
    0 < (parse_mp3_frame_header [0xFF, 0xFB, 0x90, 0x00]).getD 0 0 ∧
      frameSizeFormula 3 128000 44100 0 = 417 ∧ frameSizeFormula 3 128000 44100 1 = 418 ∧
      ∃ layer bitrate sample_rate padding : Nat,
        (layer : Int) = 3 ∧ (bitrate : Int) = 128000 ∧ (sample_rate : Int) = 44100 ∧
          padding = 0 ∧
          parse_mp3_frame_header [0xFF, 0xFB, 0x90, 0x00] =
            [((frameSizeFormula layer bitrate sample_rate padding : Nat) : Int), 1, layer,
              bitrate, sample_rate] := by
  refine ⟨by decide, by decide, by decide, ?_⟩
  obtain ⟨layer, bitrate, sample_rate, padding, h1, h2, h3, h4, -, h5⟩ :=
    parse_mp3_frame_header_frame_size.1 [0xFF, 0xFB, 0x90, 0x00] (by decide)
  refine ⟨layer, bitrate, sample_rate, padding, ?_, ?_, ?_, ?_, ?_⟩
  · rw [h1]; decide
  · rw [h2]
    have hl : layer = 3 := by
      have : (layer : Int) = 3 := by rw [h1]; decide
      exact_mod_cast this
    subst hl
    decide
  · rw [h3]; decide
  · rw [h4]; decide
  · rw [h5]; rfl

/-! ## `matchesMP3Header` -/

theorem probeLoop_stop (buffer : List Nat) (pos i : Nat) (frame_info : List Int)
    (gap_count : Nat)
    (h : ¬ (gap_count < MAX_GAP_Bytes ∧
      pos + (frame_info.getD 0 0 * i).toNat + gap_count < buffer.length)) :
    probeLoop buffer pos i frame_info gap_count = ⟨frame_info, false, gap_count⟩ := by
  rw [probeLoop, dif_neg h]

theorem probeLoop_found (buffer : List Nat) (pos i : Nat) (frame_info : List Int)
    (gap_count : Nat)
    (h : gap_count < MAX_GAP_Bytes ∧
      pos + (frame_info.getD 0 0 * i).toNat + gap_count < buffer.length)
    (hv : 0 < (parse_mp3_frame_header
      (buffer.drop (pos + (frame_info.getD 0 0 * i).toNat + gap_count))).getD 0 0) :
    probeLoop buffer pos i frame_info gap_count =
      ⟨parse_mp3_frame_header
        (buffer.drop (pos + (frame_info.getD 0 0 * i).toNat + gap_count)), true, 0⟩ := by
  rw [probeLoop, dif_pos h]
  simp only
  rw [if_pos hv]

theorem probeLoop_next (buffer : List Nat) (pos i : Nat) (frame_info : List Int)
    (gap_count : Nat)
    (h : gap_count < MAX_GAP_Bytes ∧
      pos + (frame_info.getD 0 0 * i).toNat + gap_count < buffer.length)
    (hv : ¬ 0 < (parse_mp3_frame_header
      (buffer.drop (pos + (frame_info.getD 0 0 * i).toNat + gap_count))).getD 0 0) :
    probeLoop buffer pos i frame_info gap_count =
      probeLoop buffer pos i [0, 0, 0, 0, 0] (gap_count + 1) := by
  rw [probeLoop, dif_pos h]
  simp only
  rw [if_neg hv, parse_mp3_frame_header_zero hv]

/-- After a parse that failed the frame size the loop reads is 0: the loop
goes on at `pos + gap_count`.  When none of these positions up to
`pos + 767` holds a valid header and all lie in the buffer, the loop ends with
`gap_count = 768` and nothing found. -/
theorem probeLoop_exhausted (buffer : List Nat) (pos i : Nat)
    (hlen : pos + MAX_GAP_Bytes ≤ buffer.length) :
    ∀ (n g : Nat), g + n = MAX_GAP_Bytes →
      (∀ g', g ≤ g' → g' < MAX_GAP_Bytes →
        ¬ 0 < (parse_mp3_frame_header (buffer.drop (pos + g'))).getD 0 0) →
      probeLoop buffer pos i [0, 0, 0, 0, 0] g = ⟨[0, 0, 0, 0, 0], false, MAX_GAP_Bytes⟩ := by
  intro n
  induction n with
  | zero =>
    intro g hg _
    rw [Nat.add_zero] at hg
    rw [probeLoop_stop _ _ _ _ _ (by omega), hg]
  | succ n ih =>
    intro g hg hno
    have hz : (([0, 0, 0, 0, 0] : List Int).getD 0 0 * (i : Int)).toNat = 0 := by
      simp
    have hcond : g < MAX_GAP_Bytes ∧
        pos + (([0, 0, 0, 0, 0] : List Int).getD 0 0 * (i : Int)).toNat + g <
          buffer.length := by
      rw [hz]; omega
    rw [probeLoop_next _ _ _ _ _ hcond (by
      rw [hz, Nat.add_zero]
      exact hno g (le_refl _) (by omega))]
    exact ih (g + 1) (by omega) (fun g' h1 h2 => hno g' (by omega) h2)

/-- A probe whose first position lies beyond the buffer leaves the loop at
once, and the `for` loop goes on. -/
theorem probeFrames_beyond (buffer : List Nat) (pos : Nat) (frame_info : List Int)
    (hbeyond : buffer.length ≤ pos + (frame_info.getD 0 0).toNat)
    (hpos : 0 < frame_info.getD 0 0) :
    ∀ is : List Nat, (∀ i ∈ is, 1 ≤ i) → probeFrames buffer pos is frame_info = true
  | [], _ => rfl
  | i :: more, h => by
    have hi : 1 ≤ i := h i (List.mem_cons_self _ _)
    have hmul : (frame_info.getD 0 0).toNat ≤ (frame_info.getD 0 0 * (i : Int)).toNat := by
      apply Int.toNat_le_toNat
      have h1 : (1 : Int) ≤ (i : Int) := by exact_mod_cast hi
      nlinarith
    rw [probeFrames, probeLoop_stop _ _ _ _ _ (by omega)]
    simp only [Bool.not_false, Bool.true_and]
    rw [if_neg (by simp [MAX_GAP_Bytes])]
    exact probeFrames_beyond buffer pos frame_info hbeyond hpos more
      (fun i' hi' => h i' (List.mem_cons_of_mem _ hi'))

/-- What `matchesMP3Header` accepts lies at least two bytes before the end of
the buffer and begins with a header the parser accepts. -/
theorem matchesMP3Header_valid_start {buffer : List Nat} {pos : Nat}
    (h : matchesMP3Header buffer pos = true) :
    pos + 1 < buffer.length ∧ 0 < (parse_mp3_frame_header (buffer.drop pos)).getD 0 0 := by
  unfold matchesMP3Header at h
  by_cases h1 : pos + 1 ≥ buffer.length
  · rw [if_pos h1] at h; cases h
  · rw [if_neg h1] at h
    simp only at h
    by_cases h2 : (parse_mp3_frame_header (buffer.drop pos)).getD 0 0 ≤ 0
    · rw [if_pos h2] at h; cases h
    · exact ⟨by omega, by omega⟩

/-- The parser reads the first three bytes of the header only. -/
theorem parse_mp3_frame_header_congr {h1 h2 : List Nat} (e0 : h1.getD 0 0 = h2.getD 0 0)
    (e1 : h1.getD 1 0 = h2.getD 1 0) (e2 : h1.getD 2 0 = h2.getD 2 0) :
    parse_mp3_frame_header h1 = parse_mp3_frame_header h2 := by
  rw [parse_mp3_frame_header_eq, parse_mp3_frame_header_eq, e0, e1, e2]

theorem getD_replicate_zero (n i : Nat) : (List.replicate n 0).getD i 0 = 0 := by
  by_cases h : i < n
  · rw [List.getD_eq_getElem _ _ (by rw [List.length_replicate]; exact h),
      List.getElem_replicate]
  · rw [List.getD_eq_default _ _ (by rw [List.length_replicate]; omega)]

theorem getD_drop (l : List Nat) (k i : Nat) : (l.drop k).getD i 0 = l.getD (k + i) 0 := by
  rw [List.getD_eq_getElem?_getD, List.getD_eq_getElem?_getD, List.getElem?_drop]

/-- A valid header so near the end of the buffer that the next frame would
start beyond it is accepted. -/
theorem matchesMP3Header_short_buffer (buffer : List Nat) (pos : Nat)
    (h1 : pos + 1 < buffer.length)
    (hpos : 0 < (parse_mp3_frame_header (buffer.drop pos)).getD 0 0)
    (hbeyond : buffer.length ≤
      pos + ((parse_mp3_frame_header (buffer.drop pos)).getD 0 0).toNat) :
    matchesMP3Header buffer pos = true := by
  unfold matchesMP3Header
  rw [if_neg (by omega)]
  simp only
  rw [if_neg (by omega)]
  exact probeFrames_beyond buffer pos _ hbeyond hpos _
    (fun i hi => (List.mem_range'_1.mp hi).1)

theorem mp3TwoHeaders_length (n : Nat) : (mp3TwoHeaders n).length = n + 8 := by
  rw [mp3TwoHeaders, List.length_append, List.length_replicate]
  simp only [List.length_cons, List.length_nil]
  omega

theorem mp3TwoHeaders_parse_zero (n : Nat) :
    parse_mp3_frame_header ((mp3TwoHeaders n).drop 0) = [417, 1, 3, 128000, 44100] := by
  have hc : parse_mp3_frame_header ((mp3TwoHeaders n).drop 0) =
      parse_mp3_frame_header [0xFF, 0xFB, 0x90, 0x00] :=
    parse_mp3_frame_header_congr rfl rfl rfl
  rw [hc]
  decide

theorem mp3TwoHeaders_parse_four (n : Nat) :
    parse_mp3_frame_header ((mp3TwoHeaders n).drop 4) = [417, 1, 3, 128000, 44100] := by
  have hc : parse_mp3_frame_header ((mp3TwoHeaders n).drop 4) =
      parse_mp3_frame_header [0xFF, 0xFB, 0x90, 0x00] :=
    parse_mp3_frame_header_congr rfl rfl rfl
  rw [hc]
  decide

theorem mp3TwoHeaders_no_header (n k : Nat) (hk : k = 1 ∨ k = 2 ∨ k = 3 ∨ 8 ≤ k) :
    ¬ 0 < (parse_mp3_frame_header ((mp3TwoHeaders n).drop k)).getD 0 0 := by
  have hz : parse_mp3_frame_header ((mp3TwoHeaders n).drop k) = [0, 0, 0, 0, 0] := by
    apply parse_mp3_frame_header_no_sync
    rw [getD_drop, Nat.add_zero]
    rcases hk with h | h | h | h
    · subst h; rw [show (mp3TwoHeaders n).getD 1 0 = 0xFB from rfl]; decide
    · subst h; rw [show (mp3TwoHeaders n).getD 2 0 = 0x90 from rfl]; decide
    · subst h; rw [show (mp3TwoHeaders n).getD 3 0 = 0x00 from rfl]; decide
    · rw [mp3TwoHeaders, List.getD_append_right _ _ _ _ (by simpa using h),
        getD_replicate_zero]
      decide
  rw [hz]
  decide

/-- A probe into `mp3TwoHeaders n` from position 0: when its first position
lies in the buffer it finds no header there, goes on at the positions 1, 2, 3
and 4, and accepts the header at 4. -/
theorem probeLoop_mp3TwoHeaders (n i : Nat) (hi : 1 ≤ i) :
    probeLoop (mp3TwoHeaders n) 0 i [417, 1, 3, 128000, 44100] 0 =
      ⟨[417, 1, 3, 128000, 44100], true, 0⟩ ∨
    probeLoop (mp3TwoHeaders n) 0 i [417, 1, 3, 128000, 44100] 0 =
      ⟨[417, 1, 3, 128000, 44100], false, 0⟩ := by
  have hfs : ((([417, 1, 3, 128000, 44100] : List Int).getD 0 0) * (i : Int)).toNat =
      417 * i := by
    have : (([417, 1, 3, 128000, 44100] : List Int).getD 0 0) = ((417 : Nat) : Int) := rfl
    rw [this, ← Nat.cast_mul, Int.toNat_natCast]
  have hz : ((([0, 0, 0, 0, 0] : List Int).getD 0 0) * (i : Int)).toNat = 0 := by simp
  have hlen := mp3TwoHeaders_length n
  by_cases hc : 0 + 417 * i + 0 < n + 8
  · left
    have h768 : MAX_GAP_Bytes = 768 := rfl
    rw [probeLoop_next _ _ _ _ _ (by rw [hfs, hlen, h768]; omega)
        (by rw [hfs]; exact mp3TwoHeaders_no_header n _ (by omega)),
      probeLoop_next _ _ _ _ _ (by rw [hz, hlen, h768]; omega)
        (by rw [hz]; exact mp3TwoHeaders_no_header n _ (by omega)),
      probeLoop_next _ _ _ _ _ (by rw [hz, hlen, h768]; omega)
        (by rw [hz]; exact mp3TwoHeaders_no_header n _ (by omega)),
      probeLoop_next _ _ _ _ _ (by rw [hz, hlen, h768]; omega)
        (by rw [hz]; exact mp3TwoHeaders_no_header n _ (by omega)),
      probeLoop_found _ _ _ _ _ (by rw [hz, hlen, h768]; omega)
        (by rw [hz]; show 0 < (parse_mp3_frame_header ((mp3TwoHeaders n).drop 4)).getD 0 0
            rw [mp3TwoHeaders_parse_four]; decide)]
    rw [hz]
    show (⟨parse_mp3_frame_header ((mp3TwoHeaders n).drop 4), true, 0⟩ : ProbeResult) = _
    rw [mp3TwoHeaders_parse_four]
  · right
    exact probeLoop_stop _ _ _ _ _ (by rw [hfs, hlen]; omega)

theorem probeFrames_mp3TwoHeaders (n : Nat) :
    ∀ is : List Nat, (∀ i ∈ is, 1 ≤ i) →
      probeFrames (mp3TwoHeaders n) 0 is [417, 1, 3, 128000, 44100] = true
  | [], _ => rfl
  | i :: more, h => by
    have ih := probeFrames_mp3TwoHeaders n more (fun i' hi' => h i' (List.mem_cons_of_mem _ hi'))
    rw [probeFrames]
    rcases probeLoop_mp3TwoHeaders n i (h i (List.mem_cons_self _ _)) with hr | hr
    · rw [hr]; simpa using ih
    · rw [hr]; simpa [MAX_GAP_Bytes] using ih

theorem matchesMP3Header_mp3TwoHeaders (n : Nat) :
    matchesMP3Header (mp3TwoHeaders n) 0 = true := by
  unfold matchesMP3Header
  rw [if_neg (by rw [mp3TwoHeaders_length]; omega)]
  simp only
  rw [mp3TwoHeaders_parse_zero, if_neg (by decide)]
  exact probeFrames_mp3TwoHeaders n _ (fun i hi => (List.mem_range'_1.mp hi).1)

/-- In `mp3TwoHeaders 5000`, which holds the ranges of the ten probes, the only
valid headers are at 0 and 4, none in any of the ranges, and `matchesMP3Header`
accepts position 0: the loop assigns each parse result to `frame_info`, the
variable it reads the frame size from, so after a parse that failed the probe
goes on from `pos + 1`. -/
theorem matchesMP3Header_overwrites_frame_size :
    (parse_mp3_frame_header ((mp3TwoHeaders 5000).drop 0)).getD 0 0 = 417 ∧
      0 + 417 * 10 + MAX_GAP_Bytes ≤ (mp3TwoHeaders 5000).length ∧
      (∀ k, 8 ≤ k →
        ¬ 0 < (parse_mp3_frame_header ((mp3TwoHeaders 5000).drop k)).getD 0 0) ∧
      matchesMP3Header (mp3TwoHeaders 5000) 0 = true := by
  refine ⟨?_, ?_, ?_, matchesMP3Header_mp3TwoHeaders 5000⟩
  · rw [mp3TwoHeaders_parse_zero]; rfl
  · rw [mp3TwoHeaders_length]; decide
  · intro k hk
    exact mp3TwoHeaders_no_header 5000 k (Or.inr (Or.inr (Or.inr hk)))

theorem roundHalfEven_intCast (z : ℤ) : roundHalfEven (z : ℚ) = z := by
  unfold roundHalfEven
  rw [Int.floor_intCast, sub_self, if_pos (by norm_num)]

theorem floor_le_roundHalfEven (m : ℚ) : ⌊m⌋ ≤ roundHalfEven m := by
  unfold roundHalfEven
  split_ifs <;> omega

/-- The `double` nearest to a rational that is an integer multiple of its unit
in the last place is the rational itself. -/
theorem toDouble_of_scaled (x : ℚ) (e z : ℤ) (hx : x ≠ 0) (he : Int.log 2 |x| - 52 = e)
    (hz : x / (2 : ℚ) ^ e = z) : toDouble x = x := by
  unfold toDouble
  rw [if_neg hx, he, hz, roundHalfEven_intCast, ← hz]
  have h2 : ((2 : ℚ) ^ e) ≠ 0 := zpow_ne_zero _ (by norm_num)
  field_simp

theorem toDouble_one : toDouble 1 = 1 := by
  apply toDouble_of_scaled 1 (-52) (2 ^ 52) one_ne_zero
  · rw [abs_one, Int.log_one_right]; rfl
  · norm_num

theorem toDouble_hundred : toDouble 100 = 100 := by
  apply toDouble_of_scaled 100 (-46) (100 * 2 ^ 46) (by norm_num)
  · have h : Int.log 2 |(100 : ℚ)| = 6 := by
      rw [abs_of_pos (by norm_num)]
      have h1 := Int.log_natCast (R := ℚ) 2 100
      have h2 : Nat.log 2 100 = 6 := by
        rw [Nat.log_eq_iff (Or.inl (by decide))]
        constructor <;> decide
      rw [h2] at h1
      exact_mod_cast h1
    rw [h]; rfl
  · norm_num

theorem toDouble_pos {x : ℚ} (hx : 0 < x) : 0 < toDouble x := by
  unfold toDouble
  rw [if_neg (ne_of_gt hx), abs_of_pos hx]
  have h2 : (0 : ℚ) < (2 : ℚ) ^ (Int.log 2 x - 52) := zpow_pos (by norm_num) _
  apply mul_pos _ h2
  have hle : (2 : ℚ) ^ (Int.log 2 x - 52) ≤ x := by
    have h1 : ((2 : ℕ) : ℚ) ^ Int.log 2 x ≤ x := Int.zpow_log_le_self (by decide) hx
    have h3 : (2 : ℚ) ^ (Int.log 2 x - 52) ≤ (2 : ℚ) ^ Int.log 2 x :=
      zpow_le_zpow_right₀ (by norm_num) (by omega)
    exact h3.trans (by exact_mod_cast h1)
  have hm : (1 : ℚ) ≤ x / (2 : ℚ) ^ (Int.log 2 x - 52) := by
    rw [le_div_iff₀ h2, one_mul]; exact hle
  have hf : (1 : ℤ) ≤ ⌊x / (2 : ℚ) ^ (Int.log 2 x - 52)⌋ := by
    rw [Int.le_floor]; exact_mod_cast hm
  have := floor_le_roundHalfEven (x / (2 : ℚ) ^ (Int.log 2 x - 52))
  have h0 : (0 : ℤ) < roundHalfEven (x / (2 : ℚ) ^ (Int.log 2 x - 52)) := by omega
  exact_mod_cast h0

/-- When the whole device has been read the value reported is 100. -/
theorem progressOf_self (n : Nat) (hn : 0 < n) : progressOf n n = 100 := by
  unfold progressOf
  have hpos : (0 : ℚ) < toDouble (n : ℚ) := toDouble_pos (by exact_mod_cast hn)
  rw [div_self (ne_of_gt hpos), toDouble_one, one_mul, toDouble_hundred]
  norm_num

theorem progressLoop_nil (cancelCheck : Nat → Bool) (fileSize offset chunkNo : Nat)
    (reports : List Int) :
    progressLoop cancelCheck fileSize [] offset chunkNo reports = reports := by
  rw [progressLoop]; simp

theorem progressLoop_step (cancelCheck : Nat → Bool) (fileSize : Nat) (rest : List Nat)
    (offset chunkNo : Nat) (reports : List Int) (hne : rest ≠ [])
    (hcancel : cancelCheck chunkNo = false) :
    progressLoop cancelCheck fileSize rest offset chunkNo reports =
      progressLoop cancelCheck fileSize (rest.drop chunkSize)
        (offset + (rest.take chunkSize).length) (chunkNo + 1)
        (if fileSize > 0 then
          reports ++ [progressOf (offset + (rest.take chunkSize).length) fileSize]
        else reports) := by
  have hlen : ¬ (List.take chunkSize rest).length = 0 := by
    have : 0 < rest.length := List.length_pos.mpr hne
    simp only [List.length_take, chunkSize]; omega
  rw [progressLoop, dif_neg hlen, if_neg (by simp [hcancel])]

/-- Never cancelled, `run` ends its reports with 100 on a device that is not
empty. -/
theorem progressLoop_last (fileSize : Nat) :
    ∀ (n : Nat) (rest : List Nat) (offset chunkNo : Nat) (reports : List Int),
      rest.length = n → rest ≠ [] → offset + rest.length = fileSize →
      (progressLoop (fun _ => false) fileSize rest offset chunkNo reports).getLast? =
        some 100 := by
  intro n
  induction n using Nat.strong_induction_on with
  | _ n ih =>
    intro rest offset chunkNo reports hn hne hsize
    have hpos : 0 < rest.length := List.length_pos.mpr hne
    rw [progressLoop_step _ _ _ _ _ _ hne rfl, if_pos (by omega)]
    by_cases hlast : rest.drop chunkSize = []
    · rw [hlast, progressLoop_nil]
      have hall : (rest.take chunkSize).length = rest.length := by
        have := List.length_eq_zero.mpr hlast
        rw [List.length_drop] at this
        rw [List.length_take]; omega
      rw [hall, hsize, progressOf_self _ (by omega), List.getLast?_append]
      rfl
    · have hfull := take_chunk_full hlast
      apply ih _ _ _ _ _ _ rfl hlast
      · rw [hfull, List.length_drop]
        have : chunkSize < rest.length := by
          have h1 : 0 < (rest.drop chunkSize).length := List.length_pos.mpr hlast
          rw [List.length_drop] at h1; omega
        omega
      · rw [List.length_drop]
        have : 0 < chunkSize := by decide
        omega

/-! ## The value `run` returns -/

/-- Cancelled at the top of chunk `k` the loop of `run` returns false, with the
state the scan of the `k` chunks before has left. -/
theorem runLoop_cancelled (ex : Extractors) (io : IoEnv) (device : List Nat)
    (File_Supported : List Bool) (cancelCheck : Nat → Bool) :
    ∀ (k : Nat) (rest buffer : List Nat) (offset chunkNo : Nat) (st : RunState),
      k * chunkSize < rest.length → cancelCheck (chunkNo + k) = true →
      (∀ j, j < k → cancelCheck (chunkNo + j) = false) →
      runLoop ex io device File_Supported cancelCheck rest buffer offset chunkNo st =
        (false, (runLoop ex io device File_Supported (fun _ => false)
          (rest.take (k * chunkSize)) buffer offset chunkNo st).2) := by
  intro k
  induction k with
  | zero =>
    intro rest buffer offset chunkNo st hlen hc _
    rw [Nat.zero_mul] at hlen ⊢
    rw [List.take_zero, runLoop_nil]
    have hl : ¬ (List.take chunkSize rest).length = 0 := by
      simp only [List.length_take, chunkSize]; omega
    rw [Nat.add_zero] at hc
    rw [runLoop, dif_neg hl, if_pos hc]
  | succ k ih =>
    intro rest buffer offset chunkNo st hlen hc hbefore
    have hcs : 0 < chunkSize := by decide
    have hmul : (k + 1) * chunkSize = k * chunkSize + chunkSize := Nat.succ_mul k chunkSize
    have hne : rest ≠ [] := by
      intro h; rw [h] at hlen; simp at hlen
    have hne' : rest.take ((k + 1) * chunkSize) ≠ [] := by
      intro h
      have := congrArg List.length h
      rw [List.length_take, List.length_nil] at this
      omega
    have htt : (rest.take ((k + 1) * chunkSize)).take chunkSize = rest.take chunkSize := by
      rw [List.take_take, Nat.min_eq_left (by omega)]
    have hdt : (rest.take ((k + 1) * chunkSize)).drop chunkSize =
        (rest.drop chunkSize).take (k * chunkSize) := by
      rw [List.drop_take, hmul, Nat.add_sub_cancel]
    rw [runLoop_step _ _ _ _ _ _ _ _ _ st hne (by simpa using hbefore 0 (by omega)),
      runLoop_step _ _ _ _ _ _ _ _ _ st hne' rfl, htt, hdt]
    apply ih
    · rw [List.length_drop]; omega
    · rw [Nat.add_assoc, Nat.add_comm 1 k]; exact hc
    · intro j hj
      have := hbefore (j + 1) (by omega)
      rw [Nat.add_assoc, Nat.add_comm 1 j]; exact this

/-- Not cancelled at the top of any chunk it reads, the loop of `run` returns
true. -/
theorem runLoop_not_cancelled (ex : Extractors) (io : IoEnv) (device : List Nat)
    (File_Supported : List Bool) (cancelCheck : Nat → Bool) :
    ∀ (n : Nat) (rest buffer : List Nat) (offset chunkNo : Nat) (st : RunState),
      rest.length = n →
      (∀ k, k * chunkSize < rest.length → cancelCheck (chunkNo + k) = false) →
      (runLoop ex io device File_Supported cancelCheck rest buffer offset chunkNo st).1 =
        true := by
  intro n
  induction n using Nat.strong_induction_on with
  | _ n ih =>
    intro rest buffer offset chunkNo st hn hno
    by_cases hnil : rest = []
    · rw [hnil, runLoop_nil]
    · have hpos : 0 < rest.length := List.length_pos.mpr hnil
      rw [runLoop_step _ _ _ _ _ _ _ _ _ _ hnil
        (by simpa using hno 0 (by rw [Nat.zero_mul]; exact hpos))]
      have hshort : (rest.drop chunkSize).length < n := by
        rw [List.length_drop]
        have : 0 < chunkSize := by decide
        omega
      apply ih _ hshort _ _ _ _ _ rfl
      intro k hk
      rw [List.length_drop] at hk
      have := hno (k + 1) (by rw [Nat.succ_mul]; omega)
      rw [Nat.add_assoc, Nat.add_comm 1 k]; exact this

/-- C14: `run` returns false when the device does not open; it returns false
when the callback answers true at the top of chunk `k` (having answered false
before), and the state is then the one the scan of the `k` chunks before has
left, chunk `k` and the chunks after it not being scanned; in every other
case, that is when the device opens and the callback answers false at the top
of every chunk read, it returns true. -/
theorem run_return_value (ex : Extractors) (io : IoEnv) (File_Supported : List Bool)
    (cancelCheck : Nat → Bool) (File_Count : List Int) :
    run ex io none File_Supported cancelCheck File_Count =
        (false, ⟨File_Count, 0, 0, []⟩) ∧
      (∀ (image : List Nat) (k : Nat), k * chunkSize < image.length →
        cancelCheck k = true → (∀ j, j < k → cancelCheck j = false) →
        run ex io (some image) File_Supported cancelCheck File_Count =
          (false, (runLoop ex io image File_Supported (fun _ => false)
            (image.take (k * chunkSize)) (List.replicate (chunkSize + overlap) 0) 0 0
            ⟨File_Count, 0, 0, []⟩).2)) ∧
      (∀ image : List Nat,
        (∀ k, k * chunkSize < image.length → cancelCheck k = false) →
        (run ex io (some image) File_Supported cancelCheck File_Count).1 = true) := by
  refine ⟨rfl, ?_, ?_⟩
  · intro image k hk hc hbefore
    rw [run_some]
    exact runLoop_cancelled ex io image File_Supported cancelCheck k image _ 0 0 _ hk
      (by rw [Nat.zero_add]; exact hc) (fun j hj => by rw [Nat.zero_add]; exact hbefore j hj)
  · intro image hno
    rw [run_some]
    exact runLoop_not_cancelled ex io image File_Supported cancelCheck _ image _ 0 0 _ rfl
      (fun k hk => by rw [Nat.zero_add]; exact hno k hk)

/-- Witness of C14: on the eight bytes of the PNG signature, a callback that
answers true at once makes `run` return false with nothing scanned, and a
callback that answers false lets it return true. -/
theorem run_return_value_witness :
    run noExtractors ioOk (some PNG_SIGNATURE) pngOnly (fun _ => true) initialFileCount =
        (false, ⟨initialFileCount, 0, 0, []⟩) ∧
      (run noExtractors ioOk (some PNG_SIGNATURE) pngOnly (fun _ => false)
        initialFileCount).1 = true := by
  constructor
  · have h := (run_return_value noExtractors ioOk pngOnly (fun _ => true)
      initialFileCount).2.1 PNG_SIGNATURE 0 (by decide) rfl (fun j hj => absurd hj (by omega))
    rw [h, Nat.zero_mul, List.take_zero, runLoop_nil]
  · exact (run_return_value noExtractors ioOk pngOnly (fun _ => false)
      initialFileCount).2.2 PNG_SIGNATURE (fun _ _ => rfl)

/-! ## A device of zero bytes -/

theorem matchesSignature_zeros (m i f : Nat) (hf : f < 4) :
    matchesSignature (List.replicate m 0) i (signatureOf f) f = false := by
  rcases Bool.eq_false_or_eq_true
    (matchesSignature (List.replicate m 0) i (signatureOf f) f) with h | h
  · exfalso
    have hp := matchesSignature_occurrence h
    have hmem : signatureOf f ∈ SIGNATURES := by
      interval_cases f <;> simp [signatureOf, SIGNATURES]
    apply no_signature_in_zeros m _ hmem
    exact (hp.isInfix).trans (List.drop_suffix i _).isInfix
  · exact h

theorem matchesMP3Header_zeros (m i : Nat) :
    matchesMP3Header (List.replicate m 0) i = false := by
  rcases Bool.eq_false_or_eq_true (matchesMP3Header (List.replicate m 0) i) with h | h
  · exfalso
    have hv := (matchesMP3Header_valid_start h).2
    rw [parse_mp3_frame_header_no_sync (by
      rw [getD_drop, getD_replicate_zero]; decide)] at hv
    exact absurd hv (by decide)
  · exact h

/-- The scan of a buffer of zeros finds no candidate, whatever the mask. -/
theorem scanFormats_zeros (ex : Extractors) (io : IoEnv) (device : List Nat)
    (File_Supported : List Bool) (offset bytesRead m : Nat) (st : RunState)
    (hmp3 : ∀ m i, ex.matchesMP3Header (List.replicate m 0) i = false) :
    scanFormats ex io device (List.replicate m 0) File_Supported offset bytesRead
      (List.range SupportedFileCount) st = st := by
  apply scanFormats_idle
  intro f hf _ st'
  rw [SupportedFileCount, List.mem_range] at hf
  by_cases hf4 : f < 4
  · exact scanPositions_no_match _ _ _ _ _ _ _ _ _ hf4
      (fun i _ _ => matchesSignature_zeros m i f hf4)
  · have h4 : f = 4 := by omega
    subst h4
    exact scanPositions_idle _ _ _ _ _ _ _ _ _ _ rfl
      (fun i' _ _ st'' => scanStep_mp3_idle _ _ _ _ _ _ _ (hmp3 _ _))

theorem runLoop_zeros (ex : Extractors) (io : IoEnv) (device : List Nat)
    (File_Supported : List Bool)
    (hmp3 : ∀ m i, ex.matchesMP3Header (List.replicate m 0) i = false) :
    ∀ (n : Nat) (offset chunkNo : Nat) (st : RunState),
      runLoop ex io device File_Supported (fun _ => false) (List.replicate n 0)
        (List.replicate chunkSize 0) offset chunkNo st = (true, st) := by
  intro n
  induction n using Nat.strong_induction_on with
  | _ n ih =>
    intro offset chunkNo st
    by_cases hn : n = 0
    · subst hn
      exact runLoop_nil _ _ _ _ _ _ _ _ _
    · have hne : List.replicate n 0 ≠ [] := by
        intro h
        have := congrArg List.length h
        rw [List.length_replicate, List.length_nil] at this
        exact hn this
      have hcs : 0 < chunkSize := by decide
      have hbuf : (List.replicate n 0).take chunkSize ++
          (List.replicate chunkSize 0).drop ((List.replicate n 0).take chunkSize).length =
            List.replicate chunkSize 0 := by
        rw [List.take_replicate, List.length_replicate, List.drop_replicate,
          List.append_replicate_replicate]
        congr 1
        omega
      rw [runLoop_step _ _ _ _ _ _ _ _ _ _ hne rfl, hbuf,
        scanFormats_zeros ex io device File_Supported _ _ _ _ hmp3, List.drop_replicate]
      exact ih (n - chunkSize) (by omega) _ _ _

/-- C13: on a device of `n > 0` zero bytes, with any mask and a callback that
never cancels, no signature of the scan matches at any position of a buffer of
zeros and the MP3 header test fails there; `run` returns true with the state
it started from (no counter moved, no file left), and the last value it
reports is 100. -/
theorem run_zero_bytes (ex : Extractors) (io : IoEnv) (File_Supported : List Bool)
    (File_Count : List Int) (n : Nat) (hn : 0 < n)
    (hmp3 : ex.matchesMP3Header = matchesMP3Header) :
    (∀ m i f, f < 4 → matchesSignature (List.replicate m 0) i (signatureOf f) f = false) ∧
      (∀ m i, matchesMP3Header (List.replicate m 0) i = false) ∧
      run ex io (some (List.replicate n 0)) File_Supported (fun _ => false) File_Count =
        (true, ⟨File_Count, 0, 0, []⟩) ∧
      (runProgress (some (List.replicate n 0)) (fun _ => false)).getLast? = some 100 := by
  refine ⟨matchesSignature_zeros, matchesMP3Header_zeros, ?_, ?_⟩
  · rw [run_some]
    exact runLoop_zeros ex io _ File_Supported
      (fun m i => by rw [hmp3]; exact matchesMP3Header_zeros m i) n 0 0 _
  · unfold runProgress
    simp only
    apply progressLoop_last _ _ _ _ _ _ rfl
    · intro h
      have := congrArg List.length h
      rw [List.length_replicate, List.length_nil] at this
      omega
    · rw [Nat.zero_add]

/-- Witness of C13: 1 MiB of zero bytes, the five formats enabled. -/
theorem run_zero_bytes_witness :
    run headerTests ioOk (some (List.replicate (1024 * 1024) 0)) allFive (fun _ => false)
        initialFileCount = (true, ⟨initialFileCount, 0, 0, []⟩) ∧
      (runProgress (some (List.replicate (1024 * 1024) 0)) (fun _ => false)).getLast? =
        some 100 :=
  (run_zero_bytes headerTests ioOk allFive initialFileCount (1024 * 1024) (by decide) rfl).2.2

/-! ## The JPEG scenario -/

theorem jpegScenario_length (n : Nat) : (jpegScenario n).length = n + 6 := by
  simp [jpegScenario]

theorem jpegScenario_getD_zero (n i : Nat) (h1 : 4 ≤ i) (h2 : i < n + 4) :
    (jpegScenario n).getD i 0 = 0 := by
  rw [jpegScenario, List.getD_append _ _ _ _ (by simp; omega),
    List.getD_append_right _ _ _ _ (by simpa using h1), getD_replicate_zero]

theorem jpegScenario_getD_ne (n i : Nat) (hi : i ≠ 1) : (jpegScenario n).getD i 0 ≠ 0xD8 := by
  rcases Nat.lt_or_ge i 4 with h4 | h4
  · interval_cases i
    · rw [show (jpegScenario n).getD 0 0 = 0xFF from rfl]; decide
    · exact absurd rfl hi
    · rw [show (jpegScenario n).getD 2 0 = 0xFF from rfl]; decide
    · rw [show (jpegScenario n).getD 3 0 = 0xE0 from rfl]; decide
  · rcases Nat.lt_or_ge i (n + 4) with h5 | h5
    · rw [jpegScenario_getD_zero n i h4 h5]; decide
    · rw [jpegScenario, List.getD_append_right _ _ _ _ (by simp; omega)]
      have hl : ([0xFF, 0xD8, 0xFF, 0xE0] ++ List.replicate n 0 : List Nat).length = n + 4 := by
        simp
      rw [hl]
      rcases Nat.lt_or_ge (i - (n + 4)) 2 with h6 | h6
      · interval_cases (i - (n + 4)) <;> decide
      · rw [List.getD_eq_default _ _ (by simpa using h6)]; decide

/-- The JPEG signature stands at offset 0 of the scenario and nowhere else. -/
theorem jpegScenario_signature_once (n a : Nat)
    (h : signatureOf 1 <+: (jpegScenario n).drop a) : a = 0 := by
  by_contra ha
  have h1 := getD_of_prefix_drop h (d := 1) (by decide)
  exact jpegScenario_getD_ne n (a + 1) (by omega) h1

theorem jpegScenario_split (m : Nat) :
    jpegScenario (4092 + m) = ([0xFF, 0xD8, 0xFF, 0xE0] ++ List.replicate 4092 0) ++
      (List.replicate m 0 ++ [0xFF, 0xD9]) := by
  rw [jpegScenario, ← List.append_replicate_replicate]
  simp only [List.append_assoc]

/-- The loop of `extractFile` for JPEG on the scenario, when the end marker
lies in the second chunk: cell 3 of the buffer then holds `00`, the test of
`FF D9` fails, and the loop reaches the end of the device with no end marker
found. -/
theorem scanFrom_jpegScenario (m : Nat) (hm1 : 4 ≤ m) (hm2 : m + 2 ≤ 4096) :
    ∃ st, scanFrom (jpegScenario (4092 + m)) 0 1 = .finished st ∧ st.foundEnd = false := by
  have hcs := chunkSize_eq
  have hlen := jpegScenario_length (4092 + m)
  have h2 : (endMarkerOf 1).length = 2 := rfl
  have hA : ([0xFF, 0xD8, 0xFF, 0xE0] ++ List.replicate 4092 0 : List Nat).length =
      chunkSize := by
    rw [List.length_append, List.length_replicate]; rfl
  have htake : (jpegScenario (4092 + m)).take chunkSize =
      [0xFF, 0xD8, 0xFF, 0xE0] ++ List.replicate 4092 0 := by
    rw [jpegScenario_split]; exact List.take_left' hA
  have hdrop : (jpegScenario (4092 + m)).drop chunkSize =
      List.replicate m 0 ++ [0xFF, 0xD9] := by
    rw [jpegScenario_split]; exact List.drop_left' hA
  have hBlen : (List.replicate m 0 ++ [0xFF, 0xD9] : List Nat).length = m + 2 := by
    simp
  obtain ⟨st, hs, hfe, -⟩ := scanFrom_no_marker 1 (by decide) (jpegScenario (4092 + m)) 0
    (by
      intro k j
      rw [List.drop_zero]
      rcases Bool.eq_false_or_eq_true (scannedMatch 1 initialScan.readBuffer
        (jpegScenario (4092 + m)) (endMarkerOf 1) 1 k j) with hmt | hmt
      · exfalso
        rcases k with _ | k
        · -- first chunk: `D9` does not occur in it
          have hp := scannedMatch_data hmt (le_refl _)
          simp only [scannedMatch, Bool.and_eq_true, decide_eq_true_eq] at hmt
          have hj := hmt.1
          have hcl := chunkAt_length_le (jpegScenario (4092 + m)) 0
          have hmem := mem_take_of_prefix_drop (n := chunkSize) (x := 0xD9) hp
            (by omega) (by simp [endMarkerOf_one, JPEG_END])
          rw [htake, List.mem_append, List.mem_replicate] at hmem
          rcases hmem with h | h
          · simp at h
          · exact absurd h.2 (by decide)
        · rw [scannedMatch_succ, htake, hdrop, hA] at hmt
          rcases k with _ | k
          · -- second chunk: cell 3 of the buffer is a zero of the device
            rw [scannedMatch_zero] at hmt
            simp only [Bool.and_eq_true, decide_eq_true_eq] at hmt
            have h3 := ((matchesSignature_iff _ _ _ _).mp hmt.2).2.2 rfl
            have htk : (List.replicate m 0 ++ [0xFF, 0xD9] : List Nat).take chunkSize =
                List.replicate m 0 ++ [0xFF, 0xD9] :=
              List.take_of_length_le (by rw [hBlen, hcs]; exact hm2)
            rw [htk, List.getD_append _ _ _ _ (by rw [hBlen]; omega),
              List.getD_append _ _ _ _ (by rw [List.length_replicate]; omega),
              getD_replicate_zero] at h3
            exact absurd h3 (by decide)
          · -- no third chunk
            rw [scannedMatch_succ] at hmt
            have hne := scannedMatch_rest_ne_nil (by decide) hmt
            apply hne
            apply List.drop_eq_nil_of_le
            rw [hBlen, hcs]; exact hm2
      · exact hmt)
    (by rw [List.drop_zero, hlen]; norm_num [maxSizeOf, Size_limit]; omega)
  exact ⟨st, hs, hfe⟩

theorem extractFile_jpegScenario (m : Nat) (hm1 : 4 ≤ m) (hm2 : m + 2 ≤ 4096)
    (fileCount : Int) (File_Count : List Int) :
    extractFile ioOk (jpegScenario (4092 + m)) 0 fileCount 1 File_Count =
      ⟨bumpCount File_Count 1, fileCount - 1, none⟩ := by
  apply extractFile_removed_result
  obtain ⟨st, hs, hfe⟩ := scanFrom_jpegScenario m hm1 hm2
  exact extractFile_not_found hs hfe (by rintro ⟨h, -⟩; cases h)

theorem scanFormats_jpegOnly (ex : Extractors) (io : IoEnv) (device buffer : List Nat)
    (offset bytesRead : Nat) (st : RunState) :
    scanFormats ex io device buffer jpegOnly offset bytesRead (List.range SupportedFileCount)
        st =
      scanPositions ex io device buffer offset bytesRead 1 0 st := rfl

/-- On the scenario with the end marker in the second chunk, `run` with JPEG
enabled finds the signature at offset 0, removes the candidate and finds
nothing else. -/
theorem run_jpegScenario (m : Nat) (hm1 : 4 ≤ m) (hm2 : m + 2 ≤ 4096) (ex : Extractors)
    (File_Count : List Int) :
    run ex ioOk (some (jpegScenario (4092 + m))) jpegOnly (fun _ => false) File_Count =
      (true, ⟨bumpCount File_Count 1, 0, 0, []⟩) := by
  have hcs := chunkSize_eq
  have hov : overlap = 0 := rfl
  have hlen := jpegScenario_length (4092 + m)
  have hsig : (signatureOf 1).length = 3 := rfl
  have hnil : jpegScenario (4092 + m) ≠ [] := by
    intro h
    rw [h] at hlen
    simp only [List.length_nil] at hlen
    omega
  have hfull : ((jpegScenario (4092 + m)).take chunkSize).length = chunkSize := by
    rw [List.length_take, hlen]; omega
  have hm0 : matchesSignature
      ((jpegScenario (4092 + m)).take chunkSize ++
        (List.replicate (chunkSize + overlap) 0).drop
          ((jpegScenario (4092 + m)).take chunkSize).length)
      0 (signatureOf 1) 1 = true := by
    rw [matchesSignature_iff]
    refine ⟨?_, ?_, ?_⟩
    · rw [List.length_append, hfull, hsig]; omega
    · rw [List.drop_zero]
      refine List.IsPrefix.trans ?_ (List.prefix_append _ _)
      rw [List.prefix_take_iff]
      refine ⟨⟨0xE0 :: (List.replicate (4092 + m) 0 ++ [0xFF, 0xD9]), ?_⟩, ?_⟩
      · simp [jpegScenario, signatureOf_one, JPEG_SIGNATURE]
      · rw [hsig, hcs]; decide
    · intro _
      rw [List.getD_append _ _ _ _ (by rw [hfull, hcs]; decide),
        List.getD_eq_getElem?_getD, List.getElem?_take_of_lt (by rw [hcs]; decide),
        show (jpegScenario (4092 + m))[3]? = some 0xE0 by simp [jpegScenario]]
      decide
  rw [run_some, runLoop_step _ _ _ _ _ _ _ _ _ _ hnil rfl, scanFormats_jpegOnly,
    scanPositions_step _ _ _ _ _ _ _ _ _ (by rw [hsig, hfull, hov]; omega),
    scanStep_match _ _ _ _ _ _ _ _ (by decide) hm0]
  simp only
  rw [extractFile_jpegScenario m hm1 hm2,
    scanPositions_no_match _ _ _ _ _ _ _ _ _ (by decide)
      (by
        intro i hi hscan
        rcases Bool.eq_false_or_eq_true (matchesSignature
          ((jpegScenario (4092 + m)).take chunkSize ++
            (List.replicate (chunkSize + overlap) 0).drop
              ((jpegScenario (4092 + m)).take chunkSize).length) i (signatureOf 1) 1)
          with hmt | hmt
        · exfalso
          have hp := @data_of_matches_readBufferAt (List.replicate (chunkSize + overlap) 0)
            (jpegScenario (4092 + m)) _ _ 0 _ (by rw [readBufferAt]; exact hmt)
            (by rw [chunkAt_zero]; omega)
          have := jpegScenario_signature_once _ _ hp
          omega
        · exact hmt)]
  rw [runLoop_no_candidates ex ioOk (jpegScenario (4092 + m)) jpegOnly
    (fun h => absurd h (by decide)) 1
    (by
      intro f hf hmask a ha _ hp
      have hf1 : f = 1 := by
        interval_cases f <;> first | rfl | (exfalso; revert hmask; decide)
      subst hf1
      have := jpegScenario_signature_once _ _ hp
      omega)
    _ _ _ _ _ _ rfl (by rw [hfull, Nat.zero_add]) (by rw [hfull, Nat.zero_add, Nat.mod_self])
    (by rw [hfull]; omega)
    (by rw [List.length_append, List.length_drop, hfull, List.length_replicate]; omega)]
  rfl

/-- C12 (the code departs from the claim): on `FF D8 FF E0`, 5120 zero bytes,
`FF D9` (5126 bytes), `run` with JPEG enabled leaves no file.  The end marker
lies in the second chunk that `extractFile` reads, where cell 3 of the buffer
holds `00`, and for format 1 `matchesSignature` tests cell 3 of the buffer
also when it looks for `FF D9`. -/
theorem run_drops_jpeg_scenario (ex : Extractors) :
    (jpegScenario 5120).length = 4 + 5120 + 2 ∧
      run ex ioOk (some (jpegScenario 5120)) jpegOnly (fun _ => false) initialFileCount =
        (true, ⟨[0, 1, 0, 0, 0, 0, 0, 0, 0, 0], 0, 0, []⟩) := by
  refine ⟨jpegScenario_length 5120, ?_⟩
  have h := run_jpegScenario 1028 (by norm_num) (by norm_num) ex initialFileCount
  exact h

/-! ## The numbers of the files `run` leaves -/

theorem keepsFormat_refl (f : Nat) (st : RunState) : KeepsFormat f st st :=
  ⟨rfl, rfl, [], (List.append_nil _).symm, fun _ h => absurd h (List.not_mem_nil _)⟩

theorem keepsFormat_trans {f : Nat} {a b c : RunState} (h1 : KeepsFormat f a b)
    (h2 : KeepsFormat f b c) : KeepsFormat f a c := by
  obtain ⟨l1, c1, m1, e1, p1⟩ := h1
  obtain ⟨l2, c2, m2, e2, p2⟩ := h2
  refine ⟨l2.trans l1, c2.trans c1, m1 ++ m2, by rw [e2, e1, List.append_assoc], ?_⟩
  intro out hout
  rcases List.mem_append.mp hout with h | h
  · exact p1 out h
  · exact p2 out h

theorem keepsFormat_numbersAbove {f : Nat} {a b : RunState} (h : KeepsFormat f a b) :
    NumbersAbove f a b := by
  obtain ⟨l1, c1, m1, e1, p1⟩ := h
  exact ⟨l1, by rw [c1], m1, e1, fun out hout hf => absurd hf (p1 out hout)⟩

theorem numbersAbove_refl (f : Nat) (st : RunState) : NumbersAbove f st st :=
  keepsFormat_numbersAbove (keepsFormat_refl f st)

theorem numbersAbove_trans {f : Nat} {a b c : RunState} (h1 : NumbersAbove f a b)
    (h2 : NumbersAbove f b c) : NumbersAbove f a c := by
  obtain ⟨l1, c1, m1, e1, p1⟩ := h1
  obtain ⟨l2, c2, m2, e2, p2⟩ := h2
  refine ⟨l2.trans l1, c1.trans c2, m1 ++ m2, by rw [e2, e1, List.append_assoc], ?_⟩
  intro out hout hf
  rcases List.mem_append.mp hout with h | h
  · exact p1 out h hf
  · exact lt_of_le_of_lt c1 (p2 out h hf)

theorem firstFile_after {f : Nat} {content : List Nat} {a b c : RunState}
    (h1 : KeepsFormat f a b) (h2 : FirstFile f content b c) : FirstFile f content a c := by
  obtain ⟨l1, c1, m1, e1, p1⟩ := h1
  obtain ⟨l2, c2, x1, x2, e2, p2, q2⟩ := h2
  refine ⟨l2.trans l1, by rw [← c1]; exact c2, m1 ++ x1, x2, ?_, ?_, ?_⟩
  · rw [e2, e1, c1]; simp only [List.append_assoc]
  · intro out hout
    rcases List.mem_append.mp hout with h | h
    · exact p1 out h
    · exact p2 out h
  · intro out hout hf
    rw [← c1]; exact q2 out hout hf

theorem firstFile_before {f : Nat} {content : List Nat} {a b c : RunState}
    (h1 : FirstFile f content a b) (h2 : NumbersAbove f b c) : FirstFile f content a c := by
  obtain ⟨l1, c1, x1, x2, e1, p1, q1⟩ := h1
  obtain ⟨l2, c2, m2, e2, p2⟩ := h2
  refine ⟨l2.trans l1, c1.trans c2, x1, x2 ++ m2, ?_, p1, ?_⟩
  · rw [e2, e1]; simp only [List.append_assoc]
  · intro out hout hf
    rcases List.mem_append.mp hout with h | h
    · exact q1 out h hf
    · exact lt_of_le_of_lt c1 (p2 out h hf)

theorem bumpCount_length (File_Count : List Int) (g : Nat) :
    (bumpCount File_Count g).length = File_Count.length := by
  rw [bumpCount, List.length_set]

theorem bumpCount_getD_ne (File_Count : List Int) {g f : Nat} (h : f ≠ g) :
    (bumpCount File_Count g).getD f 0 = File_Count.getD f 0 := by
  simp only [bumpCount, List.getD_eq_getElem?_getD, List.getElem?_set_ne (Ne.symm h)]

theorem bumpCount_getD_self (File_Count : List Int) {f : Nat} (h : f < File_Count.length) :
    (bumpCount File_Count f).getD f 0 = File_Count.getD f 0 + 1 := by
  rw [bumpCount, List.getD_eq_getElem?_getD, List.getElem?_set_self h]
  rfl

theorem bumpCount_getD_le (File_Count : List Int) (g f : Nat) :
    File_Count.getD f 0 ≤ (bumpCount File_Count g).getD f 0 := by
  by_cases h : f = g
  · subst h
    by_cases hl : f < File_Count.length
    · rw [bumpCount_getD_self _ hl]; omega
    · have hbl := bumpCount_length File_Count f
      rw [List.getD_eq_default _ _ (by omega), List.getD_eq_default _ _ (by omega)]
  · rw [bumpCount_getD_ne _ h]

/-- What a call of `extractFile` does to `File_Count`, and the format and the
number of the file it leaves. -/
theorem extractFile_shape (io : IoEnv) (device : List Nat) (fileStart : Nat)
    (fileCount : Int) (g : Nat) (File_Count : List Int) :
    ((extractFile io device fileStart fileCount g File_Count).File_Count = File_Count ∨
      (extractFile io device fileStart fileCount g File_Count).File_Count =
        bumpCount File_Count g) ∧
    ∀ file, (extractFile io device fileStart fileCount g File_Count).outFile = some file →
      file.formatIndex = g ∧ file.number = (bumpCount File_Count g).getD g 0 := by
  unfold extractFile
  by_cases hr : io.reopenOk = true
  · rw [if_neg (by simp [hr])]
    simp only
    by_cases hc : io.createOk = true
    · rw [if_neg (by simp [hc])]
      cases scanFrom device fileStart g with
      | tooLarge st =>
        exact ⟨Or.inr rfl, fun file h => by cases h⟩
      | finished st =>
        simp only
        split_ifs <;> refine ⟨Or.inr rfl, fun file h => ?_⟩ <;> cases h <;> exact ⟨rfl, rfl⟩
    · rw [if_pos (by simpa using hc)]
      exact ⟨Or.inr rfl, fun file h => by cases h⟩
  · rw [if_pos (by simpa using hr)]
    exact ⟨Or.inl rfl, fun file h => by cases h⟩

theorem extractFile_File_Count_length (io : IoEnv) (device : List Nat) (fileStart : Nat)
    (fileCount : Int) (g : Nat) (File_Count : List Int) :
    (extractFile io device fileStart fileCount g File_Count).File_Count.length =
      File_Count.length := by
  rcases (extractFile_shape io device fileStart fileCount g File_Count).1 with h | h
  · rw [h]
  · rw [h, bumpCount_length]

/-- A step of the scan for format `formatIndex` leaves the counter and the
files of another format `f` of the generic extractor as they are. -/
theorem scanStep_keeps (ex : Extractors) (io : IoEnv) (device buffer : List Nat)
    (offset formatIndex i f : Nat) (st : RunState) (hf : f < 4) (hne : formatIndex ≠ f) :
    KeepsFormat f st (scanStep ex io device buffer offset formatIndex i st).1 := by
  unfold scanStep
  simp only
  split_ifs with h1 h2 h3
  · -- the MP3 branch
    have h4 : formatIndex = 4 := by
      simp only [Bool.and_eq_true, beq_iff_eq] at h1
      exact h1.1.1
    subst h4
    refine ⟨?_, ?_, _, rfl, ?_⟩
    · simp only [List.length_set, bumpCount_length]
    · simp only
      rw [List.getD_eq_getElem?_getD, List.getElem?_set_ne (by omega),
        ← List.getD_eq_getElem?_getD, bumpCount_getD_ne _ (by omega)]
    · intro out hout
      simp only [Option.mem_toList, Option.mem_def, Option.map_eq_some'] at hout
      obtain ⟨c, -, hc⟩ := hout
      rw [← hc]
      simp only
      omega
  · -- the MP4 branch
    have h7 : formatIndex = 7 := by
      simp only [Bool.and_eq_true, beq_iff_eq] at h2
      exact h2.1
    subst h7
    refine ⟨rfl, rfl, _, rfl, ?_⟩
    intro out hout
    simp only [Option.mem_toList, Option.mem_def, Option.map_eq_some'] at hout
    obtain ⟨c, -, hc⟩ := hout
    rw [← hc]
    simp only
    omega
  · -- the generic branch
    have hs := extractFile_shape io device (offset + i) (st.fileCount + 1) formatIndex
      st.File_Count
    refine ⟨extractFile_File_Count_length _ _ _ _ _ _, ?_, _, rfl, ?_⟩
    · simp only
      rcases hs.1 with h | h
      · rw [h]
      · rw [h, bumpCount_getD_ne _ (Ne.symm hne)]
    · intro out hout
      simp only [Option.mem_toList, Option.mem_def] at hout
      rw [(hs.2 out hout).1]
      exact hne
  · exact keepsFormat_refl f st

/-- A step of the scan gives the files of format `f` it adds numbers above the
counter. -/
theorem scanStep_numbers (ex : Extractors) (io : IoEnv) (device buffer : List Nat)
    (offset formatIndex i f : Nat) (st : RunState) (hf : f < 4)
    (hlen : f < st.File_Count.length) :
    NumbersAbove f st (scanStep ex io device buffer offset formatIndex i st).1 := by
  by_cases hne : formatIndex = f
  · subst hne
    by_cases hm : matchesSignature buffer i (signatureOf formatIndex) formatIndex = true
    · rw [scanStep_match _ _ _ _ _ _ _ _ hf hm]
      have hs := extractFile_shape io device (offset + i) (st.fileCount + 1) formatIndex
        st.File_Count
      refine ⟨extractFile_File_Count_length _ _ _ _ _ _, ?_, _, rfl, ?_⟩
      · simp only
        rcases hs.1 with h | h
        · rw [h]
        · rw [h]; exact bumpCount_getD_le _ _ _
      · intro out hout _
        simp only [Option.mem_toList, Option.mem_def] at hout
        rw [(hs.2 out hout).2, bumpCount_getD_self _ hlen]
        omega
    · rw [scanStep_no_match _ _ _ _ _ _ _ _ hf (by simpa using hm)]
      exact numbersAbove_refl _ st
  · exact keepsFormat_numbersAbove
      (scanStep_keeps ex io device buffer offset formatIndex i f st hf hne)

theorem scanPositions_keeps (ex : Extractors) (io : IoEnv) (device buffer : List Nat)
    (offset bytesRead formatIndex f : Nat) (hf : f < 4) (hne : formatIndex ≠ f) :
    ∀ (n i : Nat) (st : RunState), bytesRead + overlap + 1 - i = n →
      KeepsFormat f st
        (scanPositions ex io device buffer offset bytesRead formatIndex i st) := by
  intro n
  induction n using Nat.strong_induction_on with
  | _ n ih =>
    intro i st hn
    by_cases h : i + (signatureOf formatIndex).length ≤ bytesRead + overlap
    · rw [scanPositions_step _ _ _ _ _ _ _ _ _ h]
      have hi := scanStep_index_le ex io device buffer offset formatIndex i st
      exact keepsFormat_trans
        (scanStep_keeps ex io device buffer offset formatIndex i f st hf hne)
        (ih _ (by omega) _ _ rfl)
    · rw [scanPositions_done _ _ _ _ _ _ _ _ _ h]
      exact keepsFormat_refl f st

theorem scanPositions_numbers (ex : Extractors) (io : IoEnv) (device buffer : List Nat)
    (offset bytesRead formatIndex f : Nat) (hf : f < 4) :
    ∀ (n i : Nat) (st : RunState), bytesRead + overlap + 1 - i = n →
      f < st.File_Count.length →
      NumbersAbove f st
        (scanPositions ex io device buffer offset bytesRead formatIndex i st) := by
  intro n
  induction n using Nat.strong_induction_on with
  | _ n ih =>
    intro i st hn hlen
    by_cases h : i + (signatureOf formatIndex).length ≤ bytesRead + overlap
    · rw [scanPositions_step _ _ _ _ _ _ _ _ _ h]
      have hi := scanStep_index_le ex io device buffer offset formatIndex i st
      have h1 := scanStep_numbers ex io device buffer offset formatIndex i f st hf hlen
      exact numbersAbove_trans h1 (ih _ (by omega) _ _ rfl (by rw [h1.1]; exact hlen))
    · rw [scanPositions_done _ _ _ _ _ _ _ _ _ h]
      exact numbersAbove_refl f st

theorem scanFormats_numbers (ex : Extractors) (io : IoEnv) (device buffer : List Nat)
    (File_Supported : List Bool) (offset bytesRead f : Nat) (hf : f < 4) :
    ∀ (formats : List Nat) (st : RunState), f < st.File_Count.length →
      NumbersAbove f st
        (scanFormats ex io device buffer File_Supported offset bytesRead formats st)
  | [], st, _ => numbersAbove_refl f st
  | g :: more, st, hlen => by
    rw [scanFormats]
    split_ifs
    · exact scanFormats_numbers ex io device buffer File_Supported offset bytesRead f hf
        more st hlen
    · have h1 := scanPositions_numbers ex io device buffer offset bytesRead g f hf _ 0 st rfl
        hlen
      exact numbersAbove_trans h1
        (scanFormats_numbers ex io device buffer File_Supported offset bytesRead
          f hf more _ (by rw [h1.1]; exact hlen))

theorem runLoop_numbers (ex : Extractors) (io : IoEnv) (device : List Nat)
    (File_Supported : List Bool) (f : Nat) (hf : f < 4) :
    ∀ (n : Nat) (rest buffer : List Nat) (offset chunkNo : Nat) (st : RunState),
      rest.length = n → f < st.File_Count.length →
      NumbersAbove f st
        (runLoop ex io device File_Supported (fun _ => false) rest buffer offset chunkNo
          st).2 := by
  intro n
  induction n using Nat.strong_induction_on with
  | _ n ih =>
    intro rest buffer offset chunkNo st hn hlen
    by_cases hnil : rest = []
    · subst hnil
      rw [runLoop_nil]
      exact numbersAbove_refl f st
    · rw [runLoop_step _ _ _ _ _ _ _ _ _ _ hnil rfl]
      have hshort : (rest.drop chunkSize).length < n := by
        have : 0 < rest.length := List.length_pos.mpr hnil
        simp only [List.length_drop, chunkSize]; omega
      have h1 := scanFormats_numbers ex io device
        (rest.take chunkSize ++ buffer.drop (rest.take chunkSize).length)
        File_Supported offset (rest.take chunkSize).length f hf
        (List.range SupportedFileCount) st hlen
      exact numbersAbove_trans h1 (ih _ hshort _ _ _ _ _ rfl (by rw [h1.1]; exact hlen))

/-- The scan of one chunk in which the signature of format `f` matches nowhere
leaves the counter and the files of format `f` as they are. -/
theorem scanFormats_keeps (ex : Extractors) (io : IoEnv) (device buffer : List Nat)
    (File_Supported : List Bool) (offset bytesRead f : Nat) (hf : f < 4)
    (hno : ∀ i, i + (signatureOf f).length ≤ bytesRead + overlap →
      matchesSignature buffer i (signatureOf f) f = false) :
    ∀ (formats : List Nat) (st : RunState),
      KeepsFormat f st
        (scanFormats ex io device buffer File_Supported offset bytesRead formats st)
  | [], st => keepsFormat_refl f st
  | g :: more, st => by
    have ih := scanFormats_keeps ex io device buffer File_Supported offset bytesRead f hf hno
      more
    rw [scanFormats]
    split_ifs
    · exact ih st
    · by_cases hg : g = f
      · subst hg
        rw [scanPositions_no_match _ _ _ _ _ _ _ _ _ hf (fun i _ h => hno i h)]
        exact ih st
      · exact keepsFormat_trans
          (scanPositions_keeps ex io device buffer offset bytesRead g f hf hg _ 0 st rfl)
          (ih _)

/-- The scan of one chunk for format `f` reaches a first matching position
`i0`, and the extraction from there leaves `content`: the file gets the next
number of format `f`. -/
theorem scanPositions_first (ex : Extractors) (io : IoEnv) (device buffer : List Nat)
    (offset bytesRead f i0 : Nat) (content : List Nat) (hf : f < 4)
    (hfit : i0 + (signatureOf f).length ≤ bytesRead + overlap)
    (hbefore : ∀ i, i < i0 → i + (signatureOf f).length ≤ bytesRead + overlap →
      matchesSignature buffer i (signatureOf f) f = false)
    (hmatch : matchesSignature buffer i0 (signatureOf f) f = true)
    (hext : ∀ fileCount File_Count,
      extractFile io device (offset + i0) fileCount f File_Count =
        ⟨bumpCount File_Count f, fileCount,
          some ⟨f, (bumpCount File_Count f).getD f 0, content⟩⟩)
    (st : RunState) (hlen : f < st.File_Count.length) :
    FirstFile f content st (scanPositions ex io device buffer offset bytesRead f 0 st) := by
  have hskip := scanPositions_skip ex io device buffer offset bytesRead f st hf i0 0
    (fun i _ h2 h3 => hbefore i (by omega) h3)
  rw [Nat.zero_add] at hskip
  rw [hskip, scanPositions_step _ _ _ _ _ _ _ _ _ hfit,
    scanStep_match _ _ _ _ _ _ _ _ hf hmatch, hext]
  simp only
  have hb := bumpCount_getD_self st.File_Count hlen
  have hfirst : FirstFile f content st
      { st with
        File_Count := bumpCount st.File_Count f
        fileCount := st.fileCount + 1
        emitted := st.emitted ++
          (some (OutFile.mk f ((bumpCount st.File_Count f).getD f 0) content)).toList } := by
    refine ⟨bumpCount_length _ _, by simp only; rw [hb], [], [], ?_,
      fun _ h => absurd h (List.not_mem_nil _), fun _ h => absurd h (List.not_mem_nil _)⟩
    simp only [hb, List.append_nil, Option.toList]
  exact firstFile_before hfirst
    (scanPositions_numbers ex io device buffer offset bytesRead f f hf _ _ _
      rfl (by simp only; rw [bumpCount_length]; exact hlen))

theorem scanFormats_first (ex : Extractors) (io : IoEnv) (device buffer : List Nat)
    (File_Supported : List Bool) (offset bytesRead f : Nat) (content : List Nat)
    (hf : f < 4) (hmask : File_Supported.getD f false = true)
    (hscan : ∀ st, f < st.File_Count.length →
      FirstFile f content st (scanPositions ex io device buffer offset bytesRead f 0 st)) :
    ∀ (formats : List Nat) (st : RunState), f ∈ formats → f < st.File_Count.length →
      FirstFile f content st
        (scanFormats ex io device buffer File_Supported offset bytesRead formats st)
  | [], st, h, _ => by cases h
  | g :: more, st, h, hlen => by
    rw [scanFormats]
    by_cases hg : g = f
    · subst hg
      rw [if_neg (by rw [hmask]; decide)]
      have h1 := hscan st hlen
      exact firstFile_before h1
        (scanFormats_numbers ex io device buffer File_Supported offset bytesRead
          g hf more _ (by rw [h1.1]; exact hlen))
    · have hmem : f ∈ more := by
        rcases List.mem_cons.mp h with h1 | h1
        · exact absurd h1.symm hg
        · exact h1
      split_ifs
      · exact scanFormats_first ex io device buffer File_Supported offset bytesRead f content
          hf hmask hscan more st hmem hlen
      · have hk := scanPositions_keeps ex io device buffer offset bytesRead g f hf hg _ 0 st
          rfl
        exact firstFile_after hk
          (scanFormats_first ex io device buffer File_Supported offset bytesRead f content
            hf hmask hscan more _ hmem (by rw [hk.1]; exact hlen))

/-- The signature of format `f` matches nowhere in the chunks before chunk `k`,
and the scan of chunk `k` leaves `content` as the first file of format `f`: so
does the loop of `run` (never cancelled). -/
theorem runLoop_first (ex : Extractors) (io : IoEnv) (device : List Nat)
    (File_Supported : List Bool) (f : Nat) (content : List Nat) (hf : f < 4) :
    ∀ (k : Nat) (rest buffer : List Nat) (offset chunkNo : Nat) (st : RunState),
      chunkAt rest k ≠ [] →
      (∀ j, j < k → ∀ i, i + (signatureOf f).length ≤ (chunkAt rest j).length + overlap →
        matchesSignature (readBufferAt buffer rest j) i (signatureOf f) f = false) →
      (∀ st', f < st'.File_Count.length → FirstFile f content st'
        (scanFormats ex io device (readBufferAt buffer rest k) File_Supported
          (offset + chunkSize * k) (chunkAt rest k).length
          (List.range SupportedFileCount) st')) →
      f < st.File_Count.length →
      FirstFile f content st
        (runLoop ex io device File_Supported (fun _ => false) rest buffer offset chunkNo
          st).2 := by
  intro k
  induction k with
  | zero =>
    intro rest buffer offset chunkNo st hne _ hscan hlen
    have hnil : rest ≠ [] := by
      intro h; rw [h, chunkAt_nil] at hne; exact hne rfl
    rw [runLoop_step _ _ _ _ _ _ _ _ _ _ hnil rfl]
    have h0 := hscan st hlen
    rw [chunkAt_zero, readBufferAt, Nat.mul_zero, Nat.add_zero] at h0
    exact firstFile_before h0 (runLoop_numbers ex io device File_Supported f hf _ _ _ _ _ _ rfl
      (by rw [h0.1]; exact hlen))
  | succ k ih =>
    intro rest buffer offset chunkNo st hne hno hscan hlen
    rw [chunkAt_succ] at hne
    have hnil' : rest.drop chunkSize ≠ [] := by
      intro h; rw [h, chunkAt_nil] at hne; exact hne rfl
    have hnil : rest ≠ [] := by
      intro h; rw [h] at hnil'; exact hnil' rfl
    have hfull := take_chunk_full hnil'
    rw [runLoop_step _ _ _ _ _ _ _ _ _ _ hnil rfl]
    have hk := scanFormats_keeps ex io device
      (rest.take chunkSize ++ buffer.drop (rest.take chunkSize).length) File_Supported offset
      (rest.take chunkSize).length f hf
      (by
        intro i hi
        have := hno 0 (by omega) i (by rw [chunkAt_zero]; exact hi)
        rw [readBufferAt] at this
        exact this)
      (List.range SupportedFileCount) st
    refine firstFile_after hk (ih _ _ _ _ _ hne ?_ ?_ (by rw [hk.1]; exact hlen))
    · intro j hj i hi
      have := hno (j + 1) (by omega) i (by rw [chunkAt_succ]; exact hi)
      rw [readBufferAt] at this
      exact this
    · intro st' hlen'
      have h1 := hscan st' hlen'
      rw [chunkAt_succ, readBufferAt] at h1
      have hoff : offset + chunkSize * (k + 1) =
          offset + (rest.take chunkSize).length + chunkSize * k := by
        rw [hfull]; ring
      rw [hoff] at h1
      exact h1

/-- In `before ++ file ++ suffix`, with `file` a PNG or ZIP candidate whose
signature and end marker lie inside chunks and `before` free of the signature,
`run` leaves `file` as the first file of its format. -/
theorem run_first_candidate (ex : Extractors) (io : IoEnv) (File_Supported : List Bool)
    (File_Count : List Int) (formatIndex : Nat) (before file suffix : List Nat)
    (hfmt : formatIndex = 0 ∨ formatIndex = 3)
    (hr : io.reopenOk = true) (hc : io.createOk = true)
    (hmask : File_Supported.getD formatIndex false = true)
    (hcount : formatIndex < File_Count.length)
    (hsig : signatureOf formatIndex <+: file)
    (hend : endMarkerOf formatIndex <:+ file)
    (honce : ∀ p, p + (endMarkerOf formatIndex).length < file.length →
      ¬ endMarkerOf formatIndex <+: file.drop p)
    (hmin : minSizeOf formatIndex ≤ file.length)
    (hmax : file.length ≤ maxSizeOf formatIndex)
    (hpre : ¬ signatureOf formatIndex <:+: before)
    (halignS : before.length % chunkSize + (signatureOf formatIndex).length ≤ chunkSize)
    (halignE : (file.length - (endMarkerOf formatIndex).length) % chunkSize +
      (endMarkerOf formatIndex).length ≤ chunkSize) :
    FirstFile formatIndex file ⟨File_Count, 0, 0, []⟩
      (run ex io (some (before ++ file ++ suffix)) File_Supported (fun _ => false)
        File_Count).2 := by
  have hcs := chunkSize_eq
  have hov : overlap = 0 := rfl
  have hf : formatIndex < 4 := by rcases hfmt with h | h <;> omega
  have h1 : formatIndex ≠ 1 := by rcases hfmt with h | h <;> omega
  have h2 : formatIndex ≠ 2 := by rcases hfmt with h | h <;> omega
  have hsigpos : 0 < (signatureOf formatIndex).length := by
    rcases hfmt with h | h <;> subst h <;> decide
  have hsiglen : (signatureOf formatIndex).length ≤ file.length := hsig.length_le
  have hendlen : (endMarkerOf formatIndex).length ≤ file.length := hend.length_le
  have hdevlen : (before ++ file ++ suffix).length =
      before.length + file.length + suffix.length := by
    simp only [List.length_append]
  have hpos : chunkSize * (before.length / chunkSize) + before.length % chunkSize =
      before.length := Nat.div_add_mod before.length chunkSize
  have hdrop : (before ++ file ++ suffix).drop before.length = file ++ suffix := by
    rw [List.append_assoc, List.drop_left]
  -- the extraction from the start of `file`
  have hext : ∀ (fileCount : Int) (fc : List Int),
      extractFile io (before ++ file ++ suffix)
        (0 + chunkSize * (before.length / chunkSize) + before.length % chunkSize)
        fileCount formatIndex fc =
      ⟨bumpCount fc formatIndex, fileCount,
        some ⟨formatIndex, (bumpCount fc formatIndex).getD formatIndex 0, file⟩⟩ := by
    intro fileCount fc
    obtain ⟨body, hbody⟩ := hend
    have hblen : body.length + (endMarkerOf formatIndex).length = file.length := by
      rw [← hbody, List.length_append]
    obtain ⟨st, hs, hfe, hwr, htot, -, -⟩ := scanFrom_body_marker _ hf h1
      (before ++ file ++ suffix) before.length body suffix
      (by rw [hdrop, hbody])
      (by
        have : body.length = file.length - (endMarkerOf formatIndex).length := by omega
        rw [this]; exact halignE)
      (by
        intro p hp hpre'
        rw [hbody] at hpre'
        apply honce p (by omega)
        rw [List.drop_append_of_le_length (by omega)] at hpre'
        exact List.prefix_of_prefix_length_le hpre' (List.prefix_append _ _)
          (by rw [List.length_drop]; omega))
      (by omega)
    rw [Nat.zero_add, hpos]
    rw [extractFile_kept io fileCount fc hr hc hs hfe (by omega) (by omega)
      (fun h => absurd h h2), hwr, hbody]
  -- the chunk that holds the start of `file`
  have hclen := chunkAt_length (before ++ file ++ suffix) (before.length / chunkSize)
  have hfit : before.length % chunkSize + (signatureOf formatIndex).length ≤
      (chunkAt (before ++ file ++ suffix) (before.length / chunkSize)).length := by
    rw [hclen, hdevlen]; omega
  have hmatch : matchesSignature
      (readBufferAt (List.replicate (chunkSize + overlap) 0) (before ++ file ++ suffix)
        (before.length / chunkSize))
      (before.length % chunkSize) (signatureOf formatIndex) formatIndex = true := by
    apply matches_readBufferAt_of_data h1 initial_buffer_length hfit
    rw [hpos, hdrop]
    exact hsig.trans (List.prefix_append _ _)
  have hnone : ∀ j i, chunkSize * j + i < before.length →
      i + (signatureOf formatIndex).length ≤
        (chunkAt (before ++ file ++ suffix) j).length + overlap →
      matchesSignature
        (readBufferAt (List.replicate (chunkSize + overlap) 0) (before ++ file ++ suffix) j)
        i (signatureOf formatIndex) formatIndex = false := by
    intro j i hi hscan
    rcases Bool.eq_false_or_eq_true (matchesSignature
      (readBufferAt (List.replicate (chunkSize + overlap) 0) (before ++ file ++ suffix) j)
      i (signatureOf formatIndex) formatIndex) with hm | hm
    · exfalso
      have hp := data_of_matches_readBufferAt hm (by omega)
      exact no_signature_before hfmt before file suffix hsig hpre _ hi hp
    · exact hm
  rw [run_some]
  apply runLoop_first ex io (before ++ file ++ suffix) File_Supported formatIndex file hf
    (before.length / chunkSize)
  · intro h
    rw [h] at hfit
    simp only [List.length_nil] at hfit
    omega
  · intro j hj i hi
    apply hnone j i _ hi
    have hle := chunkAt_length_le (before ++ file ++ suffix) j
    have : chunkSize * (j + 1) ≤ chunkSize * (before.length / chunkSize) :=
      Nat.mul_le_mul_left _ hj
    rw [Nat.mul_succ] at this
    omega
  · intro st' hlen'
    exact scanFormats_first ex io _ _ File_Supported _ _ formatIndex file hf hmask
      (fun st hl => scanPositions_first ex io _ _ _ _ formatIndex (before.length % chunkSize)
        file hf (by omega)
        (fun i hi hscan => hnone _ i (by omega) hscan)
        hmatch hext st hl)
      (List.range SupportedFileCount) st'
      (by rw [SupportedFileCount, List.mem_range]; omega) hlen'
  · exact hcount

/-- What `FirstFile` says of a run that started with no file. -/
theorem firstFile_numbered {f : Nat} {content : List Nat} {File_Count : List Int}
    {st' : RunState} (h : FirstFile f content ⟨File_Count, 0, 0, []⟩ st') :
    (⟨f, File_Count.getD f 0 + 1, content⟩ : OutFile) ∈ st'.emitted ∧
      ∀ out ∈ st'.emitted, out.formatIndex = f → out.number = File_Count.getD f 0 + 1 →
        out.content = content := by
  obtain ⟨-, -, e1, e2, he, p1, p2⟩ := h
  simp only [List.nil_append] at he
  rw [he]
  refine ⟨by simp, ?_⟩
  intro out hout hfm hnum
  simp only [List.mem_append, List.mem_singleton] at hout
  rcases hout with (h | h) | h
  · exact absurd hfm (p1 out h)
  · rw [h]
  · have := p2 out h hfm
    simp only at this
    omega

/-- C11: `P` is 40 KiB long, begins with the PNG signature, ends with the PNG
end marker and holds it nowhere else.  On 8 KiB of zeros, `P`, 8 KiB of zeros,
`run` with PNG enabled, the counters at zero, both streams opening and no
cancellation, returns true and leaves the PNG file number 1 with the bytes of
`P`; no other file it leaves is a PNG file number 1. -/
theorem run_png_between_zeros (ex : Extractors) (io : IoEnv) (File_Supported : List Bool)
    (P : List Nat) (hr : io.reopenOk = true) (hc : io.createOk = true)
    (hmask : File_Supported.getD 0 false = true)
    (hlen : P.length = 40 * 1024)
    (hsig : PNG_SIGNATURE <+: P) (hend : PNG_IEND <:+ P)
    (honce : ∀ p, p + PNG_IEND.length < P.length → ¬ PNG_IEND <+: P.drop p) :
    (run ex io (some (List.replicate (8 * 1024) 0 ++ P ++ List.replicate (8 * 1024) 0))
        File_Supported (fun _ => false) initialFileCount).1 = true ∧
      (⟨0, 1, P⟩ : OutFile) ∈
        (run ex io (some (List.replicate (8 * 1024) 0 ++ P ++ List.replicate (8 * 1024) 0))
          File_Supported (fun _ => false) initialFileCount).2.emitted ∧
      ∀ out ∈
        (run ex io (some (List.replicate (8 * 1024) 0 ++ P ++ List.replicate (8 * 1024) 0))
          File_Supported (fun _ => false) initialFileCount).2.emitted,
        out.formatIndex = 0 → out.number = 1 → out.content = P := by
  have h12 : PNG_IEND.length = 12 := rfl
  have hfirst := run_first_candidate ex io File_Supported initialFileCount 0
    (List.replicate (8 * 1024) 0) P (List.replicate (8 * 1024) 0) (Or.inl rfl) hr hc hmask
    (by decide) hsig hend honce
    (by rw [hlen]; norm_num [minSizeOf, Size_limit])
    (by rw [hlen]; norm_num [maxSizeOf, Size_limit])
    (no_signature_in_zeros _ _ (by simp [signatureOf, SIGNATURES]))
    (by rw [List.length_replicate]; norm_num [chunkSize, signatureOf, SIGNATURES, PNG_SIGNATURE])
    (by
      rw [hlen, endMarkerOf_zero, h12]
      norm_num [chunkSize])
  have hn := firstFile_numbered hfirst
  refine ⟨?_, hn.1, hn.2⟩
  rw [run_some]
  exact (runLoop_emitted ex io _ File_Supported _ _ _ _ _ _ rfl).1

/-- Witness of C11: the PNG candidate `pngFile (40 * 1024 - 20)`, the five
formats enabled. -/
theorem run_png_between_zeros_witness :
    (pngFile (40 * 1024 - 20)).length = 40 * 1024 ∧
      (⟨0, 1, pngFile (40 * 1024 - 20)⟩ : OutFile) ∈
        (run headerTests ioOk
          (some (List.replicate (8 * 1024) 0 ++ pngFile (40 * 1024 - 20) ++
            List.replicate (8 * 1024) 0))
          allFive (fun _ => false) initialFileCount).2.emitted := by
  have hl : (pngFile (40 * 1024 - 20)).length = 40 * 1024 := by
    rw [pngFile_length]
  refine ⟨hl, ?_⟩
  exact (run_png_between_zeros headerTests ioOk allFive (pngFile (40 * 1024 - 20)) rfl rfl rfl
    hl
    (by rw [pngFile, List.append_assoc]; exact List.prefix_append _ _)
    (by rw [pngFile]; exact List.suffix_append _ _)
    (pngFile_marker_once (40 * 1024 - 20))).2.1

/-! ## `matchesFrameInfo` -/

theorem matchesFrameInfo_iff (frame original : List Int) :
    matchesFrameInfo frame original = true ↔
      frame.length = 5 ∧ original.length = 5 ∧ 0 < frame.getD 0 0 ∧
        0 < original.getD 0 0 ∧ frame.getD 1 0 = original.getD 1 0 := by
  unfold matchesFrameInfo matchFrameSize matchVersion matchLayer matchBitrate
    matchSamplingRate
  generalize frame.getD 0 0 = f0
  generalize frame.getD 1 0 = f1
  generalize original.getD 0 0 = o0
  generalize original.getD 1 0 = o1
  simp only [Bool.false_and, Bool.true_and, Bool.false_eq_true, if_false, Bool.or_eq_true,
    decide_eq_true_eq, bne_iff_ne, ne_eq, List.isEmpty_iff]
  split_ifs with h1 h2 h3
  · simp only [Bool.false_eq_true, false_iff]
    rintro ⟨hf, ho, -⟩
    rcases h1 with h1 | h1
    · rw [h1] at ho; cases ho
    · rw [h1] at hf; cases hf
  · simp only [Bool.false_eq_true, false_iff]
    rintro ⟨hf, ho, h5, h6, -⟩
    rcases h2 with ((h2 | h2) | h2) | h2 <;> omega
  · push_neg at h2
    exact ⟨fun _ => ⟨h2.1.2, h2.2, by omega, by omega, h3⟩, fun _ => rfl⟩
  · exact ⟨fun h => (by cases h), fun h => absurd h.2.2.2.2 h3⟩

theorem matchesFrameInfo_nil (frame : List Int) : matchesFrameInfo frame [] = false := rfl

theorem matchesFrameInfo_invalid (original : List Int) :
    matchesFrameInfo [0, 0, 0, 0, 0] original = false := by
  rcases Bool.eq_false_or_eq_true (matchesFrameInfo [0, 0, 0, 0, 0] original) with h | h
  · have := ((matchesFrameInfo_iff _ _).mp h).2.2.1
    exact absurd this (by decide)
  · exact h

/-- C21: with the options as `Mp3` initialises them (only `matchVersion`
set), `matchesFrameInfo frame original` is true exactly when both records
have five elements, both frame sizes are above 0 and the two MPEG versions
are equal; records that differ in frame size, layer, bitrate and sampling
rate match when the versions agree, and an empty `original` never matches. -/
theorem matchesFrameInfo_default_options (frame original : List Int) :
    (matchesFrameInfo frame original = true ↔
      frame.length = 5 ∧ original.length = 5 ∧ 0 < frame.getD 0 0 ∧
        0 < original.getD 0 0 ∧ frame.getD 1 0 = original.getD 1 0) ∧
    (∀ size layer bitrate rate size2 layer2 bitrate2 rate2 version : Int,
      (matchesFrameInfo [size, version, layer, bitrate, rate]
        [size2, version, layer2, bitrate2, rate2] = true ↔ 0 < size ∧ 0 < size2)) ∧
    matchesFrameInfo frame [] = false := by
  refine ⟨matchesFrameInfo_iff frame original, ?_, matchesFrameInfo_nil frame⟩
  intro size layer bitrate rate size2 layer2 bitrate2 rate2 version
  rw [matchesFrameInfo_iff]
  simp

/-! ## The carry of `extractMP3File` -/

theorem carryLoop_range (buffer : List Nat) :
    carryLoop buffer (List.range Mp3.overlap) =
      ((buffer.set 0 (buffer.getD 4093 0)).set 1 (buffer.getD 4094 0)).set 2
        (buffer.getD 4095 0) := by
  have hr : List.range Mp3.overlap = [0, 1, 2] := by decide
  rw [hr]
  simp only [carryLoop, BUFFER_SIZE, Mp3.overlap]
  have e1 : (buffer.set 0 (buffer.getD 4093 0)).getD 4094 0 = buffer.getD 4094 0 := by
    simp only [List.getD_eq_getElem?_getD]
    rw [List.getElem?_set_ne (by omega)]
  have e2 : ((buffer.set 0 (buffer.getD 4093 0)).set 1 (buffer.getD 4094 0)).getD 4095 0 =
      buffer.getD 4095 0 := by
    simp only [List.getD_eq_getElem?_getD]
    rw [List.getElem?_set_ne (by omega), List.getElem?_set_ne (by omega)]
  simp only [Nat.zero_add, Nat.reduceAdd, Nat.reduceSub] at e1 e2 ⊢
  rw [e1, e2]

theorem carryLoop_length (buffer : List Nat) :
    (carryLoop buffer (List.range Mp3.overlap)).length = buffer.length := by
  rw [carryLoop_range]
  simp

/-- The buffer of a pass: three cells copied from positions 4093 to 4095 of
the buffer of the pass before, the bytes read, and the cells that the read
did not reach. -/
theorem filledBuffer_eq (buffer chunk : List Nat) (hlen : 3 ≤ buffer.length) :
    filledBuffer buffer chunk =
      [buffer.getD 4093 0, buffer.getD 4094 0, buffer.getD 4095 0] ++ chunk ++
        buffer.drop (3 + chunk.length) := by
  unfold filledBuffer
  rw [carryLoop_range]
  rcases buffer with _ | ⟨a, _ | ⟨b, _ | ⟨c, rest⟩⟩⟩
  · simp at hlen
  · simp at hlen
  · simp at hlen
  · simp [Mp3.overlap, Nat.add_comm 3]

theorem filledBuffer_length (buffer chunk : List Nat) (hlen : buffer.length = 4103)
    (hchunk : chunk.length ≤ 4096) : (filledBuffer buffer chunk).length = 4103 := by
  rw [filledBuffer_eq _ _ (by omega)]
  simp only [List.length_append, List.length_cons, List.length_nil, List.length_drop]
  omega

theorem getD_append_left_lt (l1 l2 : List Nat) (i : Nat) (h : i < l1.length) :
    (l1 ++ l2).getD i 0 = l1.getD i 0 := by
  simp only [List.getD_eq_getElem?_getD]
  rw [List.getElem?_append_left h]

theorem getD_append_right_ge (l1 l2 : List Nat) (i : Nat) (h : l1.length ≤ i) :
    (l1 ++ l2).getD i 0 = l2.getD (i - l1.length) 0 := by
  simp only [List.getD_eq_getElem?_getD]
  rw [List.getElem?_append_right h]

/-- The cell `3 + j` of the buffer of a pass holds the byte `j` of the chunk
read. -/
theorem filledBuffer_getD_chunk (buffer chunk : List Nat) (hlen : 3 ≤ buffer.length)
    (j : Nat) (hj : j < chunk.length) :
    (filledBuffer buffer chunk).getD (3 + j) 0 = chunk.getD j 0 := by
  rw [filledBuffer_eq _ _ hlen, List.append_assoc,
    getD_append_right_ge _ _ _ (by simp), getD_append_left_lt _ _ _ (by simpa using hj)]
  simp

/-- C26 (what the code does): in every pass after a pass that read a full
chunk, the cells 0 to 2 of the buffer hold the bytes 4090 to 4092 of that
chunk, not its last three bytes 4093 to 4095. -/
theorem filledBuffer_carries_earlier_bytes (buffer chunk next : List Nat)
    (hlen : buffer.length = 4103) (hchunk : chunk.length = BUFFER_SIZE) :
    (filledBuffer (filledBuffer buffer chunk) next).take 3 =
      (chunk.drop 4090).take 3 := by
  have h1 : 3 ≤ (filledBuffer buffer chunk).length := by
    rw [filledBuffer_length _ _ hlen (by rw [hchunk]; decide)]; decide
  rw [BUFFER_SIZE] at hchunk
  rw [filledBuffer_eq _ _ h1]
  have e0 := filledBuffer_getD_chunk buffer chunk (by omega) 4090 (by omega)
  have e1 := filledBuffer_getD_chunk buffer chunk (by omega) 4091 (by omega)
  have e2 := filledBuffer_getD_chunk buffer chunk (by omega) 4092 (by omega)
  simp only [Nat.reduceAdd] at e0 e1 e2
  rw [e0, e1, e2]
  simp only [List.cons_append, List.nil_append, List.take_succ_cons, List.take_zero]
  have hd : chunk.drop 4090 = chunk.getD 4090 0 :: chunk.getD 4091 0 :: chunk.getD 4092 0 ::
      chunk.drop 4093 := by
    rw [List.drop_eq_getElem_cons (by omega), List.drop_eq_getElem_cons (by omega),
      List.drop_eq_getElem_cons (by omega)]
    simp only [List.getD_eq_getElem?_getD]
    rw [List.getElem?_eq_getElem (by omega), List.getElem?_eq_getElem (by omega),
      List.getElem?_eq_getElem (by omega)]
    rfl
  rw [hd]
  rfl

/-! ## The walk of `extractMP3File` -/

set_option maxRecDepth 1000000 in
theorem frameInfoOfFields_size_ge :
    ∀ v l b s p, v < 4 → l < 4 → b < 16 → s < 4 → p < 2 →
      ((frameInfoOfFields v l b s p).getD 0 0 ≤ 0 ∨
        4 ≤ (frameInfoOfFields v l b s p).getD 0 0) :=
  forall_fields _ (by decide)

/-- A frame size that the parser accepts is at least the four bytes of the
header. -/
theorem parse_mp3_frame_header_size_ge (header : List Nat)
    (h : 0 < (parse_mp3_frame_header header).getD 0 0) :
    4 ≤ (parse_mp3_frame_header header).getD 0 0 := by
  rw [parse_mp3_frame_header_eq] at h ⊢
  split_ifs at h ⊢ with hs
  · rcases frameInfoOfFields_size_ge _ _ _ _ _ (field_lt_four (header.getD 1 0 >>> 3))
      (field_lt_four (header.getD 1 0 >>> 1)) (field_lt_sixteen (header.getD 2 0 >>> 4))
      (field_lt_four (header.getD 2 0 >>> 2)) (field_lt_two (header.getD 2 0 >>> 1))
      with h' | h'
    · omega
    · exact h'
  · exact absurd h (by decide)

theorem confirmFrame_cases (pos : Nat) (st : WalkState) :
    confirmFrame pos st = st ∨
      (st.firstFrameFound = false ∧
        0 < (parse_mp3_frame_header (st.buffer.drop pos)).getD 0 0 ∧
        matchesMP3Header st.buffer pos = true ∧
        confirmFrame pos st =
          { st with
            frame_info_original := parse_mp3_frame_header (st.buffer.drop pos)
            firstFrameFound := true }) := by
  unfold confirmFrame
  simp only
  split_ifs with h
  · right
    simp only [Bool.and_eq_true, Bool.not_eq_true', decide_eq_true_eq] at h
    exact ⟨h.1.1, h.1.2, h.2, rfl⟩
  · left; rfl

theorem confirmFrame_buffer (pos : Nat) (st : WalkState) :
    (confirmFrame pos st).buffer = st.buffer := by
  rcases confirmFrame_cases pos st with h | ⟨_, _, _, h⟩ <;> rw [h]

theorem confirmFrame_found (pos : Nat) (st : WalkState) (h : st.firstFrameFound = true) :
    confirmFrame pos st = st := by
  rcases confirmFrame_cases pos st with h' | ⟨h', _⟩
  · exact h'
  · rw [h] at h'; cases h'

/-- The body of the loop when the frame at `pos` is written. -/
theorem walkStep_write (totalBytes pos : Nat) (st : WalkState)
    (hm : matchesFrameInfo (parse_mp3_frame_header (st.buffer.drop pos))
      (confirmFrame pos st).frame_info_original = true)
    (hfit : pos + ((parse_mp3_frame_header (st.buffer.drop pos)).getD 0 0).toNat ≤
      totalBytes)
    (hmax : (confirmFrame pos st).totalExtracted +
      ((parse_mp3_frame_header (st.buffer.drop pos)).getD 0 0).toNat ≤ 50 * 1024 * 1024) :
    walkStep totalBytes pos st =
      ({ confirmFrame pos st with
          outFile := (confirmFrame pos st).outFile ++ (st.buffer.drop pos).take
            ((parse_mp3_frame_header (st.buffer.drop pos)).getD 0 0).toNat
          current_offset := (confirmFrame pos st).current_offset +
            ((parse_mp3_frame_header (st.buffer.drop pos)).getD 0 0).toNat
          totalExtracted := (confirmFrame pos st).totalExtracted +
            ((parse_mp3_frame_header (st.buffer.drop pos)).getD 0 0).toNat
          gapCount := 0
          totalBytesWritten := (confirmFrame pos st).totalBytesWritten +
            ((parse_mp3_frame_header (st.buffer.drop pos)).getD 0 0).toNat },
        some (pos + ((parse_mp3_frame_header (st.buffer.drop pos)).getD 0 0).toNat)) := by
  have hpos := ((matchesFrameInfo_iff _ _).mp hm).2.2.1
  unfold walkStep
  simp only [confirmFrame_buffer]
  rw [if_pos (by simp only [Bool.and_eq_true, decide_eq_true_eq]; exact ⟨⟨hm, hpos⟩, hfit⟩),
    if_neg (by omega)]

/-- The body of the loop when no frame is written at `pos` and the gap stays
within `MAX_GAP_Bytes`. -/
theorem walkStep_gap (totalBytes pos : Nat) (st : WalkState)
    (hno : (matchesFrameInfo (parse_mp3_frame_header (st.buffer.drop pos))
        (confirmFrame pos st).frame_info_original &&
      decide ((parse_mp3_frame_header (st.buffer.drop pos)).getD 0 0 > 0) &&
      decide (pos + ((parse_mp3_frame_header (st.buffer.drop pos)).getD 0 0).toNat ≤
        totalBytes)) = false)
    (hgap : (confirmFrame pos st).gapCount + 1 ≤ MAX_GAP_Bytes)
    (hmax : (confirmFrame pos st).totalExtracted ≤ 50 * 1024 * 1024) :
    walkStep totalBytes pos st =
      ({ confirmFrame pos st with
          gapCount := (confirmFrame pos st).gapCount + 1
          current_offset := (confirmFrame pos st).current_offset + 1 },
        some (pos + 1)) := by
  unfold walkStep
  simp only
  rw [if_neg (by rw [hno]; decide), if_neg (by omega), if_neg (by omega)]

/-- The body of the loop when no frame is written at `pos` and the gap
exceeds `MAX_GAP_Bytes`: the walk is over. -/
theorem walkStep_gap_end (totalBytes pos : Nat) (st : WalkState)
    (hno : (matchesFrameInfo (parse_mp3_frame_header (st.buffer.drop pos))
        (confirmFrame pos st).frame_info_original &&
      decide ((parse_mp3_frame_header (st.buffer.drop pos)).getD 0 0 > 0) &&
      decide (pos + ((parse_mp3_frame_header (st.buffer.drop pos)).getD 0 0).toNat ≤
        totalBytes)) = false)
    (hgap : MAX_GAP_Bytes < (confirmFrame pos st).gapCount + 1) :
    walkStep totalBytes pos st =
      ({ confirmFrame pos st with gapCount := (confirmFrame pos st).gapCount + 1 }, none) := by
  unfold walkStep
  simp only
  rw [if_neg (by rw [hno]; decide), if_pos (by omega)]

theorem walkStep_next_gt (totalBytes pos next : Nat) (st : WalkState)
    (h : (walkStep totalBytes pos st).2 = some next) : pos < next := by
  unfold walkStep at h
  simp only at h
  split_ifs at h with h1 h2 h3 h4 <;>
    simp only [Option.some.injEq, reduceCtorEq] at h
  · simp only [Bool.and_eq_true, decide_eq_true_eq] at h1
    omega
  · omega

theorem walkFrames_done (totalBytes pos : Nat) (st : WalkState)
    (h : ¬ pos + 4 ≤ totalBytes) : walkFrames totalBytes pos st = (st, false) := by
  rw [walkFrames, dif_neg h]

theorem walkFrames_next (totalBytes pos next : Nat) (st st2 : WalkState)
    (h : pos + 4 ≤ totalBytes) (hs : walkStep totalBytes pos st = (st2, some next)) :
    walkFrames totalBytes pos st = walkFrames totalBytes next st2 := by
  rw [walkFrames, dif_pos h]
  split
  · rename_i heq
    rw [hs] at heq
    cases heq
  · rename_i j heq
    rw [hs] at heq
    cases heq
    rw [hs]

theorem walkFrames_end (totalBytes pos : Nat) (st st2 : WalkState)
    (h : pos + 4 ≤ totalBytes) (hs : walkStep totalBytes pos st = (st2, none)) :
    walkFrames totalBytes pos st = (st2, true) := by
  rw [walkFrames, dif_pos h]
  split
  · rw [hs]
  · rename_i j heq
    rw [hs] at heq
    cases heq

theorem walkChunks_nil (st : WalkState) :
    walkChunks [] st = { st with buffer := carryLoop st.buffer (List.range Mp3.overlap) } := by
  rw [walkChunks, dif_pos (by simp)]

theorem walkChunks_cons (rest : List Nat) (st : WalkState) (hne : rest ≠ []) :
    walkChunks rest st =
      if (walkFrames ((rest.take BUFFER_SIZE).length + Mp3.overlap) 0
          { st with buffer := filledBuffer st.buffer (rest.take BUFFER_SIZE) }).2 then
        (walkFrames ((rest.take BUFFER_SIZE).length + Mp3.overlap) 0
          { st with buffer := filledBuffer st.buffer (rest.take BUFFER_SIZE) }).1
      else
        walkChunks (rest.drop BUFFER_SIZE)
          (walkFrames ((rest.take BUFFER_SIZE).length + Mp3.overlap) 0
            { st with buffer := filledBuffer st.buffer (rest.take BUFFER_SIZE) }).1 := by
  have hlen : ¬ (rest.take BUFFER_SIZE).length = 0 := by
    rcases rest with _ | ⟨a, rest⟩
    · exact absurd rfl hne
    · simp [BUFFER_SIZE]
  rw [walkChunks, dif_neg hlen]
  rfl

theorem getD_take_lt (l : List Nat) (n k : Nat) (h : k < n) :
    (l.take n).getD k 0 = l.getD k 0 := by
  simp only [List.getD_eq_getElem?_getD]
  rw [List.getElem?_take_of_lt h]

theorem walkInv_confirmFrame (pos : Nat) (st : WalkState) (h : WalkInv st) :
    WalkInv (confirmFrame pos st) := by
  rcases confirmFrame_cases pos st with hc | ⟨hff, _, _, hc⟩
  · rw [hc]; exact h
  · rw [hc]
    obtain ⟨hlen, hw, hnone, _⟩ := h
    have hout := (hnone hff).2
    refine ⟨hlen, hw, fun hf => (by cases hf), [], ?_, fun fr hfr => (by cases hfr)⟩
    simp only [hout, List.flatten_nil]

/-- The body of the loop keeps the invariant. -/
theorem walkInv_walkStep (totalBytes pos : Nat) (st : WalkState) (ht : totalBytes ≤ 4103)
    (h : WalkInv st) : WalkInv (walkStep totalBytes pos st).1 := by
  have hc := walkInv_confirmFrame pos st h
  have hb := confirmFrame_buffer pos st
  unfold walkStep
  simp only
  generalize confirmFrame pos st = c at hc hb ⊢
  rw [← hb]
  obtain ⟨hlen, hw, hnone, frames, hfl, hfr⟩ := hc
  have hwrite : ∀ (o g e : Nat),
      (matchesFrameInfo (parse_mp3_frame_header (c.buffer.drop pos)) c.frame_info_original &&
        decide ((parse_mp3_frame_header (c.buffer.drop pos)).getD 0 0 > 0) &&
        decide (pos + ((parse_mp3_frame_header (c.buffer.drop pos)).getD 0 0).toNat ≤
          totalBytes)) = true →
      WalkInv { c with
        outFile := c.outFile ++ (c.buffer.drop pos).take
          ((parse_mp3_frame_header (c.buffer.drop pos)).getD 0 0).toNat
        current_offset := o
        totalExtracted := e
        gapCount := g
        totalBytesWritten := c.totalBytesWritten +
          ((parse_mp3_frame_header (c.buffer.drop pos)).getD 0 0).toNat } := by
    intro o g e hcond
    simp only [Bool.and_eq_true, decide_eq_true_eq] at hcond
    obtain ⟨⟨hm, hpos⟩, hfit⟩ := hcond
    have hm' := (matchesFrameInfo_iff _ _).mp hm
    have hge := parse_mp3_frame_header_size_ge _ hpos
    have hlenfr : ((c.buffer.drop pos).take
        ((parse_mp3_frame_header (c.buffer.drop pos)).getD 0 0).toNat).length =
        ((parse_mp3_frame_header (c.buffer.drop pos)).getD 0 0).toNat := by
      rw [List.length_take, List.length_drop]
      omega
    have hparse : parse_mp3_frame_header ((c.buffer.drop pos).take
        ((parse_mp3_frame_header (c.buffer.drop pos)).getD 0 0).toNat) =
        parse_mp3_frame_header (c.buffer.drop pos) :=
      parse_mp3_frame_header_congr (getD_take_lt _ _ _ (by omega))
        (getD_take_lt _ _ _ (by omega)) (getD_take_lt _ _ _ (by omega))
    refine ⟨hlen, ?_, ?_, frames ++ [(c.buffer.drop pos).take
      ((parse_mp3_frame_header (c.buffer.drop pos)).getD 0 0).toNat], ?_, ?_⟩
    · simp only [List.length_append, hlenfr, hw]
    · intro hf
      have := (hnone hf).1
      rw [this] at hm'
      exact absurd hm'.2.1 (by decide)
    · simp only [List.flatten_append, List.flatten_cons, List.flatten_nil, List.append_nil,
        hfl]
    · intro fr hmem
      rcases List.mem_append.mp hmem with hmem | hmem
      · exact hfr fr hmem
      · rw [List.mem_singleton] at hmem
        rw [hmem]
        exact ⟨by rw [hparse]; exact hpos, by rw [hparse]; exact hlenfr,
          by rw [hparse]; exact hm'.2.2.2.2⟩
  have hgap : ∀ (o g : Nat), WalkInv { c with gapCount := g, current_offset := o } :=
    fun o g => ⟨hlen, hw, hnone, frames, hfl, hfr⟩
  split_ifs with h1 h2 h3 h4
  · exact hwrite _ _ _ h1
  · exact hwrite _ _ _ h1
  · exact hgap c.current_offset _
  · exact hgap _ _
  · exact hgap _ _

theorem walkInv_walkFrames (totalBytes : Nat) (ht : totalBytes ≤ 4103) :
    ∀ (n pos : Nat) (st : WalkState), totalBytes - pos = n → WalkInv st →
      WalkInv (walkFrames totalBytes pos st).1 := by
  intro n
  induction n using Nat.strong_induction_on with
  | _ n ih =>
    intro pos st hn h
    by_cases hpos : pos + 4 ≤ totalBytes
    · have hstep := walkInv_walkStep totalBytes pos st ht h
      rcases hs : walkStep totalBytes pos st with ⟨st2, _ | next⟩
      · rw [walkFrames_end _ _ _ _ hpos hs]
        rw [hs] at hstep
        exact hstep
      · rw [walkFrames_next _ _ _ _ _ hpos hs]
        rw [hs] at hstep
        have hgt := walkStep_next_gt totalBytes pos next st (by rw [hs])
        exact ih (totalBytes - next) (by omega) next st2 rfl hstep
    · rw [walkFrames_done _ _ _ hpos]
      exact h

theorem walkInv_walkChunks :
    ∀ (n : Nat) (rest : List Nat) (st : WalkState), rest.length = n → WalkInv st →
      WalkInv (walkChunks rest st) := by
  intro n
  induction n using Nat.strong_induction_on with
  | _ n ih =>
    intro rest st hn h
    by_cases hne : rest = []
    · rw [hne, walkChunks_nil]
      obtain ⟨hlen, hrest⟩ := h
      exact ⟨by rw [carryLoop_length]; exact hlen, hrest⟩
    · rw [walkChunks_cons rest st hne]
      have hchunk : (rest.take BUFFER_SIZE).length ≤ 4096 := by
        rw [List.length_take, BUFFER_SIZE]; omega
      have h0 : WalkInv { st with buffer := filledBuffer st.buffer (rest.take BUFFER_SIZE) } := by
        obtain ⟨hlen, hrest⟩ := h
        exact ⟨filledBuffer_length _ _ hlen hchunk, hrest⟩
      have h1 := walkInv_walkFrames ((rest.take BUFFER_SIZE).length + Mp3.overlap)
        (by rw [Mp3.overlap]; omega) _ 0 _ rfl h0
      split_ifs
      · exact h1
      · have hlt : (rest.drop BUFFER_SIZE).length < n := by
          rcases rest with _ | ⟨a, rest⟩
          · exact absurd rfl hne
          · simp only [List.length_drop, List.length_cons, BUFFER_SIZE] at hn ⊢
            omega
        exact ih _ hlt _ _ rfl h1

theorem walkInv_initialWalk (fileStart : Nat) : WalkInv (initialWalk fileStart) :=
  ⟨(List.length_replicate _ _).trans rfl, rfl, fun _ => ⟨rfl, rfl⟩, [], rfl,
    fun fr hfr => (by cases hfr)⟩

/-- The locals of `extractMP3File` at the label `extraction_finished`. -/
theorem walkInv_final (device : List Nat) (fileStart : Nat) :
    WalkInv (walkChunks (device.drop fileStart) (initialWalk fileStart)) :=
  walkInv_walkChunks _ _ _ rfl (walkInv_initialWalk fileStart)

theorem extractMP3File_opened (io : IoEnv) (device : List Nat) (fileStart : Nat)
    (fileCount : Int) (hopen : io.reopenOk = true) (hcreate : io.createOk = true) :
    extractMP3File io device fileStart fileCount =
      if (walkChunks (device.drop fileStart) (initialWalk fileStart)).totalBytesWritten <
          20 * 1024 ∨
        (walkChunks (device.drop fileStart) (initialWalk fileStart)).totalBytesWritten >
          20 * 1024 * 1024 then ⟨0, fileCount - 1, none⟩
      else ⟨(walkChunks (device.drop fileStart) (initialWalk fileStart)).current_offset,
        fileCount,
        some (walkChunks (device.drop fileStart) (initialWalk fileStart)).outFile⟩ := by
  unfold extractMP3File
  simp only [hopen, hcreate, Bool.not_true, Bool.false_eq_true, if_false, Bool.or_eq_true,
    decide_eq_true_eq]

/-- C23: when its two streams open, `extractMP3File` leaves the output file
in place exactly when the number `W` of frame bytes written (the value of
`totalBytesWritten`, which is the length of the output file) satisfies
`20 * 1024 <= W <= 20 * 1024 * 1024`; the file is then what the walk wrote
and the counter is as the caller passed it.  Otherwise the file is removed,
the counter is decremented and 0 is returned.  In particular a walk that
wrote `20 * 1024 * 1024` bytes is kept and one that wrote one byte more is
removed. -/
theorem extractMP3File_size_filter (io : IoEnv) (device : List Nat) (fileStart : Nat)
    (fileCount : Int) (hopen : io.reopenOk = true) (hcreate : io.createOk = true) :
    (walkChunks (device.drop fileStart) (initialWalk fileStart)).outFile.length =
      (walkChunks (device.drop fileStart) (initialWalk fileStart)).totalBytesWritten ∧
    ((extractMP3File io device fileStart fileCount).outFile.isSome = true ↔
      20 * 1024 ≤ (walkChunks (device.drop fileStart) (initialWalk fileStart)).totalBytesWritten ∧
        (walkChunks (device.drop fileStart) (initialWalk fileStart)).totalBytesWritten ≤
          20 * 1024 * 1024) ∧
    ((extractMP3File io device fileStart fileCount).outFile.isSome = true →
      (extractMP3File io device fileStart fileCount).outFile =
          some (walkChunks (device.drop fileStart) (initialWalk fileStart)).outFile ∧
        (extractMP3File io device fileStart fileCount).fileCount = fileCount) ∧
    ((extractMP3File io device fileStart fileCount).outFile.isSome = false →
      extractMP3File io device fileStart fileCount = ⟨0, fileCount - 1, none⟩) ∧
    ((walkChunks (device.drop fileStart) (initialWalk fileStart)).totalBytesWritten =
        20 * 1024 * 1024 →
      (extractMP3File io device fileStart fileCount).outFile =
        some (walkChunks (device.drop fileStart) (initialWalk fileStart)).outFile) ∧
    ((walkChunks (device.drop fileStart) (initialWalk fileStart)).totalBytesWritten =
        20 * 1024 * 1024 + 1 →
      extractMP3File io device fileStart fileCount = ⟨0, fileCount - 1, none⟩) := by
  have hw := (walkInv_final device fileStart).2.1
  rw [extractMP3File_opened io device fileStart fileCount hopen hcreate]
  generalize walkChunks (device.drop fileStart) (initialWalk fileStart) = st at hw ⊢
  refine ⟨hw, ?_, ?_, ?_, ?_, ?_⟩
  · split_ifs with h
    · simp only [Option.isSome_none, Bool.false_eq_true, false_iff]
      omega
    · simp only [Option.isSome_some, true_iff]
      omega
  · split_ifs with h
    · intro h'; cases h'
    · intro _; exact ⟨rfl, rfl⟩
  · split_ifs with h
    · intro _; rfl
    · intro h'; cases h'
  · intro h
    rw [if_neg (by omega)]
  · intro h
    rw [if_pos (by omega)]

/-- While no first frame is confirmed the body of the loop writes nothing. -/
theorem walkStep_unconfirmed (totalBytes pos : Nat) (st : WalkState)
    (horig : st.frame_info_original = [])
    (h : (walkStep totalBytes pos st).1.firstFrameFound = false) :
    (walkStep totalBytes pos st).1.outFile = st.outFile := by
  have hc : confirmFrame pos st = st := by
    rcases confirmFrame_cases pos st with hc | ⟨_, _, _, hc⟩
    · exact hc
    · exfalso
      unfold walkStep at h
      simp only at h
      rw [hc] at h
      split_ifs at h
  unfold walkStep
  simp only
  rw [hc, horig, matchesFrameInfo_nil]
  simp only [Bool.false_and, Bool.false_eq_true, if_false]
  split_ifs <;> rfl

/-- C24: whatever the input, the bytes that `extractMP3File` leaves in its
output file are a concatenation of frames: each begins with a header that
`parse_mp3_frame_header` accepts, has exactly the length that this header
gives as frame size, and has the MPEG version of the first of them.  A first
frame was confirmed, and a pass of the loop body that finds no first frame
confirmed, before or in it, writes nothing. -/
theorem extractMP3File_writes_frames (io : IoEnv) (device : List Nat) (fileStart : Nat)
    (fileCount : Int) (content : List Nat)
    (h : (extractMP3File io device fileStart fileCount).outFile = some content) :
    (∃ frames : List (List Nat), content = frames.flatten ∧
      ∀ fr ∈ frames,
        0 < (parse_mp3_frame_header fr).getD 0 0 ∧
        fr.length = ((parse_mp3_frame_header fr).getD 0 0).toNat ∧
        ∀ first, frames.head? = some first →
          (parse_mp3_frame_header fr).getD 1 0 =
            (parse_mp3_frame_header first).getD 1 0) ∧
    (walkChunks (device.drop fileStart) (initialWalk fileStart)).firstFrameFound = true ∧
    (∀ (totalBytes pos : Nat) (st : WalkState), st.frame_info_original = [] →
      (walkStep totalBytes pos st).1.firstFrameFound = false →
      (walkStep totalBytes pos st).1.outFile = st.outFile) := by
  have hinv := walkInv_final device fileStart
  have hc : content = (walkChunks (device.drop fileStart) (initialWalk fileStart)).outFile ∧
      20 * 1024 ≤
        (walkChunks (device.drop fileStart) (initialWalk fileStart)).totalBytesWritten := by
    unfold extractMP3File at h
    simp only at h
    split_ifs at h with h1 h2 h3
    simp only [Option.some.injEq] at h
    simp only [Bool.or_eq_true, decide_eq_true_eq, not_or, not_lt] at h3
    exact ⟨h.symm, h3.1⟩
  obtain ⟨_, hw, hnone, frames, hfl, hfr⟩ := hinv
  refine ⟨⟨frames, by rw [hc.1, hfl], fun fr hmem =>
    ⟨(hfr fr hmem).1, (hfr fr hmem).2.1, ?_⟩⟩, ?_, walkStep_unconfirmed⟩
  · intro first hfirst
    have hmem1 : first ∈ frames := List.mem_of_mem_head? hfirst
    rw [(hfr fr hmem).2.2, (hfr first hmem1).2.2]
  · rcases Bool.eq_false_or_eq_true
      (walkChunks (device.drop fileStart) (initialWalk fileStart)).firstFrameFound with hf | hf
    · exact hf
    · have := (hnone hf).2
      rw [this] at hw
      have h20 := hc.2
      rw [← hw] at h20
      simp at h20

/-! ## Streams of frames -/

theorem frameStream_zero (frame : List Nat) : frameStream frame 0 = [] := rfl

theorem frameStream_succ (frame : List Nat) (n : Nat) :
    frameStream frame (n + 1) = frame ++ frameStream frame n := by
  simp only [frameStream, List.replicate_succ, List.flatten_cons]

theorem frameStream_add (frame : List Nat) (m n : Nat) :
    frameStream frame (m + n) = frameStream frame m ++ frameStream frame n := by
  induction m with
  | zero => simp [frameStream_zero]
  | succ m ih => rw [Nat.add_right_comm, frameStream_succ, frameStream_succ, ih,
      List.append_assoc]

theorem frameStream_length (frame : List Nat) (n : Nat) :
    (frameStream frame n).length = n * frame.length := by
  induction n with
  | zero => simp [frameStream_zero]
  | succ n ih => rw [frameStream_succ, List.length_append, ih]; ring

theorem getD_frameStream (frame : List Nat) (n j : Nat) (hj : j < n * frame.length) :
    (frameStream frame n).getD j 0 = frame.getD (j % frame.length) 0 := by
  induction n generalizing j with
  | zero => simp at hj
  | succ n ih =>
    rw [frameStream_succ]
    rw [Nat.succ_mul] at hj
    by_cases h : j < frame.length
    · rw [getD_append_left_lt _ _ _ h, Nat.mod_eq_of_lt h]
    · rw [getD_append_right_ge _ _ _ (by omega), ih _ (by omega)]
      congr 1
      exact (Nat.mod_eq_sub_mod (by omega)).symm

/-- The frame number `k` of a stream, as it lies in a list around the stream. -/
theorem take_drop_frameStream (frame before after : List Nat) (n k : Nat) (hk : k < n) :
    ((before ++ frameStream frame n ++ after).drop (before.length + k * frame.length)).take
      frame.length = frame := by
  have hn : n = k + (1 + (n - k - 1)) := by omega
  rw [hn, frameStream_add, frameStream_add, List.append_assoc, List.append_assoc,
    List.drop_append_eq_append_drop, List.drop_of_length_le (by omega), List.nil_append,
    List.append_assoc]
  have e1 : before.length + k * frame.length - before.length =
      (frameStream frame k).length := by
    rw [frameStream_length]; omega
  rw [e1, List.drop_left]
  have e2 : frameStream frame 1 = frame := by
    rw [frameStream_succ, frameStream_zero, List.append_nil]
  rw [e2, List.take_left]

theorem frame512_length : frame512.length = 512 := by
  rw [frame512, List.length_append, List.length_replicate]; rfl

theorem getD_frame512 (k : Nat) :
    frame512.getD k 0 =
      if k = 0 then 0xFF else if k = 1 then 0xE7 else if k = 2 then 0x84 else 0 := by
  rcases k with _ | _ | _ | _ | k
  · rfl
  · rfl
  · rfl
  · rfl
  · rw [frame512, getD_append_right_ge _ _ _ (by simp), getD_replicate_zero]
    simp

theorem buffer512_length : buffer512.length = 4103 := by
  rw [buffer512, List.length_append, List.length_append, frameStream_length, frame512_length]
  rfl

/-- The cells of `buffer512`. -/
theorem getD_buffer512 (p : Nat) :
    buffer512.getD p 0 =
      if 3 ≤ p ∧ p < 4099 then
        (if (p - 3) % 512 = 0 then 0xFF else if (p - 3) % 512 = 1 then 0xE7
          else if (p - 3) % 512 = 2 then 0x84 else 0)
      else 0 := by
  rw [buffer512]
  by_cases h3 : p < 3
  · rw [if_neg (by omega), List.append_assoc, getD_append_left_lt _ _ _ (by simpa using h3)]
    interval_cases p <;> rfl
  · rw [List.append_assoc, getD_append_right_ge _ _ _ (by simp; omega)]
    simp only [List.length_cons, List.length_nil, Nat.zero_add, Nat.reduceAdd]
    by_cases h4 : p < 4099
    · rw [if_pos ⟨by omega, h4⟩, getD_append_left_lt _ _ _ (by
        rw [frameStream_length, frame512_length]; omega),
        getD_frameStream _ _ _ (by rw [frame512_length]; omega), frame512_length,
        getD_frame512]
    · rw [if_neg (by omega), getD_append_right_ge _ _ _ (by
        rw [frameStream_length, frame512_length]; omega)]
      rw [frameStream_length, frame512_length]
      have : p - 3 - 8 * 512 < 4 ∨ 4 ≤ p - 3 - 8 * 512 := by omega
      rcases this with h | h
      · interval_cases hp : p - 3 - 8 * 512 <;> rfl
      · rw [List.getD_eq_default _ _ (by simpa using h)]

/-! ## The body of the walk, case by case -/

theorem confirmFrame_no_header (pos : Nat) (st : WalkState)
    (hz : parse_mp3_frame_header (st.buffer.drop pos) = [0, 0, 0, 0, 0]) :
    confirmFrame pos st = st := by
  rcases confirmFrame_cases pos st with h | ⟨_, h, _⟩
  · exact h
  · rw [hz] at h
    exact absurd h (by decide)

/-- A position that holds no header counts as gap. -/
theorem walkStep_no_header (totalBytes pos : Nat) (st : WalkState)
    (hz : parse_mp3_frame_header (st.buffer.drop pos) = [0, 0, 0, 0, 0])
    (hgap : st.gapCount + 1 ≤ MAX_GAP_Bytes) (hmax : st.totalExtracted ≤ 50 * 1024 * 1024) :
    walkStep totalBytes pos st =
      ({ st with gapCount := st.gapCount + 1, current_offset := st.current_offset + 1 },
        some (pos + 1)) := by
  have hc := confirmFrame_no_header pos st hz
  rw [walkStep_gap totalBytes pos st (by rw [hz, matchesFrameInfo_invalid]; rfl)
    (by rw [hc]; exact hgap) (by rw [hc]; exact hmax), hc]

/-- A position that holds no header ends the walk when the gap has reached
`MAX_GAP_Bytes`. -/
theorem walkStep_no_header_end (totalBytes pos : Nat) (st : WalkState)
    (hz : parse_mp3_frame_header (st.buffer.drop pos) = [0, 0, 0, 0, 0])
    (hgap : MAX_GAP_Bytes < st.gapCount + 1) :
    walkStep totalBytes pos st = ({ st with gapCount := st.gapCount + 1 }, none) := by
  have hc := confirmFrame_no_header pos st hz
  rw [walkStep_gap_end totalBytes pos st (by rw [hz, matchesFrameInfo_invalid]; rfl)
    (by rw [hc]; exact hgap), hc]

/-- A frame that matches the first one and fits in the buffer is written. -/
theorem walkStep_frame (totalBytes pos : Nat) (st : WalkState)
    (hff : st.firstFrameFound = true)
    (hm : matchesFrameInfo (parse_mp3_frame_header (st.buffer.drop pos))
      st.frame_info_original = true)
    (hfit : pos + ((parse_mp3_frame_header (st.buffer.drop pos)).getD 0 0).toNat ≤
      totalBytes)
    (hmax : st.totalExtracted +
      ((parse_mp3_frame_header (st.buffer.drop pos)).getD 0 0).toNat ≤ 50 * 1024 * 1024) :
    walkStep totalBytes pos st =
      ({ st with
          outFile := st.outFile ++ (st.buffer.drop pos).take
            ((parse_mp3_frame_header (st.buffer.drop pos)).getD 0 0).toNat
          current_offset := st.current_offset +
            ((parse_mp3_frame_header (st.buffer.drop pos)).getD 0 0).toNat
          totalExtracted := st.totalExtracted +
            ((parse_mp3_frame_header (st.buffer.drop pos)).getD 0 0).toNat
          gapCount := 0
          totalBytesWritten := st.totalBytesWritten +
            ((parse_mp3_frame_header (st.buffer.drop pos)).getD 0 0).toNat },
        some (pos + ((parse_mp3_frame_header (st.buffer.drop pos)).getD 0 0).toNat)) := by
  have hc := confirmFrame_found pos st hff
  rw [walkStep_write totalBytes pos st (by rw [hc]; exact hm) hfit (by rw [hc]; exact hmax),
    hc]

/-- The first frame: a header that `matchesMP3Header` confirms becomes
`frame_info_original`, and the frame is written when it fits in the buffer. -/
theorem walkStep_first (totalBytes pos : Nat) (st : WalkState)
    (hff : st.firstFrameFound = false)
    (hconfirm : matchesMP3Header st.buffer pos = true)
    (hm : matchesFrameInfo (parse_mp3_frame_header (st.buffer.drop pos))
      (parse_mp3_frame_header (st.buffer.drop pos)) = true)
    (hfit : pos + ((parse_mp3_frame_header (st.buffer.drop pos)).getD 0 0).toNat ≤
      totalBytes)
    (hmax : st.totalExtracted +
      ((parse_mp3_frame_header (st.buffer.drop pos)).getD 0 0).toNat ≤ 50 * 1024 * 1024) :
    walkStep totalBytes pos st =
      ({ st with
          frame_info_original := parse_mp3_frame_header (st.buffer.drop pos)
          firstFrameFound := true
          outFile := st.outFile ++ (st.buffer.drop pos).take
            ((parse_mp3_frame_header (st.buffer.drop pos)).getD 0 0).toNat
          current_offset := st.current_offset +
            ((parse_mp3_frame_header (st.buffer.drop pos)).getD 0 0).toNat
          totalExtracted := st.totalExtracted +
            ((parse_mp3_frame_header (st.buffer.drop pos)).getD 0 0).toNat
          gapCount := 0
          totalBytesWritten := st.totalBytesWritten +
            ((parse_mp3_frame_header (st.buffer.drop pos)).getD 0 0).toNat },
        some (pos + ((parse_mp3_frame_header (st.buffer.drop pos)).getD 0 0).toNat)) := by
  have hpos := ((matchesFrameInfo_iff _ _).mp hm).2.2.1
  have hc : confirmFrame pos st =
      { st with
        frame_info_original := parse_mp3_frame_header (st.buffer.drop pos)
        firstFrameFound := true } := by
    rcases confirmFrame_cases pos st with h | ⟨_, _, _, h⟩
    · exfalso
      unfold confirmFrame at h
      simp only [hff, hconfirm, Bool.not_false, Bool.true_and, Bool.and_true,
        decide_eq_true_eq, gt_iff_lt, if_pos hpos] at h
      have := congrArg WalkState.firstFrameFound h
      rw [hff] at this
      cases this
    · exact h
  rw [walkStep_write totalBytes pos st (by rw [hc]; exact hm) hfit (by rw [hc]; exact hmax),
    hc]

/-- A frame that does not fit in what is left of the buffer is not written:
its position counts as gap. -/
theorem walkStep_unfit (totalBytes pos : Nat) (st : WalkState)
    (hff : st.firstFrameFound = true)
    (hfit : ¬ pos + ((parse_mp3_frame_header (st.buffer.drop pos)).getD 0 0).toNat ≤
      totalBytes)
    (hgap : st.gapCount + 1 ≤ MAX_GAP_Bytes) (hmax : st.totalExtracted ≤ 50 * 1024 * 1024) :
    walkStep totalBytes pos st =
      ({ st with gapCount := st.gapCount + 1, current_offset := st.current_offset + 1 },
        some (pos + 1)) := by
  have hc := confirmFrame_found pos st hff
  rw [walkStep_gap totalBytes pos st (by
      rw [decide_eq_false hfit, Bool.and_false])
    (by rw [hc]; exact hgap) (by rw [hc]; exact hmax), hc]

/-- Positions that hold no header are walked one by one. -/
theorem walkFrames_gap_run (totalBytes : Nat) :
    ∀ (d pos : Nat) (st : WalkState),
      (∀ p, pos ≤ p → p < pos + d →
        parse_mp3_frame_header (st.buffer.drop p) = [0, 0, 0, 0, 0]) →
      pos + d + 3 ≤ totalBytes → st.gapCount + d ≤ MAX_GAP_Bytes →
      st.totalExtracted ≤ 50 * 1024 * 1024 →
      walkFrames totalBytes pos st =
        walkFrames totalBytes (pos + d)
          { st with gapCount := st.gapCount + d, current_offset := st.current_offset + d } := by
  intro d
  induction d with
  | zero => intro pos st _ _ _ _; rfl
  | succ d ih =>
    intro pos st hz ht hgap hmax
    rw [walkFrames_next totalBytes pos (pos + 1) st _ (by omega)
      (walkStep_no_header totalBytes pos st (hz pos (le_refl _) (by omega)) (by omega) hmax)]
    have h1 := ih (pos + 1)
      { st with gapCount := st.gapCount + 1, current_offset := st.current_offset + 1 }
      (fun p h1 h2 => hz p (by omega) (by omega)) (by omega) (by simp only; omega) hmax
    rw [h1]
    simp only [Nat.add_assoc, Nat.add_comm 1 d]

/-- Positions that hold no header end the walk once more than `MAX_GAP_Bytes`
of them have been counted since the last frame. -/
theorem walkFrames_gap_end (totalBytes pos : Nat) (st : WalkState)
    (hz : ∀ p, pos ≤ p → p ≤ pos + (MAX_GAP_Bytes - st.gapCount) →
      parse_mp3_frame_header (st.buffer.drop p) = [0, 0, 0, 0, 0])
    (ht : pos + (MAX_GAP_Bytes - st.gapCount) + 4 ≤ totalBytes)
    (hgap : st.gapCount ≤ MAX_GAP_Bytes) (hmax : st.totalExtracted ≤ 50 * 1024 * 1024) :
    walkFrames totalBytes pos st =
      ({ st with
          gapCount := MAX_GAP_Bytes + 1
          current_offset := st.current_offset + (MAX_GAP_Bytes - st.gapCount) }, true) := by
  rw [walkFrames_gap_run totalBytes (MAX_GAP_Bytes - st.gapCount) pos st
    (fun p h1 h2 => hz p h1 (by omega)) (by omega) (by omega) hmax]
  have h1 := walkStep_no_header_end totalBytes (pos + (MAX_GAP_Bytes - st.gapCount))
    { st with
      gapCount := st.gapCount + (MAX_GAP_Bytes - st.gapCount)
      current_offset := st.current_offset + (MAX_GAP_Bytes - st.gapCount) }
    (hz _ (by omega) (le_refl _)) (by simp only; omega)
  rw [walkFrames_end totalBytes _ _ _ ht h1]
  simp only [Prod.mk.injEq, and_true]
  congr 1
  omega

/-! ## The walk of a stream of frames of 512 bytes -/

theorem parse_frame512_header : parse_mp3_frame_header [0xFF, 0xE7, 0x84] = frameInfo512 := by
  decide

theorem parse_buffer512_frame (k : Nat) (hk : k < 8) :
    parse_mp3_frame_header (buffer512.drop (3 + 512 * k)) = frameInfo512 := by
  rw [← parse_frame512_header]
  apply parse_mp3_frame_header_congr
  · rw [getD_drop, getD_buffer512, if_pos (by omega), if_pos (by omega)]; rfl
  · rw [getD_drop, getD_buffer512, if_pos (by omega), if_neg (by omega), if_pos (by omega)]
    rfl
  · rw [getD_drop, getD_buffer512, if_pos (by omega), if_neg (by omega), if_neg (by omega),
      if_pos (by omega)]
    rfl

theorem parse_buffer512_none (p : Nat) (hp : ¬ (3 ≤ p ∧ p < 4099 ∧ (p - 3) % 512 = 0)) :
    parse_mp3_frame_header (buffer512.drop p) = [0, 0, 0, 0, 0] := by
  apply parse_mp3_frame_header_no_sync
  rw [getD_drop, Nat.add_zero, getD_buffer512]
  split_ifs with h1 h2 h3 h4
  · exact absurd ⟨h1.1, h1.2, h2⟩ hp
  · decide
  · decide
  · decide
  · decide

theorem frameInfo512_matches : matchesFrameInfo frameInfo512 frameInfo512 = true := by
  decide

theorem probeLoop_skip (buffer : List Nat) (pos i : Nat) :
    ∀ (d g : Nat), g + d < MAX_GAP_Bytes → pos + (g + d) < buffer.length →
      (∀ g', g ≤ g' → g' < g + d →
        ¬ 0 < (parse_mp3_frame_header (buffer.drop (pos + g'))).getD 0 0) →
      0 < (parse_mp3_frame_header (buffer.drop (pos + (g + d)))).getD 0 0 →
      probeLoop buffer pos i [0, 0, 0, 0, 0] g =
        ⟨parse_mp3_frame_header (buffer.drop (pos + (g + d))), true, 0⟩ := by
  have hz : (([0, 0, 0, 0, 0] : List Int).getD 0 0 * (i : Int)).toNat = 0 := by
    simp
  intro d
  induction d with
  | zero =>
    intro g hg hlen _ hv
    have hcond : g < MAX_GAP_Bytes ∧
        pos + (([0, 0, 0, 0, 0] : List Int).getD 0 0 * (i : Int)).toNat + g <
          buffer.length := by
      rw [hz]; omega
    rw [probeLoop_found _ _ _ _ _ hcond (by rw [hz, Nat.add_zero]; exact hv), hz]
    rfl
  | succ d ih =>
    intro g hg hlen hno hv
    have hcond : g < MAX_GAP_Bytes ∧
        pos + (([0, 0, 0, 0, 0] : List Int).getD 0 0 * (i : Int)).toNat + g <
          buffer.length := by
      rw [hz]; omega
    rw [probeLoop_next _ _ _ _ _ hcond (by
      rw [hz, Nat.add_zero]
      exact hno g (le_refl _) (by omega))]
    have e : g + (d + 1) = g + 1 + d := by omega
    rw [e] at hv ⊢
    exact ih (g + 1) (by omega) (by omega) (fun g' h1 h2 => hno g' (by omega) (by omega)) hv

theorem frameInfo512_mul (i : Nat) : (frameInfo512.getD 0 0 * (i : Int)).toNat = 512 * i := by
  show ((512 : Int) * (i : Int)).toNat = 512 * i
  omega

theorem probeLoop_buffer512_found (i : Nat) (hi : i < 8) :
    probeLoop buffer512 3 i frameInfo512 0 = ⟨frameInfo512, true, 0⟩ := by
  have hcond : 0 < MAX_GAP_Bytes ∧
      3 + (frameInfo512.getD 0 0 * (i : Int)).toNat + 0 < buffer512.length := by
    rw [frameInfo512_mul, buffer512_length, MAX_GAP_Bytes]; omega
  rw [probeLoop_found _ _ _ _ _ hcond (by
    rw [frameInfo512_mul, Nat.add_zero, parse_buffer512_frame i hi]; decide)]
  rw [frameInfo512_mul, Nat.add_zero, parse_buffer512_frame i hi]

theorem probeLoop_buffer512_eight :
    probeLoop buffer512 3 8 frameInfo512 0 = ⟨frameInfo512, true, 0⟩ := by
  have hcond : 0 < MAX_GAP_Bytes ∧
      3 + (frameInfo512.getD 0 0 * ((8 : Nat) : Int)).toNat + 0 < buffer512.length := by
    rw [frameInfo512_mul, buffer512_length, MAX_GAP_Bytes]; omega
  rw [probeLoop_next _ _ _ _ _ hcond (by
    rw [frameInfo512_mul, Nat.add_zero, parse_buffer512_none _ (by omega)]; decide)]
  have h := probeLoop_skip buffer512 3 8 511 1 (by rw [MAX_GAP_Bytes]; omega)
    (by rw [buffer512_length]; omega)
    (fun g' h1 h2 => by rw [parse_buffer512_none _ (by omega)]; decide)
    (by rw [show 3 + (1 + 511) = 3 + 512 * 1 from rfl, parse_buffer512_frame 1 (by omega)]
        decide)
  rw [h, show 3 + (1 + 511) = 3 + 512 * 1 from rfl, parse_buffer512_frame 1 (by omega)]

theorem probeLoop_buffer512_beyond (i : Nat) (hi : 9 ≤ i) :
    probeLoop buffer512 3 i frameInfo512 0 = ⟨frameInfo512, false, 0⟩ := by
  rw [probeLoop_stop _ _ _ _ _ (by
    rw [frameInfo512_mul, buffer512_length]; omega)]

/-- The first frame of `buffer512` is confirmed: seven frames follow it in
the buffer, the eighth probe falls on the cells behind the data and finds the
second frame again, the last two fall outside the buffer. -/
theorem matchesMP3Header_buffer512 : matchesMP3Header buffer512 3 = true := by
  unfold matchesMP3Header
  rw [if_neg (by rw [buffer512_length]; omega)]
  simp only
  rw [show (3 : Nat) = 3 + 512 * 0 from rfl, parse_buffer512_frame 0 (by omega)]
  rw [if_neg (by decide)]
  have hr : List.range' 1 10 = [1, 2, 3, 4, 5, 6, 7, 8, 9, 10] := by decide
  rw [hr]
  simp only [probeFrames, Nat.mul_zero, Nat.add_zero,
    probeLoop_buffer512_found 1 (by omega), probeLoop_buffer512_found 2 (by omega),
    probeLoop_buffer512_found 3 (by omega), probeLoop_buffer512_found 4 (by omega),
    probeLoop_buffer512_found 5 (by omega), probeLoop_buffer512_found 6 (by omega),
    probeLoop_buffer512_found 7 (by omega), probeLoop_buffer512_eight,
    probeLoop_buffer512_beyond 9 (by omega), probeLoop_buffer512_beyond 10 (by omega)]
  decide

theorem frameInfo512_size : (frameInfo512.getD 0 0).toNat = 512 := rfl

theorem take_buffer512_frame (k : Nat) (hk : k < 8) :
    (buffer512.drop (3 + 512 * k)).take 512 = frame512 := by
  have h := take_drop_frameStream frame512 [0, 0, 0] [0, 0, 0, 0] 8 k hk
  rw [frame512_length] at h
  rw [Nat.mul_comm 512 k]
  exact h

theorem walkStep_buffer512_frame (k : Nat) (hk : k < 8) (st : WalkState)
    (hb : st.buffer = buffer512) (hff : st.firstFrameFound = true)
    (horig : st.frame_info_original = frameInfo512)
    (hmax : st.totalExtracted + 512 ≤ 50 * 1024 * 1024) :
    walkStep 4099 (3 + 512 * k) st =
      ({ st with
          outFile := st.outFile ++ frame512
          current_offset := st.current_offset + 512
          totalExtracted := st.totalExtracted + 512
          gapCount := 0
          totalBytesWritten := st.totalBytesWritten + 512 },
        some (3 + 512 * (k + 1))) := by
  have hp : parse_mp3_frame_header (st.buffer.drop (3 + 512 * k)) = frameInfo512 := by
    rw [hb]; exact parse_buffer512_frame k hk
  rw [walkStep_frame 4099 (3 + 512 * k) st hff
    (by rw [hp, horig]; exact frameInfo512_matches)
    (by rw [hp, frameInfo512_size]; omega) (by rw [hp, frameInfo512_size]; exact hmax)]
  rw [hp, frameInfo512_size, hb, take_buffer512_frame k hk]
  have e : 3 + 512 * k + 512 = 3 + 512 * (k + 1) := by omega
  rw [e]

theorem walkStep_buffer512_first (st : WalkState)
    (hb : st.buffer = buffer512) (hff : st.firstFrameFound = false)
    (hmax : st.totalExtracted + 512 ≤ 50 * 1024 * 1024) :
    walkStep 4099 3 st =
      ({ st with
          frame_info_original := frameInfo512
          firstFrameFound := true
          outFile := st.outFile ++ frame512
          current_offset := st.current_offset + 512
          totalExtracted := st.totalExtracted + 512
          gapCount := 0
          totalBytesWritten := st.totalBytesWritten + 512 },
        some 515) := by
  have hp : parse_mp3_frame_header (st.buffer.drop 3) = frameInfo512 := by
    rw [hb]; exact parse_buffer512_frame 0 (by omega)
  rw [walkStep_first 4099 3 st hff (by rw [hb]; exact matchesMP3Header_buffer512)
    (by rw [hp]; exact frameInfo512_matches)
    (by rw [hp, frameInfo512_size]; omega) (by rw [hp, frameInfo512_size]; exact hmax)]
  rw [hp, frameInfo512_size, hb]
  have ht := take_buffer512_frame 0 (by omega)
  rw [Nat.mul_zero, Nat.add_zero] at ht
  rw [ht]

/-- The frames of `buffer512` from the frame `k` on are written one after
the other. -/
theorem walkFrames_frames512 :
    ∀ (m k : Nat) (st : WalkState), k + m = 8 → st.buffer = buffer512 →
      st.firstFrameFound = true → st.frame_info_original = frameInfo512 →
      st.gapCount = 0 → st.totalExtracted + 512 * m ≤ 50 * 1024 * 1024 →
      walkFrames 4099 (3 + 512 * k) st =
        ({ st with
            outFile := st.outFile ++ frameStream frame512 m
            current_offset := st.current_offset + 512 * m
            totalExtracted := st.totalExtracted + 512 * m
            totalBytesWritten := st.totalBytesWritten + 512 * m }, false) := by
  intro m
  induction m with
  | zero =>
    intro k st hk _ _ _ _ _
    rw [walkFrames_done _ _ _ (by omega)]
    simp only [frameStream_zero, List.append_nil, Nat.mul_zero, Nat.add_zero]
  | succ m ih =>
    intro k st hk hb hff horig hg hmax
    rw [walkFrames_next 4099 _ _ st _ (by omega)
      (walkStep_buffer512_frame k (by omega) st hb hff horig (by omega))]
    have h := ih (k + 1)
      { st with
        outFile := st.outFile ++ frame512
        current_offset := st.current_offset + 512
        totalExtracted := st.totalExtracted + 512
        gapCount := 0
        totalBytesWritten := st.totalBytesWritten + 512 }
      (by omega) hb hff horig rfl (by simp only; omega)
    rw [h]
    simp only [Prod.mk.injEq, and_true, frameStream_succ, List.append_assoc]
    rw [hg]
    congr 1 <;> omega

/-- One pass over `buffer512`: three carried cells of gap, then the eight
frames, written as they are. -/
theorem walkFrames_buffer512 (st : WalkState) (hb : st.buffer = buffer512)
    (hg : st.gapCount = 0)
    (hfirst : st.firstFrameFound = false ∨
      (st.firstFrameFound = true ∧ st.frame_info_original = frameInfo512))
    (hmax : st.totalExtracted + 4096 ≤ 50 * 1024 * 1024) :
    walkFrames 4099 0 st =
      ({ buffer := buffer512
         current_offset := st.current_offset + 4099
         totalExtracted := st.totalExtracted + 4096
         gapCount := 0
         frame_info_original := frameInfo512
         firstFrameFound := true
         totalBytesWritten := st.totalBytesWritten + 4096
         outFile := st.outFile ++ frameStream frame512 8 }, false) := by
  obtain ⟨b, o, e, g, fi, ff, w, out⟩ := st
  simp only at hb hg hfirst hmax
  subst hb hg
  rw [walkFrames_gap_run 4099 3 0 _
    (fun p _ h2 => parse_buffer512_none p (by omega)) (by omega)
    (by simp only [MAX_GAP_Bytes]; omega) (by simp only; omega)]
  simp only [Nat.zero_add]
  rcases hfirst with hff | ⟨hff, horig⟩
  · subst hff
    have hstep := walkStep_buffer512_first ⟨buffer512, o + 3, e, 3, fi, false, w, out⟩ rfl rfl
      (by simp only; omega)
    rw [walkFrames_next 4099 3 515 _ _ (by omega) hstep]
    have h := walkFrames_frames512 7 1
      ⟨buffer512, o + 3 + 512, e + 512, 0, frameInfo512, true, w + 512, out ++ frame512⟩
      rfl rfl rfl rfl rfl (by simp only; omega)
    simp only at h ⊢
    rw [show (515 : Nat) = 3 + 512 * 1 from rfl, h, frameStream_succ frame512 7]
    simp only [Prod.mk.injEq, and_true, List.append_assoc, WalkState.mk.injEq, true_and]
  · subst hff horig
    have hstep := walkStep_buffer512_frame 0 (by omega)
      ⟨buffer512, o + 3, e, 3, frameInfo512, true, w, out⟩ rfl rfl rfl (by simp only; omega)
    rw [Nat.mul_zero, Nat.add_zero] at hstep
    rw [walkFrames_next 4099 3 (3 + 512 * (0 + 1)) _ _ (by omega) hstep]
    have h := walkFrames_frames512 7 1
      ⟨buffer512, o + 3 + 512, e + 512, 0, frameInfo512, true, w + 512, out ++ frame512⟩
      rfl rfl rfl rfl rfl (by simp only; omega)
    simp only at h ⊢
    rw [h, frameStream_succ frame512 7]
    simp only [Prod.mk.injEq, and_true, List.append_assoc, WalkState.mk.injEq, true_and]

theorem quietBuffer_initial : QuietBuffer (List.replicate (BUFFER_SIZE + Mp3.overlap + 4) 0) := by
  refine ⟨(List.length_replicate _ _).trans rfl, getD_replicate_zero _ _,
    getD_replicate_zero _ _, getD_replicate_zero _ _, ?_⟩
  rw [List.drop_replicate]
  rfl

theorem frameStream512_eight_length : (frameStream frame512 8).length = 4096 := by
  rw [frameStream_length, frame512_length]

theorem quietBuffer_buffer512 : QuietBuffer buffer512 := by
  refine ⟨buffer512_length, ?_, ?_, ?_, ?_⟩
  · rw [getD_buffer512, if_pos (by omega), if_neg (by omega), if_neg (by omega),
      if_neg (by omega)]
  · rw [getD_buffer512, if_pos (by omega), if_neg (by omega), if_neg (by omega),
      if_neg (by omega)]
  · rw [getD_buffer512, if_pos (by omega), if_neg (by omega), if_neg (by omega),
      if_neg (by omega)]
  · rw [buffer512]
    exact List.drop_left' (by
      rw [List.length_append, frameStream512_eight_length]; rfl)

theorem filledBuffer_quiet (buffer : List Nat) (h : QuietBuffer buffer) :
    filledBuffer buffer (frameStream frame512 8) = buffer512 := by
  obtain ⟨hlen, h0, h1, h2, hd⟩ := h
  rw [filledBuffer_eq _ _ (by omega), h0, h1, h2, frameStream512_eight_length, hd]
  rfl

/-- One pass of the outer loop over a chunk of eight frames of 512 bytes. -/
theorem walkChunks_chunk512 (rest : List Nat) (st : WalkState)
    (hq : QuietBuffer st.buffer) (hg : st.gapCount = 0)
    (hfirst : st.firstFrameFound = false ∨
      (st.firstFrameFound = true ∧ st.frame_info_original = frameInfo512))
    (hmax : st.totalExtracted + 4096 ≤ 50 * 1024 * 1024) :
    walkChunks (frameStream frame512 8 ++ rest) st =
      walkChunks rest
        { buffer := buffer512
          current_offset := st.current_offset + 4099
          totalExtracted := st.totalExtracted + 4096
          gapCount := 0
          frame_info_original := frameInfo512
          firstFrameFound := true
          totalBytesWritten := st.totalBytesWritten + 4096
          outFile := st.outFile ++ frameStream frame512 8 } := by
  have hne : frameStream frame512 8 ++ rest ≠ [] := by
    intro h
    have := congrArg List.length h
    rw [List.length_append, frameStream512_eight_length] at this
    simp at this
  have htake : (frameStream frame512 8 ++ rest).take BUFFER_SIZE = frameStream frame512 8 :=
    List.take_left' frameStream512_eight_length
  have hdrop : (frameStream frame512 8 ++ rest).drop BUFFER_SIZE = rest :=
    List.drop_left' frameStream512_eight_length
  rw [walkChunks_cons _ _ hne, htake, hdrop, frameStream512_eight_length,
    filledBuffer_quiet _ hq]
  have h := walkFrames_buffer512 { st with buffer := buffer512 } rfl hg hfirst hmax
  rw [show 4096 + Mp3.overlap = 4099 from rfl, h]
  simp only [Bool.false_eq_true, if_false]

/-- The passes of the outer loop over `m + 1` chunks of eight frames of 512
bytes: every frame is written. -/
theorem walkChunks_frames512 :
    ∀ (m : Nat) (rest : List Nat) (st : WalkState), QuietBuffer st.buffer →
      st.gapCount = 0 →
      (st.firstFrameFound = false ∨
        (st.firstFrameFound = true ∧ st.frame_info_original = frameInfo512)) →
      st.totalExtracted + 4096 * (m + 1) ≤ 50 * 1024 * 1024 →
      walkChunks (frameStream frame512 (8 * (m + 1)) ++ rest) st =
        walkChunks rest
          { buffer := buffer512
            current_offset := st.current_offset + 4099 * (m + 1)
            totalExtracted := st.totalExtracted + 4096 * (m + 1)
            gapCount := 0
            frame_info_original := frameInfo512
            firstFrameFound := true
            totalBytesWritten := st.totalBytesWritten + 4096 * (m + 1)
            outFile := st.outFile ++ frameStream frame512 (8 * (m + 1)) } := by
  intro m
  induction m with
  | zero =>
    intro rest st hq hg hfirst hmax
    exact walkChunks_chunk512 rest st hq hg hfirst (by omega)
  | succ m ih =>
    intro rest st hq hg hfirst hmax
    have e : 8 * (m + 1 + 1) = 8 + 8 * (m + 1) := by omega
    rw [e, frameStream_add, List.append_assoc,
      walkChunks_chunk512 _ st hq hg hfirst (by omega)]
    rw [ih rest _ quietBuffer_buffer512 rfl (Or.inr ⟨rfl, rfl⟩) (by simp only; omega)]
    refine congrArg (walkChunks rest) ?_
    simp only [WalkState.mk.injEq, true_and, List.append_assoc, and_true]
    exact ⟨by omega, by omega, by omega⟩

/-- The walk of a device that holds `m + 1` chunks of eight frames of 512
bytes from `fileStart` to its end. -/
theorem walkChunks_stream512 (m fileStart : Nat) (hmax : 4096 * (m + 1) ≤ 50 * 1024 * 1024) :
    walkChunks (frameStream frame512 (8 * (m + 1))) (initialWalk fileStart) =
      { buffer := carryLoop buffer512 (List.range Mp3.overlap)
        current_offset := fileStart + 4099 * (m + 1)
        totalExtracted := 4096 * (m + 1)
        gapCount := 0
        frame_info_original := frameInfo512
        firstFrameFound := true
        totalBytesWritten := 4096 * (m + 1)
        outFile := frameStream frame512 (8 * (m + 1)) } := by
  have h := walkChunks_frames512 m [] (initialWalk fileStart) quietBuffer_initial rfl
    (Or.inl rfl) (by simp only [initialWalk]; omega)
  rw [List.append_nil] at h
  rw [h, walkChunks_nil]
  simp only [initialWalk, Nat.zero_add, List.nil_append]

/-- What `extractMP3File` makes of a device that holds, from offset 0 to its
end, `m + 1` chunks of eight frames of 512 bytes. -/
theorem extractMP3File_stream512 (m : Nat) (fileCount : Int)
    (hmax : 4096 * (m + 1) ≤ 50 * 1024 * 1024) :
    extractMP3File ioOk (frameStream frame512 (8 * (m + 1))) 0 fileCount =
      if 4096 * (m + 1) < 20 * 1024 ∨ 4096 * (m + 1) > 20 * 1024 * 1024 then
        ⟨0, fileCount - 1, none⟩
      else ⟨4099 * (m + 1), fileCount, some (frameStream frame512 (8 * (m + 1)))⟩ := by
  rw [extractMP3File_opened _ _ _ _ rfl rfl, List.drop_zero, walkChunks_stream512 m 0 hmax]
  simp only [Nat.zero_add]

/-- Witness of C23: on a device of 40960 frames of 512 bytes, which is
20 MiB, the walk writes every frame and the file is kept; on 32 frames, which
is 16 KiB, the file is removed and the counter decremented. -/
theorem extractMP3File_size_filter_witness :
    ((extractMP3File ioOk (frameStream frame512 40960) 0 1).outFile =
        some (frameStream frame512 40960) ∧
      (frameStream frame512 40960).length = 20 * 1024 * 1024) ∧
    extractMP3File ioOk (frameStream frame512 32) 0 1 = ⟨0, 0, none⟩ := by
  have hw := walkChunks_stream512 5119 0 (by norm_num)
  have hw4 := walkChunks_stream512 3 0 (by norm_num)
  simp only [Nat.reduceAdd, Nat.reduceMul] at hw hw4
  refine ⟨⟨?_, ?_⟩, ?_⟩
  · have h := (extractMP3File_size_filter ioOk (frameStream frame512 40960) 0 1 rfl rfl).2.2.2.2.1
      (by rw [List.drop_zero, hw])
    rw [List.drop_zero, hw] at h
    exact h
  · rw [frameStream_length, frame512_length]
  · apply (extractMP3File_size_filter ioOk (frameStream frame512 32) 0 1 rfl rfl).2.2.2.1
    have hiff := (extractMP3File_size_filter ioOk (frameStream frame512 32) 0 1 rfl rfl).2.1
    rw [List.drop_zero, hw4] at hiff
    rcases Bool.eq_false_or_eq_true
      (extractMP3File ioOk (frameStream frame512 32) 0 1).outFile.isSome with h | h
    · exact absurd (hiff.mp h).1 (by norm_num)
    · exact h

/-- Witness of C24: the file kept for 40 frames of 512 bytes. -/
theorem extractMP3File_writes_frames_witness :
    (extractMP3File ioOk (frameStream frame512 40) 0 1).outFile =
        some (frameStream frame512 40) ∧
      ∃ frames : List (List Nat), frameStream frame512 40 = frames.flatten ∧
        ∀ fr ∈ frames,
          0 < (parse_mp3_frame_header fr).getD 0 0 ∧
          fr.length = ((parse_mp3_frame_header fr).getD 0 0).toNat ∧
          ∀ first, frames.head? = some first →
            (parse_mp3_frame_header fr).getD 1 0 =
              (parse_mp3_frame_header first).getD 1 0 := by
  have h : (extractMP3File ioOk (frameStream frame512 40) 0 1).outFile =
      some (frameStream frame512 40) := by
    have h4 := extractMP3File_stream512 4 1 (by norm_num)
    simp only [Nat.reduceAdd, Nat.reduceMul] at h4
    rw [h4, if_neg (by norm_num)]
  exact ⟨h, (extractMP3File_writes_frames ioOk _ 0 1 _ h).1⟩

theorem drop_replicate_append (n : Nat) (tail : List Nat) :
    (List.replicate n 0 ++ tail).drop n = tail :=
  List.drop_left' (List.length_replicate _ _)

/-- Witness of C26: after a pass that read 4090 zero bytes followed by
`1 2 3 4 5 6`, the next pass finds `1 2 3` in the cells 0 to 2, and the last
three bytes read were `4 5 6`. -/
theorem filledBuffer_carries_earlier_bytes_witness :
    (filledBuffer (filledBuffer (List.replicate 4103 0)
        (List.replicate 4090 0 ++ [1, 2, 3, 4, 5, 6])) []).take 3 = [1, 2, 3] ∧
      (List.replicate 4090 0 ++ [1, 2, 3, 4, 5, 6]).drop 4093 = [4, 5, 6] := by
  have h := filledBuffer_carries_earlier_bytes (List.replicate 4103 0)
    (List.replicate 4090 0 ++ [1, 2, 3, 4, 5, 6]) [] (List.length_replicate _ _)
    (by rw [List.length_append, List.length_replicate]; rfl)
  rw [drop_replicate_append] at h
  refine ⟨h, ?_⟩
  rw [show (4093 : Nat) = 4090 + 3 from rfl, ← List.drop_drop, drop_replicate_append]
  rfl

/-! ## The walk of a stream of frames of 2880 bytes -/

theorem frame2880_length : frame2880.length = 2880 := by
  rw [frame2880, List.length_append, List.length_replicate]; rfl

theorem getD_frame2880 (k : Nat) :
    frame2880.getD k 0 =
      if k = 0 then 0xFF else if k = 1 then 0xE3 else if k = 2 then 0xE8 else 0 := by
  rcases k with _ | _ | _ | _ | k
  · rfl
  · rfl
  · rfl
  · rfl
  · rw [frame2880, getD_append_right_ge _ _ _ (by simp), getD_replicate_zero]
    simp

theorem chunk2880_length : ((frameStream frame2880 8).take BUFFER_SIZE).length = 4096 := by
  rw [List.length_take, frameStream_length, frame2880_length, BUFFER_SIZE]
  rfl

theorem buffer2880_eq :
    buffer2880 = [0, 0, 0] ++ (frameStream frame2880 8).take BUFFER_SIZE ++ [0, 0, 0, 0] := by
  have hq := quietBuffer_initial
  obtain ⟨hlen, h0, h1, h2, hd⟩ := hq
  rw [buffer2880, filledBuffer_eq _ _ (by omega), h0, h1, h2, chunk2880_length, hd]

theorem buffer2880_length : buffer2880.length = 4103 := by
  rw [buffer2880_eq, List.length_append, List.length_append, chunk2880_length]
  rfl

/-- The cells of `buffer2880`: the header of the first frame at 3, the header
of the second at 2883, zeros elsewhere. -/
theorem getD_buffer2880 (p : Nat) :
    buffer2880.getD p 0 =
      if p = 3 ∨ p = 2883 then 0xFF else if p = 4 ∨ p = 2884 then 0xE3
        else if p = 5 ∨ p = 2885 then 0xE8 else 0 := by
  rw [buffer2880_eq]
  by_cases h3 : p < 3
  · rw [List.append_assoc, getD_append_left_lt _ _ _ (by simpa using h3)]
    interval_cases p <;> rfl
  · rw [List.append_assoc, getD_append_right_ge _ _ _ (by simp; omega)]
    simp only [List.length_cons, List.length_nil, Nat.zero_add, Nat.reduceAdd]
    by_cases h4 : p < 4099
    · rw [getD_append_left_lt _ _ _ (by rw [chunk2880_length]; omega),
        getD_take_lt _ _ _ (by rw [BUFFER_SIZE]; omega),
        getD_frameStream _ _ _ (by rw [frame2880_length]; omega), frame2880_length,
        getD_frame2880]
      by_cases h5 : p - 3 < 2880
      · rw [Nat.mod_eq_of_lt h5]
        split_ifs <;> first | rfl | omega
      · have e : (p - 3) % 2880 = p - 3 - 2880 := by omega
        rw [e]
        split_ifs <;> first | rfl | omega
    · rw [getD_append_right_ge _ _ _ (by rw [chunk2880_length]; omega), chunk2880_length]
      rw [if_neg (by omega), if_neg (by omega), if_neg (by omega)]
      have : p - 3 - 4096 < 4 ∨ 4 ≤ p - 3 - 4096 := by omega
      rcases this with h | h
      · interval_cases hp : p - 3 - 4096 <;> rfl
      · rw [List.getD_eq_default _ _ (by simpa using h)]

theorem parse_frame2880_header :
    parse_mp3_frame_header [0xFF, 0xE3, 0xE8] = frameInfo2880 := by
  decide

theorem parse_buffer2880_frame (p : Nat) (hp : p = 3 ∨ p = 2883) :
    parse_mp3_frame_header (buffer2880.drop p) = frameInfo2880 := by
  rw [← parse_frame2880_header]
  apply parse_mp3_frame_header_congr
  · rw [getD_drop, getD_buffer2880, if_pos (by omega)]; rfl
  · rw [getD_drop, getD_buffer2880, if_neg (by omega), if_pos (by omega)]; rfl
  · rw [getD_drop, getD_buffer2880, if_neg (by omega), if_neg (by omega), if_pos (by omega)]
    rfl

theorem parse_buffer2880_none (p : Nat) (hp : p ≠ 3 ∧ p ≠ 2883) :
    parse_mp3_frame_header (buffer2880.drop p) = [0, 0, 0, 0, 0] := by
  apply parse_mp3_frame_header_no_sync
  rw [getD_drop, Nat.add_zero, getD_buffer2880, if_neg (by omega)]
  split_ifs <;> decide

theorem frameInfo2880_matches : matchesFrameInfo frameInfo2880 frameInfo2880 = true := by
  decide

theorem frameInfo2880_size : (frameInfo2880.getD 0 0).toNat = 2880 := rfl

theorem frameInfo2880_mul (i : Nat) :
    (frameInfo2880.getD 0 0 * (i : Int)).toNat = 2880 * i := by
  show ((2880 : Int) * (i : Int)).toNat = 2880 * i
  omega

theorem probeLoop_buffer2880_beyond (i : Nat) (hi : 2 ≤ i) :
    probeLoop buffer2880 3 i frameInfo2880 0 = ⟨frameInfo2880, false, 0⟩ := by
  rw [probeLoop_stop _ _ _ _ _ (by
    rw [frameInfo2880_mul, buffer2880_length]; omega)]

/-- The first frame of `buffer2880` is confirmed: the header of the second
frame lies in the buffer, the other probes fall outside it. -/
theorem matchesMP3Header_buffer2880 : matchesMP3Header buffer2880 3 = true := by
  unfold matchesMP3Header
  rw [if_neg (by rw [buffer2880_length]; omega)]
  simp only
  rw [parse_buffer2880_frame 3 (Or.inl rfl)]
  rw [if_neg (by decide)]
  have hr : List.range' 1 10 = [1, 2, 3, 4, 5, 6, 7, 8, 9, 10] := by decide
  have hcond : 0 < MAX_GAP_Bytes ∧
      3 + (frameInfo2880.getD 0 0 * ((1 : Nat) : Int)).toNat + 0 < buffer2880.length := by
    rw [frameInfo2880_mul, buffer2880_length, MAX_GAP_Bytes]; omega
  have h1 : probeLoop buffer2880 3 1 frameInfo2880 0 = ⟨frameInfo2880, true, 0⟩ := by
    rw [probeLoop_found _ _ _ _ _ hcond (by
      rw [frameInfo2880_mul, parse_buffer2880_frame _ (Or.inr rfl)]; decide)]
    rw [frameInfo2880_mul, parse_buffer2880_frame _ (Or.inr rfl)]
  rw [hr]
  simp only [probeFrames, h1, probeLoop_buffer2880_beyond 2 (by omega),
    probeLoop_buffer2880_beyond 3 (by omega), probeLoop_buffer2880_beyond 4 (by omega),
    probeLoop_buffer2880_beyond 5 (by omega), probeLoop_buffer2880_beyond 6 (by omega),
    probeLoop_buffer2880_beyond 7 (by omega), probeLoop_buffer2880_beyond 8 (by omega),
    probeLoop_buffer2880_beyond 9 (by omega), probeLoop_buffer2880_beyond 10 (by omega)]
  decide

theorem take_buffer2880_frame : (buffer2880.drop 3).take 2880 = frame2880 := by
  rw [buffer2880_eq, List.append_assoc]
  rw [List.drop_left' (show ([0, 0, 0] : List Nat).length = 3 from rfl)]
  rw [List.take_append_of_le_length (by rw [chunk2880_length]; omega), List.take_take,
    show min 2880 BUFFER_SIZE = 2880 from rfl, show (8 : Nat) = 7 + 1 from rfl,
    frameStream_succ]
  exact List.take_left' frame2880_length

/-- The first pass over a stream of frames of 2880 bytes: the first frame is
written, the second does not fit in what is left of the buffer, and the 769
positions that follow end the walk. -/
theorem walkFrames_buffer2880 (fileStart : Nat) :
    walkFrames 4099 0 { initialWalk fileStart with buffer := buffer2880 } =
      ({ buffer := buffer2880
         current_offset := fileStart + 3 + 2880 + 768
         totalExtracted := 2880
         gapCount := 769
         frame_info_original := frameInfo2880
         firstFrameFound := true
         totalBytesWritten := 2880
         outFile := frame2880 }, true) := by
  rw [walkFrames_gap_run 4099 3 0 _
    (fun p _ h2 => parse_buffer2880_none p (by omega)) (by omega)
    (by simp only [initialWalk, MAX_GAP_Bytes]; omega) (by simp only [initialWalk]; omega)]
  simp only [initialWalk, Nat.zero_add]
  have hp : parse_mp3_frame_header (buffer2880.drop 3) = frameInfo2880 :=
    parse_buffer2880_frame 3 (Or.inl rfl)
  have hstep := walkStep_first 4099 3
    ⟨buffer2880, fileStart + 3, 0, 3, [], false, 0, []⟩ rfl matchesMP3Header_buffer2880
    (by simp only; rw [hp]; exact frameInfo2880_matches)
    (by simp only; rw [hp, frameInfo2880_size]; omega)
    (by simp only; rw [hp, frameInfo2880_size]; omega)
  simp only [hp, frameInfo2880_size, take_buffer2880_frame, List.nil_append,
    Nat.zero_add] at hstep
  rw [walkFrames_next 4099 3 _ _ _ (by omega) hstep]
  have hp2 : parse_mp3_frame_header (buffer2880.drop 2883) = frameInfo2880 :=
    parse_buffer2880_frame 2883 (Or.inr rfl)
  have hstep2 := walkStep_unfit 4099 (3 + 2880)
    ⟨buffer2880, fileStart + 3 + 2880, 2880, 0, frameInfo2880, true, 2880, frame2880⟩ rfl
    (by simp only; rw [hp2, frameInfo2880_size]; omega)
    (by simp only [MAX_GAP_Bytes]; omega) (by simp only; omega)
  simp only [Nat.zero_add] at hstep2
  rw [walkFrames_next 4099 (3 + 2880) _ _ _ (by omega) hstep2]
  rw [walkFrames_gap_end 4099 (3 + 2880 + 1) _
    (fun p h1 _ => parse_buffer2880_none p (by omega))
    (by simp only [MAX_GAP_Bytes]; omega) (by simp only [MAX_GAP_Bytes]; omega)
    (by simp only; omega)]
  simp only [MAX_GAP_Bytes, Nat.reduceSub, Nat.reduceAdd, Nat.add_assoc]

/-- C25 (what the code does): eight frames of 2880 bytes (MPEG 2.5,
Layer III, 160 kbit/s, 8 kHz), which every one the parser accepts and which
make 23040 bytes from offset 0 to the end of the device, leave no file: the
walk writes the first frame, the second does not fit in the 4096 bytes read,
and the gap ends the walk at 2880 bytes written, below `20 * 1024`. -/
theorem extractMP3File_drops_frame_stream (fileCount : Int) :
    extractMP3File ioOk (frameStream frame2880 8) 0 fileCount = ⟨0, fileCount - 1, none⟩ ∧
    (frameStream frame2880 8).length = 23040 ∧
    parse_mp3_frame_header frame2880 = [2880, 2, 3, 160000, 8000] ∧
    frame2880.length = 2880 := by
  refine ⟨?_, by rw [frameStream_length, frame2880_length], ?_, frame2880_length⟩
  · have hne : frameStream frame2880 8 ≠ [] := by
      intro h
      have := congrArg List.length h
      rw [frameStream_length, frame2880_length] at this
      simp at this
    have hw : walkChunks (frameStream frame2880 8) (initialWalk 0) =
        { buffer := buffer2880
          current_offset := 0 + 3 + 2880 + 768
          totalExtracted := 2880
          gapCount := 769
          frame_info_original := frameInfo2880
          firstFrameFound := true
          totalBytesWritten := 2880
          outFile := frame2880 } := by
      rw [walkChunks_cons _ _ hne, chunk2880_length]
      have h := walkFrames_buffer2880 0
      rw [show (initialWalk 0).buffer = List.replicate (BUFFER_SIZE + Mp3.overlap + 4) 0
        from rfl, ← buffer2880, show 4096 + Mp3.overlap = 4099 from rfl, h]
      simp only [if_true]
    rw [extractMP3File_opened _ _ _ _ rfl rfl, List.drop_zero, hw]
    simp only
    rw [if_pos (Or.inl (by norm_num))]
  · have hc : parse_mp3_frame_header frame2880 = parse_mp3_frame_header [0xFF, 0xE3, 0xE8] :=
      parse_mp3_frame_header_congr rfl rfl rfl
    rw [hc]
    decide

/-! ## `matchesMP4Header` on the three signatures of `extractMP4File` -/

theorem matchesMP4Header_type (buffer signature : List Nat) (offset : Nat)
    (hlen : signature.length = 8) :
    matchesMP4Header buffer signature offset = true ↔
      offset + 8 ≤ buffer.length ∧ buffer.getD (offset + 4) 0 = signature.getD 4 0 ∧
        buffer.getD (offset + 5) 0 = signature.getD 5 0 ∧
        buffer.getD (offset + 6) 0 = signature.getD 6 0 ∧
        buffer.getD (offset + 7) 0 = signature.getD 7 0 := by
  unfold matchesMP4Header
  rw [hlen]
  have hr : List.range' 4 (8 - 4) = [4, 5, 6, 7] := by decide
  rw [hr]
  by_cases h : offset + 8 > buffer.length
  · rw [if_pos h]
    constructor
    · intro hf; cases hf
    · intro hh; omega
  · rw [if_neg h, boxTypeLoop_iff]
    simp only [List.mem_cons, List.mem_singleton, List.not_mem_nil, or_false, forall_eq_or_imp,
      forall_eq]
    constructor
    · intro hh; exact ⟨by omega, hh⟩
    · intro hh; exact hh.2

theorem matchesMP4Header_fytp (buffer : List Nat) (offset : Nat) :
    matchesMP4Header buffer FYTP_SIGNATURE offset = true ↔
      offset + 8 ≤ buffer.length ∧ buffer.getD (offset + 4) 0 = 0x66 ∧
        buffer.getD (offset + 5) 0 = 0x79 ∧ buffer.getD (offset + 6) 0 = 0x70 ∧
        buffer.getD (offset + 7) 0 = 0x74 :=
  matchesMP4Header_type buffer FYTP_SIGNATURE offset rfl

theorem matchesMP4Header_moov (buffer : List Nat) (offset : Nat) :
    matchesMP4Header buffer MOOV_SIGNATURE offset = true ↔
      offset + 8 ≤ buffer.length ∧ buffer.getD (offset + 4) 0 = 0x6D ∧
        buffer.getD (offset + 5) 0 = 0x6F ∧ buffer.getD (offset + 6) 0 = 0x6F ∧
        buffer.getD (offset + 7) 0 = 0x76 :=
  matchesMP4Header_type buffer MOOV_SIGNATURE offset rfl

theorem matchesMP4Header_mdat (buffer : List Nat) (offset : Nat) :
    matchesMP4Header buffer MDAT_SIGNATURE offset = true ↔
      offset + 8 ≤ buffer.length ∧ buffer.getD (offset + 4) 0 = 0x6D ∧
        buffer.getD (offset + 5) 0 = 0x64 ∧ buffer.getD (offset + 6) 0 = 0x61 ∧
        buffer.getD (offset + 7) 0 = 0x74 :=
  matchesMP4Header_type buffer MDAT_SIGNATURE offset rfl

theorem bool_eq_false_of_not {b : Bool} (h : ¬ b = true) : b = false := by
  cases b
  · rfl
  · exact absurd rfl h

theorem no_fytp_header (buffer : List Nat) (offset : Nat)
    (h : ¬ (buffer.getD (offset + 4) 0 = 0x66 ∧ buffer.getD (offset + 5) 0 = 0x79)) :
    matchesMP4Header buffer FYTP_SIGNATURE offset = false :=
  bool_eq_false_of_not fun hm =>
    h ⟨((matchesMP4Header_fytp _ _).mp hm).2.1, ((matchesMP4Header_fytp _ _).mp hm).2.2.1⟩

theorem no_moov_header (buffer : List Nat) (offset : Nat)
    (h : ¬ (buffer.getD (offset + 4) 0 = 0x6D ∧ buffer.getD (offset + 5) 0 = 0x6F)) :
    matchesMP4Header buffer MOOV_SIGNATURE offset = false :=
  bool_eq_false_of_not fun hm =>
    h ⟨((matchesMP4Header_moov _ _).mp hm).2.1, ((matchesMP4Header_moov _ _).mp hm).2.2.1⟩

theorem no_mdat_header (buffer : List Nat) (offset : Nat)
    (h : ¬ (buffer.getD (offset + 4) 0 = 0x6D ∧ buffer.getD (offset + 5) 0 = 0x64)) :
    matchesMP4Header buffer MDAT_SIGNATURE offset = false :=
  bool_eq_false_of_not fun hm =>
    h ⟨((matchesMP4Header_mdat _ _).mp hm).2.1, ((matchesMP4Header_mdat _ _).mp hm).2.2.1⟩

/-! ## The body of the scan of `extractMP4File`, case by case -/

theorem boxStep_end (stream : List Nat) (n i : Nat) (st : BoxScan) (h : i + 8 > n) :
    boxStep stream n i st = (st, none) := by
  unfold boxStep
  rw [if_pos h]

/-- A position at which none of the three box types stands is passed. -/
theorem boxStep_none (stream : List Nat) (n i : Nat) (st : BoxScan) (h : i + 8 ≤ n)
    (hf : matchesMP4Header st.buffer FYTP_SIGNATURE i = false)
    (hm : matchesMP4Header st.buffer MOOV_SIGNATURE i = false)
    (hd : matchesMP4Header st.buffer MDAT_SIGNATURE i = false) :
    boxStep stream n i st = (st, some i) := by
  unfold boxStep
  rw [if_neg (by omega), hf, hm, hd]
  simp only [Bool.and_false, Bool.false_eq_true, if_false]

/-- A box of the type of `FYTP_SIGNATURE` that lies in the buffer whole is
written to the output stream, and the scan of the buffer ends. -/
theorem boxStep_fytp_fit (stream : List Nat) (n i : Nat) (st : BoxScan) (h : i + 8 ≤ n)
    (hfound : st.foundFytp = false)
    (hmatch : matchesMP4Header st.buffer FYTP_SIGNATURE i = true)
    (h8 : 8 ≤ boxSizeAt st.buffer i) (hmax : boxSizeAt st.buffer i ≤ 200 * 1024 * 1024)
    (hfit : boxSizeAt st.buffer i ≤ n - i) :
    boxStep stream n i st =
      ({ st with
          outFile := st.outFile ++ (st.buffer.drop i).take (boxSizeAt st.buffer i)
          foundFytp := true }, none) := by
  unfold boxStep writeBoxData
  rw [if_neg (by omega), hfound, hmatch]
  simp only [Bool.not_false, Bool.and_self, if_true]
  rw [if_neg (by simp only [Bool.or_eq_true, decide_eq_true_eq]; omega), if_pos hfit]
  simp only [if_true, Nat.add_zero, Nat.min_eq_left hfit]

/-- A box of the type of `MOOV_SIGNATURE` that lies in the buffer whole is
written to the stream of the temporary file, and the scan of the buffer
ends. -/
theorem boxStep_moov_fit (stream : List Nat) (n i : Nat) (st : BoxScan) (h : i + 8 ≤ n)
    (hfound : st.foundMoov = false)
    (hmatch : matchesMP4Header st.buffer MOOV_SIGNATURE i = true)
    (h8 : 8 ≤ boxSizeAt st.buffer i) (hmax : boxSizeAt st.buffer i ≤ 200 * 1024 * 1024)
    (hfit : boxSizeAt st.buffer i ≤ n - i) :
    boxStep stream n i st =
      ({ st with
          outFileMOOV := st.outFileMOOV ++ (st.buffer.drop i).take (boxSizeAt st.buffer i)
          foundMoov := true }, none) := by
  have hf : matchesMP4Header st.buffer FYTP_SIGNATURE i = false :=
    no_fytp_header _ _ (fun hh => by
      rw [((matchesMP4Header_moov _ _).mp hmatch).2.1] at hh
      exact absurd hh.1 (by decide))
  unfold boxStep writeBoxData
  rw [if_neg (by omega), hf, hfound, hmatch]
  simp only [Bool.and_false, Bool.false_eq_true, if_false, Bool.not_false, Bool.and_self,
    if_true]
  rw [if_neg (by simp only [Bool.or_eq_true, decide_eq_true_eq]; omega), if_pos hfit]
  simp only [if_true, Nat.add_zero, Nat.min_eq_left hfit]

theorem mdat_excludes (buffer : List Nat) (i : Nat)
    (hmatch : matchesMP4Header buffer MDAT_SIGNATURE i = true) :
    matchesMP4Header buffer FYTP_SIGNATURE i = false ∧
      matchesMP4Header buffer MOOV_SIGNATURE i = false := by
  have h := (matchesMP4Header_mdat _ _).mp hmatch
  constructor
  · exact no_fytp_header _ _ (fun hh => by
      rw [h.2.1] at hh
      exact absurd hh.1 (by decide))
  · exact no_moov_header _ _ (fun hh => by
      rw [h.2.2.1] at hh
      exact absurd hh.2 (by decide))

/-- A box of the type of `MDAT_SIGNATURE` that lies in the buffer whole is
written to the stream of the temporary file, and the scan of the buffer
ends. -/
theorem boxStep_mdat_fit (stream : List Nat) (n i : Nat) (st : BoxScan) (h : i + 8 ≤ n)
    (hfound : st.foundMdat = false)
    (hmatch : matchesMP4Header st.buffer MDAT_SIGNATURE i = true)
    (h8 : 8 ≤ boxSizeAt st.buffer i) (hfit : boxSizeAt st.buffer i ≤ n - i) :
    boxStep stream n i st =
      ({ st with
          outFileMDAT := st.outFileMDAT ++ (st.buffer.drop i).take (boxSizeAt st.buffer i)
          foundMdat := true }, none) := by
  obtain ⟨hf, hm⟩ := mdat_excludes _ _ hmatch
  unfold boxStep writeBoxData
  rw [if_neg (by omega), hf, hm, hfound, hmatch]
  simp only [Bool.and_false, Bool.false_eq_true, if_false, Bool.not_false, Bool.and_self,
    if_true]
  rw [if_neg (by omega), if_pos hfit]
  simp only [if_true, Nat.add_zero, Nat.min_eq_left hfit]

/-- A box of the type of `MDAT_SIGNATURE` that goes beyond the buffer: what
the buffer holds of it is written, and the rest is read from the input
stream, whatever the declared size. -/
theorem boxStep_mdat_span (stream : List Nat) (n i : Nat) (st : BoxScan) (h : i + 8 ≤ n)
    (hfound : st.foundMdat = false)
    (hmatch : matchesMP4Header st.buffer MDAT_SIGNATURE i = true)
    (h8 : 8 ≤ boxSizeAt st.buffer i) (hspan : n - i < boxSizeAt st.buffer i)
    (hok : (readRemaining (stream.drop st.consumed)
      (boxSizeAt st.buffer i - (n - i))).2.2 = true) :
    boxStep stream n i st =
      ({ st with
          outFileMDAT := st.outFileMDAT ++ ((st.buffer.drop i).take (n - i) ++
            (readRemaining (stream.drop st.consumed) (boxSizeAt st.buffer i - (n - i))).1)
          consumed := st.consumed +
            (readRemaining (stream.drop st.consumed) (boxSizeAt st.buffer i - (n - i))).2.1
          foundMdat := true }, none) := by
  obtain ⟨hf, hm⟩ := mdat_excludes _ _ hmatch
  unfold boxStep writeBoxData
  rw [if_neg (by omega), hf, hm, hfound, hmatch]
  simp only [Bool.and_false, Bool.false_eq_true, if_false, Bool.not_false, Bool.and_self,
    if_true]
  simp only [if_neg (show ¬ boxSizeAt st.buffer i < 8 from by omega),
    if_neg (show ¬ boxSizeAt st.buffer i ≤ n - i from by omega),
    Nat.min_eq_right (Nat.le_of_lt hspan), hok, if_true]

/-! ## The loops of `extractMP4File` -/

theorem boxLoop_done (stream : List Nat) (n i : Nat) (st : BoxScan) (h : ¬ i < n) :
    boxLoop stream n i st = st := by
  rw [boxLoop, dif_neg h]

theorem boxLoop_break (stream : List Nat) (n i : Nat) (st st2 : BoxScan) (h : i < n)
    (hs : boxStep stream n i st = (st2, none)) : boxLoop stream n i st = st2 := by
  rw [boxLoop, dif_pos h]
  split
  · rw [hs]
  · rename_i j heq
    rw [hs] at heq
    cases heq

theorem boxLoop_next (stream : List Nat) (n i j : Nat) (st st2 : BoxScan) (h : i < n)
    (hs : boxStep stream n i st = (st2, some j)) :
    boxLoop stream n i st = boxLoop stream n (j + 1) st2 := by
  rw [boxLoop, dif_pos h]
  split
  · rename_i heq
    rw [hs] at heq
    cases heq
  · rename_i j2 heq
    rw [hs] at heq
    cases heq
    rw [hs]

/-- Positions at which no box type stands are passed one by one. -/
theorem boxLoop_skip (stream : List Nat) (n : Nat) :
    ∀ (d i : Nat) (st : BoxScan), i + d ≤ n →
      (∀ i', i ≤ i' → i' < i + d → boxStep stream n i' st = (st, some i')) →
      boxLoop stream n i st = boxLoop stream n (i + d) st := by
  intro d
  induction d with
  | zero => intro i st _ _; rfl
  | succ d ih =>
    intro i st hn hno
    rw [boxLoop_next stream n i i st st (by omega) (hno i (le_refl _) (by omega)),
      ih (i + 1) st (by omega) (fun i' h1 h2 => hno i' (by omega) (by omega))]
    rw [Nat.add_assoc, Nat.add_comm 1 d]

theorem boxChunks_nil (st : BoxScan) :
    boxChunks [] st =
      { st with buffer := boxCarryLoop st.buffer (List.range OVERLAP_SIZE) } := by
  rw [boxChunks, dif_pos (by simp)]

theorem boxChunks_cons (rest : List Nat) (st : BoxScan) (hne : rest ≠ []) :
    boxChunks rest st =
      if (boxLoop (rest.drop CHUNK_SIZE) ((rest.take CHUNK_SIZE).length + OVERLAP_SIZE) 0
            { st with
              buffer := filledBoxBuffer st.buffer (rest.take CHUNK_SIZE)
              consumed := 0 }).foundFytp &&
          (boxLoop (rest.drop CHUNK_SIZE) ((rest.take CHUNK_SIZE).length + OVERLAP_SIZE) 0
            { st with
              buffer := filledBoxBuffer st.buffer (rest.take CHUNK_SIZE)
              consumed := 0 }).foundMoov &&
          (boxLoop (rest.drop CHUNK_SIZE) ((rest.take CHUNK_SIZE).length + OVERLAP_SIZE) 0
            { st with
              buffer := filledBoxBuffer st.buffer (rest.take CHUNK_SIZE)
              consumed := 0 }).foundMdat then
        boxLoop (rest.drop CHUNK_SIZE) ((rest.take CHUNK_SIZE).length + OVERLAP_SIZE) 0
          { st with
            buffer := filledBoxBuffer st.buffer (rest.take CHUNK_SIZE)
            consumed := 0 }
      else
        boxChunks ((rest.drop CHUNK_SIZE).drop
            (boxLoop (rest.drop CHUNK_SIZE) ((rest.take CHUNK_SIZE).length + OVERLAP_SIZE) 0
              { st with
                buffer := filledBoxBuffer st.buffer (rest.take CHUNK_SIZE)
                consumed := 0 }).consumed)
          (boxLoop (rest.drop CHUNK_SIZE) ((rest.take CHUNK_SIZE).length + OVERLAP_SIZE) 0
            { st with
              buffer := filledBoxBuffer st.buffer (rest.take CHUNK_SIZE)
              consumed := 0 }) := by
  have hlen : ¬ (rest.take CHUNK_SIZE).length = 0 := by
    rcases rest with _ | ⟨a, rest⟩
    · exact absurd rfl hne
    · simp [CHUNK_SIZE]
  rw [boxChunks, dif_neg hlen]
  rfl

/-- The loop of `writeBoxData` reads the bytes the box still lacks, as far
as the input stream has them, and fails when it has fewer. -/
theorem readRemaining_eq :
    ∀ (n : Nat) (stream : List Nat),
      readRemaining stream n = (stream.take n, min n stream.length, decide (n ≤ stream.length)) := by
  intro n
  induction n using Nat.strong_induction_on with
  | _ n ih =>
    intro stream
    rw [readRemaining]
    by_cases h0 : n > 0
    · rw [dif_pos h0]
      simp only
      by_cases hg : (stream.take (min n CHUNK_SIZE)).length = 0
      · rw [dif_pos hg]
        have hnil : stream = [] := by
          rw [List.length_take, CHUNK_SIZE] at hg
          have : stream.length = 0 := by omega
          exact List.length_eq_zero.mp this
        subst hnil
        simp only [List.take_nil, List.length_nil, Nat.min_zero, Prod.mk.injEq, true_and]
        exact (decide_eq_false (by omega)).symm
      · rw [dif_neg hg]
        have hlen : (stream.take (min n CHUNK_SIZE)).length = min (min n CHUNK_SIZE) stream.length :=
          List.length_take _ _
        rw [ih (n - (stream.take (min n CHUNK_SIZE)).length) (by omega)]
        simp only [Prod.mk.injEq, List.length_drop]
        refine ⟨?_, ?_, ?_⟩
        · by_cases hs : min n CHUNK_SIZE ≤ stream.length
          · rw [hlen, Nat.min_eq_left hs]
            have e : n = min n CHUNK_SIZE + (n - min n CHUNK_SIZE) := by omega
            conv_rhs => rw [e, List.take_add]
          · have hall : stream.take (min n CHUNK_SIZE) = stream :=
              List.take_of_length_le (by omega)
            rw [hall, List.drop_of_length_le (by omega), List.take_nil, List.append_nil,
              List.take_of_length_le (by omega)]
        · rw [hlen]; omega
        · rw [hlen]
          by_cases hn : n ≤ stream.length
          · rw [decide_eq_true hn, decide_eq_true (by omega)]
          · rw [decide_eq_false hn, decide_eq_false (by omega)]
    · rw [dif_neg h0]
      have : n = 0 := by omega
      subst this
      simp

/-! ## What the output stream of `extractMP4File` begins with -/

theorem getD_take_drop (l : List Nat) (i m k : Nat) (hk : k < m) :
    ((l.drop i).take m).getD k 0 = l.getD (i + k) 0 := by
  rw [getD_take_lt _ _ _ hk, getD_drop]

theorem boxInv_append (st : BoxScan) (i m : Nat) (more : List Nat) (h : BoxInv st)
    (hmatch : matchesMP4Header st.buffer FYTP_SIGNATURE i = true) (hm : 8 ≤ m)
    (out : List Nat) (hout : out = st.outFile ++ ((st.buffer.drop i).take m ++ more)) :
    (out = [] ∨
      (8 ≤ out.length ∧ out.getD 4 0 = 0x66 ∧ out.getD 5 0 = 0x79 ∧
        out.getD 6 0 = 0x70 ∧ out.getD 7 0 = 0x74)) ∧ out ≠ [] := by
  obtain ⟨hlen, h4, h5, h6, h7⟩ := (matchesMP4Header_fytp _ _).mp hmatch
  have hpre : 8 ≤ ((st.buffer.drop i).take m).length := by
    rw [List.length_take, List.length_drop]; omega
  have hg : ∀ k, k < 8 →
      ((st.buffer.drop i).take m ++ more).getD k 0 = st.buffer.getD (i + k) 0 := by
    intro k hk
    rw [getD_append_left_lt _ _ _ (by omega), getD_take_drop _ _ _ _ (by omega)]
  have key : 8 ≤ out.length ∧ out.getD 4 0 = 0x66 ∧ out.getD 5 0 = 0x79 ∧
      out.getD 6 0 = 0x70 ∧ out.getD 7 0 = 0x74 := by
    rcases h.1 with hnil | ⟨h8, g4, g5, g6, g7⟩
    · rw [hout, hnil, List.nil_append]
      refine ⟨by rw [List.length_append]; omega, ?_, ?_, ?_, ?_⟩
      · rw [hg 4 (by omega)]; exact h4
      · rw [hg 5 (by omega)]; exact h5
      · rw [hg 6 (by omega)]; exact h6
      · rw [hg 7 (by omega)]; exact h7
    · rw [hout]
      refine ⟨by rw [List.length_append]; omega, ?_, ?_, ?_, ?_⟩
      · rw [getD_append_left_lt _ _ _ (by omega)]; exact g4
      · rw [getD_append_left_lt _ _ _ (by omega)]; exact g5
      · rw [getD_append_left_lt _ _ _ (by omega)]; exact g6
      · rw [getD_append_left_lt _ _ _ (by omega)]; exact g7
  refine ⟨Or.inr key, ?_⟩
  intro hnil
  rw [hnil] at key
  simp at key

theorem writeBoxData_written (buffer stream : List Nat) (size i n : Nat) :
    ∃ more, (writeBoxData buffer stream size i n).written =
      (buffer.drop i).take (min size (n - i)) ++ more := by
  unfold writeBoxData
  simp only
  split_ifs
  · exact ⟨[], (List.append_nil _).symm⟩
  · exact ⟨_, rfl⟩

/-- The body of the scan keeps the invariant. -/
theorem boxInv_boxStep (stream : List Nat) (n i : Nat) (st : BoxScan) (h : BoxInv st) :
    BoxInv (boxStep stream n i st).1 := by
  unfold boxStep
  simp only
  split_ifs with h1 h2 h3 h4 h5 h6 h7 h8 h9 h10
  all_goals first
    | exact h
    | (simp only [Bool.and_eq_true, Bool.not_eq_true', Bool.or_eq_true, decide_eq_true_eq,
         not_or, not_lt, not_le] at h2 h3
       obtain ⟨more, hw⟩ := writeBoxData_written st.buffer (stream.drop st.consumed)
         (boxSizeAt st.buffer i) i n
       have hb := boxInv_append st i (min (boxSizeAt st.buffer i) (n - i)) more h h2.2
         (by omega) (st.outFile ++ (writeBoxData st.buffer (stream.drop st.consumed)
           (boxSizeAt st.buffer i) i n).written) (by rw [hw])
       exact ⟨hb.1, fun _ => hb.2⟩)

theorem boxStep_buffer (stream : List Nat) (n i : Nat) (st : BoxScan) :
    (boxStep stream n i st).1.buffer = st.buffer := by
  unfold boxStep
  simp only
  split_ifs <;> rfl

theorem boxStep_index (stream : List Nat) (n i j : Nat) (st : BoxScan)
    (h : (boxStep stream n i st).2 = some j) : i ≤ j := by
  unfold boxStep writeBoxData at h
  simp only at h
  split_ifs at h <;> simp only [Option.some.injEq, reduceCtorEq] at h <;> omega

theorem boxInv_boxLoop (stream : List Nat) (n : Nat) :
    ∀ (k i : Nat) (st : BoxScan), n - i = k → BoxInv st → BoxInv (boxLoop stream n i st) := by
  intro k
  induction k using Nat.strong_induction_on with
  | _ k ih =>
    intro i st hk h
    by_cases hi : i < n
    · have hstep := boxInv_boxStep stream n i st h
      rcases hs : boxStep stream n i st with ⟨st2, _ | j⟩
      · rw [boxLoop_break _ _ _ _ _ hi hs]
        rw [hs] at hstep
        exact hstep
      · rw [boxLoop_next _ _ _ _ _ _ hi hs]
        rw [hs] at hstep
        have hj := boxStep_index stream n i j st (by rw [hs])
        exact ih (n - (j + 1)) (by omega) (j + 1) st2 rfl hstep
    · rw [boxLoop_done _ _ _ _ hi]
      exact h

theorem boxInv_boxChunks :
    ∀ (k : Nat) (rest : List Nat) (st : BoxScan), rest.length = k → BoxInv st →
      BoxInv (boxChunks rest st) := by
  intro k
  induction k using Nat.strong_induction_on with
  | _ k ih =>
    intro rest st hk h
    by_cases hne : rest = []
    · rw [hne, boxChunks_nil]
      exact h
    · rw [boxChunks_cons rest st hne]
      have h1 := boxInv_boxLoop (rest.drop CHUNK_SIZE)
        ((rest.take CHUNK_SIZE).length + OVERLAP_SIZE) _ 0
        { st with buffer := filledBoxBuffer st.buffer (rest.take CHUNK_SIZE), consumed := 0 }
        rfl h
      split_ifs
      · exact h1
      · have hlt : ((rest.drop CHUNK_SIZE).drop
            (boxLoop (rest.drop CHUNK_SIZE) ((rest.take CHUNK_SIZE).length + OVERLAP_SIZE) 0
              { st with
                buffer := filledBoxBuffer st.buffer (rest.take CHUNK_SIZE)
                consumed := 0 }).consumed).length < k := by
          rcases rest with _ | ⟨a, rest⟩
          · exact absurd rfl hne
          · simp only [List.length_drop, List.length_cons, CHUNK_SIZE] at hk ⊢
            omega
        exact ih _ hlt _ _ rfl h1

theorem boxInv_final (device : List Nat) (startOffset : Nat) :
    BoxInv (boxChunks (device.drop startOffset) initialBoxScan) :=
  boxInv_boxChunks _ _ _ rfl ⟨Or.inl rfl, fun h => by cases h⟩

/-- What `extractMP4File` leaves when it leaves a file: the three streams in
the order output, `moov`, `mdat`, the latter two when their box was found. -/
theorem assembleBoxes_some (env : Mp4Env) (st : BoxScan) (content : List Nat)
    (h : assembleBoxes env st = some content) :
    st.foundFytp = true ∧
      content = st.outFile ++ (if st.foundMoov then st.outFileMOOV else []) ++
        (if st.foundMdat then st.outFileMDAT else []) := by
  unfold assembleBoxes appendFile at h
  simp only at h
  split_ifs at h <;> simp_all

theorem extractMP4File_some (env : Mp4Env) (device : List Nat) (startOffset : Nat)
    (fileCount : Int) (content : List Nat)
    (h : extractMP4File env device startOffset fileCount = some content) :
    (boxChunks (device.drop startOffset) initialBoxScan).foundFytp = true ∧
      content = (boxChunks (device.drop startOffset) initialBoxScan).outFile ++
        (if (boxChunks (device.drop startOffset) initialBoxScan).foundMoov then
          (boxChunks (device.drop startOffset) initialBoxScan).outFileMOOV else []) ++
        (if (boxChunks (device.drop startOffset) initialBoxScan).foundMdat then
          (boxChunks (device.drop startOffset) initialBoxScan).outFileMDAT else []) := by
  unfold extractMP4File at h
  split_ifs at h
  exact assembleBoxes_some env _ content h

/-- Every file that `extractMP4File` leaves has at least eight bytes, and its
bytes 4 to 7 are the type bytes of `FYTP_SIGNATURE`, `66 79 70 74`. -/
theorem extractMP4File_begins (env : Mp4Env) (device : List Nat) (startOffset : Nat)
    (fileCount : Int) (content : List Nat)
    (h : extractMP4File env device startOffset fileCount = some content) :
    8 ≤ content.length ∧ content.getD 4 0 = 0x66 ∧ content.getD 5 0 = 0x79 ∧
      content.getD 6 0 = 0x70 ∧ content.getD 7 0 = 0x74 := by
  obtain ⟨hf, hc⟩ := extractMP4File_some env device startOffset fileCount content h
  obtain ⟨hinv, hne⟩ := boxInv_final device startOffset
  rcases hinv with hnil | ⟨h8, g4, g5, g6, g7⟩
  · exact absurd hnil (hne hf)
  · rw [hc, List.append_assoc]
    refine ⟨by rw [List.length_append]; omega, ?_, ?_, ?_, ?_⟩
    · rw [getD_append_left_lt _ _ _ (by omega)]; exact g4
    · rw [getD_append_left_lt _ _ _ (by omega)]; exact g5
    · rw [getD_append_left_lt _ _ _ (by omega)]; exact g6
    · rw [getD_append_left_lt _ _ _ (by omega)]; exact g7

/-! ## The carry of `extractMP4File` -/

theorem getD_set (l : List Nat) (i j v : Nat) (hi : i < l.length) :
    (l.set i v).getD j 0 = if j = i then v else l.getD j 0 := by
  simp only [List.getD_eq_getElem?_getD]
  by_cases h : j = i
  · subst h
    rw [if_pos rfl, List.getElem?_set_self hi]
    rfl
  · rw [if_neg h, List.getElem?_set_ne (fun hh => h hh.symm)]

theorem boxCarryLoop_spec :
    ∀ (is : List Nat) (b : List Nat), (∀ i ∈ is, i < 7) → 14 ≤ b.length →
      (boxCarryLoop b is).length = b.length ∧
      ∀ j, (boxCarryLoop b is).getD j 0 =
        if j ∈ is then b.getD (b.length - 7 + j) 0 else b.getD j 0
  | [], b, _, _ => ⟨rfl, fun j => by simp [boxCarryLoop]⟩
  | i :: more, b, his, hlen => by
    have hi : i < 7 := his i (List.mem_cons_self _ _)
    rw [boxCarryLoop, if_pos (by rw [OVERLAP_SIZE]; omega)]
    obtain ⟨h1, h2⟩ := boxCarryLoop_spec more
      (b.set i (b.getD (b.length - OVERLAP_SIZE + i) 0))
      (fun i' hi' => his i' (List.mem_cons_of_mem _ hi')) (by rw [List.length_set]; exact hlen)
    rw [List.length_set] at h1 h2
    refine ⟨h1, fun j => ?_⟩
    rw [h2 j, getD_set _ _ _ _ (by omega), getD_set _ _ _ _ (by omega), OVERLAP_SIZE]
    by_cases hj : j ∈ more
    · rw [if_pos hj, if_pos (List.mem_cons_of_mem _ hj), if_neg (by omega)]
    · rw [if_neg hj]
      by_cases hji : j = i
      · rw [if_pos hji, if_pos (by rw [hji]; exact List.mem_cons_self _ _), hji]
      · rw [if_neg hji, if_neg (by
          intro hmem
          rcases List.mem_cons.mp hmem with h | h
          · exact hji h
          · exact hj h)]

theorem take_eq_replicate_zero (l : List Nat) :
    ∀ (n : Nat), n ≤ l.length → (∀ j, j < n → l.getD j 0 = 0) → l.take n = List.replicate n 0 := by
  induction l with
  | nil =>
    intro n hn _
    have : n = 0 := by simpa using hn
    subst this
    rfl
  | cons a l ih =>
    intro n hn h0
    rcases n with _ | n
    · rfl
    · rw [List.take_succ_cons, List.replicate_succ]
      have ha : a = 0 := h0 0 (by omega)
      rw [ha, ih n (by simpa using hn) (fun j hj => h0 (j + 1) (by omega))]

/-- After a pass that left zeros in the last seven cells, the buffer of the
next pass is seven zeros, the bytes read, and what the read did not reach. -/
theorem filledBoxBuffer_quiet (buffer chunk : List Nat) (hq : QuietBoxBuffer buffer) :
    ∃ tail, filledBoxBuffer buffer chunk = List.replicate 7 0 ++ chunk ++ tail ∧
      tail.length = CHUNK_SIZE - chunk.length ∧
      ∀ j, tail.getD j 0 = buffer.getD (7 + chunk.length + j) 0 := by
  obtain ⟨hlen, hz⟩ := hq
  rw [CHUNK_SIZE, OVERLAP_SIZE] at hlen
  have hr : ∀ i ∈ List.range OVERLAP_SIZE, i < 7 := fun i hi => List.mem_range.mp hi
  obtain ⟨h1, h2⟩ := boxCarryLoop_spec (List.range OVERLAP_SIZE) buffer hr (by omega)
  simp only [OVERLAP_SIZE] at h1 h2
  unfold filledBoxBuffer
  simp only [OVERLAP_SIZE]
  refine ⟨(boxCarryLoop buffer (List.range 7)).drop (7 + chunk.length), ?_, ?_, ?_⟩
  · rw [take_eq_replicate_zero _ 7 (by omega) (fun j hj => by
      rw [h2 j, if_pos (List.mem_range.mpr hj)]
      exact hz _ (by rw [CHUNK_SIZE]; omega))]
  · rw [List.length_drop, h1, hlen, CHUNK_SIZE]
    omega
  · intro j
    rw [getD_drop, h2, if_neg (by
      intro hmem
      have := List.mem_range.mp hmem
      omega)]

theorem quietBoxBuffer_initial : QuietBoxBuffer initialBoxScan.buffer :=
  ⟨List.length_replicate _ _, fun _ _ => getD_replicate_zero _ _⟩

/-- The buffer of a pass that read a full chunk is quiet when the last seven
bytes of the chunk are zeros. -/
theorem quietBoxBuffer_full (chunk tail : List Nat) (hc : chunk.length = CHUNK_SIZE)
    (ht : tail.length = 0) (hz : ∀ j, CHUNK_SIZE - 7 ≤ j → chunk.getD j 0 = 0) :
    QuietBoxBuffer (List.replicate 7 0 ++ chunk ++ tail) := by
  have htn : tail = [] := List.length_eq_zero.mp ht
  subst htn
  rw [List.append_nil]
  constructor
  · rw [List.length_append, List.length_replicate, hc, OVERLAP_SIZE]; omega
  · intro j hj
    rw [getD_append_right_ge _ _ _ (by rw [List.length_replicate]; rw [CHUNK_SIZE] at hj; omega),
      List.length_replicate]
    exact hz _ (by omega)

/-! ## A box at the head of the bytes read -/

theorem headBuffer_getD_carry (chunk tail : List Nat) (j : Nat) (hj : j < 7) :
    (List.replicate 7 0 ++ chunk ++ tail).getD j 0 = 0 := by
  rw [List.append_assoc, getD_append_left_lt _ _ _ (by rw [List.length_replicate]; exact hj),
    getD_replicate_zero]

theorem headBuffer_getD_chunk (chunk tail : List Nat) (j : Nat) (hj : j < chunk.length) :
    (List.replicate 7 0 ++ chunk ++ tail).getD (7 + j) 0 = chunk.getD j 0 := by
  rw [List.append_assoc, getD_append_right_ge _ _ _ (by rw [List.length_replicate]; omega),
    List.length_replicate, getD_append_left_lt _ _ _ (by omega)]
  congr 1
  omega

theorem headBuffer_boxSizeAt (chunk tail : List Nat) (hc : 4 ≤ chunk.length) :
    boxSizeAt (List.replicate 7 0 ++ chunk ++ tail) 7 = boxSizeAt chunk 0 := by
  unfold boxSizeAt
  rw [show (7 : Nat) = 7 + 0 from rfl, headBuffer_getD_chunk _ _ 0 (by omega)]
  rw [show 7 + 0 + 1 = 7 + 1 from rfl, headBuffer_getD_chunk _ _ 1 (by omega)]
  rw [show 7 + 0 + 2 = 7 + 2 from rfl, headBuffer_getD_chunk _ _ 2 (by omega)]
  rw [show 7 + 0 + 3 = 7 + 3 from rfl, headBuffer_getD_chunk _ _ 3 (by omega)]

theorem headBuffer_take (chunk tail : List Nat) (m : Nat) (hm : m ≤ chunk.length) :
    ((List.replicate 7 0 ++ chunk ++ tail).drop 7).take m = chunk.take m := by
  rw [List.append_assoc, List.drop_left' (List.length_replicate _ _),
    List.take_append_of_le_length hm]

/-- The seven carried cells and the four size bytes of a box at the head of
the bytes read hold no box type, when none of the size bytes is `66` or
`6D`: the scan passes the positions 0 to 6. -/
theorem boxLoop_head_skip (stream chunk tail : List Nat) (st : BoxScan)
    (hb : st.buffer = List.replicate 7 0 ++ chunk ++ tail) (hc : 8 ≤ chunk.length)
    (hsize : ∀ k, k < 4 → chunk.getD k 0 ≠ 0x66 ∧ chunk.getD k 0 ≠ 0x6D) :
    boxLoop stream (chunk.length + OVERLAP_SIZE) 0 st =
      boxLoop stream (chunk.length + OVERLAP_SIZE) 7 st := by
  have h := boxLoop_skip stream (chunk.length + OVERLAP_SIZE) 7 0 st
    (by rw [OVERLAP_SIZE]; omega) (fun i _ hi => by
      have hcell : st.buffer.getD (i + 4) 0 ≠ 0x66 ∧ st.buffer.getD (i + 4) 0 ≠ 0x6D := by
        rw [hb]
        by_cases h3 : i + 4 < 7
        · rw [headBuffer_getD_carry _ _ _ h3]
          exact ⟨by decide, by decide⟩
        · have e : i + 4 = 7 + (i + 4 - 7) := by omega
          rw [e, headBuffer_getD_chunk _ _ _ (by omega)]
          exact hsize _ (by omega)
      exact boxStep_none stream _ i st (by rw [OVERLAP_SIZE]; omega)
        (no_fytp_header _ _ (fun hh => hcell.1 hh.1))
        (no_moov_header _ _ (fun hh => hcell.2 hh.1))
        (no_mdat_header _ _ (fun hh => hcell.2 hh.1)))
  rw [Nat.zero_add] at h
  exact h

/-! ## One pass of the outer loop of `extractMP4File` -/

/-- A pass whose buffer begins with seven zero cells and a box header whose
size bytes are neither `66` nor `6D`: the scan starts at position 7. -/
theorem boxChunks_pass (rest tail : List Nat) (st st1 : BoxScan) (hlen : 8 ≤ rest.length)
    (hfill : filledBoxBuffer st.buffer (rest.take CHUNK_SIZE) =
      List.replicate 7 0 ++ rest.take CHUNK_SIZE ++ tail)
    (hsize : ∀ k, k < 4 → rest.getD k 0 ≠ 0x66 ∧ rest.getD k 0 ≠ 0x6D)
    (hloop : boxLoop (rest.drop CHUNK_SIZE) ((rest.take CHUNK_SIZE).length + OVERLAP_SIZE) 7
      { st with
        buffer := List.replicate 7 0 ++ rest.take CHUNK_SIZE ++ tail
        consumed := 0 } = st1) :
    boxChunks rest st =
      if st1.foundFytp && st1.foundMoov && st1.foundMdat then st1
      else boxChunks ((rest.drop CHUNK_SIZE).drop st1.consumed) st1 := by
  have hne : rest ≠ [] := by
    intro h
    rw [h] at hlen
    simp at hlen
  have hc : 8 ≤ (rest.take CHUNK_SIZE).length := by
    rw [List.length_take, CHUNK_SIZE]; omega
  rw [boxChunks_cons rest st hne, hfill,
    boxLoop_head_skip _ (rest.take CHUNK_SIZE) tail _ rfl hc (fun k hk => by
      rw [getD_take_lt _ _ _ (by rw [CHUNK_SIZE]; omega)]
      exact hsize k hk), hloop]

theorem boxLoop_head_fytp (stream chunk tail : List Nat) (st : BoxScan)
    (hb : st.buffer = List.replicate 7 0 ++ chunk ++ tail) (hfound : st.foundFytp = false)
    (htype : chunk.getD 4 0 = 0x66 ∧ chunk.getD 5 0 = 0x79 ∧ chunk.getD 6 0 = 0x70 ∧
      chunk.getD 7 0 = 0x74)
    (h8 : 8 ≤ boxSizeAt chunk 0) (hmax : boxSizeAt chunk 0 ≤ 200 * 1024 * 1024)
    (hfit : boxSizeAt chunk 0 ≤ chunk.length) :
    boxLoop stream (chunk.length + OVERLAP_SIZE) 7 st =
      { st with outFile := st.outFile ++ chunk.take (boxSizeAt chunk 0), foundFytp := true } := by
  have hs : boxSizeAt st.buffer 7 = boxSizeAt chunk 0 := by
    rw [hb]; exact headBuffer_boxSizeAt _ _ (by omega)
  have hm : matchesMP4Header st.buffer FYTP_SIGNATURE 7 = true := by
    rw [matchesMP4Header_fytp, hb]
    refine ⟨by simp only [List.length_append, List.length_replicate]; omega, ?_, ?_, ?_, ?_⟩
    · rw [headBuffer_getD_chunk _ _ 4 (by omega)]; exact htype.1
    · rw [headBuffer_getD_chunk _ _ 5 (by omega)]; exact htype.2.1
    · rw [headBuffer_getD_chunk _ _ 6 (by omega)]; exact htype.2.2.1
    · rw [headBuffer_getD_chunk _ _ 7 (by omega)]; exact htype.2.2.2
  rw [boxLoop_break stream _ 7 st _ (by rw [OVERLAP_SIZE]; omega)
    (boxStep_fytp_fit stream _ 7 st (by rw [OVERLAP_SIZE]; omega) hfound hm
      (by rw [hs]; exact h8) (by rw [hs]; exact hmax) (by rw [hs, OVERLAP_SIZE]; omega))]
  rw [hs, hb, headBuffer_take _ _ _ hfit]

theorem boxLoop_head_moov (stream chunk tail : List Nat) (st : BoxScan)
    (hb : st.buffer = List.replicate 7 0 ++ chunk ++ tail) (hfound : st.foundMoov = false)
    (htype : chunk.getD 4 0 = 0x6D ∧ chunk.getD 5 0 = 0x6F ∧ chunk.getD 6 0 = 0x6F ∧
      chunk.getD 7 0 = 0x76)
    (h8 : 8 ≤ boxSizeAt chunk 0) (hmax : boxSizeAt chunk 0 ≤ 200 * 1024 * 1024)
    (hfit : boxSizeAt chunk 0 ≤ chunk.length) :
    boxLoop stream (chunk.length + OVERLAP_SIZE) 7 st =
      { st with
        outFileMOOV := st.outFileMOOV ++ chunk.take (boxSizeAt chunk 0)
        foundMoov := true } := by
  have hs : boxSizeAt st.buffer 7 = boxSizeAt chunk 0 := by
    rw [hb]; exact headBuffer_boxSizeAt _ _ (by omega)
  have hm : matchesMP4Header st.buffer MOOV_SIGNATURE 7 = true := by
    rw [matchesMP4Header_moov, hb]
    refine ⟨by simp only [List.length_append, List.length_replicate]; omega, ?_, ?_, ?_, ?_⟩
    · rw [headBuffer_getD_chunk _ _ 4 (by omega)]; exact htype.1
    · rw [headBuffer_getD_chunk _ _ 5 (by omega)]; exact htype.2.1
    · rw [headBuffer_getD_chunk _ _ 6 (by omega)]; exact htype.2.2.1
    · rw [headBuffer_getD_chunk _ _ 7 (by omega)]; exact htype.2.2.2
  rw [boxLoop_break stream _ 7 st _ (by rw [OVERLAP_SIZE]; omega)
    (boxStep_moov_fit stream _ 7 st (by rw [OVERLAP_SIZE]; omega) hfound hm
      (by rw [hs]; exact h8) (by rw [hs]; exact hmax) (by rw [hs, OVERLAP_SIZE]; omega))]
  rw [hs, hb, headBuffer_take _ _ _ hfit]

theorem boxLoop_head_mdat (stream chunk tail : List Nat) (st : BoxScan)
    (hb : st.buffer = List.replicate 7 0 ++ chunk ++ tail) (hfound : st.foundMdat = false)
    (htype : chunk.getD 4 0 = 0x6D ∧ chunk.getD 5 0 = 0x64 ∧ chunk.getD 6 0 = 0x61 ∧
      chunk.getD 7 0 = 0x74)
    (h8 : 8 ≤ boxSizeAt chunk 0) (hfit : boxSizeAt chunk 0 ≤ chunk.length) :
    boxLoop stream (chunk.length + OVERLAP_SIZE) 7 st =
      { st with
        outFileMDAT := st.outFileMDAT ++ chunk.take (boxSizeAt chunk 0)
        foundMdat := true } := by
  have hs : boxSizeAt st.buffer 7 = boxSizeAt chunk 0 := by
    rw [hb]; exact headBuffer_boxSizeAt _ _ (by omega)
  have hm : matchesMP4Header st.buffer MDAT_SIGNATURE 7 = true := by
    rw [matchesMP4Header_mdat, hb]
    refine ⟨by simp only [List.length_append, List.length_replicate]; omega, ?_, ?_, ?_, ?_⟩
    · rw [headBuffer_getD_chunk _ _ 4 (by omega)]; exact htype.1
    · rw [headBuffer_getD_chunk _ _ 5 (by omega)]; exact htype.2.1
    · rw [headBuffer_getD_chunk _ _ 6 (by omega)]; exact htype.2.2.1
    · rw [headBuffer_getD_chunk _ _ 7 (by omega)]; exact htype.2.2.2
  rw [boxLoop_break stream _ 7 st _ (by rw [OVERLAP_SIZE]; omega)
    (boxStep_mdat_fit stream _ 7 st (by rw [OVERLAP_SIZE]; omega) hfound hm
      (by rw [hs]; exact h8) (by rw [hs, OVERLAP_SIZE]; omega))]
  rw [hs, hb, headBuffer_take _ _ _ hfit]

/-! ## The box `fyptBox` alone -/

/-- A device that holds the eight bytes of `fyptBox` and nothing else: the
box is taken for `ftyp` and the file emitted is these eight bytes. -/
theorem extractMP4File_fyptBox (fileCount : Int) :
    extractMP4File envOk fyptBox 0 fileCount = some fyptBox := by
  obtain ⟨tail, hfill, -, -⟩ := filledBoxBuffer_quiet initialBoxScan.buffer
    (fyptBox.take CHUNK_SIZE) quietBoxBuffer_initial
  have htake : fyptBox.take CHUNK_SIZE = fyptBox := List.take_of_length_le (by decide)
  have hloop := boxLoop_head_fytp (fyptBox.drop CHUNK_SIZE) (fyptBox.take CHUNK_SIZE) tail
    { initialBoxScan with
      buffer := List.replicate 7 0 ++ fyptBox.take CHUNK_SIZE ++ tail
      consumed := 0 } rfl rfl
    (by rw [htake]; decide) (by rw [htake]; decide) (by rw [htake]; decide)
    (by rw [htake]; decide)
  have hpass := boxChunks_pass fyptBox tail initialBoxScan _ (by decide) hfill
    (by decide) hloop
  have hdrop : fyptBox.drop CHUNK_SIZE = [] := List.drop_of_length_le (by decide)
  unfold extractMP4File
  rw [if_neg (by decide), List.drop_zero, hpass]
  simp only [initialBoxScan, Bool.and_false, Bool.false_eq_true, if_false, hdrop,
    List.drop_nil, boxChunks_nil, List.nil_append, htake]
  rw [show boxSizeAt fyptBox 0 = 8 from by decide]
  rfl

/-! ## An `ftyp` box is not what `extractMP4File` looks for -/

theorem boxStep_foundFytp (stream : List Nat) (n i : Nat) (st : BoxScan)
    (hno : matchesMP4Header st.buffer FYTP_SIGNATURE i = false) :
    (boxStep stream n i st).1.foundFytp = st.foundFytp := by
  unfold boxStep
  rw [hno]
  simp only [Bool.and_false, Bool.false_eq_true, if_false]
  split_ifs <;> rfl

theorem boxLoop_foundFytp (stream : List Nat) (n : Nat) :
    ∀ (k i : Nat) (st : BoxScan), n - i = k →
      (∀ i, matchesMP4Header st.buffer FYTP_SIGNATURE i = false) →
      (boxLoop stream n i st).foundFytp = st.foundFytp := by
  intro k
  induction k using Nat.strong_induction_on with
  | _ k ih =>
    intro i st hk hno
    by_cases hi : i < n
    · have hstep := boxStep_foundFytp stream n i st (hno i)
      have hbuf := boxStep_buffer stream n i st
      rcases hs : boxStep stream n i st with ⟨st2, _ | j⟩
      · rw [boxLoop_break _ _ _ _ _ hi hs]
        rw [hs] at hstep
        exact hstep
      · rw [boxLoop_next _ _ _ _ _ _ hi hs]
        rw [hs] at hstep hbuf
        have hj := boxStep_index stream n i j st (by rw [hs])
        rw [ih (n - (j + 1)) (by omega) (j + 1) st2 rfl (by
          simp only at hbuf
          rw [hbuf]; exact hno)]
        exact hstep
    · rw [boxLoop_done _ _ _ _ hi]

theorem mp4Sample_length : (ftypBox ++ moovBox ++ mdatBox).length = 72 := by decide

theorem mp4Sample_no_fypt :
    ∀ k, k < 72 → (ftypBox ++ moovBox ++ mdatBox).getD k 0 = 0x66 →
      (ftypBox ++ moovBox ++ mdatBox).getD (k + 1) 0 ≠ 0x79 := by
  decide

/-- The claim's example, a `ftyp` box of 32 bytes followed by a `moov` and an
`mdat` box: no position of the buffer holds the type bytes `66 79 70 74`,
`foundFytp` stays false, and no file is left. -/
theorem extractMP4File_ftyp_sample (fileCount : Int) :
    extractMP4File envOk (ftypBox ++ moovBox ++ mdatBox) 0 fileCount = none := by
  obtain ⟨tail, hfill, -, htail⟩ := filledBoxBuffer_quiet initialBoxScan.buffer
    ((ftypBox ++ moovBox ++ mdatBox).take CHUNK_SIZE) quietBoxBuffer_initial
  have htake : (ftypBox ++ moovBox ++ mdatBox).take CHUNK_SIZE = ftypBox ++ moovBox ++ mdatBox :=
    List.take_of_length_le (by decide)
  have hdrop : (ftypBox ++ moovBox ++ mdatBox).drop CHUNK_SIZE = [] :=
    List.drop_of_length_le (by decide)
  rw [htake] at hfill htail
  have hno : ∀ i, matchesMP4Header
      (List.replicate 7 0 ++ (ftypBox ++ moovBox ++ mdatBox) ++ tail) FYTP_SIGNATURE i = false := by
    intro i
    apply no_fytp_header
    rintro ⟨h1, h2⟩
    by_cases h3 : i + 4 < 7
    · rw [headBuffer_getD_carry _ _ _ h3] at h1
      exact absurd h1 (by decide)
    · by_cases h4 : i + 4 - 7 < 72
      · have e1 : i + 4 = 7 + (i + 4 - 7) := by omega
        have e2 : i + 5 = 7 + (i + 4 - 7 + 1) := by omega
        rw [e1, headBuffer_getD_chunk _ _ _ (by rw [mp4Sample_length]; exact h4)] at h1
        have h5 := mp4Sample_no_fypt _ h4 h1
        by_cases h6 : i + 4 - 7 + 1 < 72
        · rw [e2, headBuffer_getD_chunk _ _ _ (by rw [mp4Sample_length]; exact h6)] at h2
          exact h5 h2
        · rw [List.getD_eq_default _ _ (by rw [mp4Sample_length]; omega)] at h5
          have : (ftypBox ++ moovBox ++ mdatBox).getD (i + 4 - 7) 0 ≠ 0x66 := by
            have : i + 4 - 7 = 71 := by omega
            rw [this]; decide
          exact this h1
      · have hz : ∀ j, initialBoxScan.buffer.getD j 0 = 0 := fun j => getD_replicate_zero _ _
        rw [getD_append_right_ge _ _ _ (by
          rw [List.length_append, List.length_replicate, mp4Sample_length]; omega), htail,
          hz] at h1
        exact absurd h1 (by decide)
  have hf := boxLoop_foundFytp ([] : List Nat) (72 + OVERLAP_SIZE) _ 0
    { initialBoxScan with
      buffer := List.replicate 7 0 ++ (ftypBox ++ moovBox ++ mdatBox) ++ tail
      consumed := 0 } rfl hno
  unfold extractMP4File
  rw [if_neg (by decide), List.drop_zero,
    boxChunks_cons _ _ (by decide), htake, hdrop, hfill, mp4Sample_length]
  generalize boxLoop ([] : List Nat) (72 + OVERLAP_SIZE) 0
    { initialBoxScan with
      buffer := List.replicate 7 0 ++ (ftypBox ++ moovBox ++ mdatBox) ++ tail
      consumed := 0 } = st1 at hf ⊢
  have hf' : st1.foundFytp = false := hf
  rw [hf']
  simp only [Bool.false_and, Bool.false_eq_true, if_false, List.drop_nil, boxChunks_nil]
  unfold assembleBoxes
  simp only [hf', Bool.false_eq_true, if_false]

/-! ## A box at the head of a full read -/

theorem padded_length (box : List Nat) (h : box.length ≤ CHUNK_SIZE) :
    (padded box).length = CHUNK_SIZE := by
  rw [padded, List.length_append, List.length_replicate]
  omega

theorem padded_getD_head (box : List Nat) (k : Nat) (hk : k < box.length) :
    (padded box).getD k 0 = box.getD k 0 := by
  rw [padded, getD_append_left_lt _ _ _ hk]

theorem padded_getD_tail (box : List Nat) (j : Nat) (hj : box.length ≤ j) :
    (padded box).getD j 0 = 0 := by
  rw [padded, getD_append_right_ge _ _ _ hj, getD_replicate_zero]

theorem padded_boxSizeAt (box : List Nat) (h4 : 4 ≤ box.length) :
    boxSizeAt (padded box) 0 = boxSizeAt box 0 := by
  unfold boxSizeAt
  rw [padded_getD_head _ _ (by omega), padded_getD_head _ _ (by omega),
    padded_getD_head _ _ (by omega), padded_getD_head _ _ (by omega)]

theorem padded_take (box : List Nat) : (padded box).take box.length = box := by
  rw [padded, List.take_left]

theorem take_padded (box more : List Nat) (h : box.length ≤ CHUNK_SIZE) :
    (padded box ++ more).take CHUNK_SIZE = padded box :=
  List.take_left' (padded_length box h)

theorem drop_padded (box more : List Nat) (h : box.length ≤ CHUNK_SIZE) :
    (padded box ++ more).drop CHUNK_SIZE = more :=
  List.drop_left' (padded_length box h)

/-- A pass over a box of the type of `FYTP_SIGNATURE` that stands at the head
of a full read and is followed by zeros: the box is written to the output
stream, and the next pass reads what follows the 1 MiB. -/
theorem boxChunks_padded_fytp (box more : List Nat) (st : BoxScan)
    (hq : QuietBoxBuffer st.buffer) (hfound : st.foundFytp = false)
    (hnotall : (st.foundMoov && st.foundMdat) = false)
    (hsizeBytes : ∀ k, k < 4 → box.getD k 0 ≠ 0x66 ∧ box.getD k 0 ≠ 0x6D)
    (htype : box.getD 4 0 = 0x66 ∧ box.getD 5 0 = 0x79 ∧ box.getD 6 0 = 0x70 ∧
      box.getD 7 0 = 0x74)
    (hsize : boxSizeAt box 0 = box.length) (h8 : 8 ≤ box.length)
    (hmax : box.length ≤ CHUNK_SIZE - 7) :
    ∃ b, QuietBoxBuffer b ∧
      boxChunks (padded box ++ more) st =
        boxChunks more
          { st with buffer := b, consumed := 0, outFile := st.outFile ++ box, foundFytp := true } := by
  have hC : CHUNK_SIZE = 1048576 := rfl
  have hle : box.length ≤ CHUNK_SIZE := by omega
  obtain ⟨tail, hfill, htl, -⟩ := filledBoxBuffer_quiet st.buffer
    ((padded box ++ more).take CHUNK_SIZE) hq
  rw [take_padded box more hle] at hfill htl
  rw [padded_length box hle, Nat.sub_self] at htl
  have hloop := boxLoop_head_fytp ((padded box ++ more).drop CHUNK_SIZE) (padded box) tail
    { st with buffer := List.replicate 7 0 ++ padded box ++ tail, consumed := 0 } rfl hfound
    (by
      rw [padded_getD_head _ _ (by omega), padded_getD_head _ _ (by omega),
        padded_getD_head _ _ (by omega), padded_getD_head _ _ (by omega)]
      exact htype)
    (by rw [padded_boxSizeAt _ (by omega), hsize]; exact h8)
    (by rw [padded_boxSizeAt _ (by omega), hsize]; omega)
    (by rw [padded_boxSizeAt _ (by omega), hsize, padded_length box hle]; exact hle)
  rw [padded_boxSizeAt _ (by omega), hsize, padded_take] at hloop
  refine ⟨List.replicate 7 0 ++ padded box ++ tail,
    quietBoxBuffer_full _ _ (padded_length box hle) htl
      (fun j hj => padded_getD_tail _ _ (by omega)), ?_⟩
  have hpass := boxChunks_pass (padded box ++ more) tail st
    { st with
      buffer := List.replicate 7 0 ++ padded box ++ tail, consumed := 0
      outFile := st.outFile ++ box, foundFytp := true }
    (by rw [List.length_append, padded_length box hle]; omega)
    (by rw [take_padded box more hle]; exact hfill)
    (fun k hk => by
      rw [getD_append_left_lt _ _ _ (by rw [padded_length box hle]; omega),
        padded_getD_head _ _ (by omega)]
      exact hsizeBytes k hk)
    (by rw [take_padded box more hle]; exact hloop)
  rw [hpass]
  simp only [hnotall, Bool.and_assoc, Bool.and_false, Bool.false_eq_true, if_false,
    drop_padded box more hle, List.drop_zero]

/-- A pass over a box of the type of `MDAT_SIGNATURE` that stands at the head
of a full read and is followed by zeros. -/
theorem boxChunks_padded_mdat (box more : List Nat) (st : BoxScan)
    (hq : QuietBoxBuffer st.buffer) (hfound : st.foundMdat = false)
    (hnotall : (st.foundFytp && st.foundMoov) = false)
    (hsizeBytes : ∀ k, k < 4 → box.getD k 0 ≠ 0x66 ∧ box.getD k 0 ≠ 0x6D)
    (htype : box.getD 4 0 = 0x6D ∧ box.getD 5 0 = 0x64 ∧ box.getD 6 0 = 0x61 ∧
      box.getD 7 0 = 0x74)
    (hsize : boxSizeAt box 0 = box.length) (h8 : 8 ≤ box.length)
    (hmax : box.length ≤ CHUNK_SIZE - 7) :
    ∃ b, QuietBoxBuffer b ∧
      boxChunks (padded box ++ more) st =
        boxChunks more
          { st with
            buffer := b, consumed := 0, outFileMDAT := st.outFileMDAT ++ box
            foundMdat := true } := by
  have hC : CHUNK_SIZE = 1048576 := rfl
  have hle : box.length ≤ CHUNK_SIZE := by omega
  obtain ⟨tail, hfill, htl, -⟩ := filledBoxBuffer_quiet st.buffer
    ((padded box ++ more).take CHUNK_SIZE) hq
  rw [take_padded box more hle] at hfill htl
  rw [padded_length box hle, Nat.sub_self] at htl
  have hloop := boxLoop_head_mdat ((padded box ++ more).drop CHUNK_SIZE) (padded box) tail
    { st with buffer := List.replicate 7 0 ++ padded box ++ tail, consumed := 0 } rfl hfound
    (by
      rw [padded_getD_head _ _ (by omega), padded_getD_head _ _ (by omega),
        padded_getD_head _ _ (by omega), padded_getD_head _ _ (by omega)]
      exact htype)
    (by rw [padded_boxSizeAt _ (by omega), hsize]; exact h8)
    (by rw [padded_boxSizeAt _ (by omega), hsize, padded_length box hle]; exact hle)
  rw [padded_boxSizeAt _ (by omega), hsize, padded_take] at hloop
  refine ⟨List.replicate 7 0 ++ padded box ++ tail,
    quietBoxBuffer_full _ _ (padded_length box hle) htl
      (fun j hj => padded_getD_tail _ _ (by omega)), ?_⟩
  have hpass := boxChunks_pass (padded box ++ more) tail st
    { st with
      buffer := List.replicate 7 0 ++ padded box ++ tail, consumed := 0
      outFileMDAT := st.outFileMDAT ++ box, foundMdat := true }
    (by rw [List.length_append, padded_length box hle]; omega)
    (by rw [take_padded box more hle]; exact hfill)
    (fun k hk => by
      rw [getD_append_left_lt _ _ _ (by rw [padded_length box hle]; omega),
        padded_getD_head _ _ (by omega)]
      exact hsizeBytes k hk)
    (by rw [take_padded box more hle]; exact hloop)
  rw [hpass]
  have hna : (st.foundFytp && st.foundMoov && true) = false := by
    rw [Bool.and_true]; exact hnotall
  simp only [hna, Bool.false_eq_true, if_false, drop_padded box more hle, List.drop_zero]

/-! ## Boxes captured in an order that is not the order of the input -/

theorem boxLoop_head_mdat_span (stream chunk tail : List Nat) (st : BoxScan)
    (hb : st.buffer = List.replicate 7 0 ++ chunk ++ tail) (hfound : st.foundMdat = false)
    (htype : chunk.getD 4 0 = 0x6D ∧ chunk.getD 5 0 = 0x64 ∧ chunk.getD 6 0 = 0x61 ∧
      chunk.getD 7 0 = 0x74)
    (hc8 : 8 ≤ chunk.length) (hspan : chunk.length < boxSizeAt chunk 0)
    (hcons : st.consumed = 0)
    (hstream : boxSizeAt chunk 0 - chunk.length ≤ stream.length) :
    boxLoop stream (chunk.length + OVERLAP_SIZE) 7 st =
      { st with
        outFileMDAT := st.outFileMDAT ++
          (chunk ++ stream.take (boxSizeAt chunk 0 - chunk.length))
        consumed := boxSizeAt chunk 0 - chunk.length
        foundMdat := true } := by
  have hs : boxSizeAt st.buffer 7 = boxSizeAt chunk 0 := by
    rw [hb]; exact headBuffer_boxSizeAt _ _ (by omega)
  have hm : matchesMP4Header st.buffer MDAT_SIGNATURE 7 = true := by
    rw [matchesMP4Header_mdat, hb]
    refine ⟨by simp only [List.length_append, List.length_replicate]; omega, ?_, ?_, ?_, ?_⟩
    · rw [headBuffer_getD_chunk _ _ 4 (by omega)]; exact htype.1
    · rw [headBuffer_getD_chunk _ _ 5 (by omega)]; exact htype.2.1
    · rw [headBuffer_getD_chunk _ _ 6 (by omega)]; exact htype.2.2.1
    · rw [headBuffer_getD_chunk _ _ 7 (by omega)]; exact htype.2.2.2
  have hn : chunk.length + OVERLAP_SIZE - 7 = chunk.length := by rw [OVERLAP_SIZE]; omega
  have hstep := boxStep_mdat_span stream (chunk.length + OVERLAP_SIZE) 7 st
    (by rw [OVERLAP_SIZE]; omega) hfound hm (by rw [hs]; omega) (by rw [hs, hn]; exact hspan)
    (by
      rw [hs, hn, hcons, List.drop_zero, readRemaining_eq]
      exact decide_eq_true hstream)
  rw [boxLoop_break stream _ 7 st _ (by rw [OVERLAP_SIZE]; omega) hstep]
  rw [hs, hn, hcons, List.drop_zero, readRemaining_eq, hb,
    headBuffer_take _ _ _ (le_refl _), List.take_length]
  simp only [Nat.zero_add, Nat.min_eq_left hstream]

theorem assembleBoxes_three (b : List Nat) (c : Nat) (out moov mdat : List Nat)
    (hmoov : moov.isEmpty = false) (hmdat : mdat.isEmpty = false) :
    assembleBoxes envOk ⟨b, c, true, true, true, out, moov, mdat⟩ =
      some (out ++ moov ++ mdat) := by
  unfold assembleBoxes appendFile
  simp [envOk, hmoov, hmdat]

theorem assembleBoxes_no_moov (b : List Nat) (c : Nat) (out moov mdat : List Nat)
    (hmdat : mdat.isEmpty = false) :
    assembleBoxes envOk ⟨b, c, true, false, true, out, moov, mdat⟩ = some (out ++ mdat) := by
  unfold assembleBoxes appendFile
  simp [envOk, hmdat]

/-- A device on which `mdat` comes before `moov`: the box `fyptBox` at the
head of the first MiB, an `mdat` box at the head of the second, a `moov` box
after it.  The file emitted holds `moov` before `mdat`. -/
theorem extractMP4File_reorders (fileCount : Int) :
    extractMP4File envOk (padded fyptBox ++ (padded mdatBox ++ moovBox)) 0 fileCount =
      some (fyptBox ++ moovBox ++ mdatBox) := by
  have hC : CHUNK_SIZE = 1048576 := rfl
  obtain ⟨b1, hq1, h1⟩ := boxChunks_padded_fytp fyptBox (padded mdatBox ++ moovBox)
    initialBoxScan quietBoxBuffer_initial rfl rfl (by decide) (by decide) (by decide)
    (by decide) (by rw [hC]; decide)
  obtain ⟨b2, hq2, h2⟩ := boxChunks_padded_mdat mdatBox moovBox
    { initialBoxScan with
      buffer := b1, consumed := 0, outFile := initialBoxScan.outFile ++ fyptBox
      foundFytp := true }
    hq1 rfl rfl (by decide) (by decide) (by decide) (by decide) (by rw [hC]; decide)
  obtain ⟨tail, hfill, -, -⟩ := filledBoxBuffer_quiet b2 (moovBox.take CHUNK_SIZE) hq2
  have htake : moovBox.take CHUNK_SIZE = moovBox := List.take_of_length_le (by decide)
  have hloop := boxLoop_head_moov (moovBox.drop CHUNK_SIZE) (moovBox.take CHUNK_SIZE) tail
    ⟨List.replicate 7 0 ++ moovBox.take CHUNK_SIZE ++ tail, 0, true, false, true, fyptBox, [],
      mdatBox⟩ rfl rfl
    (by rw [htake]; decide) (by rw [htake]; decide) (by rw [htake]; decide)
    (by rw [htake]; decide)
  have h3 := boxChunks_pass moovBox tail ⟨b2, 0, true, false, true, fyptBox, [], mdatBox⟩
    ⟨List.replicate 7 0 ++ moovBox.take CHUNK_SIZE ++ tail, 0, true, true, true, fyptBox,
      moovBox.take (boxSizeAt (moovBox.take CHUNK_SIZE) 0), mdatBox⟩
    (by decide) hfill (by decide) hloop
  simp only [Bool.and_self, if_true] at h3
  unfold extractMP4File
  rw [if_neg (by decide), List.drop_zero, h1, h2]
  simp only [initialBoxScan, List.nil_append]
  rw [h3, assembleBoxes_three _ _ _ _ _ (by rw [htake]; decide) (by decide), htake]
  rw [show boxSizeAt moovBox 0 = 24 from by decide]
  rfl

/-! ## A file of more than 500 MiB -/

theorem mdatBig_length : mdatBig.length = 500 * 1024 * 1024 + 8 := by
  rw [mdatBig, List.length_append, List.length_replicate]
  rfl

theorem mdatBig_getD_head (k : Nat) (hk : k < 8) :
    (mdatBig.take CHUNK_SIZE).getD k 0 =
      ([0x1F, 0x40, 0x00, 0x08, 0x6D, 0x64, 0x61, 0x74] : List Nat).getD k 0 := by
  rw [getD_take_lt _ _ _ (by rw [CHUNK_SIZE]; omega), mdatBig,
    getD_append_left_lt _ _ _ (by simpa using hk)]

theorem mdatBig_boxSizeAt : boxSizeAt (mdatBig.take CHUNK_SIZE) 0 = 500 * 1024 * 1024 + 8 := by
  unfold boxSizeAt
  rw [mdatBig_getD_head 0 (by omega), mdatBig_getD_head 1 (by omega),
    mdatBig_getD_head 2 (by omega), mdatBig_getD_head 3 (by omega)]
  decide

theorem mdatBig_chunk_length : (mdatBig.take CHUNK_SIZE).length = CHUNK_SIZE := by
  rw [List.length_take, mdatBig_length, CHUNK_SIZE]
  decide

/-- A device that holds `fyptBox` at the head of the first MiB and then an
`mdat` box whose declared size is 500 MiB + 8, whole: the box is captured,
and the file emitted has 500 MiB + 16 bytes. -/
theorem extractMP4File_mdatBig (fileCount : Int) :
    extractMP4File envOk (padded fyptBox ++ mdatBig) 0 fileCount =
      some (fyptBox ++ mdatBig) := by
  have hC : CHUNK_SIZE = 1048576 := rfl
  obtain ⟨b1, hq1, h1⟩ := boxChunks_padded_fytp fyptBox mdatBig
    initialBoxScan quietBoxBuffer_initial rfl rfl (by decide) (by decide) (by decide)
    (by decide) (by rw [hC]; decide)
  obtain ⟨tail, hfill, -, -⟩ := filledBoxBuffer_quiet b1 (mdatBig.take CHUNK_SIZE) hq1
  have hdl : (mdatBig.drop CHUNK_SIZE).length = 500 * 1024 * 1024 + 8 - CHUNK_SIZE := by
    rw [List.length_drop, mdatBig_length]
  have hloop := boxLoop_head_mdat_span (mdatBig.drop CHUNK_SIZE) (mdatBig.take CHUNK_SIZE) tail
    ⟨List.replicate 7 0 ++ mdatBig.take CHUNK_SIZE ++ tail, 0, true, false, false, fyptBox, [],
      []⟩ rfl rfl
    (by
      rw [mdatBig_getD_head 4 (by omega), mdatBig_getD_head 5 (by omega),
        mdatBig_getD_head 6 (by omega), mdatBig_getD_head 7 (by omega)]
      decide)
    (by rw [mdatBig_chunk_length, hC]; decide)
    (by rw [mdatBig_chunk_length, mdatBig_boxSizeAt, hC]; decide) rfl
    (by rw [mdatBig_chunk_length, mdatBig_boxSizeAt, hdl])
  rw [mdatBig_boxSizeAt, mdatBig_chunk_length, ← hdl, List.take_length,
    List.take_append_drop, List.nil_append] at hloop
  have hall : (mdatBig.drop CHUNK_SIZE).drop (mdatBig.drop CHUNK_SIZE).length = [] :=
    List.drop_of_length_le (le_refl _)
  generalize (mdatBig.drop CHUNK_SIZE).length = c at hloop hall
  have h2 := boxChunks_pass mdatBig tail ⟨b1, 0, true, false, false, fyptBox, [], []⟩
    ⟨List.replicate 7 0 ++ mdatBig.take CHUNK_SIZE ++ tail, c, true, false, true, fyptBox, [],
      mdatBig⟩
    (by rw [mdatBig_length]; decide) hfill
    (fun k hk => by
      have hh := mdatBig_getD_head k (by omega)
      rw [getD_take_lt _ _ _ (by rw [hC]; omega)] at hh
      rw [hh]
      interval_cases k <;> decide)
    (by rw [mdatBig_chunk_length]; exact hloop)
  have h2' : boxChunks mdatBig ⟨b1, 0, true, false, false, fyptBox, [], []⟩ =
      boxChunks ((mdatBig.drop CHUNK_SIZE).drop c)
        ⟨List.replicate 7 0 ++ mdatBig.take CHUNK_SIZE ++ tail, c, true, false, true, fyptBox,
          [], mdatBig⟩ := h2
  rw [hall, boxChunks_nil] at h2'
  unfold extractMP4File
  rw [if_neg (by decide), List.drop_zero, h1]
  simp only [initialBoxScan, List.nil_append]
  have hne : mdatBig.isEmpty = false := rfl
  rw [h2', assembleBoxes_no_moov _ _ _ _ _ hne]

/-! ## The claims on `extractMP4File` -/

/-- C27 (what the code does): the type bytes that `extractMP4File` looks for
as `ftyp` are those of `FYTP_SIGNATURE`, `66 79 70 74`, not `66 74 79 70`.
On a complete `ftyp` box of 32 bytes (type bytes `66 74 79 70`) followed by a
`moov` and an `mdat` box no file is left; a box with the type bytes
`66 79 70 74` is emitted; and the bytes 4 to 7 of every file emitted are
`66 79 70 74`. -/
theorem extractMP4File_looks_for_fypt :
    (ftypBox.length = 32 ∧ boxSizeAt ftypBox 0 = 32 ∧
      (ftypBox.drop 4).take 4 = [0x66, 0x74, 0x79, 0x70]) ∧
    extractMP4File envOk (ftypBox ++ moovBox ++ mdatBox) 0 1 = none ∧
    extractMP4File envOk fyptBox 0 1 = some fyptBox ∧
    ∀ (env : Mp4Env) (device : List Nat) (startOffset : Nat) (fileCount : Int)
      (content : List Nat),
      extractMP4File env device startOffset fileCount = some content →
        content.getD 4 0 = 0x66 ∧ content.getD 5 0 = 0x79 ∧ content.getD 6 0 = 0x70 ∧
          content.getD 7 0 = 0x74 :=
  ⟨⟨by decide, by decide, by decide⟩, extractMP4File_ftyp_sample 1, extractMP4File_fyptBox 1,
    fun env device startOffset fileCount content h =>
      (extractMP4File_begins env device startOffset fileCount content h).2⟩

/-- C28 (amended): every file that `extractMP4File` leaves has at least the
eight bytes of a box header; `extractMP4File` compares the length of the file
with no bound. -/
theorem extractMP4File_min_length (env : Mp4Env) (device : List Nat) (startOffset : Nat)
    (fileCount : Int) (content : List Nat)
    (h : extractMP4File env device startOffset fileCount = some content) :
    8 ≤ content.length :=
  (extractMP4File_begins env device startOffset fileCount content h).1

/-- Witness of C28 (amended): the file emitted for `fyptBox` has eight bytes,
fewer than the 1024 of the size table. -/
theorem extractMP4File_min_length_witness :
    extractMP4File envOk fyptBox 0 1 = some fyptBox ∧ 8 ≤ fyptBox.length ∧
      fyptBox.length < (Size_limit.getD 7 (0, 0)).1 :=
  ⟨extractMP4File_fyptBox 1,
    extractMP4File_min_length envOk fyptBox 0 1 fyptBox (extractMP4File_fyptBox 1), by decide⟩

/-- C28 as claimed fails: an `mdat` box whose declared size is 500 MiB + 8 is
captured, and the file emitted has 500 MiB + 16 bytes, more than the
500 MiB of the size table. -/
theorem extractMP4File_emits_beyond_bounds :
    extractMP4File envOk (padded fyptBox ++ mdatBig) 0 1 = some (fyptBox ++ mdatBig) ∧
      boxSizeAt (mdatBig.take CHUNK_SIZE) 0 = 500 * 1024 * 1024 + 8 ∧
      (fyptBox ++ mdatBig).length = 500 * 1024 * 1024 + 16 ∧
      (Size_limit.getD 7 (0, 0)).2 = 500 * 1024 * 1024 := by
  refine ⟨extractMP4File_mdatBig 1, mdatBig_boxSizeAt, ?_, by decide⟩
  rw [List.length_append, mdatBig_length]
  rfl

/-- C29: the bytes of every file that `extractMP4File` leaves are the bytes
written to the output stream (the captured `ftyp`), followed by the bytes
written for `moov` when `foundMoov` is set, followed by the bytes written
for `mdat` when `foundMdat` is set, whatever the order in which the boxes
were met. -/
theorem extractMP4File_box_order (env : Mp4Env) (device : List Nat) (startOffset : Nat)
    (fileCount : Int) (content : List Nat)
    (h : extractMP4File env device startOffset fileCount = some content) :
    content = (boxChunks (device.drop startOffset) initialBoxScan).outFile ++
      (if (boxChunks (device.drop startOffset) initialBoxScan).foundMoov then
        (boxChunks (device.drop startOffset) initialBoxScan).outFileMOOV else []) ++
      (if (boxChunks (device.drop startOffset) initialBoxScan).foundMdat then
        (boxChunks (device.drop startOffset) initialBoxScan).outFileMDAT else []) :=
  (extractMP4File_some env device startOffset fileCount content h).2

/-- Witness of C29: on a device that holds `mdat` before `moov` the file
emitted holds `moov` before `mdat`. -/
theorem extractMP4File_box_order_witness :
    extractMP4File envOk (padded fyptBox ++ (padded mdatBox ++ moovBox)) 0 1 =
        some (fyptBox ++ moovBox ++ mdatBox) ∧
      fyptBox ++ moovBox ++ mdatBox =
        (boxChunks ((padded fyptBox ++ (padded mdatBox ++ moovBox)).drop 0)
            initialBoxScan).outFile ++
          (if (boxChunks ((padded fyptBox ++ (padded mdatBox ++ moovBox)).drop 0)
              initialBoxScan).foundMoov then
            (boxChunks ((padded fyptBox ++ (padded mdatBox ++ moovBox)).drop 0)
              initialBoxScan).outFileMOOV else []) ++
          (if (boxChunks ((padded fyptBox ++ (padded mdatBox ++ moovBox)).drop 0)
              initialBoxScan).foundMdat then
            (boxChunks ((padded fyptBox ++ (padded mdatBox ++ moovBox)).drop 0)
              initialBoxScan).outFileMDAT else []) :=
  ⟨extractMP4File_reorders 1,
    extractMP4File_box_order envOk _ 0 1 _ (extractMP4File_reorders 1)⟩

/-! ## Start signatures across a chunk boundary -/

/-- C30 (what the code does): `run` carries nothing from one chunk to the
next (`overlap` is 0), so a start signature whose bytes straddle a multiple
of 4096 stands whole in no window of the scan.  On a device on which every
occurrence of the start signature of an enabled format among PNG, JPEG, PDF
and ZIP straddles a multiple of 4096 (MP3 not enabled), `run` reads to the
end and invokes no extractor: `File_Count` and `fileCount` stay as they were
and no file is written. -/
theorem run_skips_straddling_signatures (ex : Extractors) (io : IoEnv) (device : List Nat)
    (File_Supported : List Bool) (File_Count : List Int)
    (hmp3 : File_Supported.getD 4 false = false)
    (hstraddle : ∀ f, f < 4 → File_Supported.getD f false = true →
      ∀ a, signatureOf f <+: device.drop a →
        chunkSize < a % chunkSize + (signatureOf f).length) :
    run ex io (some device) File_Supported (fun _ => false) File_Count =
      (true, ⟨File_Count, 0, 0, []⟩) := by
  rw [run_some]
  apply runLoop_no_candidates ex io device File_Supported
    (fun h => by rw [hmp3] at h; cases h) 0 _ _ _ _ 0 0 _ rfl rfl rfl (le_refl _)
    initial_buffer_length
  intro f hf hmask a _ ha hp
  have := hstraddle f hf hmask a hp
  omega

/-- Witness of C30: the PNG signature at offset 4095, after 4095 zero bytes,
straddles offset 4096; `run` with PNG enabled finds nothing on the device,
which holds a well-formed PNG candidate of 1024 bytes from that offset. -/
theorem run_skips_straddling_signatures_witness :
    signatureOf 0 <+: (List.replicate 4095 0 ++ pngFile 1004 ++ []).drop 4095 ∧
      chunkSize < 4095 % chunkSize + (signatureOf 0).length ∧
      run noExtractors ioOk (some (List.replicate 4095 0 ++ pngFile 1004 ++ [])) pngOnly
        (fun _ => false) initialFileCount = (true, ⟨initialFileCount, 0, 0, []⟩) := by
  refine ⟨?_, by decide, ?_⟩
  · rw [List.append_assoc, drop_replicate_append, signatureOf_zero, pngFile, List.append_assoc,
      List.append_assoc]
    exact List.prefix_append _ _
  · apply run_skips_straddling_signatures noExtractors ioOk _ pngOnly initialFileCount
      (by decide)
    intro f hf hmask a hp
    have hf0 : f = 0 := by
      interval_cases f <;> first | rfl | (exfalso; revert hmask; decide)
    subst hf0
    rw [signatureOf_zero] at hp ⊢
    have := png_signature_offset 4095 1004 a hp
    subst this
    decide

/-! ## The two extractions on `floorDevice` -/

theorem frameStream512_forty_length : (frameStream frame512 40).length = 20480 := by
  rw [frameStream_length, frame512_length]

theorem floorTail_length : (List.replicate 4000 0 ++ header512).length = 4004 := by
  rw [List.length_append, List.length_replicate]; rfl

theorem floorTail_getD (j : Nat) (hj : j < 4000) :
    (List.replicate 4000 0 ++ header512).getD j 0 = 0 := by
  rw [getD_append_left_lt _ _ _ (by rw [List.length_replicate]; exact hj), getD_replicate_zero]

theorem carried_getD (chunk rest : List Nat) (p : Nat) (hp : p < 3) :
    ([0, 0, 0] ++ chunk ++ rest).getD p 0 = 0 := by
  rw [List.append_assoc, getD_append_left_lt _ _ _ (by simpa using hp)]
  interval_cases p <;> rfl

theorem carried_getD_chunk (chunk rest : List Nat) (p : Nat) (h3 : 3 ≤ p)
    (hp : p - 3 < chunk.length) :
    ([0, 0, 0] ++ chunk ++ rest).getD p 0 = chunk.getD (p - 3) 0 := by
  rw [List.append_assoc, getD_append_right_ge _ _ _ (by simpa using h3),
    getD_append_left_lt _ _ _ (by simpa using hp)]
  rfl

/-- The walk from offset 0 of `floorDevice`: the 40 frames are written, and
the zeros that follow end it after 768 positions of gap. -/
theorem walkChunks_floorDevice :
    walkChunks floorDevice (initialWalk 0) =
      { buffer := [0, 0, 0] ++ (List.replicate 4000 0 ++ header512) ++ buffer512.drop (3 + 4004)
        current_offset := 21263
        totalExtracted := 20480
        gapCount := 769
        frame_info_original := frameInfo512
        firstFrameFound := true
        totalBytesWritten := 20480
        outFile := frameStream frame512 40 } := by
  have h5 := walkChunks_frames512 4 (List.replicate 4000 0 ++ header512) (initialWalk 0)
    quietBuffer_initial rfl (Or.inl rfl) (by simp only [initialWalk]; omega)
  simp only [Nat.reduceAdd, Nat.reduceMul] at h5
  rw [show (initialWalk 0).current_offset = 0 from rfl,
    show (initialWalk 0).totalExtracted = 0 from rfl,
    show (initialWalk 0).totalBytesWritten = 0 from rfl,
    show (initialWalk 0).outFile = [] from rfl, List.nil_append, Nat.zero_add] at h5
  have hne : List.replicate 4000 0 ++ header512 ≠ [] := by
    intro h
    have := congrArg List.length h
    rw [floorTail_length] at this
    simp at this
  have htake : (List.replicate 4000 0 ++ header512).take BUFFER_SIZE =
      List.replicate 4000 0 ++ header512 :=
    List.take_of_length_le (by rw [floorTail_length, BUFFER_SIZE]; omega)
  obtain ⟨hlen, h0, h1, h2, -⟩ := quietBuffer_buffer512
  have hgap := walkFrames_gap_end 4007 0
    ⟨[0, 0, 0] ++ (List.replicate 4000 0 ++ header512) ++ buffer512.drop (3 + 4004),
      20495, 20480, 0, frameInfo512, true, 20480, frameStream frame512 40⟩
    (fun p _ hp => by
      apply parse_mp3_frame_header_no_sync
      rw [getD_drop]
      show ([0, 0, 0] ++ (List.replicate 4000 0 ++ header512) ++
        buffer512.drop (3 + 4004)).getD (p + 0) 0 ≠ 0xFF
      have hp' : p ≤ 768 := hp
      rw [show p + 0 = p from rfl]
      by_cases h3 : p < 3
      · rw [carried_getD _ _ _ h3]; decide
      · rw [carried_getD_chunk _ _ _ (by omega) (by rw [floorTail_length]; omega),
          floorTail_getD _ (by omega)]
        decide)
    (by simp only [MAX_GAP_Bytes]; omega) (by simp only [MAX_GAP_Bytes]; omega)
    (by simp only; omega)
  simp only [MAX_GAP_Bytes, Nat.sub_zero, Nat.reduceAdd] at hgap
  rw [floorDevice, h5, walkChunks_cons _ _ hne, htake, filledBuffer_eq _ _ (by rw [hlen]; omega),
    h0, h1, h2, floorTail_length]
  rw [show 4004 + Mp3.overlap = 4007 from rfl, hgap]
  simp only [if_true]

/-- The first extraction on `floorDevice`, from offset 0: the file is kept
and the value returned is 21263. -/
theorem extractMP3File_floorDevice_first (fileCount : Int) :
    extractMP3File ioOk floorDevice 0 fileCount =
      ⟨21263, fileCount, some (frameStream frame512 40)⟩ := by
  rw [extractMP3File_opened _ _ _ _ rfl rfl, List.drop_zero, walkChunks_floorDevice]
  simp only
  rw [if_neg (by norm_num)]

/-! ## A header with nothing behind it -/

theorem headerBuffer_length : headerBuffer.length = 4103 := by
  rw [headerBuffer, List.length_append, List.length_append, List.length_replicate]
  rfl

theorem headerBuffer_getD (p : Nat) (hp : p ≠ 3) : headerBuffer.getD p 0 ≠ 0xFF := by
  rw [headerBuffer]
  by_cases h7 : p < 7
  · rw [getD_append_left_lt _ _ _ (by simpa using h7)]
    interval_cases p <;> first | decide | exact absurd rfl hp
  · rw [getD_append_right_ge _ _ _ (by
      rw [show ([0, 0, 0] ++ header512 : List Nat).length = 7 from rfl]; omega),
      getD_replicate_zero]
    decide

theorem parse_headerBuffer_none (p : Nat) (hp : p ≠ 3) :
    parse_mp3_frame_header (headerBuffer.drop p) = [0, 0, 0, 0, 0] := by
  apply parse_mp3_frame_header_no_sync
  rw [getD_drop, Nat.add_zero]
  exact headerBuffer_getD p hp

theorem parse_headerBuffer_three :
    parse_mp3_frame_header (headerBuffer.drop 3) = frameInfo512 := by
  rw [← parse_frame512_header]
  exact parse_mp3_frame_header_congr rfl rfl rfl

/-- No frame follows the header within `MAX_GAP_Bytes`: it is not confirmed. -/
theorem matchesMP3Header_headerBuffer : matchesMP3Header headerBuffer 3 = false := by
  unfold matchesMP3Header
  rw [if_neg (by rw [headerBuffer_length]; omega)]
  simp only
  rw [parse_headerBuffer_three, if_neg (by decide)]
  have hr : List.range' 1 10 = [1, 2, 3, 4, 5, 6, 7, 8, 9, 10] := by decide
  have hcond : 0 < MAX_GAP_Bytes ∧
      3 + (frameInfo512.getD 0 0 * ((1 : Nat) : Int)).toNat + 0 < headerBuffer.length := by
    rw [frameInfo512_mul, headerBuffer_length, MAX_GAP_Bytes]; omega
  have h1 : probeLoop headerBuffer 3 1 frameInfo512 0 = ⟨[0, 0, 0, 0, 0], false, MAX_GAP_Bytes⟩ := by
    rw [probeLoop_next _ _ _ _ _ hcond (by
      rw [frameInfo512_mul, parse_headerBuffer_none _ (by omega)]; decide)]
    exact probeLoop_exhausted headerBuffer 3 1 (by rw [headerBuffer_length, MAX_GAP_Bytes]; omega)
      767 1 (by rw [MAX_GAP_Bytes]) (fun g' h1 _ => by
        rw [parse_headerBuffer_none _ (by omega)]; decide)
  rw [hr, probeFrames, h1]
  rfl

theorem confirmFrame_unconfirmed (pos : Nat) (st : WalkState)
    (h : matchesMP3Header st.buffer pos = false) : confirmFrame pos st = st := by
  rcases confirmFrame_cases pos st with hc | ⟨_, _, hm, _⟩
  · exact hc
  · rw [h] at hm; cases hm

/-- The walk over the four bytes of `header512`: nothing is written. -/
theorem walkChunks_header512 (fileStart : Nat) :
    (walkChunks header512 (initialWalk fileStart)).totalBytesWritten = 0 := by
  obtain ⟨hlen, h0, h1, h2, -⟩ := quietBuffer_initial
  have htake : header512.take BUFFER_SIZE = header512 := List.take_of_length_le (by decide)
  have hdrop : header512.drop BUFFER_SIZE = [] := List.drop_of_length_le (by decide)
  have hfill : filledBuffer (initialWalk fileStart).buffer header512 = headerBuffer := by
    rw [show (initialWalk fileStart).buffer =
      List.replicate (BUFFER_SIZE + Mp3.overlap + 4) 0 from rfl,
      filledBuffer_eq _ _ (by rw [hlen]; omega), h0, h1, h2, List.drop_replicate]
    rfl
  have hrun := walkFrames_gap_run 7 3 0
    ⟨headerBuffer, fileStart, 0, 0, [], false, 0, []⟩
    (fun p _ hp => parse_headerBuffer_none p (by omega)) (by omega)
    (by simp only [MAX_GAP_Bytes]; omega) (by simp only; omega)
  have hc : confirmFrame 3 ⟨headerBuffer, fileStart + 3, 0, 0 + 3, [], false, 0, []⟩ =
      ⟨headerBuffer, fileStart + 3, 0, 0 + 3, [], false, 0, []⟩ :=
    confirmFrame_unconfirmed 3 ⟨headerBuffer, fileStart + 3, 0, 0 + 3, [], false, 0, []⟩
      matchesMP3Header_headerBuffer
  have hstep := walkStep_gap 7 3 ⟨headerBuffer, fileStart + 3, 0, 0 + 3, [], false, 0, []⟩
    (by rw [hc]; simp only [matchesFrameInfo_nil, Bool.false_and])
    (by rw [hc]; simp only [MAX_GAP_Bytes]; omega)
    (by rw [hc]; simp only; omega)
  rw [hc] at hstep
  rw [walkChunks_cons _ _ (by decide), htake, hdrop, hfill]
  rw [show header512.length + Mp3.overlap = 7 from rfl]
  rw [show ({ initialWalk fileStart with buffer := headerBuffer } : WalkState) =
    ⟨headerBuffer, fileStart, 0, 0, [], false, 0, []⟩ from rfl, hrun]
  simp only [Nat.zero_add]
  rw [walkFrames_next 7 3 _ _ _ (by omega) hstep, walkFrames_done _ _ _ (by omega)]
  simp only [Bool.false_eq_true, if_false, walkChunks_nil]

/-- The second extraction on `floorDevice`, from the header at offset 24480:
nothing is written, the file is removed, and the value returned is 0. -/
theorem extractMP3File_floorDevice_second (fileCount : Int) :
    extractMP3File ioOk floorDevice 24480 fileCount = ⟨0, fileCount - 1, none⟩ := by
  have hdrop : floorDevice.drop 24480 = header512 := by
    rw [floorDevice, ← List.append_assoc]
    exact List.drop_left' (by
      rw [List.length_append, frameStream512_forty_length, List.length_replicate])
  rw [extractMP3File_opened _ _ _ _ rfl rfl, hdrop, walkChunks_header512,
    if_pos (Or.inl (by norm_num))]

/-! ## The MP3 floor of `run` on a device with a discarded candidate -/

theorem getD_stream512 (p : Nat) (hp : p < 4096) :
    (frameStream frame512 8).getD p 0 =
      if p % 512 = 0 then 0xFF else if p % 512 = 1 then 0xE7
        else if p % 512 = 2 then 0x84 else 0 := by
  rw [getD_frameStream _ _ _ (by rw [frame512_length]; omega), frame512_length, getD_frame512]

theorem parse_stream512_frame (k : Nat) (hk : k < 8) :
    parse_mp3_frame_header ((frameStream frame512 8).drop (0 + 512 * k)) = frameInfo512 := by
  rw [← parse_frame512_header]
  apply parse_mp3_frame_header_congr
  · rw [getD_drop, getD_stream512 _ (by omega), if_pos (by omega)]; rfl
  · rw [getD_drop, getD_stream512 _ (by omega), if_neg (by omega), if_pos (by omega)]; rfl
  · rw [getD_drop, getD_stream512 _ (by omega), if_neg (by omega), if_neg (by omega),
      if_pos (by omega)]
    rfl

theorem probeLoop_stream512_found (i : Nat) (hi : i < 8) :
    probeLoop (frameStream frame512 8) 0 i frameInfo512 0 = ⟨frameInfo512, true, 0⟩ := by
  have hcond : 0 < MAX_GAP_Bytes ∧
      0 + (frameInfo512.getD 0 0 * (i : Int)).toNat + 0 < (frameStream frame512 8).length := by
    rw [frameInfo512_mul, frameStream512_eight_length, MAX_GAP_Bytes]; omega
  rw [probeLoop_found _ _ _ _ _ hcond (by
    rw [frameInfo512_mul, Nat.add_zero, parse_stream512_frame i hi]; decide)]
  rw [frameInfo512_mul, Nat.add_zero, parse_stream512_frame i hi]

theorem probeLoop_stream512_beyond (i : Nat) (hi : 8 ≤ i) :
    probeLoop (frameStream frame512 8) 0 i frameInfo512 0 = ⟨frameInfo512, false, 0⟩ := by
  rw [probeLoop_stop _ _ _ _ _ (by
    rw [frameInfo512_mul, frameStream512_eight_length]; omega)]

/-- The first frame of a chunk of eight frames of 512 bytes is confirmed. -/
theorem matchesMP3Header_stream512 : matchesMP3Header (frameStream frame512 8) 0 = true := by
  unfold matchesMP3Header
  rw [if_neg (by rw [frameStream512_eight_length]; omega)]
  simp only
  rw [show (0 : Nat) = 0 + 512 * 0 from rfl, parse_stream512_frame 0 (by omega)]
  rw [if_neg (by decide)]
  have hr : List.range' 1 10 = [1, 2, 3, 4, 5, 6, 7, 8, 9, 10] := by decide
  rw [hr]
  simp only [probeFrames, Nat.mul_zero, Nat.add_zero,
    probeLoop_stream512_found 1 (by omega), probeLoop_stream512_found 2 (by omega),
    probeLoop_stream512_found 3 (by omega), probeLoop_stream512_found 4 (by omega),
    probeLoop_stream512_found 5 (by omega), probeLoop_stream512_found 6 (by omega),
    probeLoop_stream512_found 7 (by omega), probeLoop_stream512_beyond 8 (by omega),
    probeLoop_stream512_beyond 9 (by omega), probeLoop_stream512_beyond 10 (by omega)]
  decide

theorem floorBuffer_length : floorBuffer.length = 4096 := by
  rw [floorBuffer, List.length_append, floorTail_length, List.length_drop,
    frameStream512_eight_length]

theorem floorBuffer_getD (p : Nat) (hp : p < 4000) : floorBuffer.getD p 0 = 0 := by
  rw [floorBuffer, getD_append_left_lt _ _ _ (by rw [floorTail_length]; omega),
    floorTail_getD p hp]

theorem floorBuffer_getD_header (k : Nat) (hk : k < 4) :
    floorBuffer.getD (4000 + k) 0 = header512.getD k 0 := by
  rw [floorBuffer, getD_append_left_lt _ _ _ (by rw [floorTail_length]; omega),
    getD_append_right_ge _ _ _ (by rw [List.length_replicate]; omega), List.length_replicate,
    Nat.add_sub_cancel_left]

theorem matchesMP3Header_no_sync (buffer : List Nat) (pos : Nat)
    (h : buffer.getD pos 0 ≠ 0xFF) : matchesMP3Header buffer pos = false := by
  rcases Bool.eq_false_or_eq_true (matchesMP3Header buffer pos) with hm | hm
  · exfalso
    have hv := (matchesMP3Header_valid_start hm).2
    rw [parse_mp3_frame_header_no_sync (by rw [getD_drop, Nat.add_zero]; exact h)] at hv
    exact absurd hv (by decide)
  · exact hm

/-- The header at the end of the data read is accepted: the frame it announces
would end beyond the buffer. -/
theorem matchesMP3Header_floorBuffer : matchesMP3Header floorBuffer 4000 = true := by
  have hparse : parse_mp3_frame_header (floorBuffer.drop 4000) = frameInfo512 := by
    rw [← parse_frame512_header]
    apply parse_mp3_frame_header_congr
    · rw [getD_drop, floorBuffer_getD_header 0 (by omega)]; rfl
    · rw [getD_drop, floorBuffer_getD_header 1 (by omega)]; rfl
    · rw [getD_drop, floorBuffer_getD_header 2 (by omega)]; rfl
  apply matchesMP3Header_short_buffer
  · rw [floorBuffer_length]; omega
  · rw [hparse]; decide
  · rw [hparse, floorBuffer_length]
    show 4096 ≤ 4000 + ((512 : Int)).toNat
    decide

theorem scanFormats_mp3Only (ex : Extractors) (io : IoEnv) (device buffer : List Nat)
    (offset bytesRead : Nat) (st : RunState) :
    scanFormats ex io device buffer mp3Only offset bytesRead (List.range SupportedFileCount)
      st = scanPositions ex io device buffer offset bytesRead 4 0 st := by
  have hr : List.range SupportedFileCount = [0, 1, 2, 3, 4] := by decide
  rw [hr]
  rfl

theorem scanStep_below_floor (ex : Extractors) (io : IoEnv) (device buffer : List Nat)
    (offset i : Nat) (st : RunState) (h : offset + i < st.mp3_offset_done) :
    scanStep ex io device buffer offset 4 i st = (st, i) := by
  have hd : decide (offset + i ≥ st.mp3_offset_done) = false := by
    simp only [decide_eq_false_iff_not]; omega
  simp [scanStep, hd]

theorem scanStep_mp3_extract (ex : Extractors) (io : IoEnv) (device buffer : List Nat)
    (offset i : Nat) (st : RunState) (hm : ex.matchesMP3Header buffer i = true)
    (hfl : st.mp3_offset_done ≤ offset + i) :
    scanStep ex io device buffer offset 4 i st =
      (⟨(bumpCount st.File_Count 4).set 4
          (ex.extractMP3File device (offset + i) ((bumpCount st.File_Count 4).getD 4 0)).fileCount,
        st.fileCount,
        (ex.extractMP3File device (offset + i) ((bumpCount st.File_Count 4).getD 4 0)).offset,
        st.emitted ++
          ((ex.extractMP3File device (offset + i)
            ((bumpCount st.File_Count 4).getD 4 0)).outFile.map
              fun content => OutFile.mk 4 ((bumpCount st.File_Count 4).getD 4 0) content).toList⟩,
        i + 4) := by
  have hd : decide (offset + i ≥ st.mp3_offset_done) = true := by
    simp only [decide_eq_true_eq]; omega
  unfold scanStep
  simp only [hm, hd, beq_self_eq_true, Bool.and_self, if_true]

/-- Positions at which the step leaves the state `st` as it is are passed. -/
theorem scanPositions_mp3_skip (ex : Extractors) (io : IoEnv) (device buffer : List Nat)
    (offset bytesRead : Nat) (st : RunState) :
    ∀ (d i : Nat),
      (∀ i', i ≤ i' → i' < i + d → scanStep ex io device buffer offset 4 i' st = (st, i')) →
      scanPositions ex io device buffer offset bytesRead 4 i st =
        scanPositions ex io device buffer offset bytesRead 4 (i + d) st := by
  intro d
  induction d with
  | zero => intro i _; rfl
  | succ d ih =>
    intro i hno
    by_cases h : i + (signatureOf 4).length ≤ bytesRead + overlap
    · rw [scanPositions_step _ _ _ _ _ _ _ _ _ h, hno i (le_refl _) (by omega)]
      simp only
      rw [ih (i + 1) (fun i' h1 h2 => hno i' (by omega) (by omega))]
      congr 1
      omega
    · rw [scanPositions_done _ _ _ _ _ _ _ _ _ h,
        scanPositions_done _ _ _ _ _ _ _ _ _ (by omega)]

theorem scanPositions_mp3_rest (ex : Extractors) (io : IoEnv) (device buffer : List Nat)
    (offset bytesRead i : Nat) (st : RunState)
    (hno : ∀ i', i ≤ i' → i' + 2 ≤ bytesRead →
      scanStep ex io device buffer offset 4 i' st = (st, i')) :
    scanPositions ex io device buffer offset bytesRead 4 i st = st := by
  have hsig : (signatureOf 4).length = 2 := rfl
  by_cases h : i + 2 ≤ bytesRead
  · rw [scanPositions_mp3_skip ex io device buffer offset bytesRead st (bytesRead - 1 - i) i
      (fun i' h1 h2 => hno i' h1 (by omega))]
    exact scanPositions_done _ _ _ _ _ _ _ _ _ (by rw [hsig, overlap]; omega)
  · exact scanPositions_done _ _ _ _ _ _ _ _ _ (by rw [hsig, overlap]; omega)

/-- A pass of `run` over a whole chunk, with the MP3 format only. -/
theorem runLoop_mp3_chunk (ex : Extractors) (io : IoEnv) (device chunk tail buffer : List Nat)
    (offset chunkNo : Nat) (st : RunState) (hc : chunk.length = chunkSize)
    (hb : buffer.length = chunkSize) :
    runLoop ex io device mp3Only (fun _ => false) (chunk ++ tail) buffer offset chunkNo st =
      runLoop ex io device mp3Only (fun _ => false) tail chunk (offset + chunkSize)
        (chunkNo + 1) (scanPositions ex io device chunk offset chunkSize 4 0 st) := by
  have hne : chunk ++ tail ≠ [] := by
    intro h
    have := congrArg List.length h
    rw [List.length_append, hc, chunkSize] at this
    simp at this
  rw [runLoop_step _ _ _ _ _ _ _ _ _ _ hne rfl, List.take_left' hc, List.drop_left' hc,
    List.drop_of_length_le (by rw [hb, hc]), List.append_nil, scanFormats_mp3Only, hc]

/-- The last pass of `run`, over less than a chunk, with the MP3 format only. -/
theorem runLoop_mp3_last (ex : Extractors) (io : IoEnv) (device rest buffer : List Nat)
    (offset chunkNo : Nat) (st : RunState) (hne : rest ≠ []) (hc : rest.length ≤ chunkSize) :
    runLoop ex io device mp3Only (fun _ => false) rest buffer offset chunkNo st =
      (true, scanPositions ex io device (rest ++ buffer.drop rest.length) offset rest.length
        4 0 st) := by
  rw [runLoop_step _ _ _ _ _ _ _ _ _ _ hne rfl, List.take_of_length_le hc,
    List.drop_of_length_le hc, runLoop_nil, scanFormats_mp3Only]

theorem engineExtractors_matchesMP3Header (io : IoEnv) (env : Mp4Env) :
    (engineExtractors io env).matchesMP3Header = matchesMP3Header := rfl

theorem engineExtractors_extractMP3File (io : IoEnv) (env : Mp4Env) :
    (engineExtractors io env).extractMP3File = extractMP3File io := rfl

theorem scanStep_floorDevice_first :
    scanStep (engineExtractors ioOk envOk) ioOk floorDevice (frameStream frame512 8) 0 4 0
      ⟨initialFileCount, 0, 0, []⟩ = (floorKept, 4) := by
  rw [scanStep_mp3_extract (engineExtractors ioOk envOk) ioOk floorDevice
    (frameStream frame512 8) 0 0 ⟨initialFileCount, 0, 0, []⟩
    (by rw [engineExtractors_matchesMP3Header]; exact matchesMP3Header_stream512)
    (Nat.zero_le _)]
  rw [engineExtractors_extractMP3File,
    show bumpCount (RunState.mk initialFileCount 0 0 []).File_Count 4 =
      [0, 0, 0, 0, 1, 0, 0, 0, 0, 0] from rfl,
    show ([0, 0, 0, 0, 1, 0, 0, 0, 0, 0] : List Int).getD 4 0 = 1 from rfl,
    show (0 : Nat) + 0 = 0 from rfl, extractMP3File_floorDevice_first]
  rfl

theorem scanStep_floorDevice_second :
    scanStep (engineExtractors ioOk envOk) ioOk floorDevice floorBuffer 20480 4 4000
      floorKept = (floorDiscarded, 4004) := by
  rw [scanStep_mp3_extract (engineExtractors ioOk envOk) ioOk floorDevice floorBuffer
    20480 4000 floorKept
    (by rw [engineExtractors_matchesMP3Header]; exact matchesMP3Header_floorBuffer)
    (show (21263 : Nat) ≤ 20480 + 4000 by omega)]
  rw [engineExtractors_extractMP3File,
    show bumpCount floorKept.File_Count 4 = [0, 0, 0, 0, 2, 0, 0, 0, 0, 0] from rfl,
    show ([0, 0, 0, 0, 2, 0, 0, 0, 0, 0] : List Int).getD 4 0 = 2 from rfl,
    show (20480 : Nat) + 4000 = 24480 from rfl, extractMP3File_floorDevice_second]
  rfl

/-- The first pass of `run` over `floorDevice` keeps the first candidate and
tests no later position of the chunk. -/
theorem scanPositions_floorDevice_first :
    scanPositions (engineExtractors ioOk envOk) ioOk floorDevice (frameStream frame512 8) 0
      chunkSize 4 0 ⟨initialFileCount, 0, 0, []⟩ = floorKept := by
  rw [scanPositions_step _ _ _ _ _ _ _ _ _ (by decide), scanStep_floorDevice_first]
  exact scanPositions_mp3_rest _ _ _ _ _ _ _ _ (fun i' _ h2 =>
    scanStep_below_floor _ _ _ _ _ _ _ (by
      show 0 + i' < 21263
      rw [chunkSize] at h2; omega))

/-- Below the floor no position is a candidate. -/
theorem scanPositions_floorDevice_below (buffer : List Nat) (offset : Nat)
    (h : offset + chunkSize ≤ 21263) :
    scanPositions (engineExtractors ioOk envOk) ioOk floorDevice buffer offset
      chunkSize 4 0 floorKept = floorKept :=
  scanPositions_mp3_rest _ _ _ _ _ _ _ _ (fun i' _ h2 =>
    scanStep_below_floor _ _ _ _ _ _ _ (by
      show offset + i' < 21263
      omega))

/-- The last pass of `run` over `floorDevice` meets the header at 4000 and
discards the candidate. -/
theorem scanPositions_floorDevice_last :
    scanPositions (engineExtractors ioOk envOk) ioOk floorDevice floorBuffer 20480 4004 4 0
      floorKept = floorDiscarded := by
  rw [scanPositions_mp3_skip _ _ _ _ _ 4004 _ 4000 0 (fun i' _ h2 =>
    scanStep_mp3_idle (engineExtractors ioOk envOk) ioOk floorDevice floorBuffer 20480 i'
      floorKept (by
        rw [engineExtractors_matchesMP3Header]
        exact matchesMP3Header_no_sync floorBuffer i' (by
          rw [floorBuffer_getD i' (by omega)]; decide)))]
  rw [scanPositions_step _ _ _ _ _ _ _ _ _ (by decide), scanStep_floorDevice_second]
  exact scanPositions_done _ _ _ _ _ _ _ _ _ (by decide)

theorem runLoop_floorDevice (rest : List Nat)
    (h : rest = frameStream frame512 8 ++ (frameStream frame512 8 ++ (frameStream frame512 8 ++
      (frameStream frame512 8 ++ (frameStream frame512 8 ++
        (List.replicate 4000 0 ++ header512)))))) :
    runLoop (engineExtractors ioOk envOk) ioOk floorDevice mp3Only (fun _ => false) rest
      (List.replicate (chunkSize + overlap) 0) 0 0 ⟨initialFileCount, 0, 0, []⟩ =
        (true, floorDiscarded) := by
  subst h
  have hc : (frameStream frame512 8).length = chunkSize := frameStream512_eight_length
  rw [runLoop_mp3_chunk _ _ _ _ _ _ _ _ _ hc (by rw [List.length_replicate]; rfl),
    scanPositions_floorDevice_first,
    runLoop_mp3_chunk _ _ _ _ _ _ _ _ _ hc hc,
    scanPositions_floorDevice_below _ _ (by rw [chunkSize]; omega),
    runLoop_mp3_chunk _ _ _ _ _ _ _ _ _ hc hc,
    scanPositions_floorDevice_below _ _ (by rw [chunkSize]; omega),
    runLoop_mp3_chunk _ _ _ _ _ _ _ _ _ hc hc,
    scanPositions_floorDevice_below _ _ (by rw [chunkSize]; omega),
    runLoop_mp3_chunk _ _ _ _ _ _ _ _ _ hc hc,
    scanPositions_floorDevice_below _ _ (by rw [chunkSize]; omega),
    runLoop_mp3_last _ _ _ _ _ _ _ _ (by
      intro h0
      have := congrArg List.length h0
      rw [floorTail_length] at this
      cases this)
      (by rw [floorTail_length, chunkSize]; omega),
    floorTail_length]
  rw [show 0 + chunkSize + chunkSize + chunkSize + chunkSize + chunkSize = 20480 from rfl]
  exact congrArg (Prod.mk true) scanPositions_floorDevice_last

theorem floorDevice_chunks :
    floorDevice = frameStream frame512 8 ++ (frameStream frame512 8 ++
      (frameStream frame512 8 ++ (frameStream frame512 8 ++ (frameStream frame512 8 ++
        (List.replicate 4000 0 ++ header512))))) := by
  rw [floorDevice, show (40 : Nat) = 8 + (8 + (8 + (8 + 8))) from rfl, frameStream_add,
    frameStream_add, frameStream_add, frameStream_add]
  simp only [List.append_assoc]

/-- C22: on `floorDevice` (forty frames of 512 bytes, 4000 zero bytes, one
frame header) with the MP3 format only, `run` assigns 21263 to
`mp3_offset_done` from the extraction at offset 0, which keeps its file, and
then 0 from the extraction at offset 24480, which is discarded for size: the
floor decreases, and the run ends with `mp3_offset_done` at 0. -/
theorem run_mp3_floor_decreases :
    scanStep (engineExtractors ioOk envOk) ioOk floorDevice (frameStream frame512 8) 0 4 0
        ⟨initialFileCount, 0, 0, []⟩ = (floorKept, 4) ∧
      floorKept.mp3_offset_done = 21263 ∧
      extractMP3File ioOk floorDevice 24480 2 = ⟨0, 1, none⟩ ∧
      scanStep (engineExtractors ioOk envOk) ioOk floorDevice floorBuffer 20480 4 4000
        floorKept = (floorDiscarded, 4004) ∧
      floorDiscarded.mp3_offset_done = 0 ∧
      run (engineExtractors ioOk envOk) ioOk (some floorDevice) mp3Only (fun _ => false)
        initialFileCount =
          (true, ⟨[0, 0, 0, 0, 1, 0, 0, 0, 0, 0], 0, 0, [⟨4, 1, frameStream frame512 40⟩]⟩) :=
  ⟨scanStep_floorDevice_first, rfl, extractMP3File_floorDevice_second 2,
    scanStep_floorDevice_second, rfl,
    (run_some _ _ _ _ _ _).trans (runLoop_floorDevice floorDevice floorDevice_chunks)⟩

/-! ## The range of the records `parse_mp3_frame_header` returns -/

set_option maxRecDepth 1000000 in
theorem frameInfoOfFields_range :
    ∀ v l b s p, v < 4 → l < 4 → b < 16 → s < 4 → p < 2 →
      (0 < (frameInfoOfFields v l b s p).getD 0 0 →
        (32 ≤ (frameInfoOfFields v l b s p).getD 0 0 ∧
          (frameInfoOfFields v l b s p).getD 0 0 ≤ 2881) ∧
        ((frameInfoOfFields v l b s p).getD 1 0 = 1 ∨
          (frameInfoOfFields v l b s p).getD 1 0 = 2) ∧
        ((frameInfoOfFields v l b s p).getD 2 0 = 1 ∨
          (frameInfoOfFields v l b s p).getD 2 0 = 2 ∨
          (frameInfoOfFields v l b s p).getD 2 0 = 3) ∧
        0 < (frameInfoOfFields v l b s p).getD 3 0 ∧
        0 < (frameInfoOfFields v l b s p).getD 4 0 ∧
        (frameInfoOfFields v l b s p).length = 5) :=
  forall_fields _ (by decide)

/-- C36: for every header that `parse_mp3_frame_header` accepts, the frame
size lies between 32 and 2881 (so at most 4096), the MPEG version is 1 or 2,
the layer is 1, 2 or 3, and bitrate and sampling rate are above 0; the record
has five elements.  Both bounds are met: `FF FF 14` gives 32 and `FF E3 EA`
gives 2881. -/
theorem parse_mp3_frame_header_range (header : List Nat)
    (h : 0 < (parse_mp3_frame_header header).getD 0 0) :
    (32 ≤ (parse_mp3_frame_header header).getD 0 0 ∧
      (parse_mp3_frame_header header).getD 0 0 ≤ 2881 ∧
      (parse_mp3_frame_header header).getD 0 0 ≤ 4096) ∧
    ((parse_mp3_frame_header header).getD 1 0 = 1 ∨
      (parse_mp3_frame_header header).getD 1 0 = 2) ∧
    ((parse_mp3_frame_header header).getD 2 0 = 1 ∨
      (parse_mp3_frame_header header).getD 2 0 = 2 ∨
      (parse_mp3_frame_header header).getD 2 0 = 3) ∧
    0 < (parse_mp3_frame_header header).getD 3 0 ∧
    0 < (parse_mp3_frame_header header).getD 4 0 ∧
    (parse_mp3_frame_header header).length = 5 ∧
    (parse_mp3_frame_header [0xFF, 0xFF, 0x14]).getD 0 0 = 32 ∧
    (parse_mp3_frame_header [0xFF, 0xE3, 0xEA]).getD 0 0 = 2881 := by
  rw [parse_mp3_frame_header_eq] at h ⊢
  split_ifs at h ⊢ with hs
  · obtain ⟨⟨h1, h2⟩, h3, h4, h5, h6, h7⟩ :=
      frameInfoOfFields_range _ _ _ _ _ (field_lt_four (header.getD 1 0 >>> 3))
        (field_lt_four (header.getD 1 0 >>> 1)) (field_lt_sixteen (header.getD 2 0 >>> 4))
        (field_lt_four (header.getD 2 0 >>> 2)) (field_lt_two (header.getD 2 0 >>> 1)) h
    exact ⟨⟨h1, h2, by omega⟩, h3, h4, h5, h6, h7, by decide, by decide⟩
  · exact absurd h (by decide)

/-- Witness of C36: the header `FF FB 90` of an MPEG 1 Layer III frame at
128 kbit/s and 44.1 kHz. -/
theorem parse_mp3_frame_header_range_witness :
    parse_mp3_frame_header [0xFF, 0xFB, 0x90] = [417, 1, 3, 128000, 44100] ∧
      (32 ≤ (parse_mp3_frame_header [0xFF, 0xFB, 0x90]).getD 0 0 ∧
        (parse_mp3_frame_header [0xFF, 0xFB, 0x90]).getD 0 0 ≤ 2881 ∧
        (parse_mp3_frame_header [0xFF, 0xFB, 0x90]).getD 0 0 ≤ 4096) :=
  ⟨by decide, (parse_mp3_frame_header_range [0xFF, 0xFB, 0x90] (by decide)).1⟩

/-! ## What `extractFile` writes is read from the device in order -/

theorem markerScan_hit_le (readBuffer : List Nat) (formatIndex chunkBytes : Nat) :
    ∀ (js : List Nat) (xrefFound trailerFound : Bool) (w : Nat),
      (∀ j ∈ js, j + (endMarkerOf formatIndex).length ≤ chunkBytes) →
      (markerScan readBuffer formatIndex js xrefFound trailerFound).hit = some w →
      w ≤ chunkBytes
  | [], _, _, w, _, h => by simp [markerScan] at h
  | j :: js, xrefFound, trailerFound, w, hjs, h => by
    rw [markerScan] at h
    by_cases hm : matchesSignature readBuffer j (endMarkerOf formatIndex) formatIndex = true
    · simp only [hm, if_true, Option.some.injEq] at h
      rw [← h]
      exact hjs j (List.mem_cons_self _ _)
    · simp only [hm, Bool.false_eq_true, if_false] at h
      exact markerScan_hit_le readBuffer formatIndex chunkBytes js _ _ w
        (fun j' hj' => hjs j' (List.mem_cons_of_mem _ hj')) h

theorem genericInner_hit_le (readBuffer : List Nat) (j chunkBytes : Nat) :
    ∀ (ks : List Nat) (w : Nat), (∀ k ∈ ks, k + (signatureOf j).length ≤ chunkBytes) →
      genericInner readBuffer j ks = some w → w ≤ chunkBytes
  | [], w, _, h => by simp [genericInner] at h
  | k :: ks, w, hks, h => by
    rw [genericInner] at h
    split_ifs at h with hm
    · simp only [Option.some.injEq] at h
      rw [← h]
      exact hks k (List.mem_cons_self _ _)
    · exact genericInner_hit_le readBuffer j chunkBytes ks w
        (fun k' hk' => hks k' (List.mem_cons_of_mem _ hk')) h

theorem genericScan_hit_le (readBuffer : List Nat) (chunkBytes : Nat) :
    ∀ (js : List Nat) (w : Nat), genericScan readBuffer chunkBytes js = some w →
      w ≤ chunkBytes
  | [], w, h => by simp [genericScan] at h
  | j :: js, w, h => by
    rw [genericScan] at h
    cases hi : genericInner readBuffer j
        (List.range (chunkBytes + 1 - (signatureOf j).length)) with
    | some w' =>
      rw [hi] at h
      simp only [Option.some.injEq] at h
      rw [← h]
      exact genericInner_hit_le readBuffer j chunkBytes _ w' (fun k hk => by
        have := List.mem_range.mp hk
        omega) hi
    | none =>
      rw [hi] at h
      exact genericScan_hit_le readBuffer chunkBytes js w h

/-- A pass of the loop body of `extractFile` appends the first `w` bytes of the
chunk just read, all of them when no end was found. -/
theorem processChunk_written (formatIndex : Nat) (st : ScanState) (chunk : List Nat) :
    ∃ w, w ≤ chunk.length ∧
      (processChunk formatIndex st chunk).written = st.written ++ chunk.take w ∧
      ((processChunk formatIndex st chunk).foundEnd = false → w = chunk.length) := by
  unfold processChunk
  simp only
  generalize hscan : (if endMarkerOf formatIndex = GENERIC_END then
      (⟨st.xrefFound, st.trailerFound,
        genericScan (chunk ++ st.readBuffer.drop chunk.length) chunk.length
          (List.range SupportedFileCount)⟩ : ChunkScan)
    else
      markerScan (chunk ++ st.readBuffer.drop chunk.length) formatIndex
        (List.range (chunk.length + 1 - (endMarkerOf formatIndex).length))
        st.xrefFound st.trailerFound) = scan
  have hle : ∀ w, scan.hit = some w → w ≤ chunk.length := by
    intro w hw
    rw [← hscan] at hw
    split_ifs at hw with hg
    · exact genericScan_hit_le _ _ _ w hw
    · exact markerScan_hit_le _ _ chunk.length _ _ _ w (fun j hj => by
        have := List.mem_range.mp hj
        omega) hw
  cases hh : scan.hit with
  | none =>
    refine ⟨chunk.length, le_refl _, ?_, fun _ => rfl⟩
    simp only [Option.getD_none]
    rw [List.take_append_of_le_length (le_refl _)]
  | some w =>
    refine ⟨w, hle w hh, ?_, fun hf => ?_⟩
    · simp only [Option.getD_some]
      rw [List.take_append_of_le_length (hle w hh)]
    · simp at hf

theorem take_take_chunk (rest : List Nat) (w c : Nat) (hw : w ≤ (rest.take c).length) :
    (rest.take c).take w = rest.take w := by
  rw [List.take_take, Nat.min_eq_left]
  rw [List.length_take] at hw
  omega

/-- The bytes the loop of `extractFile` has written when it is left are what
it had written before, followed by the first bytes of the stream. -/
theorem extractLoop_written (formatIndex : Nat) :
    ∀ (n : Nat) (rest : List Nat) (st : ScanState), rest.length = n →
      ∃ w, (extractLoop formatIndex rest st).state.written = st.written ++ rest.take w := by
  intro n
  induction n using Nat.strong_induction_on with
  | _ n ih =>
    intro rest st hn
    by_cases hfe : st.foundEnd = true
    · exact ⟨0, by rw [extractLoop_found _ _ _ hfe]; simp [LoopExit.state]⟩
    · have hfe' : st.foundEnd = false := by simpa using hfe
      by_cases hnil : rest = []
      · exact ⟨0, by rw [hnil, extractLoop_nil]; simp [LoopExit.state]⟩
      · have hpos : 0 < rest.length := List.length_pos.mpr hnil
        obtain ⟨w0, hw0, hwr, hall⟩ := processChunk_written formatIndex st (rest.take chunkSize)
        rw [extractLoop_step formatIndex rest st hfe' hnil]
        split_ifs with hlarge
        · exact ⟨w0, by
            show (processChunk formatIndex st (rest.take chunkSize)).written = _
            rw [hwr, take_take_chunk _ _ _ hw0]⟩
        · by_cases hfe2 : (processChunk formatIndex st (rest.take chunkSize)).foundEnd = true
          · exact ⟨w0, by
              rw [extractLoop_found _ _ _ hfe2]
              show (processChunk formatIndex st (rest.take chunkSize)).written = _
              rw [hwr, take_take_chunk _ _ _ hw0]⟩
          · have hw : w0 = (rest.take chunkSize).length := hall (by simpa using hfe2)
            obtain ⟨w1, h1⟩ := ih (rest.drop chunkSize).length (by
              rw [List.length_drop, chunkSize]; omega) (rest.drop chunkSize)
              (processChunk formatIndex st (rest.take chunkSize)) rfl
            refine ⟨chunkSize + w1, ?_⟩
            rw [h1, hwr, hw, List.take_length, List.append_assoc, List.take_add]

theorem scanFrom_written_take (device : List Nat) (fileStart formatIndex : Nat) :
    ∃ n, (scanFrom device fileStart formatIndex).state.written =
      (device.drop fileStart).take n := by
  obtain ⟨w, hw⟩ := extractLoop_written formatIndex _ (device.drop fileStart) initialScan rfl
  exact ⟨w, by rw [scanFrom, hw]; rfl⟩

/-- C38: whatever the device, the start offset and the format index, the bytes
that the loop of `extractFile` has written when it is left, by its condition or
by `goto DELETE`, are the first `n` bytes of the device from `fileStart`, for
some `n`; and a file that `extractFile` leaves in place holds such bytes,
followed by the five bytes `%%EOF` in the PDF synthesis case only. -/
theorem extractFile_writes_device_bytes (io : IoEnv) (device : List Nat)
    (fileStart : Nat) (fileCount : Int) (formatIndex : Nat) (File_Count : List Int) :
    (∃ n, (scanFrom device fileStart formatIndex).state.written =
      (device.drop fileStart).take n) ∧
    (scanFrom device fileStart formatIndex).state.written <+: device.drop fileStart ∧
    ∀ file,
      (extractFile io device fileStart fileCount formatIndex File_Count).outFile =
        some file →
      ∃ n, file.content = (device.drop fileStart).take n ∨
        (formatIndex = 2 ∧ (scanFrom device fileStart formatIndex).state.foundEnd = false ∧
          file.content = (device.drop fileStart).take n ++ [0x25, 0x25, 0x45, 0x4F, 0x46]) := by
  obtain ⟨n, hn⟩ := scanFrom_written_take device fileStart formatIndex
  refine ⟨⟨n, hn⟩, by rw [hn]; exact List.take_prefix _ _, ?_⟩
  intro file hfile
  obtain ⟨_, _, st, hs, _, _, _, _, _, hc⟩ := extractFile_outFile_some hfile
  rw [hs] at hn
  rcases hc with ⟨_, hc⟩ | ⟨hfe, h2, hc⟩
  · exact ⟨n, Or.inl (by rw [hc]; exact hn)⟩
  · refine ⟨n, Or.inr ⟨h2, by rw [hs]; exact hfe, ?_⟩⟩
    rw [hc, h2]
    exact congrArg (· ++ endMarkerOf 2) hn

/-- Witness of C38: the PNG candidate `pngFile 1004` followed by two bytes is
left in place as the first 1024 bytes of the device. -/
theorem extractFile_writes_device_bytes_witness :
    (extractFile ioOk (pngFile 1004 ++ [7, 7]) 0 1 0 initialFileCount).outFile =
        some ⟨0, 1, pngFile 1004⟩ ∧
      ∃ n, pngFile 1004 = ((pngFile 1004 ++ [7, 7]).drop 0).take n ∨
        (0 = 2 ∧ (scanFrom (pngFile 1004 ++ [7, 7]) 0 0).state.foundEnd = false ∧
          pngFile 1004 =
            ((pngFile 1004 ++ [7, 7]).drop 0).take n ++ [0x25, 0x25, 0x45, 0x4F, 0x46]) := by
  have h : (extractFile ioOk (pngFile 1004 ++ [7, 7]) 0 1 0 initialFileCount).outFile =
      some ⟨0, 1, pngFile 1004⟩ := by
    rw [extractFile_pngFile 1004 [7, 7] 1 initialFileCount (by decide) (by decide) (by decide)]
    rfl
  exact ⟨h, (extractFile_writes_device_bytes ioOk (pngFile 1004 ++ [7, 7]) 0 1 0
    initialFileCount).2.2 ⟨0, 1, pngFile 1004⟩ h⟩

/-! ## The formats that `run` dispatches -/

theorem onlyFormats_refl (P : Nat → Prop) (st : RunState) : OnlyFormats P st st :=
  ⟨fun _ _ => rfl, [], (List.append_nil _).symm, fun _ h => absurd h (List.not_mem_nil _)⟩

theorem onlyFormats_trans {P : Nat → Prop} {a b c : RunState} (h1 : OnlyFormats P a b)
    (h2 : OnlyFormats P b c) : OnlyFormats P a c := by
  obtain ⟨c1, m1, e1, p1⟩ := h1
  obtain ⟨c2, m2, e2, p2⟩ := h2
  refine ⟨fun f hf => (c2 f hf).trans (c1 f hf), m1 ++ m2,
    by rw [e2, e1, List.append_assoc], ?_⟩
  intro out hout
  rcases List.mem_append.mp hout with h | h
  · exact p1 out h
  · exact p2 out h

/-- A step of the scan for format `formatIndex` moves the counter of that
format only and adds files of that format only. -/
theorem scanStep_only (ex : Extractors) (io : IoEnv) (device buffer : List Nat)
    (offset formatIndex i : Nat) (st : RunState) (P : Nat → Prop) (hP : P formatIndex) :
    OnlyFormats P st (scanStep ex io device buffer offset formatIndex i st).1 := by
  unfold scanStep
  simp only
  split_ifs with h1 h2 h3
  · have h4 : formatIndex = 4 := by
      simp only [Bool.and_eq_true, beq_iff_eq] at h1
      exact h1.1.1
    subst h4
    refine ⟨fun f hf => ?_, _, rfl, ?_⟩
    · have hne : f ≠ 4 := fun h => hf (h ▸ hP)
      simp only
      rw [List.getD_eq_getElem?_getD, List.getElem?_set_ne (Ne.symm hne),
        ← List.getD_eq_getElem?_getD, bumpCount_getD_ne _ hne]
    · intro out hout
      simp only [Option.mem_toList, Option.mem_def, Option.map_eq_some'] at hout
      obtain ⟨c, -, hc⟩ := hout
      rw [← hc]
      exact hP
  · have h7 : formatIndex = 7 := by
      simp only [Bool.and_eq_true, beq_iff_eq] at h2
      exact h2.1
    subst h7
    refine ⟨fun f _ => rfl, _, rfl, ?_⟩
    intro out hout
    simp only [Option.mem_toList, Option.mem_def, Option.map_eq_some'] at hout
    obtain ⟨c, -, hc⟩ := hout
    rw [← hc]
    exact hP
  · have hs := extractFile_shape io device (offset + i) (st.fileCount + 1) formatIndex
      st.File_Count
    refine ⟨fun f hf => ?_, _, rfl, ?_⟩
    · have hne : f ≠ formatIndex := fun h => hf (h ▸ hP)
      simp only
      rcases hs.1 with h | h
      · rw [h]
      · rw [h, bumpCount_getD_ne _ hne]
    · intro out hout
      simp only [Option.mem_toList, Option.mem_def] at hout
      rw [(hs.2 out hout).1]
      exact hP
  · exact onlyFormats_refl P st

theorem scanPositions_only (ex : Extractors) (io : IoEnv) (device buffer : List Nat)
    (offset bytesRead formatIndex : Nat) (P : Nat → Prop) (hP : P formatIndex) :
    ∀ (n i : Nat) (st : RunState), bytesRead + overlap + 1 - i = n →
      OnlyFormats P st
        (scanPositions ex io device buffer offset bytesRead formatIndex i st) := by
  intro n
  induction n using Nat.strong_induction_on with
  | _ n ih =>
    intro i st hn
    by_cases h : i + (signatureOf formatIndex).length ≤ bytesRead + overlap
    · rw [scanPositions_step _ _ _ _ _ _ _ _ _ h]
      have hi := scanStep_index_le ex io device buffer offset formatIndex i st
      exact onlyFormats_trans
        (scanStep_only ex io device buffer offset formatIndex i st P hP)
        (ih _ (by omega) _ _ rfl)
    · rw [scanPositions_done _ _ _ _ _ _ _ _ _ h]
      exact onlyFormats_refl P st

theorem scanFormats_only (ex : Extractors) (io : IoEnv) (device buffer : List Nat)
    (File_Supported : List Bool) (offset bytesRead : Nat) :
    ∀ (formats : List Nat) (st : RunState), (∀ g ∈ formats, g < SupportedFileCount) →
      OnlyFormats (fun f => f < SupportedFileCount ∧ File_Supported.getD f false = true) st
        (scanFormats ex io device buffer File_Supported offset bytesRead formats st)
  | [], st, _ => onlyFormats_refl _ st
  | g :: more, st, hg => by
    have ih := scanFormats_only ex io device buffer File_Supported offset bytesRead more
    rw [scanFormats]
    split_ifs with hm
    · exact ih st (fun g' h' => hg g' (List.mem_cons_of_mem _ h'))
    · exact onlyFormats_trans
        (scanPositions_only ex io device buffer offset bytesRead g _
          ⟨hg g (List.mem_cons_self _ _), by simpa using hm⟩ _ 0 st rfl)
        (ih _ (fun g' h' => hg g' (List.mem_cons_of_mem _ h')))

theorem runLoop_only (ex : Extractors) (io : IoEnv) (device : List Nat)
    (File_Supported : List Bool) (cancelCheck : Nat → Bool) :
    ∀ (n : Nat) (rest buffer : List Nat) (offset chunkNo : Nat) (st : RunState),
      rest.length = n →
      OnlyFormats (fun f => f < SupportedFileCount ∧ File_Supported.getD f false = true) st
        (runLoop ex io device File_Supported cancelCheck rest buffer offset chunkNo st).2 := by
  intro n
  induction n using Nat.strong_induction_on with
  | _ n ih =>
    intro rest buffer offset chunkNo st hn
    rw [runLoop]
    split_ifs with h1 h2
    · exact onlyFormats_refl _ st
    · exact onlyFormats_refl _ st
    · simp only
      refine onlyFormats_trans (scanFormats_only ex io device _ File_Supported offset _
        (List.range SupportedFileCount) st (fun g hg => List.mem_range.mp hg))
        (ih _ ?_ _ _ _ _ _ rfl)
      simp only [List.length_take, List.length_drop, chunkSize] at h1 ⊢
      omega

theorem runLoop_stop (ex : Extractors) (io : IoEnv) (device : List Nat)
    (File_Supported : List Bool) (cancelCheck : Nat → Bool) (rest buffer : List Nat)
    (offset chunkNo : Nat) (st : RunState) (hne : rest ≠ [])
    (hcancel : cancelCheck chunkNo = true) :
    runLoop ex io device File_Supported cancelCheck rest buffer offset chunkNo st =
      (false, st) := by
  have hlen : ¬ (List.take chunkSize rest).length = 0 := by
    have : 0 < rest.length := List.length_pos.mpr hne
    simp only [List.length_take, chunkSize]; omega
  rw [runLoop, dif_neg hlen, if_pos hcancel]

/-- The step of the scan for a format other than 7 does not call the MP4
members, and for a format other than 4 it does not call the MP3 members. -/
theorem scanStep_members (ex ex2 : Extractors) (io : IoEnv) (device buffer : List Nat)
    (offset formatIndex i : Nat) (st : RunState) (h7 : formatIndex ≠ 7)
    (h4 : formatIndex = 4 → ex2.matchesMP3Header = ex.matchesMP3Header ∧
      ex2.extractMP3File = ex.extractMP3File) :
    scanStep ex2 io device buffer offset formatIndex i st =
      scanStep ex io device buffer offset formatIndex i st := by
  have e7 : (formatIndex == 7) = false := by simpa using h7
  by_cases hf : formatIndex = 4
  · obtain ⟨hm, he⟩ := h4 hf
    unfold scanStep
    simp only [e7, hm, he, Bool.false_and, Bool.false_eq_true, if_false]
  · have e4 : (formatIndex == 4) = false := by simpa using hf
    unfold scanStep
    simp only [e7, e4, Bool.false_and, Bool.false_eq_true, if_false]

theorem scanPositions_members (ex ex2 : Extractors) (io : IoEnv) (device buffer : List Nat)
    (offset bytesRead formatIndex : Nat) (h7 : formatIndex ≠ 7)
    (h4 : formatIndex = 4 → ex2.matchesMP3Header = ex.matchesMP3Header ∧
      ex2.extractMP3File = ex.extractMP3File) :
    ∀ (n i : Nat) (st : RunState), bytesRead + overlap + 1 - i = n →
      scanPositions ex2 io device buffer offset bytesRead formatIndex i st =
        scanPositions ex io device buffer offset bytesRead formatIndex i st := by
  intro n
  induction n using Nat.strong_induction_on with
  | _ n ih =>
    intro i st hn
    by_cases h : i + (signatureOf formatIndex).length ≤ bytesRead + overlap
    · rw [scanPositions_step _ _ _ _ _ _ _ _ _ h, scanPositions_step _ _ _ _ _ _ _ _ _ h,
        scanStep_members ex ex2 io device buffer offset formatIndex i st h7 h4]
      have hi := scanStep_index_le ex io device buffer offset formatIndex i st
      exact ih _ (by omega) _ _ rfl
    · rw [scanPositions_done _ _ _ _ _ _ _ _ _ h, scanPositions_done _ _ _ _ _ _ _ _ _ h]

theorem scanFormats_members (ex ex2 : Extractors) (io : IoEnv) (device buffer : List Nat)
    (File_Supported : List Bool) (offset bytesRead : Nat)
    (h4 : File_Supported.getD 4 false = true →
      ex2.matchesMP3Header = ex.matchesMP3Header ∧ ex2.extractMP3File = ex.extractMP3File) :
    ∀ (formats : List Nat) (st : RunState), (∀ g ∈ formats, g < SupportedFileCount) →
      scanFormats ex2 io device buffer File_Supported offset bytesRead formats st =
        scanFormats ex io device buffer File_Supported offset bytesRead formats st
  | [], _, _ => rfl
  | g :: more, st, hg => by
    have ih := scanFormats_members ex ex2 io device buffer File_Supported offset bytesRead h4
      more
    have hg5 : g < SupportedFileCount := hg g (List.mem_cons_self _ _)
    rw [scanFormats, scanFormats]
    split_ifs with hm
    · exact ih st (fun g' h' => hg g' (List.mem_cons_of_mem _ h'))
    · rw [scanPositions_members ex ex2 io device buffer offset bytesRead g
        (by rw [SupportedFileCount] at hg5; omega)
        (fun h => h4 (by rw [← h]; simpa using hm)) _ 0 st rfl]
      exact ih _ (fun g' h' => hg g' (List.mem_cons_of_mem _ h'))

theorem runLoop_members (ex ex2 : Extractors) (io : IoEnv) (device : List Nat)
    (File_Supported : List Bool) (cancelCheck : Nat → Bool)
    (h4 : File_Supported.getD 4 false = true →
      ex2.matchesMP3Header = ex.matchesMP3Header ∧ ex2.extractMP3File = ex.extractMP3File) :
    ∀ (n : Nat) (rest buffer : List Nat) (offset chunkNo : Nat) (st : RunState),
      rest.length = n →
      runLoop ex2 io device File_Supported cancelCheck rest buffer offset chunkNo st =
        runLoop ex io device File_Supported cancelCheck rest buffer offset chunkNo st := by
  intro n
  induction n using Nat.strong_induction_on with
  | _ n ih =>
    intro rest buffer offset chunkNo st hn
    by_cases hnil : rest = []
    · rw [hnil, runLoop_nil, runLoop_nil]
    · have hpos : 0 < rest.length := List.length_pos.mpr hnil
      by_cases hc : cancelCheck chunkNo = true
      · rw [runLoop_stop _ _ _ _ _ _ _ _ _ _ hnil hc, runLoop_stop _ _ _ _ _ _ _ _ _ _ hnil hc]
      · have hc' : cancelCheck chunkNo = false := by simpa using hc
        rw [runLoop_step _ _ _ _ _ _ _ _ _ _ hnil hc', runLoop_step _ _ _ _ _ _ _ _ _ _ hnil hc',
          scanFormats_members ex ex2 io device _ File_Supported offset _ h4
            (List.range SupportedFileCount) st (fun g hg => List.mem_range.mp hg)]
        refine ih _ ?_ _ _ _ _ _ rfl
        simp only [List.length_drop, chunkSize]
        omega

/-- C35: every file that `run` leaves has a format index below 5 that the mask
enables; the counter `File_Count[f]` of every other index `f` (a disabled
format, MP4 at 7, DOC, DOCX, EXE and ELF) is as the call found it; and the
result of `run` does not depend on the MP4 members, nor on the MP3 members
when the mask disables MP3: they are not called. -/
theorem run_dispatches_enabled_formats (ex : Extractors) (io : IoEnv)
    (device : Option (List Nat)) (File_Supported : List Bool) (cancelCheck : Nat → Bool)
    (File_Count : List Int) :
    (∀ out ∈ (run ex io device File_Supported cancelCheck File_Count).2.emitted,
      out.formatIndex < 5 ∧ File_Supported.getD out.formatIndex false = true) ∧
    (∀ f, ¬ (f < 5 ∧ File_Supported.getD f false = true) →
      (run ex io device File_Supported cancelCheck File_Count).2.File_Count.getD f 0 =
        File_Count.getD f 0) ∧
    (∀ ex2 : Extractors,
      (File_Supported.getD 4 false = true →
        ex2.matchesMP3Header = ex.matchesMP3Header ∧
          ex2.extractMP3File = ex.extractMP3File) →
      run ex2 io device File_Supported cancelCheck File_Count =
        run ex io device File_Supported cancelCheck File_Count) := by
  cases device with
  | none =>
    exact ⟨fun out h => absurd h (List.not_mem_nil _), fun _ _ => rfl, fun _ _ => rfl⟩
  | some image =>
    obtain ⟨hc, more, hm, hp⟩ := runLoop_only ex io image File_Supported cancelCheck _ image
      (List.replicate (chunkSize + overlap) 0) 0 0 ⟨File_Count, 0, 0, []⟩ rfl
    refine ⟨fun out hout => ?_, fun f hf => ?_, fun ex2 h4 => ?_⟩
    · rw [run_some, hm] at hout
      exact hp out (by simpa using hout)
    · rw [run_some]
      exact hc f hf
    · rw [run_some, run_some]
      exact runLoop_members ex ex2 io image File_Supported cancelCheck h4 _ _ _ _ _ _ rfl

/-! ## The box size that `extractMP4File` reads, and the sizes it rejects -/

theorem shiftLeft_or (a b k : Nat) : (a ||| b) <<< k = a <<< k ||| b <<< k := by
  apply Nat.eq_of_testBit_eq
  intro j
  simp only [Nat.testBit_shiftLeft, Nat.testBit_or]
  cases decide (j ≥ k) <;> simp

theorem shiftLeft_or_byte (a b : Nat) (hb : b < 256) : a <<< 8 ||| b = a * 256 + b := by
  rw [Nat.shiftLeft_eq, Nat.mul_comm a, ← Nat.mul_add_lt_is_or (show b < 2 ^ 8 from hb)]

/-- The size the three branches compute is the big-endian value of the four
bytes. -/
theorem boxSizeAt_big_endian (buffer : List Nat) (i : Nat)
    (h1 : buffer.getD (i + 1) 0 < 256) (h2 : buffer.getD (i + 2) 0 < 256)
    (h3 : buffer.getD (i + 3) 0 < 256) :
    boxSizeAt buffer i = buffer.getD i 0 * 2 ^ 24 + buffer.getD (i + 1) 0 * 2 ^ 16 +
      buffer.getD (i + 2) 0 * 2 ^ 8 + buffer.getD (i + 3) 0 := by
  unfold boxSizeAt
  generalize buffer.getD i 0 = b0
  generalize buffer.getD (i + 1) 0 = b1 at h1
  generalize buffer.getD (i + 2) 0 = b2 at h2
  generalize buffer.getD (i + 3) 0 = b3 at h3
  have e1 : b0 <<< 24 ||| b1 <<< 16 = (b0 <<< 8 ||| b1) <<< 16 := by
    rw [shiftLeft_or (b0 <<< 8) b1 16, ← Nat.shiftLeft_add]
  have e2 : (b0 <<< 8 ||| b1) <<< 16 ||| b2 <<< 8 = ((b0 <<< 8 ||| b1) <<< 8 ||| b2) <<< 8 := by
    rw [shiftLeft_or ((b0 <<< 8 ||| b1) <<< 8) b2 8, ← Nat.shiftLeft_add]
  rw [e1, e2, shiftLeft_or_byte _ _ h3, shiftLeft_or_byte _ _ h2, shiftLeft_or_byte _ _ h1]
  ring

theorem take_drop_length_ge (buffer : List Nat) (i size n : Nat) (hb : i + 8 ≤ buffer.length)
    (hn : i + 8 ≤ n) (hs : 8 ≤ size) :
    8 ≤ ((buffer.drop i).take (min size (n - i))).length := by
  rw [List.length_take, List.length_drop]
  omega

/-- A header of the type of `FYTP_SIGNATURE` met while `foundFytp` is not set:
a size below 8 or above 200 MiB leaves everything as it is, any other size
has at least eight bytes written to the output stream. -/
theorem boxStep_fytp_size (stream : List Nat) (n i : Nat) (st : BoxScan) (h : i + 8 ≤ n)
    (hfound : st.foundFytp = false)
    (hmatch : matchesMP4Header st.buffer FYTP_SIGNATURE i = true) :
    ((boxSizeAt st.buffer i < 8 ∨ 200 * 1024 * 1024 < boxSizeAt st.buffer i) →
      boxStep stream n i st = (st, some i)) ∧
    (¬ (boxSizeAt st.buffer i < 8 ∨ 200 * 1024 * 1024 < boxSizeAt st.buffer i) →
      ∃ w, 8 ≤ w.length ∧ (boxStep stream n i st).1.outFile = st.outFile ++ w) := by
  have hb := ((matchesMP4Header_fytp _ _).mp hmatch).1
  constructor
  · intro hs
    unfold boxStep
    rw [if_neg (by omega), hfound, hmatch]
    simp only [Bool.not_false, Bool.and_self, if_true]
    rw [if_pos (by simp only [Bool.or_eq_true, decide_eq_true_eq]; exact hs)]
  · intro hs
    obtain ⟨more, hw⟩ := writeBoxData_written st.buffer (stream.drop st.consumed)
      (boxSizeAt st.buffer i) i n
    refine ⟨(writeBoxData st.buffer (stream.drop st.consumed)
      (boxSizeAt st.buffer i) i n).written, ?_, ?_⟩
    · rw [hw, List.length_append]
      have := take_drop_length_ge st.buffer i (boxSizeAt st.buffer i) n hb h (by omega)
      omega
    · unfold boxStep
      rw [if_neg (by omega), hfound, hmatch]
      simp only [Bool.not_false, Bool.and_self, if_true]
      rw [if_neg (by simp only [Bool.or_eq_true, decide_eq_true_eq]; exact hs)]
      split_ifs <;> rfl

/-- A header of the type of `MOOV_SIGNATURE` met while `foundMoov` is not
set. -/
theorem boxStep_moov_size (stream : List Nat) (n i : Nat) (st : BoxScan) (h : i + 8 ≤ n)
    (hfound : st.foundMoov = false)
    (hmatch : matchesMP4Header st.buffer MOOV_SIGNATURE i = true) :
    ((boxSizeAt st.buffer i < 8 ∨ 200 * 1024 * 1024 < boxSizeAt st.buffer i) →
      boxStep stream n i st = (st, some i)) ∧
    (¬ (boxSizeAt st.buffer i < 8 ∨ 200 * 1024 * 1024 < boxSizeAt st.buffer i) →
      ∃ w, 8 ≤ w.length ∧ (boxStep stream n i st).1.outFileMOOV = st.outFileMOOV ++ w) := by
  have hb := ((matchesMP4Header_moov _ _).mp hmatch).1
  have hf : matchesMP4Header st.buffer FYTP_SIGNATURE i = false :=
    no_fytp_header _ _ (fun hh => by
      rw [((matchesMP4Header_moov _ _).mp hmatch).2.1] at hh
      exact absurd hh.1 (by decide))
  constructor
  · intro hs
    unfold boxStep
    rw [if_neg (by omega), hf, hfound, hmatch]
    simp only [Bool.and_false, Bool.false_eq_true, if_false, Bool.not_false, Bool.and_self,
      if_true]
    rw [if_pos (by simp only [Bool.or_eq_true, decide_eq_true_eq]; exact hs)]
  · intro hs
    obtain ⟨more, hw⟩ := writeBoxData_written st.buffer (stream.drop st.consumed)
      (boxSizeAt st.buffer i) i n
    refine ⟨(writeBoxData st.buffer (stream.drop st.consumed)
      (boxSizeAt st.buffer i) i n).written, ?_, ?_⟩
    · rw [hw, List.length_append]
      have := take_drop_length_ge st.buffer i (boxSizeAt st.buffer i) n hb h (by omega)
      omega
    · unfold boxStep
      rw [if_neg (by omega), hf, hfound, hmatch]
      simp only [Bool.and_false, Bool.false_eq_true, if_false, Bool.not_false, Bool.and_self,
        if_true]
      rw [if_neg (by simp only [Bool.or_eq_true, decide_eq_true_eq]; exact hs)]
      split_ifs <;> rfl

/-- A header of the type of `MDAT_SIGNATURE` met while `foundMdat` is not
set. -/
theorem boxStep_mdat_size (stream : List Nat) (n i : Nat) (st : BoxScan) (h : i + 8 ≤ n)
    (hfound : st.foundMdat = false)
    (hmatch : matchesMP4Header st.buffer MDAT_SIGNATURE i = true) :
    (boxSizeAt st.buffer i < 8 → boxStep stream n i st = (st, some i)) ∧
    (¬ boxSizeAt st.buffer i < 8 →
      ∃ w, 8 ≤ w.length ∧ (boxStep stream n i st).1.outFileMDAT = st.outFileMDAT ++ w) := by
  have hb := ((matchesMP4Header_mdat _ _).mp hmatch).1
  obtain ⟨hf, hm⟩ := mdat_excludes st.buffer i hmatch
  constructor
  · intro hs
    unfold boxStep
    rw [if_neg (by omega), hf, hm, hfound, hmatch]
    simp only [Bool.and_false, Bool.false_eq_true, if_false, Bool.not_false, Bool.and_self,
      if_true]
    rw [if_pos hs]
  · intro hs
    obtain ⟨more, hw⟩ := writeBoxData_written st.buffer (stream.drop st.consumed)
      (boxSizeAt st.buffer i) i n
    refine ⟨(writeBoxData st.buffer (stream.drop st.consumed)
      (boxSizeAt st.buffer i) i n).written, ?_, ?_⟩
    · rw [hw, List.length_append]
      have := take_drop_length_ge st.buffer i (boxSizeAt st.buffer i) n hb h (by omega)
      omega
    · unfold boxStep
      rw [if_neg (by omega), hf, hm, hfound, hmatch]
      simp only [Bool.and_false, Bool.false_eq_true, if_false, Bool.not_false, Bool.and_self,
        if_true]
      rw [if_neg hs]
      split_ifs <;> rfl

theorem append_ne_self_of_length (l w : List Nat) (hw : 8 ≤ w.length) : l ++ w ≠ l := by
  intro h
  have := congrArg List.length h
  rw [List.length_append] at this
  omega

/-- C33: at a position `i` where eight bytes of the data lie in the buffer,
the size that `extractMP4File` uses is the big-endian value of the four bytes
at `i` (the cells hold bytes).  A header of the type of `FYTP_SIGNATURE` met
while `foundFytp` is not set, and a `moov` header met while `foundMoov` is not
set, are passed with nothing written and the flag as it was exactly when that
size is below 8 or above `200 * 2 ^ 20`, and the scan then goes on at `i + 1`
with every local as it was; an `mdat` header met while `foundMdat` is not set
is passed in that way exactly when the size is below 8. -/
theorem boxStep_size_rules (stream : List Nat) (n i : Nat) (st : BoxScan) (h : i + 8 ≤ n)
    (h1 : st.buffer.getD (i + 1) 0 < 256) (h2 : st.buffer.getD (i + 2) 0 < 256)
    (h3 : st.buffer.getD (i + 3) 0 < 256) :
    boxSizeAt st.buffer i = st.buffer.getD i 0 * 2 ^ 24 + st.buffer.getD (i + 1) 0 * 2 ^ 16 +
      st.buffer.getD (i + 2) 0 * 2 ^ 8 + st.buffer.getD (i + 3) 0 ∧
    (st.foundFytp = false → matchesMP4Header st.buffer FYTP_SIGNATURE i = true →
      (((boxStep stream n i st).1.outFile = st.outFile ∧
          (boxStep stream n i st).1.foundFytp = st.foundFytp) ↔
        (boxSizeAt st.buffer i < 8 ∨ 200 * 2 ^ 20 < boxSizeAt st.buffer i)) ∧
      ((boxSizeAt st.buffer i < 8 ∨ 200 * 2 ^ 20 < boxSizeAt st.buffer i) →
        boxStep stream n i st = (st, some i))) ∧
    (st.foundMoov = false → matchesMP4Header st.buffer MOOV_SIGNATURE i = true →
      (((boxStep stream n i st).1.outFileMOOV = st.outFileMOOV ∧
          (boxStep stream n i st).1.foundMoov = st.foundMoov) ↔
        (boxSizeAt st.buffer i < 8 ∨ 200 * 2 ^ 20 < boxSizeAt st.buffer i)) ∧
      ((boxSizeAt st.buffer i < 8 ∨ 200 * 2 ^ 20 < boxSizeAt st.buffer i) →
        boxStep stream n i st = (st, some i))) ∧
    (st.foundMdat = false → matchesMP4Header st.buffer MDAT_SIGNATURE i = true →
      (((boxStep stream n i st).1.outFileMDAT = st.outFileMDAT ∧
          (boxStep stream n i st).1.foundMdat = st.foundMdat) ↔
        boxSizeAt st.buffer i < 8) ∧
      (boxSizeAt st.buffer i < 8 → boxStep stream n i st = (st, some i))) := by
  have e : 200 * 2 ^ 20 = 200 * 1024 * 1024 := by norm_num
  rw [e]
  refine ⟨boxSizeAt_big_endian st.buffer i h1 h2 h3, ?_, ?_, ?_⟩
  · intro hfound hmatch
    obtain ⟨hrej, hacc⟩ := boxStep_fytp_size stream n i st h hfound hmatch
    refine ⟨⟨fun hsame => ?_, fun hs => by rw [hrej hs]; exact ⟨rfl, rfl⟩⟩, hrej⟩
    by_contra hs
    obtain ⟨w, hw, hout⟩ := hacc hs
    rw [hout] at hsame
    exact append_ne_self_of_length _ _ hw hsame.1
  · intro hfound hmatch
    obtain ⟨hrej, hacc⟩ := boxStep_moov_size stream n i st h hfound hmatch
    refine ⟨⟨fun hsame => ?_, fun hs => by rw [hrej hs]; exact ⟨rfl, rfl⟩⟩, hrej⟩
    by_contra hs
    obtain ⟨w, hw, hout⟩ := hacc hs
    rw [hout] at hsame
    exact append_ne_self_of_length _ _ hw hsame.1
  · intro hfound hmatch
    obtain ⟨hrej, hacc⟩ := boxStep_mdat_size stream n i st h hfound hmatch
    refine ⟨⟨fun hsame => ?_, fun hs => by rw [hrej hs]; exact ⟨rfl, rfl⟩⟩, hrej⟩
    by_contra hs
    obtain ⟨w, hw, hout⟩ := hacc hs
    rw [hout] at hsame
    exact append_ne_self_of_length _ _ hw hsame.1

/-- Witness of C33: a header `00 00 00 04 66 79 70 74` has size 4 and is
passed with every local as it was. -/
theorem boxStep_size_rules_witness :
    boxSizeAt smallBoxScan.buffer 0 = 0 * 2 ^ 24 + 0 * 2 ^ 16 + 0 * 2 ^ 8 + 4 ∧
      boxStep [] 8 0 smallBoxScan = (smallBoxScan, some 0) :=
  ⟨(boxStep_size_rules [] 8 0 smallBoxScan (by decide) (by decide) (by decide)
      (by decide)).1,
    ((boxStep_size_rules [] 8 0 smallBoxScan (by decide) (by decide) (by decide)
      (by decide)).2.1 rfl (by decide)).2 (Or.inl (by decide))⟩

/-! ## After a captured box the scan of the buffer ends -/

/-- A pass of the loop body that sets one of the three flags leaves the
inner loop by `break`. -/
theorem boxStep_flag_break (stream : List Nat) (n i : Nat) (st : BoxScan)
    (h : (boxStep stream n i st).1.foundFytp ≠ st.foundFytp ∨
      (boxStep stream n i st).1.foundMoov ≠ st.foundMoov ∨
      (boxStep stream n i st).1.foundMdat ≠ st.foundMdat) :
    (boxStep stream n i st).2 = none := by
  unfold boxStep at h ⊢
  simp only at h ⊢
  split_ifs at h ⊢ <;> first
    | rfl
    | (exfalso; rcases h with h | h | h <;> exact h rfl)

/-- A small device that begins with a box of the type of `FYTP_SIGNATURE`
which fits: the first pass captures that box and nothing else, and there is
no second pass. -/
theorem boxChunks_head_fypt (device : List Nat) (h8 : 8 ≤ device.length)
    (hsmall : device.length ≤ CHUNK_SIZE)
    (hsize : ∀ k, k < 4 → device.getD k 0 ≠ 0x66 ∧ device.getD k 0 ≠ 0x6D)
    (htype : device.getD 4 0 = 0x66 ∧ device.getD 5 0 = 0x79 ∧ device.getD 6 0 = 0x70 ∧
      device.getD 7 0 = 0x74)
    (hmin : 8 ≤ boxSizeAt device 0) (hfit : boxSizeAt device 0 ≤ device.length) :
    ∃ buffer, boxChunks device initialBoxScan =
      { initialBoxScan with
        buffer := buffer
        outFile := device.take (boxSizeAt device 0)
        foundFytp := true } := by
  obtain ⟨tail, hfill, -, -⟩ := filledBoxBuffer_quiet initialBoxScan.buffer
    (device.take CHUNK_SIZE) quietBoxBuffer_initial
  have htake : device.take CHUNK_SIZE = device := List.take_of_length_le hsmall
  have hdrop : device.drop CHUNK_SIZE = [] := List.drop_of_length_le hsmall
  have hloop := boxLoop_head_fytp (device.drop CHUNK_SIZE) (device.take CHUNK_SIZE) tail
    { initialBoxScan with
      buffer := List.replicate 7 0 ++ device.take CHUNK_SIZE ++ tail
      consumed := 0 } rfl rfl
    (by rw [htake]; exact htype) (by rw [htake]; exact hmin)
    (by rw [htake]; rw [CHUNK_SIZE] at hsmall; omega) (by rw [htake]; exact hfit)
  have hpass := boxChunks_pass device tail initialBoxScan _ h8 hfill hsize hloop
  rw [hpass]
  simp only [initialBoxScan, Bool.and_false, Bool.false_eq_true, if_false, hdrop,
    List.drop_nil, boxChunks_nil, List.nil_append, htake]
  exact ⟨_, rfl⟩

/-- The same for a device that begins with a `moov` box. -/
theorem boxChunks_head_moov (device : List Nat) (h8 : 8 ≤ device.length)
    (hsmall : device.length ≤ CHUNK_SIZE)
    (hsize : ∀ k, k < 4 → device.getD k 0 ≠ 0x66 ∧ device.getD k 0 ≠ 0x6D)
    (htype : device.getD 4 0 = 0x6D ∧ device.getD 5 0 = 0x6F ∧ device.getD 6 0 = 0x6F ∧
      device.getD 7 0 = 0x76)
    (hmin : 8 ≤ boxSizeAt device 0) (hfit : boxSizeAt device 0 ≤ device.length) :
    ∃ buffer, boxChunks device initialBoxScan =
      { initialBoxScan with
        buffer := buffer
        outFileMOOV := device.take (boxSizeAt device 0)
        foundMoov := true } := by
  obtain ⟨tail, hfill, -, -⟩ := filledBoxBuffer_quiet initialBoxScan.buffer
    (device.take CHUNK_SIZE) quietBoxBuffer_initial
  have htake : device.take CHUNK_SIZE = device := List.take_of_length_le hsmall
  have hdrop : device.drop CHUNK_SIZE = [] := List.drop_of_length_le hsmall
  have hloop := boxLoop_head_moov (device.drop CHUNK_SIZE) (device.take CHUNK_SIZE) tail
    { initialBoxScan with
      buffer := List.replicate 7 0 ++ device.take CHUNK_SIZE ++ tail
      consumed := 0 } rfl rfl
    (by rw [htake]; exact htype) (by rw [htake]; exact hmin)
    (by rw [htake]; rw [CHUNK_SIZE] at hsmall; omega) (by rw [htake]; exact hfit)
  have hpass := boxChunks_pass device tail initialBoxScan _ h8 hfill hsize hloop
  rw [hpass]
  simp only [initialBoxScan, Bool.false_and, Bool.and_false, Bool.false_eq_true, if_false, hdrop,
    List.drop_nil, boxChunks_nil, List.nil_append, htake]
  exact ⟨_, rfl⟩

/-- C34 (what the code does): a pass of the inner loop that captures a box
leaves the loop by `break`, so the scan does not go on behind the box in the
same buffer.  On the 48 bytes of `fyptBox`, a complete `moov` box and, right
after it, a complete `mdat` box, all in the first read, only the first box is
captured: neither `moov` nor `mdat` is, and the file emitted is `fyptBox`.  On
the 40 bytes of the `moov` box and the `mdat` box alone, `moov` is captured and
`mdat` is not. -/
theorem extractMP4File_stops_after_box :
    (∀ (stream : List Nat) (n i : Nat) (st : BoxScan),
      ((boxStep stream n i st).1.foundFytp ≠ st.foundFytp ∨
        (boxStep stream n i st).1.foundMoov ≠ st.foundMoov ∨
        (boxStep stream n i st).1.foundMdat ≠ st.foundMdat) →
      (boxStep stream n i st).2 = none) ∧
    ((boxChunks boxesInOneRead initialBoxScan).foundFytp = true ∧
      (boxChunks boxesInOneRead initialBoxScan).foundMoov = false ∧
      (boxChunks boxesInOneRead initialBoxScan).foundMdat = false ∧
      (boxChunks boxesInOneRead initialBoxScan).outFileMOOV = [] ∧
      (boxChunks boxesInOneRead initialBoxScan).outFileMDAT = []) ∧
    extractMP4File envOk boxesInOneRead 0 1 = some fyptBox ∧
    ((boxChunks (moovBox ++ mdatBox) initialBoxScan).foundMoov = true ∧
      (boxChunks (moovBox ++ mdatBox) initialBoxScan).outFileMOOV = moovBox ∧
      (boxChunks (moovBox ++ mdatBox) initialBoxScan).foundMdat = false ∧
      (boxChunks (moovBox ++ mdatBox) initialBoxScan).outFileMDAT = []) ∧
    boxesInOneRead.length = 48 := by
  obtain ⟨b1, h1⟩ := boxChunks_head_fypt boxesInOneRead (by decide) (by decide) (by decide)
    (by decide) (by decide) (by decide)
  obtain ⟨b2, h2⟩ := boxChunks_head_moov (moovBox ++ mdatBox) (by decide) (by decide)
    (by decide) (by decide) (by decide) (by decide)
  refine ⟨boxStep_flag_break, ?_, ?_, ?_, by decide⟩
  · rw [h1]
    exact ⟨rfl, rfl, rfl, rfl, rfl⟩
  · unfold extractMP4File
    rw [if_neg (by decide), List.drop_zero, h1]
    rfl
  · rw [h2]
    exact ⟨rfl, show (moovBox ++ mdatBox).take (boxSizeAt (moovBox ++ mdatBox) 0) = moovBox by
      decide, rfl, rfl⟩

/-! ## The value `extractMP3File` returns -/

theorem confirmFrame_offset (pos : Nat) (st : WalkState) :
    (confirmFrame pos st).current_offset = st.current_offset := by
  rcases confirmFrame_cases pos st with h | ⟨_, _, _, h⟩ <;> rw [h]

theorem walkStep_offset_le (totalBytes pos : Nat) (st : WalkState) :
    st.current_offset ≤ (walkStep totalBytes pos st).1.current_offset := by
  have hc := confirmFrame_offset pos st
  unfold walkStep
  simp only
  split_ifs <;> simp only [hc] <;> omega

theorem walkFrames_offset_le (totalBytes : Nat) :
    ∀ (n pos : Nat) (st : WalkState), totalBytes - pos = n →
      st.current_offset ≤ (walkFrames totalBytes pos st).1.current_offset := by
  intro n
  induction n using Nat.strong_induction_on with
  | _ n ih =>
    intro pos st hn
    by_cases hpos : pos + 4 ≤ totalBytes
    · have hstep := walkStep_offset_le totalBytes pos st
      rcases hs : walkStep totalBytes pos st with ⟨st2, _ | next⟩
      · rw [walkFrames_end _ _ _ _ hpos hs]
        rw [hs] at hstep
        exact hstep
      · rw [walkFrames_next _ _ _ _ _ hpos hs]
        rw [hs] at hstep
        have hgt := walkStep_next_gt totalBytes pos next st (by rw [hs])
        exact le_trans hstep (ih (totalBytes - next) (by omega) next st2 rfl)
    · rw [walkFrames_done _ _ _ hpos]

theorem walkChunks_offset_le :
    ∀ (n : Nat) (rest : List Nat) (st : WalkState), rest.length = n →
      st.current_offset ≤ (walkChunks rest st).current_offset := by
  intro n
  induction n using Nat.strong_induction_on with
  | _ n ih =>
    intro rest st hn
    by_cases hne : rest = []
    · rw [hne, walkChunks_nil]
    · rw [walkChunks_cons rest st hne]
      have h1 := walkFrames_offset_le ((rest.take BUFFER_SIZE).length + Mp3.overlap) _ 0
        { st with buffer := filledBuffer st.buffer (rest.take BUFFER_SIZE) } rfl
      split_ifs
      · exact h1
      · have hlt : (rest.drop BUFFER_SIZE).length < n := by
          rcases rest with _ | ⟨a, rest⟩
          · exact absurd rfl hne
          · simp only [List.length_drop, List.length_cons, BUFFER_SIZE] at hn ⊢
            omega
        exact le_trans h1 (ih _ hlt _ _ rfl)

/-- A call of `extractMP3File` that keeps its file returns at least
`fileStart`. -/
theorem extractMP3File_offset_ge (io : IoEnv) (device : List Nat) (fileStart : Nat)
    (fileCount : Int) (content : List Nat)
    (h : (extractMP3File io device fileStart fileCount).outFile = some content) :
    fileStart ≤ (extractMP3File io device fileStart fileCount).offset := by
  unfold extractMP3File at h ⊢
  simp only at h ⊢
  split_ifs at h ⊢ with h1 h2 h3
  exact walkChunks_offset_le _ (device.drop fileStart) (initialWalk fileStart) rfl

/-- C32 (what the code does): the value that `extractMP3File` returns when it
keeps its file is at least `fileStart`, but it is not the device offset
reached: `current_offset` is advanced for the three carried cells of every
pass as well.  On a device of 40 frames of 512 bytes (20480 bytes), walked
from offset 0 in five passes, every frame is written and the value returned is
20495, beyond the end of the device. -/
theorem extractMP3File_returns_beyond_device :
    extractMP3File ioOk (frameStream frame512 40) 0 1 =
        ⟨20495, 1, some (frameStream frame512 40)⟩ ∧
      (frameStream frame512 40).length = 20480 ∧
      (frameStream frame512 40).length <
        (extractMP3File ioOk (frameStream frame512 40) 0 1).offset ∧
      ∀ (io : IoEnv) (device : List Nat) (fileStart : Nat) (fileCount : Int)
        (content : List Nat),
        (extractMP3File io device fileStart fileCount).outFile = some content →
        fileStart ≤ (extractMP3File io device fileStart fileCount).offset := by
  have h4 := extractMP3File_stream512 4 1 (by norm_num)
  simp only [Nat.reduceAdd, Nat.reduceMul] at h4
  rw [if_neg (by norm_num)] at h4
  refine ⟨h4, frameStream512_forty_length, ?_, extractMP3File_offset_ge⟩
  rw [h4, frameStream512_forty_length]
  decide

/-! ## The reads of `matchesMP3Header` -/

theorem getD_of_getElem? (buffer : List Nat) (k v : Nat) (h : buffer[k]? = some v) :
    buffer.getD k 0 = v := by
  rw [List.getD_eq_getElem?_getD, h]
  rfl

/-- Where no read falls beyond the buffer the checked parser is the parser. -/
theorem parse_mp3_frame_header_checked_some (buffer : List Nat) (pos : Nat) (r : List Int)
    (h : parse_mp3_frame_header_checked buffer pos = some r) :
    r = parse_mp3_frame_header (buffer.drop pos) := by
  unfold parse_mp3_frame_header_checked at h
  unfold parse_mp3_frame_header
  simp only [getD_drop, Nat.add_zero]
  cases h0 : buffer[pos]? with
  | none => rw [h0] at h; cases h
  | some b0 =>
    rw [h0] at h
    rw [getD_of_getElem? _ _ _ h0]
    simp only at h
    by_cases hb0 : (b0 != 0xFF) = true
    · rw [if_pos hb0] at h
      rw [if_pos (by rw [hb0]; rfl)]
      exact (Option.some.inj h).symm
    · rw [if_neg hb0] at h
      cases h1 : buffer[pos + 1]? with
      | none => rw [h1] at h; cases h
      | some b1 =>
        rw [h1] at h
        rw [getD_of_getElem? _ _ _ h1]
        simp only at h
        by_cases hb1 : ((b1 &&& 0xE0) != 0xE0) = true
        · rw [if_pos hb1] at h
          rw [if_pos (by rw [hb1]; simp)]
          exact (Option.some.inj h).symm
        · rw [if_neg hb1] at h
          cases h2 : buffer[pos + 2]? with
          | none => rw [h2] at h; cases h
          | some b2 =>
            rw [h2] at h
            rw [getD_of_getElem? _ _ _ h2]
            rw [if_neg (by simp only [Bool.or_eq_true, not_or]; exact ⟨hb0, hb1⟩)]
            exact (Option.some.inj h).symm

/-- A header with the sync bits in the last two cells of the buffer: the
parser reads the cell behind the buffer. -/
theorem parse_mp3_frame_header_checked_none (buffer : List Nat) (pos : Nat)
    (hlen : pos + 2 = buffer.length) (h0 : buffer.getD pos 0 = 0xFF)
    (h1 : buffer.getD (pos + 1) 0 &&& 0xE0 = 0xE0) :
    parse_mp3_frame_header_checked buffer pos = none := by
  have e0 : buffer[pos]? = some (buffer.getD pos 0) := by
    rw [List.getD_eq_getElem?_getD, List.getElem?_eq_getElem (by omega)]
    rfl
  have e1 : buffer[pos + 1]? = some (buffer.getD (pos + 1) 0) := by
    rw [List.getD_eq_getElem?_getD, List.getElem?_eq_getElem (by omega)]
    rfl
  have e2 : buffer[pos + 2]? = none := List.getElem?_eq_none (by omega)
  unfold parse_mp3_frame_header_checked
  rw [e0]
  simp only
  rw [h0, if_neg (by decide), e1]
  simp only
  rw [h1, if_neg (by decide), e2]

theorem probeLoopChecked_some (buffer : List Nat) (pos i : Nat) :
    ∀ (n gap_count : Nat) (frame_info : List Int) (r : ProbeResult),
      MAX_GAP_Bytes - gap_count = n →
      probeLoopChecked buffer pos i frame_info gap_count = some r →
      probeLoop buffer pos i frame_info gap_count = r := by
  intro n
  induction n using Nat.strong_induction_on with
  | _ n ih =>
    intro gap_count frame_info r hn h
    rw [probeLoopChecked] at h
    rw [probeLoop]
    by_cases hc : gap_count < MAX_GAP_Bytes ∧
        pos + (frame_info.getD 0 0 * i).toNat + gap_count < buffer.length
    · rw [dif_pos hc] at h ⊢
      cases hp : parse_mp3_frame_header_checked buffer
          (pos + (frame_info.getD 0 0 * i).toNat + gap_count) with
      | none => rw [hp] at h; cases h
      | some parsed =>
        rw [hp] at h
        have he := parse_mp3_frame_header_checked_some _ _ _ hp
        simp only at h ⊢
        rw [← he]
        by_cases hv : parsed.getD 0 0 > 0
        · rw [if_pos hv] at h ⊢
          exact Option.some.inj h
        · rw [if_neg hv] at h ⊢
          exact ih (MAX_GAP_Bytes - (gap_count + 1)) (by omega) _ _ _ rfl h
    · rw [dif_neg hc] at h ⊢
      exact Option.some.inj h

theorem probeFramesChecked_some (buffer : List Nat) (pos : Nat) :
    ∀ (is : List Nat) (frame_info : List Int) (b : Bool),
      probeFramesChecked buffer pos is frame_info = some b →
      probeFrames buffer pos is frame_info = b
  | [], _, b, h => by
    rw [probeFramesChecked] at h
    rw [probeFrames]
    exact Option.some.inj h
  | i :: more, frame_info, b, h => by
    rw [probeFramesChecked] at h
    rw [probeFrames]
    cases hp : probeLoopChecked buffer pos i frame_info 0 with
    | none => rw [hp] at h; cases h
    | some r =>
      rw [hp] at h
      rw [probeLoopChecked_some buffer pos i _ 0 frame_info r rfl hp]
      simp only at h ⊢
      split_ifs at h ⊢ with hc
      · exact Option.some.inj h
      · exact probeFramesChecked_some buffer pos more _ b h

/-- Where no read falls beyond the buffer the checked function computes
`matchesMP3Header`. -/
theorem matchesMP3HeaderChecked_some (buffer : List Nat) (pos : Nat) (b : Bool)
    (h : matchesMP3HeaderChecked buffer pos = some b) : matchesMP3Header buffer pos = b := by
  unfold matchesMP3HeaderChecked at h
  unfold matchesMP3Header
  split_ifs at h ⊢ with h1
  · exact Option.some.inj h
  · cases hp : parse_mp3_frame_header_checked buffer pos with
    | none => rw [hp] at h; cases h
    | some frame_info =>
      rw [hp] at h
      rw [← parse_mp3_frame_header_checked_some _ _ _ hp]
      simp only at h ⊢
      split_ifs at h ⊢ with h2
      · exact Option.some.inj h
      · exact probeFramesChecked_some buffer pos _ _ b h

/-- The first parse of `matchesMP3Header` reads behind the buffer when the
sync bits stand in its last two cells. -/
theorem matchesMP3HeaderChecked_none (buffer : List Nat) (pos : Nat)
    (hlen : pos + 2 = buffer.length) (h0 : buffer.getD pos 0 = 0xFF)
    (h1 : buffer.getD (pos + 1) 0 &&& 0xE0 = 0xE0) :
    matchesMP3HeaderChecked buffer pos = none := by
  unfold matchesMP3HeaderChecked
  rw [if_neg (by omega), parse_mp3_frame_header_checked_none buffer pos hlen h0 h1]

/-! ## Reads of `matchesMP3Header` behind the buffer -/

/-- The first probe of `probeSample` starts in the last cell, which holds `FF`:
the parser reads the cell behind it. -/
theorem matchesMP3HeaderChecked_probeSample : matchesMP3HeaderChecked probeSample 0 = none := by
  have hp : parse_mp3_frame_header_checked probeSample 0 = some [32, 1, 1, 32000, 48000] := by
    decide
  have hq : parse_mp3_frame_header_checked probeSample
      (0 + ((([32, 1, 1, 32000, 48000] : List Int)).getD 0 0 * ((1 : Nat) : Int)).toNat + 0) =
        none := by
    decide
  have hr : List.range' 1 10 = [1, 2, 3, 4, 5, 6, 7, 8, 9, 10] := by decide
  unfold matchesMP3HeaderChecked
  rw [if_neg (by decide), hp]
  simp only
  rw [if_neg (by decide), hr, probeFramesChecked, probeLoopChecked, dif_pos (by decide), hq]

theorem lastCellsSample_length : lastCellsSample.length = 4096 := by
  rw [lastCellsSample, List.length_append, List.length_replicate]
  rfl

theorem matchesMP3HeaderChecked_lastCellsSample :
    matchesMP3HeaderChecked lastCellsSample 4094 = none := by
  apply matchesMP3HeaderChecked_none
  · rw [lastCellsSample_length]
  · rw [lastCellsSample, getD_append_right_ge _ _ _ (by rw [List.length_replicate]),
      List.length_replicate]
    rfl
  · rw [lastCellsSample, getD_append_right_ge _ _ _ (by rw [List.length_replicate]; omega),
      List.length_replicate]
    rfl

/-- C37 (what the code does): `matchesMP3Header` tests `pos + 1 < len(buffer)`
and then lets the parser read `buffer[pos + 2]`; a probe tests that its
position lies in the buffer and then lets the parser read the two cells after
it.  With reads checked against the size of the buffer, the function reads
behind the buffer `FF FB` at 0, behind a buffer of 4096 cells (the size of
the buffer of `run`) at 4094, a position that `run` tests, and in a probe of
`probeSample`; it does so whenever the sync bits stand in the last two cells.
Where the checked function returns a value it is that of
`matchesMP3Header`. -/
theorem matchesMP3Header_reads_beyond_buffer :
    matchesMP3HeaderChecked [0xFF, 0xFB] 0 = none ∧
    (matchesMP3HeaderChecked lastCellsSample 4094 = none ∧
      lastCellsSample.length = chunkSize + overlap ∧
      4094 + (signatureOf 4).length ≤ chunkSize + overlap) ∧
    (matchesMP3HeaderChecked probeSample 0 = none ∧
      parse_mp3_frame_header_checked probeSample 0 = some [32, 1, 1, 32000, 48000] ∧
      probeSample.length = 33) ∧
    (∀ (buffer : List Nat) (pos : Nat), pos + 2 = buffer.length →
      buffer.getD pos 0 = 0xFF → buffer.getD (pos + 1) 0 &&& 0xE0 = 0xE0 →
      matchesMP3HeaderChecked buffer pos = none) ∧
    (∀ (buffer : List Nat) (pos : Nat) (b : Bool),
      matchesMP3HeaderChecked buffer pos = some b → matchesMP3Header buffer pos = b) :=
  ⟨matchesMP3HeaderChecked_none _ 0 rfl rfl rfl,
    ⟨matchesMP3HeaderChecked_lastCellsSample, lastCellsSample_length, by decide⟩,
    ⟨matchesMP3HeaderChecked_probeSample, by decide, by decide⟩,
    matchesMP3HeaderChecked_none, matchesMP3HeaderChecked_some⟩

/-! ## The gap between the frames that `extractMP3File` writes -/

theorem confirmFrame_gapCount (pos : Nat) (st : WalkState) :
    (confirmFrame pos st).gapCount = st.gapCount := by
  rcases confirmFrame_cases pos st with h | ⟨_, _, _, h⟩ <;> rw [h]

theorem confirmFrame_outFile (pos : Nat) (st : WalkState) :
    (confirmFrame pos st).outFile = st.outFile := by
  rcases confirmFrame_cases pos st with h | ⟨_, _, _, h⟩ <;> rw [h]

theorem walkStep_buffer (totalBytes pos : Nat) (st : WalkState) :
    (walkStep totalBytes pos st).1.buffer = st.buffer := by
  have hb := confirmFrame_buffer pos st
  unfold walkStep
  simp only
  split_ifs <;> exact hb

/-- The two ways the loop body goes: the frame at `pos` is written and the
gap counter set to 0, or nothing is written and the gap counter goes up by
one, which ends the walk when it exceeds `MAX_GAP_Bytes`. -/
theorem walkStep_cases (totalBytes pos : Nat) (st : WalkState) :
    (frameWritten totalBytes pos st = true ∧
      (walkStep totalBytes pos st).1.outFile = st.outFile ++ (st.buffer.drop pos).take
        ((parse_mp3_frame_header (st.buffer.drop pos)).getD 0 0).toNat ∧
      (walkStep totalBytes pos st).1.gapCount = 0 ∧
      ∀ next, (walkStep totalBytes pos st).2 = some next →
        next = pos + ((parse_mp3_frame_header (st.buffer.drop pos)).getD 0 0).toNat) ∨
    (frameWritten totalBytes pos st = false ∧
      (walkStep totalBytes pos st).1.outFile = st.outFile ∧
      (walkStep totalBytes pos st).1.gapCount = st.gapCount + 1 ∧
      (MAX_GAP_Bytes < st.gapCount + 1 → (walkStep totalBytes pos st).2 = none) ∧
      ∀ next, (walkStep totalBytes pos st).2 = some next →
        next = pos + 1 ∧ st.gapCount + 1 ≤ MAX_GAP_Bytes) := by
  have hg := confirmFrame_gapCount pos st
  have ho := confirmFrame_outFile pos st
  have hb := confirmFrame_buffer pos st
  unfold frameWritten walkStep
  simp only
  by_cases hc : (matchesFrameInfo (parse_mp3_frame_header (st.buffer.drop pos))
      (confirmFrame pos st).frame_info_original &&
    decide ((parse_mp3_frame_header (st.buffer.drop pos)).getD 0 0 > 0) &&
    decide (pos + ((parse_mp3_frame_header (st.buffer.drop pos)).getD 0 0).toNat ≤
      totalBytes)) = true
  · left
    rw [if_pos hc]
    refine ⟨hc, ?_, ?_, ?_⟩
    · split_ifs <;> simp only [ho, hb]
    · split_ifs <;> rfl
    · intro next hn
      split_ifs at hn
      · exact (Option.some.inj hn).symm
  · right
    rw [if_neg hc]
    refine ⟨by simpa using hc, ?_, ?_, ?_, ?_⟩
    · split_ifs <;> exact ho
    · split_ifs <;> simp only [hg]
    · intro hmax
      rw [if_pos (by rw [hg]; exact hmax)]
    · intro next hn
      split_ifs at hn with h1 h2
      · exact ⟨(Option.some.inj hn).symm, by rw [hg] at h1; omega⟩

theorem gapInv_mono (device : List Nat) (fileStart : Nat) {c c2 : Nat} (st : WalkState)
    (hle : c2 ≤ c) (h : GapInv device fileStart c st) : GapInv device fileStart c2 st := by
  obtain ⟨hg, placed, hp, hlast⟩ := h
  exact ⟨hg, placed, hp, fun last hl => le_trans hle (hlast last hl)⟩

theorem gapInv_placed {device : List Nat} {fileStart c : Nat} {st : WalkState}
    (h : GapInv device fileStart c st) : ∃ placed, Placed device fileStart st.outFile placed :=
  ⟨h.2.choose, h.2.choose_spec.1⟩

/-- The frame written at `pos` in pass `k` holds the bytes of the device at
the offset of its place. -/
theorem frame_anchored (device buffer : List Nat) (fileStart k bytesRead pos len : Nat)
    (hbuf : ∀ s m, s + m ≤ bytesRead →
      (buffer.drop (3 + s)).take m = (device.drop (fileStart + 4096 * k + s)).take m)
    (hfit : pos + len ≤ bytesRead + 3) (hlen : pos + len ≤ buffer.length) :
    ((buffer.drop pos).take len).drop (3 - pos) =
      (device.drop (fileStart + 4096 * k + (pos - 3))).take
        (((buffer.drop pos).take len).length - (3 - pos)) := by
  have hl : ((buffer.drop pos).take len).length = len := by
    rw [List.length_take, List.length_drop]; omega
  rw [hl, List.drop_take, List.drop_drop, ← hbuf (pos - 3) (len - (3 - pos)) (by omega)]
  congr 2
  omega

theorem parse_take_frame (buffer : List Nat) (pos : Nat)
    (hpos : 0 < (parse_mp3_frame_header (buffer.drop pos)).getD 0 0) :
    parse_mp3_frame_header ((buffer.drop pos).take
        ((parse_mp3_frame_header (buffer.drop pos)).getD 0 0).toNat) =
      parse_mp3_frame_header (buffer.drop pos) := by
  have hge := parse_mp3_frame_header_size_ge _ hpos
  exact parse_mp3_frame_header_congr (getD_take_lt _ _ _ (by omega))
    (getD_take_lt _ _ _ (by omega)) (getD_take_lt _ _ _ (by omega))

/-- The loop body keeps the invariant, in pass `k` with `bytesRead` bytes
read. -/
theorem gapInv_walkStep (device : List Nat) (fileStart k bytesRead pos : Nat)
    (st : WalkState) (hlen : st.buffer.length = 4103) (hread : bytesRead ≤ 4096)
    (hbuf : ∀ s m, s + m ≤ bytesRead →
      (st.buffer.drop (3 + s)).take m = (device.drop (fileStart + 4096 * k + s)).take m)
    (h : GapInv device fileStart (4096 * k + pos) st) :
    (∃ placed, Placed device fileStart (walkStep (bytesRead + 3) pos st).1.outFile placed) ∧
      ∀ next, (walkStep (bytesRead + 3) pos st).2 = some next →
        GapInv device fileStart (4096 * k + next) (walkStep (bytesRead + 3) pos st).1 := by
  obtain ⟨hg, placed, ⟨hfl, hmem, hchain⟩, hlast⟩ := h
  rcases walkStep_cases (bytesRead + 3) pos st with ⟨hw, hout, hgap, hnext⟩ |
    ⟨hw, hout, hgap, -, hnext⟩
  · -- a frame is written
    unfold frameWritten at hw
    simp only [Bool.and_eq_true, decide_eq_true_eq] at hw
    obtain ⟨⟨-, hpos⟩, hfit⟩ := hw
    have hl : ((st.buffer.drop pos).take
        ((parse_mp3_frame_header (st.buffer.drop pos)).getD 0 0).toNat).length =
        ((parse_mp3_frame_header (st.buffer.drop pos)).getD 0 0).toNat := by
      rw [List.length_take, List.length_drop]; omega
    have hP : Placed device fileStart (walkStep (bytesRead + 3) pos st).1.outFile
        (placed ++ [⟨k, pos, (st.buffer.drop pos).take
          ((parse_mp3_frame_header (st.buffer.drop pos)).getD 0 0).toNat⟩]) := by
      refine ⟨?_, ?_, ?_⟩
      · rw [hout, hfl]
        simp only [List.map_append, List.map_cons, List.map_nil, List.flatten_append,
          List.flatten_cons, List.flatten_nil, List.append_nil]
      · intro p hp
        rcases List.mem_append.mp hp with hp | hp
        · exact hmem p hp
        · rw [List.mem_singleton] at hp
          rw [hp]
          simp only
          rw [parse_take_frame _ _ hpos]
          exact ⟨hpos, hl, frame_anchored device st.buffer fileStart k bytesRead pos _ hbuf hfit
            (by omega)⟩
      · refine List.Chain'.append hchain (List.chain'_singleton _) ?_
        intro x hx y hy
        simp only [List.head?_cons, Option.mem_def, Option.some.injEq] at hy
        rw [← hy]
        simp only
        have := hlast x hx
        omega
    refine ⟨⟨_, hP⟩, fun next hn => ⟨by rw [hgap]; omega, _, hP, ?_⟩⟩
    intro last hl2
    rw [List.getLast?_concat] at hl2
    rw [← Option.some.inj hl2, hnext next hn, hgap]
    simp only
    rw [hl]
    omega
  · -- no frame is written
    refine ⟨⟨placed, by rw [hout]; exact ⟨hfl, hmem, hchain⟩⟩, fun next hn => ?_⟩
    obtain ⟨hn1, hn2⟩ := hnext next hn
    refine ⟨by rw [hgap]; exact hn2, placed, by rw [hout]; exact ⟨hfl, hmem, hchain⟩, ?_⟩
    intro last hl2
    have := hlast last hl2
    rw [hgap, hn1]
    omega

theorem gapInv_walkFrames (device : List Nat) (fileStart k bytesRead : Nat)
    (hread : bytesRead ≤ 4096) :
    ∀ (n pos : Nat) (st : WalkState), bytesRead + 3 - pos = n → st.buffer.length = 4103 →
      (∀ s m, s + m ≤ bytesRead →
        (st.buffer.drop (3 + s)).take m = (device.drop (fileStart + 4096 * k + s)).take m) →
      GapInv device fileStart (4096 * k + pos) st →
      (∃ placed, Placed device fileStart (walkFrames (bytesRead + 3) pos st).1.outFile placed) ∧
        ((walkFrames (bytesRead + 3) pos st).2 = false →
          GapInv device fileStart (4096 * k + bytesRead)
            (walkFrames (bytesRead + 3) pos st).1) ∧
        (walkFrames (bytesRead + 3) pos st).1.buffer = st.buffer := by
  intro n
  induction n using Nat.strong_induction_on with
  | _ n ih =>
    intro pos st hn hlen hbuf h
    by_cases hpos : pos + 4 ≤ bytesRead + 3
    · have hstep := gapInv_walkStep device fileStart k bytesRead pos st hlen hread hbuf h
      have hb := walkStep_buffer (bytesRead + 3) pos st
      rcases hs : walkStep (bytesRead + 3) pos st with ⟨st2, _ | next⟩
      · rw [walkFrames_end _ _ _ _ hpos hs]
        rw [hs] at hstep hb
        exact ⟨hstep.1, fun hf => (by cases hf), hb⟩
      · rw [walkFrames_next _ _ _ _ _ hpos hs]
        rw [hs] at hstep hb
        simp only at hb
        have hgt := walkStep_next_gt (bytesRead + 3) pos next st (by rw [hs])
        have := ih (bytesRead + 3 - next) (by omega) next st2 rfl (by rw [hb]; exact hlen)
          (by rw [hb]; exact hbuf) (hstep.2 next rfl)
        exact ⟨this.1, this.2.1, this.2.2.trans hb⟩
    · rw [walkFrames_done _ _ _ hpos]
      exact ⟨gapInv_placed h, fun _ => gapInv_mono device fileStart st (by omega) h, rfl⟩

/-- The cells from 3 on of the buffer of a pass hold the bytes of the device
at the offset the pass has reached. -/
theorem filledBuffer_device (device buffer rest : List Nat) (fileStart k : Nat)
    (hlen : 3 ≤ buffer.length) (hrest : rest = device.drop (fileStart + 4096 * k))
    (s m : Nat) (hsm : s + m ≤ (rest.take BUFFER_SIZE).length) :
    ((filledBuffer buffer (rest.take BUFFER_SIZE)).drop (3 + s)).take m =
      (device.drop (fileStart + 4096 * k + s)).take m := by
  have hc : (rest.take BUFFER_SIZE).length ≤ BUFFER_SIZE := by
    rw [List.length_take]; omega
  rw [filledBuffer_eq _ _ hlen, List.append_assoc, ← List.drop_drop,
    List.drop_left' (show ([buffer.getD 4093 0, buffer.getD 4094 0,
      buffer.getD 4095 0] : List Nat).length = 3 from rfl),
    List.drop_append_of_le_length (by omega),
    List.take_append_of_le_length (by rw [List.length_drop]; omega),
    List.drop_take, List.take_take, Nat.min_eq_left (by omega), hrest, List.drop_drop]

theorem gapInv_walkChunks (device : List Nat) (fileStart : Nat) :
    ∀ (n k : Nat) (rest : List Nat) (st : WalkState), rest.length = n →
      rest = device.drop (fileStart + 4096 * k) → st.buffer.length = 4103 →
      GapInv device fileStart (4096 * k) st →
      ∃ placed, Placed device fileStart (walkChunks rest st).outFile placed := by
  intro n
  induction n using Nat.strong_induction_on with
  | _ n ih =>
    intro k rest st hn hrest hlen h
    by_cases hne : rest = []
    · rw [hne, walkChunks_nil]
      exact gapInv_placed h
    · rw [walkChunks_cons rest st hne]
      have hchunk : (rest.take BUFFER_SIZE).length ≤ 4096 := by
        rw [List.length_take, BUFFER_SIZE]; omega
      have h0 : GapInv device fileStart (4096 * k + 0)
          { st with buffer := filledBuffer st.buffer (rest.take BUFFER_SIZE) } := h
      have hw := gapInv_walkFrames device fileStart k (rest.take BUFFER_SIZE).length hchunk _ 0
        { st with buffer := filledBuffer st.buffer (rest.take BUFFER_SIZE) } rfl
        (filledBuffer_length _ _ hlen hchunk)
        (fun s m hsm => filledBuffer_device device st.buffer rest fileStart k (by omega) hrest
          s m hsm)
        h0
      rw [show (rest.take BUFFER_SIZE).length + Mp3.overlap =
        (rest.take BUFFER_SIZE).length + 3 from rfl]
      rcases Bool.eq_false_or_eq_true (walkFrames ((rest.take BUFFER_SIZE).length + 3) 0
          { st with buffer := filledBuffer st.buffer (rest.take BUFFER_SIZE) }).2 with hf | hf
      · rw [if_pos hf]
        exact hw.1
      · rw [if_neg (by rw [hf]; decide)]
        by_cases hshort : rest.length ≤ BUFFER_SIZE
        · rw [List.drop_of_length_le hshort, walkChunks_nil]
          exact hw.1
        · have hfull : (rest.take BUFFER_SIZE).length = 4096 := by
            rw [List.length_take, BUFFER_SIZE]
            rw [BUFFER_SIZE] at hshort
            omega
          have hlt : (rest.drop BUFFER_SIZE).length < n := by
            rw [List.length_drop, BUFFER_SIZE]
            rw [BUFFER_SIZE] at hshort
            omega
          refine ih _ hlt (k + 1) _ _ rfl ?_ ?_ ?_
          · have e : rest.drop BUFFER_SIZE =
                (device.drop (fileStart + 4096 * k)).drop BUFFER_SIZE :=
              congrArg (List.drop BUFFER_SIZE) hrest
            rw [e, List.drop_drop]
            refine congrArg (fun n => List.drop n device) ?_
            rw [BUFFER_SIZE]
            omega
          · rw [hw.2.2]
            exact filledBuffer_length _ _ hlen hchunk
          · exact gapInv_mono device fileStart _ (by rw [hfull]; omega) (hw.2.1 hf)

theorem gapInv_initialWalk (device : List Nat) (fileStart : Nat) :
    GapInv device fileStart (4096 * 0) (initialWalk fileStart) :=
  ⟨Nat.zero_le _, [], ⟨rfl, fun p hp => absurd hp (List.not_mem_nil _), List.chain'_nil⟩,
    fun last hl => by cases hl⟩

/-- The output file of the walk of `extractMP3File` is placed frames. -/
theorem placed_final (device : List Nat) (fileStart : Nat) :
    ∃ placed, Placed device fileStart
      (walkChunks (device.drop fileStart) (initialWalk fileStart)).outFile placed :=
  gapInv_walkChunks device fileStart _ 0 _ _ rfl rfl
    ((List.length_replicate _ _).trans rfl) (gapInv_initialWalk device fileStart)

/-- C31: the bytes of a file that `extractMP3File` leaves are a sequence of
frames, each taken from the buffer at a position of a pass and holding the
bytes of the device at the offset of that position, such that each begins at
most `MAX_GAP_Bytes` = 768 positions behind the end of the one before
(`Placed`).  The loop body writes the frame at `pos` and sets `gapCount` to 0,
or writes nothing and increments `gapCount`, and in the second case leaves by
`goto extraction_finished` when `gapCount` has exceeded 768. -/
theorem extractMP3File_frame_gaps (io : IoEnv) (device : List Nat) (fileStart : Nat)
    (fileCount : Int) (content : List Nat)
    (h : (extractMP3File io device fileStart fileCount).outFile = some content) :
    (∃ placed : List WrittenFrame, Placed device fileStart content placed) ∧
    MAX_GAP_Bytes = 768 ∧
    ∀ (totalBytes pos : Nat) (st : WalkState),
      (frameWritten totalBytes pos st = true →
        (walkStep totalBytes pos st).1.outFile = st.outFile ++ (st.buffer.drop pos).take
          ((parse_mp3_frame_header (st.buffer.drop pos)).getD 0 0).toNat ∧
        (walkStep totalBytes pos st).1.gapCount = 0) ∧
      (frameWritten totalBytes pos st = false →
        (walkStep totalBytes pos st).1.outFile = st.outFile ∧
        (walkStep totalBytes pos st).1.gapCount = st.gapCount + 1 ∧
        (768 < st.gapCount + 1 → (walkStep totalBytes pos st).2 = none)) := by
  have hc : content = (walkChunks (device.drop fileStart) (initialWalk fileStart)).outFile := by
    unfold extractMP3File at h
    simp only at h
    split_ifs at h with h1 h2 h3
    simp only [Option.some.injEq] at h
    exact h.symm
  refine ⟨by rw [hc]; exact placed_final device fileStart, rfl, fun totalBytes pos st => ?_⟩
  rcases walkStep_cases totalBytes pos st with ⟨hw, hout, hgap, -⟩ | ⟨hw, hout, hgap, hend, -⟩
  · exact ⟨fun _ => ⟨hout, hgap⟩, fun hf => by rw [hw] at hf; cases hf⟩
  · exact ⟨fun hf => (by rw [hw] at hf; cases hf), fun _ => ⟨hout, hgap, hend⟩⟩

/-- Witness of C31: the file kept for 40 frames of 512 bytes. -/
theorem extractMP3File_frame_gaps_witness :
    (extractMP3File ioOk (frameStream frame512 40) 0 1).outFile =
        some (frameStream frame512 40) ∧
      ∃ placed : List WrittenFrame,
        Placed (frameStream frame512 40) 0 (frameStream frame512 40) placed := by
  have h : (extractMP3File ioOk (frameStream frame512 40) 0 1).outFile =
      some (frameStream frame512 40) := by
    have h4 := extractMP3File_stream512 4 1 (by norm_num)
    simp only [Nat.reduceAdd, Nat.reduceMul] at h4
    rw [h4, if_neg (by norm_num)]
  exact ⟨h, (extractMP3File_frame_gaps ioOk _ 0 1 _ h).1⟩

/-! ## Candidates of exactly the maximum size -/

theorem zipFile_length (n : Nat) : (zipFile n).length = n + 8 := by
  simp [zipFile, ZIP_SIGNATURE, ZIP_END]

/-- The loop of `extractFile` on a ZIP candidate `zipFile n` followed by
`suffix`, when the end marker does not straddle a multiple of `chunkSize`. -/
theorem scanFrom_zipFile (n : Nat) (suffix : List Nat)
    (halign : (n + 4) % chunkSize + 4 ≤ chunkSize) (hsize : n + 8 ≤ maxSizeOf 3) :
    ∃ st, scanFrom (zipFile n ++ suffix) 0 3 = .finished st ∧ st.foundEnd = true ∧
      st.written = zipFile n ∧ st.totalBytesWritten = n + 8 := by
  have hbody : (ZIP_SIGNATURE ++ List.replicate n 1).length = n + 4 := by
    simp [ZIP_SIGNATURE]
  obtain ⟨st, hs, hfe, hwr, htot, -, -⟩ := scanFrom_body_marker 3
    (by decide) (by decide) (zipFile n ++ suffix) 0 (ZIP_SIGNATURE ++ List.replicate n 1) suffix
    (by simp [zipFile, endMarkerOf_three])
    (by rw [hbody, endMarkerOf_three]; exact halign)
    (no_earlier_occurrence _ _ _ 0x06 (by simp [endMarkerOf_three, ZIP_END])
      (by simp [endMarkerOf_three, ZIP_END, ZIP_SIGNATURE, List.mem_replicate]))
    (by rw [hbody, endMarkerOf_three]; simp only [ZIP_END, List.length_cons, List.length_nil]; omega)
  refine ⟨st, hs, hfe, ?_, ?_⟩
  · rw [hwr, endMarkerOf_three, zipFile]
  · rw [htot, hbody, endMarkerOf_three]; simp [ZIP_END]

theorem pdfFile_length (n : Nat) : (pdfFile n).length = n + 21 := by
  simp [pdfFile, pdfOpen_length, PDF_END]

theorem prefix_drop_getD {token l : List Nat} {p : Nat} (h : token <+: l.drop p) (i : Nat)
    (hi : i < token.length) : l.getD (p + i) 0 = token.getD i 0 := by
  obtain ⟨t, ht⟩ := h
  rw [← getD_drop, ← ht, List.getD_append _ _ _ _ hi]

/-- The end marker stands at no offset of `pdfOpen n` where the stream goes
on with the end marker. -/
theorem pdfOpen_first_marker (n : Nat) (hn : 2 ≤ n) (suffix : List Nat) (p : Nat)
    (hp : p < (pdfOpen n).length) : ¬ PDF_END <+: (pdfOpen n ++ PDF_END ++ suffix).drop p := by
  intro h
  have hlen := pdfOpen_length n
  have hget : ∀ q, q < n + 16 →
      (pdfOpen n ++ PDF_END ++ suffix).getD q 0 = (pdfOpen n).getD q 0 := by
    intro q hq
    rw [List.append_assoc, List.getD_append _ _ _ _ (by rw [hlen]; exact hq)]
  rcases Nat.lt_or_ge (p + 2) (n + 16) with h2 | h2
  · have h45 := prefix_drop_getD h 2 (by decide)
    rw [hget _ h2, List.getD_eq_getElem _ _ (by rw [hlen]; exact h2)] at h45
    have hmem : (0x45 : Nat) ∈ pdfOpen n := by
      have := List.getElem_mem (l := pdfOpen n) (n := p + 2) (by rw [hlen]; exact h2)
      rw [h45] at this
      exact this
    simp [pdfOpen, PDF_SIGNATURE, PDF_XREF, PDF_TRAILER, List.mem_replicate] at hmem
  · have h25 := prefix_drop_getD h 0 (by decide)
    rw [Nat.add_zero, hget _ (by omega)] at h25
    have hz : (pdfOpen n).getD p 0 = 0 := by
      have hsplit : pdfOpen n = (PDF_SIGNATURE ++ (PDF_XREF ++ PDF_TRAILER)) ++
          List.replicate n 0 := by
        simp [pdfOpen]
      rw [hsplit, List.getD_append_right _ _ _ _ (by
        simp only [PDF_SIGNATURE, PDF_XREF, PDF_TRAILER, List.length_append, List.length_cons,
          List.length_nil]; omega), getD_replicate_zero]
    rw [hz] at h25
    exact absurd h25 (by decide)

/-- The loop of `extractFile` on a PDF candidate `pdfFile n` followed by
`suffix`, when the end marker does not straddle a multiple of `chunkSize`. -/
theorem scanFrom_pdfFile (n : Nat) (hn : 2 ≤ n) (suffix : List Nat)
    (halign : (n + 16) % chunkSize + 5 ≤ chunkSize) (hsize : n + 21 ≤ maxSizeOf 2) :
    ∃ st, scanFrom (pdfFile n ++ suffix) 0 2 = .finished st ∧ st.foundEnd = true ∧
      st.written = pdfFile n ∧ st.totalBytesWritten = n + 21 ∧
      st.xrefFound = true ∧ st.trailerFound = true := by
  have hbody := pdfOpen_length n
  have h5 : (endMarkerOf 2).length = 5 := rfl
  obtain ⟨st, hs, hfe, hwr, htot, hx, ht⟩ := scanFrom_body_marker 2
    (by decide) (by decide) (pdfFile n ++ suffix) 0 (pdfOpen n) suffix
    (by simp [pdfFile, endMarkerOf_two])
    (by rw [hbody, h5]; exact halign)
    (by rw [endMarkerOf_two]; exact pdfOpen_first_marker n hn suffix)
    (by rw [hbody, h5]; omega)
  have hdev : (pdfFile n ++ suffix).drop 0 =
      PDF_SIGNATURE ++ (PDF_XREF ++ (PDF_TRAILER ++
        (List.replicate n 0 ++ (PDF_END ++ suffix)))) := by
    simp [pdfFile, pdfOpen]
  rw [hdev, hbody, h5] at hx ht
  have hseen := tokenSeen_pdf_header (List.replicate n 0 ++ (PDF_END ++ suffix)) (n + 16 + 5)
    (by omega)
  refine ⟨st, hs, hfe, ?_, ?_, hx.mpr hseen.1, ht.mpr hseen.2⟩
  · rw [hwr, endMarkerOf_two, pdfFile]
  · rw [htot, hbody, h5]

theorem jpegFile_length (n : Nat) : (jpegFile n).length = n + 5 := by
  simp [jpegFile, JPEG_END]

theorem getD_of_singleton_drop {l : List Nat} {i x : Nat} (h : [x] <+: l.drop i) :
    l.getD i 0 = x := by
  obtain ⟨t, ht⟩ := h
  have h0 : (l.drop i).getD 0 0 = x := by rw [← ht]; rfl
  rw [getD_drop, Nat.add_zero] at h0
  exact h0

/-- The loop of `extractFile` on a JPEG candidate `jpegFile n` followed by
`suffix`, when the end marker does not straddle a multiple of `chunkSize` and
cell 3 of the chunk that holds it is one of the bytes `E0`. -/
theorem scanFrom_jpegFile (n : Nat) (suffix : List Nat)
    (hcell : 4 ≤ (n + 3) % chunkSize) (halign : (n + 3) % chunkSize + 2 ≤ chunkSize)
    (hsize : n + 5 ≤ maxSizeOf 1) :
    ∃ st, scanFrom (jpegFile n ++ suffix) 0 1 = .finished st ∧ st.foundEnd = true ∧
      st.written = jpegFile n ∧ st.totalBytesWritten = n + 5 := by
  have hcs := chunkSize_eq
  have h2 : (endMarkerOf 1).length = 2 := rfl
  have hpos : chunkSize * ((n + 3) / chunkSize) + (n + 3) % chunkSize = n + 3 :=
    Nat.div_add_mod (n + 3) chunkSize
  have hbody : ([0xFF, 0xD8, 0xFF] ++ List.replicate n 0xE0 : List Nat).length = n + 3 := by
    simp
  have hdev : (jpegFile n ++ suffix).drop 0 =
      ([0xFF, 0xD8, 0xFF] ++ List.replicate n 0xE0) ++ endMarkerOf 1 ++ suffix := by
    simp [jpegFile, endMarkerOf_one]
  have hlen : ((jpegFile n ++ suffix).drop 0).length = n + 5 + suffix.length := by
    rw [List.drop_zero, List.length_append, jpegFile_length]
  have hclen := chunkAt_length ((jpegFile n ++ suffix).drop 0) ((n + 3) / chunkSize)
  rw [hlen] at hclen
  have hm0 : scannedMatch 1 initialScan.readBuffer ((jpegFile n ++ suffix).drop 0)
      (endMarkerOf 1) 1 ((n + 3) / chunkSize) ((n + 3) % chunkSize) = true := by
    simp only [scannedMatch, Bool.and_eq_true, decide_eq_true_eq]
    refine ⟨by rw [hclen, h2]; omega, ?_⟩
    have hmark := @prefix_readBufferAt_of_data initialScan.readBuffer
      ((jpegFile n ++ suffix).drop 0) (endMarkerOf 1)
      ((n + 3) / chunkSize) ((n + 3) % chunkSize)
      initialScan_readBuffer_length (by rw [hclen, h2]; omega)
      (by
        rw [hpos, hdev, List.append_assoc, ← hbody, List.drop_left]
        exact List.prefix_append _ _)
    have hcell3 := @prefix_readBufferAt_of_data initialScan.readBuffer
      ((jpegFile n ++ suffix).drop 0) [0xE0]
      ((n + 3) / chunkSize) 3
      initialScan_readBuffer_length
      (by rw [hclen]; simp only [List.length_cons, List.length_nil]; omega)
      (by
        have hd : (jpegFile n ++ suffix).drop 0 =
            [0xFF, 0xD8, 0xFF] ++ (List.replicate n 0xE0 ++ (endMarkerOf 1 ++ suffix)) := by
          simp [jpegFile, endMarkerOf_one]
        rw [hd, Nat.add_comm _ 3, ← List.drop_drop,
          show List.drop 3 ([0xFF, 0xD8, 0xFF] ++
            (List.replicate n 0xE0 ++ (endMarkerOf 1 ++ suffix))) =
            List.replicate n 0xE0 ++ (endMarkerOf 1 ++ suffix) from rfl,
          List.drop_append_of_le_length (by rw [List.length_replicate]; omega),
          List.drop_replicate]
        obtain ⟨m, hm⟩ : ∃ m, n - chunkSize * ((n + 3) / chunkSize) = m + 1 :=
          ⟨n - chunkSize * ((n + 3) / chunkSize) - 1, by omega⟩
        rw [hm, List.replicate_succ]
        exact ⟨_, rfl⟩)
    rw [matchesSignature_iff]
    refine ⟨hmark.1, hmark.2, fun _ => ?_⟩
    rw [getD_of_singleton_drop hcell3.2]
    decide
  obtain ⟨st, hs, hfe, hwr, htot, -, -⟩ := scanFrom_first_marker 1 (by decide)
    (jpegFile n ++ suffix) 0 ((n + 3) / chunkSize) ((n + 3) % chunkSize) hm0
    (by
      intro k j hlt
      rcases Bool.eq_false_or_eq_true (scannedMatch 1 initialScan.readBuffer
        ((jpegFile n ++ suffix).drop 0) (endMarkerOf 1) 1 k j) with hm | hm
      · exfalso
        have hp := scannedMatch_data hm (le_refl _)
        rw [hdev] at hp
        exact no_earlier_occurrence _ _ _ 0xD9 (by simp [endMarkerOf_one, JPEG_END])
          (by simp [endMarkerOf_one, JPEG_END, List.mem_replicate]) _
          (by rw [hbody]; omega) hp
      · exact hm)
    (by rw [h2]; omega)
  rw [hpos, h2] at hwr htot
  refine ⟨st, hs, hfe, ?_, htot⟩
  rw [hwr, List.drop_zero, ← jpegFile_length n, List.take_left]

/-- Witness of C9: the PNG and JPEG candidates of exactly 20 MiB, the PDF
candidate of exactly 50 MiB and the ZIP candidate of exactly 100 MiB are kept,
and on 20 MiB + 1 bytes of value 1 the PNG candidate is removed. -/
theorem extractFile_upper_boundary_witness :
    ((extractFile ioOk (pngFile (20 * 1024 * 1024 - 20) ++ []) 0 1 0
          initialFileCount).outFile =
        some ⟨0, 1, pngFile (20 * 1024 * 1024 - 20)⟩ ∧
      (pngFile (20 * 1024 * 1024 - 20)).length = maxSizeOf 0) ∧
    ((extractFile ioOk (jpegFile (20 * 1024 * 1024 - 5) ++ []) 0 1 1
          initialFileCount).outFile =
        some ⟨1, 1, jpegFile (20 * 1024 * 1024 - 5)⟩ ∧
      (jpegFile (20 * 1024 * 1024 - 5)).length = maxSizeOf 1) ∧
    ((extractFile ioOk (pdfFile (50 * 1024 * 1024 - 21) ++ []) 0 1 2
          initialFileCount).outFile =
        some ⟨2, 1, pdfFile (50 * 1024 * 1024 - 21)⟩ ∧
      (pdfFile (50 * 1024 * 1024 - 21)).length = maxSizeOf 2) ∧
    ((extractFile ioOk (zipFile (100 * 1024 * 1024 - 8) ++ []) 0 1 3
          initialFileCount).outFile =
        some ⟨3, 1, zipFile (100 * 1024 * 1024 - 8)⟩ ∧
      (zipFile (100 * 1024 * 1024 - 8)).length = maxSizeOf 3) ∧
    (extractFile ioOk (List.replicate (20 * 1024 * 1024 + 1) 1) 0 1 0
      initialFileCount).outFile = none := by
  obtain ⟨st, hs, hfe, hwr, htot⟩ := scanFrom_pngFile (20 * 1024 * 1024 - 20) []
    (by norm_num [chunkSize]) (by rw [maxSizeOf_zero])
  obtain ⟨jt, hjs, hjfe, hjwr, hjtot⟩ := scanFrom_jpegFile (20 * 1024 * 1024 - 5) []
    (by norm_num [chunkSize]) (by norm_num [chunkSize]) (by norm_num [maxSizeOf, Size_limit])
  obtain ⟨pt, hps, hpfe, hpwr, hptot, hpx, hpt⟩ := scanFrom_pdfFile (50 * 1024 * 1024 - 21)
    (by norm_num) [] (by norm_num [chunkSize]) (by rw [maxSizeOf_two])
  obtain ⟨zt, hzs, hzfe, hzwr, hztot⟩ := scanFrom_zipFile (100 * 1024 * 1024 - 8) []
    (by norm_num [chunkSize]) (by norm_num [maxSizeOf, Size_limit])
  refine ⟨?_, ?_, ?_, ?_, ?_⟩
  · have h := (extractFile_upper_boundary ioOk (pngFile (20 * 1024 * 1024 - 20) ++ []) 0 1 0
      initialFileCount (by decide) rfl rfl).1 (by rw [hs]; exact hfe)
      (by rw [hs]; show st.totalBytesWritten = maxSizeOf 0; rw [htot, maxSizeOf_zero])
      (by intro h; cases h)
    rw [hs] at h
    simp only [LoopExit.state] at h
    rw [hwr] at h
    exact h.2
  · have h := (extractFile_upper_boundary ioOk (jpegFile (20 * 1024 * 1024 - 5) ++ []) 0 1 1
      initialFileCount (by decide) rfl rfl).1 (by rw [hjs]; exact hjfe)
      (by rw [hjs]; show jt.totalBytesWritten = maxSizeOf 1; rw [hjtot]; rfl)
      (by intro h; cases h)
    rw [hjs] at h
    simp only [LoopExit.state] at h
    rw [hjwr] at h
    exact h.2
  · have h := (extractFile_upper_boundary ioOk (pdfFile (50 * 1024 * 1024 - 21) ++ []) 0 1 2
      initialFileCount (by decide) rfl rfl).1 (by rw [hps]; exact hpfe)
      (by rw [hps]; show pt.totalBytesWritten = maxSizeOf 2; rw [hptot, maxSizeOf_two])
      (by intro _; rw [hps]; exact ⟨hpx, hpt⟩)
    rw [hps] at h
    simp only [LoopExit.state] at h
    rw [hpwr] at h
    exact h.2
  · have h := (extractFile_upper_boundary ioOk (zipFile (100 * 1024 * 1024 - 8) ++ []) 0 1 3
      initialFileCount (by decide) rfl rfl).1 (by rw [hzs]; exact hzfe)
      (by rw [hzs]; show zt.totalBytesWritten = maxSizeOf 3; rw [hztot]; rfl)
      (by intro h; cases h)
    rw [hzs] at h
    simp only [LoopExit.state] at h
    rw [hzwr] at h
    exact h.2
  · exact (extractFile_upper_boundary ioOk (List.replicate (20 * 1024 * 1024 + 1) 1) 0 1 0
      initialFileCount (by decide) rfl rfl).2
      (scanFrom_ones_total _ (by rw [maxSizeOf_zero]))

end DataRecovery
